import Mathlib

/-!
# A verification development for the C red-black tree `rbtree.c`

The C program manipulates heap-allocated nodes through pointers.  The embedding
below keeps that shape: a heap of node cells addressed by natural numbers,
pointers that may be `NULL`, and every C function written in explicit
state-passing style.  Loops and recursive helpers carry a fuel argument; a
dereference of `NULL` or of storage that is not allocated is a `fault`.
-/

namespace Rb

/-! ## Results of running C code -/

/-- Outcome of running a piece of C code: a value, an undefined access, or fuel exhausted. -/
inductive Res (α : Type) where
  | ok (a : α)
  | fault
  | timeout
  deriving Repr, DecidableEq

/-- Sequencing of two computations. -/
def Res.bind {α β : Type} (x : Res α) (f : α → Res β) : Res β :=
  match x with
  | .ok a => f a
  | .fault => .fault
  | .timeout => .timeout

instance : Monad Res where
  pure := Res.ok
  bind := Res.bind

/-! ## Data model (`rbtree.h`) -/

/-- Modelled from the spec: the colour enumeration of `rbtree.h` (RED | BLACK). -/
inductive color_t where
  | RBTREE_RED
  | RBTREE_BLACK
  deriving Repr, DecidableEq

/-- Modelled from the spec: `key_t` of `rbtree.h`, an ordered scalar; only comparisons are used. -/
abbrev key_t := Int

/-- A pointer to a node: `none` is `NULL`, `some a` is the address `a`. -/
abbrev Ptr := Option Nat

/-- Modelled from the spec: `node_t` of `rbtree.h` (key, colour, links to parent and children). -/
structure node_t where
  color : color_t
  key : key_t
  parent : Ptr
  left : Ptr
  right : Ptr
  deriving Repr, DecidableEq

/-- Modelled from the spec: `rbtree` of `rbtree.h` (the root reference and the sentinel). -/
structure rbtree where
  root : Ptr
  nil : Ptr
  deriving Repr, DecidableEq

/-- The node heap: which addresses are allocated, and what they hold. -/
abbrev Heap := Nat → Option node_t

open color_t

/-! ## Memory primitives -/

/-- Read the cell a pointer refers to. -/
def load (h : Heap) (p : Ptr) : Res node_t :=
  match p with
  | none => .fault
  | some a =>
    match h a with
    | none => .fault
    | some c => .ok c

/-- Overwrite part of the cell a pointer refers to. -/
def store (h : Heap) (p : Ptr) (f : node_t → node_t) : Res Heap :=
  match p with
  | none => .fault
  | some a =>
    match h a with
    | none => .fault
    | some c => .ok (Function.update h a (some (f c)))

/-- Read `p->color`. -/
def getColor (h : Heap) (p : Ptr) : Res color_t := (load h p).bind fun c => .ok c.color
/-- Read `p->key`. -/
def getKey (h : Heap) (p : Ptr) : Res key_t := (load h p).bind fun c => .ok c.key
/-- Read `p->parent`. -/
def getParent (h : Heap) (p : Ptr) : Res Ptr := (load h p).bind fun c => .ok c.parent
/-- Read `p->left`. -/
def getLeft (h : Heap) (p : Ptr) : Res Ptr := (load h p).bind fun c => .ok c.left
/-- Read `p->right`. -/
def getRight (h : Heap) (p : Ptr) : Res Ptr := (load h p).bind fun c => .ok c.right

/-- Write `p->color = v`. -/
def setColor (h : Heap) (p : Ptr) (v : color_t) : Res Heap := store h p fun c => { c with color := v }
/-- Write `p->key = v`. -/
def setKey (h : Heap) (p : Ptr) (v : key_t) : Res Heap := store h p fun c => { c with key := v }
/-- Write `p->parent = v`. -/
def setParent (h : Heap) (p : Ptr) (v : Ptr) : Res Heap := store h p fun c => { c with parent := v }
/-- Write `p->left = v`. -/
def setLeft (h : Heap) (p : Ptr) (v : Ptr) : Res Heap := store h p fun c => { c with left := v }
/-- Write `p->right = v`. -/
def setRight (h : Heap) (p : Ptr) (v : Ptr) : Res Heap := store h p fun c => { c with right := v }

/-- A zero-filled node cell, as `calloc` hands it out. -/
def zero_node : node_t := ⟨RBTREE_RED, 0, none, none, none⟩

/-- The heap after `calloc(1, sizeof(node_t))` returned `z`: `NULL` on exhaustion,
otherwise an address that now holds a zero-filled cell. -/
def calloc (h : Heap) (z : Ptr) : Heap :=
  match z with
  | none => h
  | some a => Function.update h a (some zero_node)

/-- The heap after `free(p)`: the cell is no longer allocated. -/
def free (h : Heap) (p : Ptr) : Res Heap :=
  match p with
  | none => .ok h
  | some a =>
    match h a with
    | none => .fault
    | some _ => .ok (Function.update h a none)

/-! ## The functions of `rbtree.c` -/

/-- Source `node_color`: `NULL` and the sentinel are BLACK, otherwise the stored colour. -/
def node_color (h : Heap) (t : rbtree) (n : Ptr) : Res color_t :=
  if n = none ∨ n = t.nil then .ok RBTREE_BLACK else getColor h n

/-- Source `new_rbtree`; `p_ok` tells whether the tree shell was allocated and
`sentinel` is what `calloc` returned for the sentinel. -/
def new_rbtree (h : Heap) (p_ok : Bool) (sentinel : Ptr) : Res (Heap × Option rbtree) :=
  if p_ok = false then .ok (h, none)
  else
    let h := calloc h sentinel
    if sentinel = none then .ok (h, none)
    else do
      let h ← setColor h sentinel RBTREE_BLACK
      let h ← setParent h sentinel sentinel
      let h ← setRight h sentinel sentinel
      let h ← setLeft h sentinel sentinel
      pure (h, some ⟨none, sentinel⟩)

/-- Source `left_rotation`. -/
def left_rotation (h : Heap) (t : rbtree) (x : Ptr) : Res (Heap × rbtree) := do
  let y ← getRight h x
  let temp ← getLeft h y
  let h ← setRight h x temp
  let h ← if temp ≠ t.nil ∧ temp ≠ none then setParent h temp x else pure h
  let xp ← getParent h x
  let h ← setParent h y xp
  let (h, t) ←
    if xp = none ∨ xp = t.nil then do
      let h ← setParent h y none
      pure (h, ({ t with root := y } : rbtree))
    else do
      let xpl ← getLeft h xp
      if x = xpl then do
        let h ← setLeft h xp y
        pure (h, t)
      else do
        let h ← setRight h xp y
        pure (h, t)
  let h ← setLeft h y x
  let h ← setParent h x y
  pure (h, t)

/-- Source `right_rotation`. -/
def right_rotation (h : Heap) (t : rbtree) (x : Ptr) : Res (Heap × rbtree) := do
  let y ← getLeft h x
  let temp ← getRight h y
  let h ← setLeft h x temp
  let h ← if temp ≠ t.nil ∧ temp ≠ none then setParent h temp x else pure h
  let xp ← getParent h x
  let h ← setParent h y xp
  let (h, t) ←
    if xp = none ∨ xp = t.nil then do
      let h ← setParent h y none
      pure (h, ({ t with root := y } : rbtree))
    else do
      let xpr ← getRight h xp
      if x = xpr then do
        let h ← setRight h xp y
        pure (h, t)
      else do
        let h ← setLeft h xp y
        pure (h, t)
  let h ← setRight h y x
  let h ← setParent h x y
  pure (h, t)

/-- Source `find_min`. -/
def find_min : Nat → Heap → rbtree → Ptr → Res Ptr
  | 0, _, _, _ => .timeout
  | fuel + 1, h, t, n => do
    let l ← getLeft h n
    if l = none ∨ l = t.nil then pure n else find_min fuel h t l

/-- Source `rbtree_min`. -/
def rbtree_min (fuel : Nat) (h : Heap) (t : Option rbtree) : Res Ptr :=
  match t with
  | none => .ok none
  | some t => if t.root = none then .ok none else find_min fuel h t t.root

/-- Source `find_max`. -/
def find_max : Nat → Heap → rbtree → Ptr → Res Ptr
  | 0, _, _, _ => .timeout
  | fuel + 1, h, t, n => do
    let r ← getRight h n
    if r = none ∨ r = t.nil then pure n else find_max fuel h t r

/-- Source `rbtree_max`. -/
def rbtree_max (fuel : Nat) (h : Heap) (t : Option rbtree) : Res Ptr :=
  match t with
  | none => .ok none
  | some t => if t.root = none then .ok none else find_max fuel h t t.root

/-- The `while` loop of source `insert_fixedup`. -/
def insert_fixedup_loop : Nat → Heap → rbtree → Ptr → Res (Heap × rbtree)
  | 0, _, _, _ => .timeout
  | fuel + 1, h, t, p => do
    let pp ← getParent h p
    let go ←
      if pp ≠ none ∧ pp ≠ t.nil then do
        let c ← node_color h t pp
        pure (decide (c = RBTREE_RED))
      else pure false
    if go = false then pure (h, t)
    else do
      let gp0 ← getParent h pp
      let gp := if gp0 = none then t.nil else gp0
      let gpl ← getLeft h gp
      if pp = gpl then do
        let y0 ← getRight h gp
        let y := if y0 = none then t.nil else y0
        let yc ← node_color h t y
        if yc = RBTREE_RED then do
          let h ← setColor h pp RBTREE_BLACK
          let h ← setColor h y RBTREE_BLACK
          let h ← setColor h gp RBTREE_RED
          insert_fixedup_loop fuel h t gp
        else do
          let ppr ← getRight h pp
          let (h, t, p) ←
            if p = ppr then do
              let (h, t) ← left_rotation h t pp
              pure (h, t, pp)
            else pure (h, t, p)
          let pp ← getParent h p
          let h ← setColor h pp RBTREE_BLACK
          let h ← setColor h gp RBTREE_RED
          let (h, t) ← right_rotation h t gp
          insert_fixedup_loop fuel h t p
      else do
        let y0 ← getLeft h gp
        let y := if y0 = none then t.nil else y0
        let yc ← node_color h t y
        if yc = RBTREE_RED then do
          let h ← setColor h pp RBTREE_BLACK
          let h ← setColor h y RBTREE_BLACK
          let h ← setColor h gp RBTREE_RED
          insert_fixedup_loop fuel h t gp
        else do
          let ppl ← getLeft h pp
          let (h, t, p) ←
            if p = ppl then do
              let (h, t) ← right_rotation h t pp
              pure (h, t, pp)
            else pure (h, t, p)
          let pp ← getParent h p
          let h ← setColor h pp RBTREE_BLACK
          let h ← setColor h gp RBTREE_RED
          let (h, t) ← left_rotation h t gp
          insert_fixedup_loop fuel h t p

/-- Source `insert_fixedup`: the loop, then the root is painted BLACK. -/
def insert_fixedup (fuel : Nat) (h : Heap) (t : rbtree) (p : Ptr) : Res (Heap × rbtree) := do
  let (h, t) ← insert_fixedup_loop fuel h t p
  if t.root ≠ none then do
    let h ← setColor h t.root RBTREE_BLACK
    pure (h, t)
  else pure (h, t)

/-- The descent loop of source `rbtree_insert`; returns the final `y`. -/
def insert_descend : Nat → Heap → rbtree → key_t → Ptr → Ptr → Res Ptr
  | 0, _, _, _, _, _ => .timeout
  | fuel + 1, h, t, key, x, y =>
    if x ≠ t.nil ∧ x ≠ none then do
      let xk ← getKey h x
      if key < xk then do
        let l ← getLeft h x
        insert_descend fuel h t key l x
      else do
        let r ← getRight h x
        insert_descend fuel h t key r x
    else pure y

/-- Source `rbtree_insert`; `z` is what `calloc` returned for the new node. -/
def rbtree_insert (fuel : Nat) (h : Heap) (t : Option rbtree) (key : key_t) (z : Ptr) :
    Res (Heap × Option rbtree × Ptr) :=
  match t with
  | none => .fault
  | some t =>
    let x := if t.root ≠ none then t.root else t.nil
    let y := t.nil
    let h := calloc h z
    if z = none then .ok (h, some t, none)
    else do
      let h ← setKey h z key
      let h ← setColor h z RBTREE_RED
      let h ← setLeft h z none
      let h ← setRight h z none
      let h ← setParent h z t.nil
      let y ← insert_descend fuel h t key x y
      let h ← setParent h z y
      let (h, t) ←
        if y = t.nil then pure (h, ({ t with root := z } : rbtree))
        else do
          let yk ← getKey h y
          if key < yk then do
            let h ← setLeft h y z
            pure (h, t)
          else do
            let h ← setRight h y z
            pure (h, t)
      let (h, t) ← insert_fixedup fuel h t z
      let h ← if t.root ≠ none then setParent h t.root none else pure h
      pure (h, some t, z)

/-- The `while` loop of source `rbtree_find`. -/
def find_loop : Nat → Heap → rbtree → key_t → Ptr → Res Ptr
  | 0, _, _, _, _ => .timeout
  | fuel + 1, h, t, key, x =>
    if x ≠ none ∧ x ≠ t.nil then do
      let xk ← getKey h x
      if key < xk then do
        let l ← getLeft h x
        find_loop fuel h t key l
      else if key > xk then do
        let r ← getRight h x
        find_loop fuel h t key r
      else pure x
    else pure none

/-- Source `rbtree_find`. -/
def rbtree_find (fuel : Nat) (h : Heap) (t : Option rbtree) (key : key_t) : Res Ptr :=
  match t with
  | none => .fault
  | some t => find_loop fuel h t key t.root

/-- Source `transplant`. -/
def transplant (h : Heap) (t : rbtree) (u v : Ptr) : Res (Heap × rbtree) := do
  let newv := if v = none then t.nil else v
  let up ← getParent h u
  let (h, t) ←
    if up = none ∨ up = t.nil then do
      let t : rbtree := { t with root := if newv = t.nil then none else newv }
      if t.root ≠ none then do
        let h ← setParent h t.root none
        pure (h, t)
      else pure (h, t)
    else do
      let upl ← getLeft h up
      if u = upl then do
        let h ← setLeft h up newv
        pure (h, t)
      else do
        let h ← setRight h up newv
        pure (h, t)
  if newv ≠ t.nil then do
    let up ← getParent h u
    let h ← setParent h newv up
    pure (h, t)
  else pure (h, t)

/-- The `while` loop of source `erase_fixedup`; returns the final `x`. -/
def erase_fixedup_loop : Nat → Heap → rbtree → Ptr → Ptr → Res (Heap × rbtree × Ptr)
  | 0, _, _, _, _ => .timeout
  | fuel + 1, h, t, x, x_parent => do
    let go ←
      if x ≠ t.root then do
        let c ← node_color h t x
        pure (decide (c = RBTREE_BLACK))
      else pure false
    if go = false then pure (h, t, x)
    else do
      let parent ← if x = t.nil then pure x_parent else getParent h x
      if parent = none then pure (h, t, x)
      else do
        let pl ← getLeft h parent
        if x = pl then do
          let w0 ← getRight h parent
          let w := if w0 = none then t.nil else w0
          let wc ← node_color h t w
          let (h, t, w) ←
            if wc = RBTREE_RED then do
              let h ← setColor h w RBTREE_BLACK
              let h ← setColor h parent RBTREE_RED
              let (h, t) ← left_rotation h t parent
              let w1 ← getRight h parent
              pure (h, t, if w1 = none then t.nil else w1)
            else pure (h, t, w)
          let wl ← getLeft h w
          let wlc ← node_color h t wl
          let both ←
            if wlc = RBTREE_BLACK then do
              let wr ← getRight h w
              let wrc ← node_color h t wr
              pure (decide (wrc = RBTREE_BLACK))
            else pure false
          if both = true then do
            let h ← if w ≠ t.nil then setColor h w RBTREE_RED else pure h
            let x := parent
            let x_parent ← if x = t.nil then pure none else getParent h x
            erase_fixedup_loop fuel h t x x_parent
          else do
            let wr ← getRight h w
            let wrc ← node_color h t wr
            let (h, t, w) ←
              if wrc = RBTREE_BLACK then do
                let wl ← getLeft h w
                let h ← if wl ≠ t.nil ∧ wl ≠ none then setColor h wl RBTREE_BLACK else pure h
                let h ← setColor h w RBTREE_RED
                let (h, t) ← right_rotation h t w
                let w1 ← getRight h parent
                pure (h, t, if w1 = none then t.nil else w1)
              else pure (h, t, w)
            let pc ← getColor h parent
            let h ← setColor h w pc
            let h ← setColor h parent RBTREE_BLACK
            let wr ← getRight h w
            let h ← if wr ≠ t.nil ∧ wr ≠ none then setColor h wr RBTREE_BLACK else pure h
            let (h, t) ← left_rotation h t parent
            erase_fixedup_loop fuel h t t.root x_parent
        else do
          let w0 ← getLeft h parent
          let w := if w0 = none then t.nil else w0
          let wc ← node_color h t w
          let (h, t, w) ←
            if wc = RBTREE_RED then do
              let h ← setColor h w RBTREE_BLACK
              let h ← setColor h parent RBTREE_RED
              let (h, t) ← right_rotation h t parent
              let w1 ← getLeft h parent
              pure (h, t, if w1 = none then t.nil else w1)
            else pure (h, t, w)
          let wr ← getRight h w
          let wrc ← node_color h t wr
          let both ←
            if wrc = RBTREE_BLACK then do
              let wl ← getLeft h w
              let wlc ← node_color h t wl
              pure (decide (wlc = RBTREE_BLACK))
            else pure false
          if both = true then do
            let h ← if w ≠ t.nil then setColor h w RBTREE_RED else pure h
            let x := parent
            let x_parent ← if x = t.nil then pure none else getParent h x
            erase_fixedup_loop fuel h t x x_parent
          else do
            let wl ← getLeft h w
            let wlc ← node_color h t wl
            let (h, t, w) ←
              if wlc = RBTREE_BLACK then do
                let wr ← getRight h w
                let h ← if wr ≠ t.nil ∧ wr ≠ none then setColor h wr RBTREE_BLACK else pure h
                let h ← setColor h w RBTREE_RED
                let (h, t) ← left_rotation h t w
                let w1 ← getLeft h parent
                pure (h, t, if w1 = none then t.nil else w1)
              else pure (h, t, w)
            let pc ← getColor h parent
            let h ← setColor h w pc
            let h ← setColor h parent RBTREE_BLACK
            let wl ← getLeft h w
            let h ← if wl ≠ t.nil ∧ wl ≠ none then setColor h wl RBTREE_BLACK else pure h
            let (h, t) ← right_rotation h t parent
            erase_fixedup_loop fuel h t t.root x_parent

/-- Source `erase_fixedup`: the loop, then the final `x` is painted BLACK when it is a real node. -/
def erase_fixedup (fuel : Nat) (h : Heap) (t : rbtree) (x x_parent : Ptr) : Res (Heap × rbtree) := do
  let (h, t, x) ← erase_fixedup_loop fuel h t x x_parent
  if x ≠ none ∧ x ≠ t.nil then do
    let h ← setColor h x RBTREE_BLACK
    pure (h, t)
  else pure (h, t)

/-- Source `rbtree_erase`. -/
def rbtree_erase (fuel : Nat) (h : Heap) (t : Option rbtree) (p : Ptr) :
    Res (Heap × Option rbtree × Int) :=
  match t with
  | none => .ok (h, none, 0)
  | some t =>
    if p = none ∨ p = t.nil then .ok (h, some t, 0)
    else do
      let y_original_color ← getColor h p
      let pl ← getLeft h p
      let (h, t, x, x_parent, y_original_color) ←
        if pl = none ∨ pl = t.nil then do
          let pr ← getRight h p
          let x := if pr = none then t.nil else pr
          let x_parent ← getParent h p
          let (h, t) ← transplant h t p pr
          pure (h, t, x, x_parent, y_original_color)
        else do
          let pr ← getRight h p
          if pr = none ∨ pr = t.nil then do
            let x := if pl = none then t.nil else pl
            let x_parent ← getParent h p
            let (h, t) ← transplant h t p pl
            pure (h, t, x, x_parent, y_original_color)
          else do
            let y ← find_min fuel h t pr
            let y_original_color ← getColor h y
            let yr ← getRight h y
            let x := if yr = none then t.nil else yr
            let yp ← getParent h y
            let (h, t, x_parent) ←
              if yp = p then pure (h, t, y)
              else do
                let (h, t) ← transplant h t y yr
                let pr ← getRight h p
                let h ← setRight h y pr
                let yr ← getRight h y
                let h ← setParent h yr y
                pure (h, t, yp)
            let (h, t) ← transplant h t p y
            let pl ← getLeft h p
            let h ← setLeft h y pl
            let yl ← getLeft h y
            let h ← if yl ≠ none ∧ yl ≠ t.nil then setParent h yl y else pure h
            let pc ← getColor h p
            let h ← setColor h y pc
            pure (h, t, x, x_parent, y_original_color)
      let (h, t) ←
        if y_original_color = RBTREE_BLACK then erase_fixedup fuel h t x x_parent
        else pure (h, t)
      let h ← setLeft h p none
      let h ← setRight h p none
      let h ← setParent h p none
      let h ← free h p
      pure (h, some t, 0)

/-- Write `arr[idx] = k` into the caller's buffer; a write past its end is a fault. -/
def arr_store (arr : List key_t) (idx : Nat) (k : key_t) : Res (List key_t) :=
  if idx < arr.length then .ok (arr.set idx k) else .fault

/-- Source `array_subnodes`; `idx` is the value behind the pointer `idx`. -/
def array_subnodes : Nat → Heap → rbtree → Ptr → List key_t → Nat → Nat → Res (List key_t × Nat)
  | 0, _, _, _, _, _, _ => .timeout
  | fuel + 1, h, t, n, arr, ncap, idx =>
    if n = none ∨ n = t.nil ∨ idx = ncap then pure (arr, idx)
    else do
      let l ← getLeft h n
      let (arr, idx) ← array_subnodes fuel h t l arr ncap idx
      let (arr, idx) ←
        if idx < ncap then do
          let k ← getKey h n
          let arr ← arr_store arr idx k
          pure (arr, idx + 1)
        else pure (arr, idx)
      let r ← getRight h n
      array_subnodes fuel h t r arr ncap idx

/-- The largest value of the C type `int` (32 bits wide). -/
def INT_MAX : Nat := 2147483647

/-- The cast `(int)i` of a `size_t` value `i`: the value itself when it is at most `INT_MAX`,
otherwise the low 32 bits of `i` read as a two's complement number. -/
def size_to_int (i : Nat) : Int :=
  if i % 4294967296 ≤ INT_MAX then ((i % 4294967296 : Nat) : Int)
  else ((i % 4294967296 : Nat) : Int) - 4294967296

/-- Source `rbtree_to_array`; the buffer is `none` when the caller passed `NULL`.
The result pairs the buffer afterwards with the `int` the function returns, which is 0 or the
cast `(int)i` of the count `i` of entries written. -/
def rbtree_to_array (fuel : Nat) (h : Heap) (t : Option rbtree) (arr : Option (List key_t))
    (n : Nat) : Res (Option (List key_t) × Int) :=
  match t, arr with
  | none, _ => .ok (arr, 0)
  | some _, none => .ok (none, 0)
  | some t, some a =>
    if n = 0 ∨ t.root = none then .ok (some a, 0)
    else do
      let (a, i) ← array_subnodes fuel h t t.root a n 0
      pure (some a, size_to_int i)

/-! ## The abstract view: a heap that holds a binary tree -/

/-- A binary tree of node cells: each node carries its address, colour and key;
a leaf records whether the absent-child link is the sentinel (`true`) or `NULL` (`false`). -/
inductive Tree where
  | leaf (s : Bool)
  | node (a : Nat) (c : color_t) (k : key_t) (l r : Tree)
  deriving Repr, DecidableEq

namespace Tree

/-- The pointer value that refers to a tree: its root address, or the leaf marker. -/
def ptr (nl : Ptr) : Tree → Ptr
  | leaf true => nl
  | leaf false => none
  | node a _ _ _ _ => some a

/-- Addresses of the nodes, in in-order. -/
def addrs : Tree → List Nat
  | leaf _ => []
  | node a _ _ l r => l.addrs ++ a :: r.addrs

/-- Keys of the nodes, in in-order. -/
def keys : Tree → List key_t
  | leaf _ => []
  | node _ _ k l r => l.keys ++ k :: r.keys

/-- Nodes (address with key), in in-order. -/
def entries : Tree → List (Nat × key_t)
  | leaf _ => []
  | node a _ k l r => l.entries ++ (a, k) :: r.entries

/-- Number of nodes. -/
def size : Tree → Nat
  | leaf _ => 0
  | node _ _ _ l r => l.size + 1 + r.size

/-- Number of nodes on the longest path from the root down to a leaf. -/
def height : Tree → Nat
  | leaf _ => 0
  | node _ _ _ l r => max l.height r.height + 1

/-- Colour of the root; a leaf counts as BLACK. -/
def rootColor : Tree → color_t
  | leaf _ => RBTREE_BLACK
  | node _ c _ _ _ => c

end Tree

/-- The heap holds the tree `T`: every node of `T` is a cell with that key and colour whose
child links refer to its subtrees and whose parent link is `par` at the root of `T`. -/
def Rep (h : Heap) (nl : Ptr) : Tree → Ptr → Prop
  | .leaf _, _ => True
  | .node a c k l r, par =>
    h a = some ⟨c, k, par, l.ptr nl, r.ptr nl⟩ ∧ Rep h nl l (some a) ∧ Rep h nl r (some a)

/-- The program state `(h, t)` holds the tree `T`: the root reference refers to `T`
(`NULL` when empty), the root has no parent, no address occurs twice, and the sentinel
is an allocated cell of its own. -/
structure Shape (h : Heap) (t : rbtree) (T : Tree) : Prop where
  root_eq : t.root = T.ptr t.nil
  top_ne : T ≠ .leaf true
  rep : Rep h t.nil T none
  nodup : T.addrs.Nodup
  nil_live : ∃ n c, t.nil = some n ∧ h n = some c
  nil_fresh : ∀ a ∈ T.addrs, some a ≠ t.nil

namespace Tree

/-- Number of BLACK nodes on the leftmost path down to a leaf. -/
def bh : Tree → Nat
  | leaf _ => 0
  | node _ c _ l _ => l.bh + (if c = RBTREE_BLACK then 1 else 0)

/-- Every path from any node down to a leaf passes through the same number of BLACK nodes. -/
def Balanced : Tree → Prop
  | leaf _ => True
  | node _ _ _ l r => l.bh = r.bh ∧ l.Balanced ∧ r.Balanced

/-- No RED node has a RED child. -/
def NoRedRed : Tree → Prop
  | leaf _ => True
  | node _ c _ l r =>
    (c = RBTREE_RED → l.rootColor = RBTREE_BLACK ∧ r.rootColor = RBTREE_BLACK) ∧
      l.NoRedRed ∧ r.NoRedRed

end Tree

/-- The red-black conditions on a tree: BLACK root, no RED node with a RED child,
and the same number of BLACK nodes on every path down to a leaf. -/
structure RBInv (T : Tree) : Prop where
  root_black : T.rootColor = RBTREE_BLACK
  no_red_red : T.NoRedRed
  balanced : T.Balanced

/-- A tree with a hole: the path from the hole up to the root, with the siblings hanging off it. -/
inductive Ctx where
  | top
  | left (a : Nat) (c : color_t) (k : key_t) (r : Tree) (up : Ctx)
  | right (a : Nat) (c : color_t) (k : key_t) (l : Tree) (up : Ctx)
  deriving Repr, DecidableEq

namespace Ctx

/-- Fill the hole. -/
def plug : Ctx → Tree → Tree
  | top, T => T
  | left a c k r up, T => up.plug (.node a c k T r)
  | right a c k l up, T => up.plug (.node a c k l T)

/-- The parent pointer a tree placed in the hole must carry. -/
def par : Ctx → Ptr
  | top => none
  | left a _ _ _ _ => some a
  | right a _ _ _ _ => some a

/-- Addresses of the nodes of the context. -/
def addrs : Ctx → List Nat
  | top => []
  | left a _ _ r up => a :: r.addrs ++ up.addrs
  | right a _ _ l up => a :: l.addrs ++ up.addrs

/-- The root pointer of the filled tree, given the pointer placed in the hole. -/
def rootPtr : Ctx → Ptr → Ptr
  | top, q => q
  | left a _ _ _ up, _ => up.rootPtr (some a)
  | right a _ _ _ up, _ => up.rootPtr (some a)

/-- In-order entries of the filled tree that come before the hole. -/
def before : Ctx → List (Nat × key_t)
  | top => []
  | left _ _ _ _ up => up.before
  | right a _ k l up => up.before ++ l.entries ++ [(a, k)]

/-- In-order entries of the filled tree that come after the hole. -/
def after : Ctx → List (Nat × key_t)
  | top => []
  | left a _ k r up => (a, k) :: r.entries ++ up.after
  | right _ _ _ _ up => up.after

/-- Number of frames between the hole and the root. -/
def depth : Ctx → Nat
  | top => 0
  | left _ _ _ _ up => up.depth + 1
  | right _ _ _ _ up => up.depth + 1

end Ctx

/-- The heap holds the context `C` with the pointer `q` in its hole. -/
def RepCtx (h : Heap) (nl : Ptr) : Ctx → Ptr → Prop
  | .top, _ => True
  | .left a c k r up, q =>
    h a = some ⟨c, k, up.par, q, r.ptr nl⟩ ∧ Rep h nl r (some a) ∧ RepCtx h nl up (some a)
  | .right a c k l up, q =>
    h a = some ⟨c, k, up.par, l.ptr nl, q⟩ ∧ Rep h nl l (some a) ∧ RepCtx h nl up (some a)

/-- The state holds the tree `C.plug T`, seen as the context `C` with the subtree `T` in its hole. -/
structure ZShape (h : Heap) (t : rbtree) (C : Ctx) (T : Tree) : Prop where
  root_eq : t.root = C.rootPtr (T.ptr t.nil)
  top_ne : C = .top → T ≠ .leaf true
  repc : RepCtx h t.nil C (T.ptr t.nil)
  rep : Rep h t.nil T C.par
  nodup : (C.addrs ++ T.addrs).Nodup
  nil_live : ∃ n c, t.nil = some n ∧ h n = some c
  nil_fresh : ∀ a ∈ C.addrs ++ T.addrs, some a ≠ t.nil

/-- Sequential writes of `ks` into a buffer from position `idx` on. -/
def fill (arr : List key_t) (idx : Nat) : List key_t → List key_t
  | [] => arr
  | k :: ks => fill (arr.set idx k) (idx + 1) ks

/-! ## A small example state -/

/-- Example heap: the sentinel at address 0 and three nodes holding 20, 10 and 30. -/
def exHeap : Heap := fun a =>
  match a with
  | 0 => some ⟨RBTREE_BLACK, 0, some 0, some 0, some 0⟩
  | 1 => some ⟨RBTREE_BLACK, 20, none, some 2, some 3⟩
  | 2 => some ⟨RBTREE_RED, 10, some 1, none, none⟩
  | 3 => some ⟨RBTREE_RED, 30, some 1, none, some 0⟩
  | _ => none

/-- Example tree shell: the root is the node at address 1, the sentinel is at address 0. -/
def exT : rbtree := ⟨some 1, some 0⟩

/-- The tree held by the example state. -/
def exTree : Tree :=
  .node 1 RBTREE_BLACK 20 (.node 2 RBTREE_RED 10 (.leaf false) (.leaf false))
    (.node 3 RBTREE_RED 30 (.leaf false) (.leaf true))

namespace Ctx

/-- The red-black conditions on a context whose hole is to be filled with a well-formed subtree
of black-height `n` and root colour `hc`: every sibling is well formed with the matching
black-height, no RED frame sits above a RED hole or a RED sibling, and the outermost frame
is BLACK. -/
def RB : Ctx → Nat → color_t → Prop
  | top, _, _ => True
  | left _ c _ r up, n, hc =>
    r.Balanced ∧ r.NoRedRed ∧ r.bh = n ∧
      (c = RBTREE_RED → hc = RBTREE_BLACK ∧ r.rootColor = RBTREE_BLACK) ∧
      (up = top → c = RBTREE_BLACK) ∧ up.RB (n + if c = RBTREE_BLACK then 1 else 0) c
  | right _ c _ l up, n, hc =>
    l.Balanced ∧ l.NoRedRed ∧ l.bh = n ∧
      (c = RBTREE_RED → hc = RBTREE_BLACK ∧ l.rootColor = RBTREE_BLACK) ∧
      (up = top → c = RBTREE_BLACK) ∧ up.RB (n + if c = RBTREE_BLACK then 1 else 0) c

end Ctx

/-- The tree with its root painted BLACK. -/
def Tree.blacken : Tree → Tree
  | .leaf s => .leaf s
  | .node a _ k l r => .node a RBTREE_BLACK k l r

/-- The descent of `rbtree_insert` for key `k`, seen on the tree: starting in context `C` at the
subtree given, go left when `k` is smaller than the node's key and right otherwise; the result is
the context of the leaf that is reached, with that leaf's flag. -/
def Tree.descend (k : key_t) : Tree → Ctx → Ctx × Bool
  | .leaf s, C => (C, s)
  | .node a c kx l r, C =>
    if k < kx then l.descend k (.left a c kx r C) else r.descend k (.right a c kx l C)

/-- Every frame of the context is a step the descent for `k` takes. -/
def Ctx.Dir (k : key_t) : Ctx → Prop
  | .top => True
  | .left _ _ kx _ up => k < kx ∧ up.Dir k
  | .right _ _ kx _ up => ¬ k < kx ∧ up.Dir k

/-- The parent pointer of the hole, or `y` when the context is empty. -/
def Ctx.parOr (y : Ptr) : Ctx → Ptr
  | .top => y
  | .left a _ _ _ _ => some a
  | .right a _ _ _ _ => some a

/-- Whether the context is empty, that is, the hole is the root position. -/
def Ctx.isTop : Ctx → Bool
  | .top => true
  | _ => false

/-- The subtree as `transplant` leaves it in a hole: an absent subtree becomes a `NULL` root
reference at the root position and a link to the sentinel anywhere else. -/
def Tree.hang (top : Bool) : Tree → Tree
  | .leaf _ => .leaf (!top)
  | .node a c k l r => .node a c k l r

/-- The pointer `rbtree_erase` keeps in `x` for a subtree: its root, or the sentinel when the
subtree is absent. -/
def Tree.xptr (nl : Ptr) : Tree → Ptr
  | .leaf _ => nl
  | .node a _ _ _ _ => some a

/-- The context `D` placed in the hole of the context `C`. -/
def Ctx.comp : Ctx → Ctx → Ctx
  | .top, C => C
  | .left a c k r up, C => .left a c k r (up.comp C)
  | .right a c k l up, C => .right a c k l (up.comp C)

/-- A client that calls `rbtree_insert` once for each key of the list, in order; each call is
paired with the address `calloc` hands out for the new node. -/
def insert_all (fuel : Nat) : Heap → rbtree → List (key_t × Nat) → Res (Heap × rbtree)
  | h, t, [] => .ok (h, t)
  | h, t, (k, z) :: rest =>
    match rbtree_insert fuel h (some t) k (some z) with
    | .ok (h', some t', _) => insert_all fuel h' t' rest
    | .ok (_, none, _) => .fault
    | .fault => .fault
    | .timeout => .timeout

/-- Scenario B of the specification: the keys 10, 20, ..., 70 are inserted into a new tree, the
node that `rbtree_find` returns for 20 is erased, and the tree is exported into a buffer of
seven zeros. -/
def scenario_B (fuel : Nat) : Res (Option (List key_t) × Int) :=
  match new_rbtree (fun _ => none) true (some 0) with
  | .ok (h, some t) =>
    match insert_all fuel h t [(10, 1), (20, 2), (30, 3), (40, 4), (50, 5), (60, 6), (70, 7)] with
    | .ok (h1, t1) =>
      match rbtree_find fuel h1 (some t1) 20 with
      | .ok p =>
        match rbtree_erase fuel h1 (some t1) p with
        | .ok (h2, t2, _) => rbtree_to_array fuel h2 t2 (some (List.replicate 7 0)) 7
        | .fault => .fault
        | .timeout => .timeout
      | .fault => .fault
      | .timeout => .timeout
    | .fault => .fault
    | .timeout => .timeout
  | .ok (_, none) => .fault
  | .fault => .fault
  | .timeout => .timeout

/-- The states a client reaches from `new_rbtree` by calls of `rbtree_insert` (each into storage
that `calloc` hands out fresh) and calls of `rbtree_erase` on nodes that are in the tree at the
time of the call. -/
inductive Reachable : Heap → rbtree → Prop
  | create (nl : Nat) (h0 h : Heap) (t : rbtree) :
      h0 nl = none → new_rbtree h0 true (some nl) = .ok (h, some t) → Reachable h t
  | insert (h : Heap) (t : rbtree) (T : Tree) (k : key_t) (z fuel : Nat) (h' : Heap)
      (t' : rbtree) (r : Ptr) :
      Reachable h t → Shape h t T → T.height + 2 ≤ fuel → h z = none →
      rbtree_insert fuel h (some t) k (some z) = .ok (h', some t', r) → Reachable h' t'
  | erase (h : Heap) (t : rbtree) (T : Tree) (p fuel : Nat) (h' : Heap) (t' : rbtree) (r : Int) :
      Reachable h t → Shape h t T → T.height + 2 ≤ fuel → p ∈ T.addrs →
      rbtree_erase fuel h (some t) (some p) = .ok (h', some t', r) → Reachable h' t'

/-- The heap right after `new_rbtree` on an empty heap with the sentinel placed at address 0. -/
def initHeap : Heap :=
  Function.update (fun _ => none) 0 (some ⟨RBTREE_BLACK, 0, some 0, some 0, some 0⟩)

/-- The tree shell right after `new_rbtree` with the sentinel at address 0. -/
def initT : rbtree := ⟨none, some 0⟩

/-- Nodes of a tree (address, colour, key), in in-order. -/
def Tree.nodes : Tree → List (Nat × color_t × key_t)
  | .leaf _ => []
  | .node a c k l r => l.nodes ++ (a, c, k) :: r.nodes

/-- Every node of the tree holds, as its parent link, the address of the node above it, and
the root of the tree holds `par`. -/
def ParentsOK (h : Heap) : Tree → Ptr → Prop
  | .leaf _, _ => True
  | .node a _ _ l r, par =>
    getParent h (some a) = .ok par ∧ ParentsOK h l (some a) ∧ ParentsOK h r (some a)

/-- Scenario C of the specification: the keys 5, 3, 8, 1, 4, 7, 9 are inserted into a new tree,
the node that `rbtree_find` returns for 5 is erased, 5 is inserted again (into the storage at
address `z`), and the tree is exported into a buffer of seven zeros. -/
def scenario_C (fuel z : Nat) : Res (Option (List key_t) × Int) :=
  match new_rbtree (fun _ => none) true (some 0) with
  | .ok (h, some t) =>
    match insert_all fuel h t [(5, 1), (3, 2), (8, 3), (1, 4), (4, 5), (7, 6), (9, 7)] with
    | .ok (h1, t1) =>
      match rbtree_find fuel h1 (some t1) 5 with
      | .ok p =>
        match rbtree_erase fuel h1 (some t1) p with
        | .ok (h2, t2, _) =>
          match rbtree_insert fuel h2 t2 5 (some z) with
          | .ok (h3, t3, _) => rbtree_to_array fuel h3 t3 (some (List.replicate 7 0)) 7
          | .fault => .fault
          | .timeout => .timeout
        | .fault => .fault
        | .timeout => .timeout
      | .fault => .fault
      | .timeout => .timeout
    | .fault => .fault
    | .timeout => .timeout
  | .ok (_, none) => .fault
  | .fault => .fault
  | .timeout => .timeout

/-- Frames of a context (address, colour, key), innermost first: the nodes on the way from the
hole up to the root. -/
def Ctx.spine : Ctx → List (Nat × color_t × key_t)
  | .top => []
  | .left a c k _ up => (a, c, k) :: up.spine
  | .right a c k _ up => (a, c, k) :: up.spine

/-- A second example heap: the sentinel at address 0 and five nodes; the RED node at address 2
(key 20) has the two BLACK children at addresses 4 (key 10) and 5 (key 30). -/
def cxHeap : Heap := fun a =>
  match a with
  | 0 => some ⟨RBTREE_BLACK, 0, some 0, some 0, some 0⟩
  | 1 => some ⟨RBTREE_BLACK, 40, none, some 2, some 3⟩
  | 2 => some ⟨RBTREE_RED, 20, some 1, some 4, some 5⟩
  | 3 => some ⟨RBTREE_BLACK, 50, some 1, none, none⟩
  | 4 => some ⟨RBTREE_BLACK, 10, some 2, none, none⟩
  | 5 => some ⟨RBTREE_BLACK, 30, some 2, none, none⟩
  | _ => none

/-- The tree held by the second example state (with the shell `exT`: root at address 1, sentinel
at address 0). -/
def cxTree : Tree :=
  .node 1 RBTREE_BLACK 40
    (.node 2 RBTREE_RED 20 (.node 4 RBTREE_BLACK 10 (.leaf false) (.leaf false))
      (.node 5 RBTREE_BLACK 30 (.leaf false) (.leaf false)))
    (.node 3 RBTREE_BLACK 50 (.leaf false) (.leaf false))

/-- The colour, parent link and left link of the node `y` after `rbtree_erase` of `p`. -/
def erase_then_look (fuel : Nat) (h : Heap) (t : Option rbtree) (p y : Ptr) :
    Res (Int × color_t × Ptr × Ptr) :=
  match rbtree_erase fuel h t p with
  | .ok (h', _, r) =>
    match getColor h' y, getParent h' y, getLeft h' y with
    | .ok c, .ok q, .ok l => .ok (r, c, q, l)
    | _, _, _ => .fault
  | .fault => .fault
  | .timeout => .timeout

/-- The state of Scenario B after its `rbtree_erase`: `new_rbtree` on an empty heap with the
sentinel at address 0, the keys 10, 20, ..., 70 inserted at the addresses 1, 2, ..., 7, and the
node that `rbtree_find` returns for 20 erased.  (Should a call fail, the state before that call
is returned.) -/
def state_B (fuel : Nat) : Heap × rbtree :=
  match new_rbtree (fun _ => none) true (some 0) with
  | .ok (h, some t) =>
    match insert_all fuel h t [(10, 1), (20, 2), (30, 3), (40, 4), (50, 5), (60, 6), (70, 7)] with
    | .ok (h1, t1) =>
      match rbtree_find fuel h1 (some t1) 20 with
      | .ok p =>
        match rbtree_erase fuel h1 (some t1) p with
        | .ok (h2, some t2, _) => (h2, t2)
        | _ => (h1, t1)
      | _ => (h1, t1)
    | _ => (h, t)
  | _ => (fun _ => none, ⟨none, none⟩)

/-! ## Basic facts -/

@[simp] theorem Res.ok_bind {α β : Type} (a : α) (f : α → Res β) : (Res.ok a >>= f) = f a := rfl
@[simp] theorem Res.fault_bind {α β : Type} (f : α → Res β) :
    ((Res.fault : Res α) >>= f) = .fault := rfl
@[simp] theorem Res.timeout_bind {α β : Type} (f : α → Res β) :
    ((Res.timeout : Res α) >>= f) = .timeout := rfl
@[simp] theorem Res.pure_eq {α : Type} (a : α) : (pure a : Res α) = .ok a := rfl
@[simp] theorem Res.bind_ok' {α β : Type} (a : α) (f : α → Res β) : (Res.ok a).bind f = f a := rfl

theorem load_of {h : Heap} {a : Nat} {c : node_t} (hc : h a = some c) :
    load h (some a) = .ok c := by
  simp [load, hc]

theorem getKey_of {h : Heap} {a : Nat} {c : node_t} (hc : h a = some c) :
    getKey h (some a) = .ok c.key := by
  simp [getKey, load_of hc]

theorem getLeft_of {h : Heap} {a : Nat} {c : node_t} (hc : h a = some c) :
    getLeft h (some a) = .ok c.left := by
  simp [getLeft, load_of hc]

theorem getRight_of {h : Heap} {a : Nat} {c : node_t} (hc : h a = some c) :
    getRight h (some a) = .ok c.right := by
  simp [getRight, load_of hc]

theorem getParent_of {h : Heap} {a : Nat} {c : node_t} (hc : h a = some c) :
    getParent h (some a) = .ok c.parent := by
  simp [getParent, load_of hc]

theorem getColor_of {h : Heap} {a : Nat} {c : node_t} (hc : h a = some c) :
    getColor h (some a) = .ok c.color := by
  simp [getColor, load_of hc]

theorem upd_ne1 {h : Heap} {a b : Nat} {v : Option node_t} (hab : a ≠ b) :
    Function.update h a v b = h b := by
  simp [Function.update_apply, Ne.symm hab]

theorem upd_ne2 {h : Heap} {a b : Nat} {v : Option node_t} (hab : b ≠ a) :
    Function.update h a v b = h b := by
  simp [Function.update_apply, hab]

namespace Tree

@[simp] theorem ptr_node (nl : Ptr) (a : Nat) (c : color_t) (k : key_t) (l r : Tree) :
    (Tree.node a c k l r).ptr nl = some a := rfl
@[simp] theorem ptr_leaf_true (nl : Ptr) : (Tree.leaf true).ptr nl = nl := rfl
@[simp] theorem ptr_leaf_false (nl : Ptr) : (Tree.leaf false).ptr nl = none := rfl

theorem ptr_ne_some {nl : Ptr} {x : Nat} :
    ∀ {T : Tree}, x ∉ T.addrs → some x ≠ nl → T.ptr nl ≠ some x := by
  intro T hx hn
  cases T with
  | leaf s => cases s <;> simp [Ne.symm hn]
  | node b c k l r =>
    simp only [Tree.addrs, List.mem_append, List.mem_cons, not_or] at hx
    simp [Ne.symm hx.2.1]

theorem some_ne_ptr {nl : Ptr} {x : Nat} {T : Tree} (hx : x ∉ T.addrs) (hn : some x ≠ nl) :
    some x ≠ T.ptr nl := Ne.symm (ptr_ne_some hx hn)

theorem keys_length (T : Tree) : T.keys.length = T.size := by
  induction T with
  | leaf s => rfl
  | node a c k l r ihl ihr => simp [Tree.keys, Tree.size, ihl, ihr]; omega

theorem addrs_length (T : Tree) : T.addrs.length = T.size := by
  induction T with
  | leaf s => rfl
  | node a c k l r ihl ihr => simp [Tree.addrs, Tree.size, ihl, ihr]; omega

theorem entries_fst (T : Tree) : T.entries.map Prod.fst = T.addrs := by
  induction T with
  | leaf s => rfl
  | node a c k l r ihl ihr => simp [Tree.addrs, Tree.entries, ihl, ihr]

theorem entries_snd (T : Tree) : T.entries.map Prod.snd = T.keys := by
  induction T with
  | leaf s => rfl
  | node a c k l r ihl ihr => simp [Tree.keys, Tree.entries, ihl, ihr]

end Tree

theorem Rep_plug_gen (h : Heap) (nl : Ptr) : ∀ (C : Ctx) (T : Tree),
    Rep h nl (C.plug T) none ↔ RepCtx h nl C (T.ptr nl) ∧ Rep h nl T C.par := by
  intro C
  induction C with
  | top => intro T; simp [Ctx.plug, RepCtx, Ctx.par]
  | left a c k r up ih =>
    intro T; simp only [Ctx.plug, ih, Rep, RepCtx, Ctx.par, Tree.ptr_node]; tauto
  | right a c k l up ih =>
    intro T; simp only [Ctx.plug, ih, Rep, RepCtx, Ctx.par, Tree.ptr_node]; tauto

theorem addrs_plug_perm : ∀ (C : Ctx) (T : Tree), (C.plug T).addrs.Perm (C.addrs ++ T.addrs) := by
  intro C
  induction C with
  | top => intro T; simp [Ctx.plug, Ctx.addrs]
  | left a c k r up ih =>
    intro T
    refine (ih _).trans ?_
    simp only [Tree.addrs, Ctx.addrs]
    rw [List.perm_iff_count]; intro b
    simp [List.count_append, List.count_cons]; omega
  | right a c k l up ih =>
    intro T
    refine (ih _).trans ?_
    simp only [Tree.addrs, Ctx.addrs]
    rw [List.perm_iff_count]; intro b
    simp [List.count_append, List.count_cons]; omega

theorem entries_plug : ∀ (C : Ctx) (T : Tree),
    (C.plug T).entries = C.before ++ T.entries ++ C.after := by
  intro C
  induction C with
  | top => intro T; simp [Ctx.plug, Ctx.before, Ctx.after]
  | left a c k r up ih => intro T; simp [Ctx.plug, Ctx.before, Ctx.after, ih, Tree.entries]
  | right a c k l up ih => intro T; simp [Ctx.plug, Ctx.before, Ctx.after, ih, Tree.entries]

theorem ptr_plug (nl : Ptr) : ∀ (C : Ctx) (T : Tree),
    (C.plug T).ptr nl = C.rootPtr (T.ptr nl) := by
  intro C
  induction C with
  | top => intro T; rfl
  | left a c k r up ih => intro T; simp [Ctx.plug, Ctx.rootPtr, ih]
  | right a c k l up ih => intro T; simp [Ctx.plug, Ctx.rootPtr, ih]

theorem plug_eq_leaf : ∀ (C : Ctx) (T : Tree) (s : Bool),
    C.plug T = .leaf s ↔ C = .top ∧ T = .leaf s := by
  intro C
  induction C with
  | top => intro T s; simp [Ctx.plug]
  | left a c k r up ih => intro T s; simp [Ctx.plug, ih]
  | right a c k l up ih => intro T s; simp [Ctx.plug, ih]

theorem Shape_plug_iff (h : Heap) (t : rbtree) (C : Ctx) (T : Tree) :
    Shape h t (C.plug T) ↔ ZShape h t C T := by
  constructor
  · intro s
    exact ⟨by rw [← ptr_plug]; exact s.root_eq, fun hC hT => s.top_ne (by subst hC; subst hT; rfl),
      ((Rep_plug_gen h t.nil C T).1 s.rep).1, ((Rep_plug_gen h t.nil C T).1 s.rep).2,
      (addrs_plug_perm C T).nodup_iff.1 s.nodup, s.nil_live,
      fun a ha => s.nil_fresh a ((addrs_plug_perm C T).mem_iff.2 ha)⟩
  · intro z
    exact ⟨by rw [ptr_plug]; exact z.root_eq,
      fun e => z.top_ne ((plug_eq_leaf C T true).1 e).1 ((plug_eq_leaf C T true).1 e).2,
      (Rep_plug_gen h t.nil C T).2 ⟨z.repc, z.rep⟩,
      (addrs_plug_perm C T).nodup_iff.2 z.nodup, z.nil_live,
      fun a ha => z.nil_fresh a ((addrs_plug_perm C T).mem_iff.1 ha)⟩

theorem Rep_update {h : Heap} {nl : Ptr} {a : Nat} {v : Option node_t} :
    ∀ {T : Tree} {par : Ptr}, a ∉ T.addrs →
      (Rep (Function.update h a v) nl T par ↔ Rep h nl T par) := by
  intro T
  induction T with
  | leaf s => intro par _; simp [Rep]
  | node b c k l r ihl ihr =>
    intro par ha
    simp only [Tree.addrs, List.mem_append, List.mem_cons, not_or] at ha
    simp only [Rep, ihl ha.1, ihr ha.2.2, Function.update_apply, if_neg (Ne.symm ha.2.1)]

theorem RepCtx_update {h : Heap} {nl : Ptr} {a : Nat} {v : Option node_t} :
    ∀ {C : Ctx} {q : Ptr}, a ∉ C.addrs →
      (RepCtx (Function.update h a v) nl C q ↔ RepCtx h nl C q) := by
  intro C
  induction C with
  | top => intro q _; simp [RepCtx]
  | left b c k r up ih =>
    intro q ha
    simp only [Ctx.addrs, List.mem_append, List.mem_cons, not_or, List.cons_append] at ha
    simp only [RepCtx, ih ha.2.2, Rep_update ha.2.1, Function.update_apply, if_neg (Ne.symm ha.1)]
  | right b c k l up ih =>
    intro q ha
    simp only [Ctx.addrs, List.mem_append, List.mem_cons, not_or, List.cons_append] at ha
    simp only [RepCtx, ih ha.2.2, Rep_update ha.2.1, Function.update_apply, if_neg (Ne.symm ha.1)]

/-- A heap that agrees with `h` on the nodes of a tree holds the same tree. -/
theorem Rep_congr {h h' : Heap} {nl : Ptr} : ∀ {T : Tree} {par : Ptr},
    (∀ a ∈ T.addrs, h' a = h a) → Rep h nl T par → Rep h' nl T par := by
  intro T
  induction T with
  | leaf s => intro par _ _; trivial
  | node b c k l r ihl ihr =>
    intro par hag hr
    obtain ⟨hc, hl, hr⟩ := hr
    refine ⟨by rw [hag b (by simp [Tree.addrs])]; exact hc,
      ihl (fun a ha => hag a (by simp [Tree.addrs, ha])) hl,
      ihr (fun a ha => hag a (by simp [Tree.addrs, ha])) hr⟩

theorem RepCtx_congr {h h' : Heap} {nl : Ptr} : ∀ {C : Ctx} {q : Ptr},
    (∀ a ∈ C.addrs, h' a = h a) → RepCtx h nl C q → RepCtx h' nl C q := by
  intro C
  induction C with
  | top => intro q _ _; trivial
  | left b c k r up ih =>
    intro q hag hr
    obtain ⟨hc, hl, hu⟩ := hr
    refine ⟨by rw [hag b (by simp [Ctx.addrs])]; exact hc,
      Rep_congr (fun a ha => hag a (by simp [Ctx.addrs, ha])) hl,
      ih (fun a ha => hag a (by simp [Ctx.addrs, ha])) hu⟩
  | right b c k l up ih =>
    intro q hag hr
    obtain ⟨hc, hl, hu⟩ := hr
    refine ⟨by rw [hag b (by simp [Ctx.addrs])]; exact hc,
      Rep_congr (fun a ha => hag a (by simp [Ctx.addrs, ha])) hl,
      ih (fun a ha => hag a (by simp [Ctx.addrs, ha])) hu⟩

theorem ex_shape : Shape exHeap exT exTree :=
  ⟨rfl, by decide, by simp [Rep, exHeap, exTree, exT], by decide, ⟨0, _, rfl, rfl⟩, by decide⟩

/-! ## Read-only traversals -/

theorem find_loop_spec (h : Heap) (t : rbtree) (k : key_t) :
    ∀ (T : Tree) (par : Ptr) (fuel : Nat), Rep h t.nil T par → (∀ a ∈ T.addrs, some a ≠ t.nil) →
      T.keys.Sorted (· ≤ ·) → T.height < fuel →
      ∃ r, find_loop fuel h t k (T.ptr t.nil) = .ok r ∧
        (k ∈ T.keys → ∃ a, r = some a ∧ (a, k) ∈ T.entries) ∧ (r = none ↔ k ∉ T.keys) := by
  intro T
  induction T with
  | leaf s =>
    intro par fuel _ _ _ hf
    obtain ⟨f, rfl⟩ : ∃ f, fuel = f + 1 := ⟨fuel - 1, by simp [Tree.height] at hf; omega⟩
    refine ⟨none, ?_, by simp [Tree.keys], by simp [Tree.keys]⟩
    cases s <;> simp [find_loop]
  | node a c kx l r ihl ihr =>
    intro par fuel hrep hnil hs hf
    obtain ⟨f, rfl⟩ : ∃ f, fuel = f + 1 := ⟨fuel - 1, by simp [Tree.height] at hf; omega⟩
    obtain ⟨hc, hl, hr⟩ := hrep
    have hane : (some a : Ptr) ≠ t.nil := hnil a (by simp [Tree.addrs])
    simp only [Tree.keys, List.Sorted, List.pairwise_append, List.pairwise_cons] at hs
    obtain ⟨hsl, ⟨hxr, hsr⟩, hlx⟩ := hs
    simp only [Tree.height] at hf
    simp only [find_loop, Tree.ptr_node, ne_eq, hane, not_false_eq_true, and_true, reduceCtorEq,
      if_true, getKey_of hc, getLeft_of hc, getRight_of hc, Res.ok_bind, Res.pure_eq]
    by_cases h1 : k < kx
    · simp only [h1, if_true]
      obtain ⟨r', e, p1, p2⟩ :=
        ihl (some a) f hl (fun b hb => hnil b (by simp [Tree.addrs, hb])) hsl (by omega)
      refine ⟨r', e, ?_, ?_⟩
      · intro hk
        simp only [Tree.keys, List.mem_append, List.mem_cons] at hk
        have : k ∈ l.keys := by
          rcases hk with hk | rfl | hk
          · exact hk
          · linarith
          · have := hxr k hk; linarith
        obtain ⟨b, hb, hm⟩ := p1 this
        exact ⟨b, hb, by simp [Tree.entries, hm]⟩
      · rw [p2]
        simp only [Tree.keys, List.mem_append, List.mem_cons, not_or]
        constructor
        · intro hk
          refine ⟨hk, by intro e; subst e; exact absurd h1 (lt_irrefl _), fun hkr => ?_⟩
          have := hxr k hkr; linarith
        · exact fun hk => hk.1
    · simp only [h1, if_false]
      by_cases h2 : k > kx
      · simp only [h2, if_true]
        obtain ⟨r', e, p1, p2⟩ :=
          ihr (some a) f hr (fun b hb => hnil b (by simp [Tree.addrs, hb])) hsr (by omega)
        refine ⟨r', e, ?_, ?_⟩
        · intro hk
          simp only [Tree.keys, List.mem_append, List.mem_cons] at hk
          have : k ∈ r.keys := by
            rcases hk with hk | rfl | hk
            · have := hlx k hk kx (by simp); linarith
            · linarith
            · exact hk
          obtain ⟨b, hb, hm⟩ := p1 this
          exact ⟨b, hb, by simp [Tree.entries, hm]⟩
        · rw [p2]
          simp only [Tree.keys, List.mem_append, List.mem_cons, not_or]
          constructor
          · intro hk
            refine ⟨fun hkl => ?_, by intro e; subst e; exact absurd h2 (lt_irrefl _), hk⟩
            have := hlx k hkl kx (by simp); linarith
          · exact fun hk => hk.2.2
      · simp only [h2, if_false]
        have : k = kx := le_antisymm (not_lt.mp h2) (not_lt.mp h1)
        subst this
        exact ⟨some a, rfl, fun _ => ⟨a, rfl, by simp [Tree.entries]⟩, by simp [Tree.keys]⟩

theorem find_min_spec (h : Heap) (t : rbtree) :
    ∀ (l : Tree) (a : Nat) (c : color_t) (k : key_t) (r : Tree) (par : Ptr) (fuel : Nat),
      Rep h t.nil (.node a c k l r) par → (∀ b ∈ (Tree.node a c k l r).addrs, some b ≠ t.nil) →
      (Tree.node a c k l r).height ≤ fuel →
      find_min fuel h t (some a) = .ok ((Tree.node a c k l r).entries.head?.map Prod.fst) := by
  intro l
  induction l with
  | leaf s =>
    intro a c k r par fuel hrep _ hf
    obtain ⟨f, rfl⟩ : ∃ f, fuel = f + 1 := ⟨fuel - 1, by simp [Tree.height] at hf; omega⟩
    cases s <;> simp [find_min, getLeft_of hrep.1, Tree.entries]
  | node b cb kb bl br ihl _ =>
    intro a c k r par fuel hrep hnil hf
    obtain ⟨f, rfl⟩ : ∃ f, fuel = f + 1 := ⟨fuel - 1, by simp [Tree.height] at hf; omega⟩
    have hbn : (some b : Ptr) ≠ t.nil := hnil b (by simp [Tree.addrs])
    simp only [Tree.height] at hf
    have e := ihl b cb kb br (some a) f hrep.2.1
      (fun x hx => hnil x (by simp only [Tree.addrs, List.mem_append, List.mem_cons] at hx ⊢; tauto))
      (by simp only [Tree.height]; omega)
    simp only [find_min, getLeft_of hrep.1, Tree.ptr_node, Res.ok_bind, reduceCtorEq, hbn, or_self,
      if_false, e]
    congr 1
    cases hb : (Tree.node b cb kb bl br).entries with
    | nil => simp [Tree.entries] at hb
    | cons e es => simp only [Tree.entries] at hb ⊢; simp [hb]

theorem find_max_spec (h : Heap) (t : rbtree) :
    ∀ (r : Tree) (a : Nat) (c : color_t) (k : key_t) (l : Tree) (par : Ptr) (fuel : Nat),
      Rep h t.nil (.node a c k l r) par → (∀ b ∈ (Tree.node a c k l r).addrs, some b ≠ t.nil) →
      (Tree.node a c k l r).height ≤ fuel →
      find_max fuel h t (some a) = .ok ((Tree.node a c k l r).entries.getLast?.map Prod.fst) := by
  intro r
  induction r with
  | leaf s =>
    intro a c k l par fuel hrep _ hf
    obtain ⟨f, rfl⟩ : ∃ f, fuel = f + 1 := ⟨fuel - 1, by simp [Tree.height] at hf; omega⟩
    cases s <;> simp [find_max, getRight_of hrep.1, Tree.entries]
  | node b cb kb bl br _ ihr =>
    intro a c k l par fuel hrep hnil hf
    obtain ⟨f, rfl⟩ : ∃ f, fuel = f + 1 := ⟨fuel - 1, by simp [Tree.height] at hf; omega⟩
    have hbn : (some b : Ptr) ≠ t.nil := hnil b (by simp [Tree.addrs])
    simp only [Tree.height] at hf
    have e := ihr b cb kb bl (some a) f hrep.2.2
      (fun x hx => hnil x (by simp only [Tree.addrs, List.mem_append, List.mem_cons] at hx ⊢; tauto))
      (by simp only [Tree.height]; omega)
    simp only [find_max, getRight_of hrep.1, Tree.ptr_node, Res.ok_bind, reduceCtorEq, hbn, or_self,
      if_false, e]
    congr 1
    have hne : (Tree.node b cb kb bl br).entries ≠ [] := by simp [Tree.entries]
    rw [show (Tree.node a c k l (Tree.node b cb kb bl br)).entries =
      (l.entries ++ [(a, k)]) ++ (Tree.node b cb kb bl br).entries by simp [Tree.entries]]
    rw [List.getLast?_append_of_ne_nil _ hne]

theorem fill_append (ks ks2 : List key_t) : ∀ (arr : List key_t) (idx : Nat),
    fill arr idx (ks ++ ks2) = fill (fill arr idx ks) (idx + ks.length) ks2 := by
  induction ks with
  | nil => intro arr idx; simp [fill]
  | cons k ks ih => intro arr idx; simp [fill, ih, Nat.add_assoc, Nat.add_comm 1]

theorem fill_length (ks : List key_t) : ∀ (arr : List key_t) (idx : Nat),
    (fill arr idx ks).length = arr.length := by
  induction ks with
  | nil => intro arr idx; simp [fill]
  | cons k ks ih => intro arr idx; simp [fill, ih]

theorem fill_eq (ks : List key_t) : ∀ (arr : List key_t) (idx : Nat), idx + ks.length ≤ arr.length →
    fill arr idx ks = arr.take idx ++ ks ++ arr.drop (idx + ks.length) := by
  induction ks with
  | nil => intro arr idx _; simp [fill]
  | cons k ks ih =>
    intro arr idx hl
    simp only [List.length_cons] at hl
    rw [fill, ih _ _ (by simp; omega)]
    have h1 : (arr.set idx k).take (idx + 1) = arr.take idx ++ [k] := by
      rw [List.take_succ]
      simp [List.set_take, List.getElem?_set, show idx < arr.length by omega]
      exact List.set_eq_of_length_le (by simp)
    have h2 : (arr.set idx k).drop (idx + 1 + ks.length) = arr.drop (idx + (ks.length + 1)) := by
      rw [List.drop_set_of_lt _ _ (by omega)]
      congr 1; omega
    rw [h1, h2]; simp

theorem array_subnodes_spec (h : Heap) (t : rbtree) (ncap : Nat) :
    ∀ (T : Tree) (par : Ptr) (fuel : Nat) (arr : List key_t) (idx : Nat),
      Rep h t.nil T par → (∀ a ∈ T.addrs, some a ≠ t.nil) → T.height < fuel → idx ≤ ncap →
      min ncap (idx + T.size) ≤ arr.length →
      array_subnodes fuel h t (T.ptr t.nil) arr ncap idx =
        .ok (fill arr idx (T.keys.take (ncap - idx)), min ncap (idx + T.size)) := by
  intro T
  induction T with
  | leaf s =>
    intro par fuel arr idx _ _ hf hi _
    obtain ⟨f, rfl⟩ : ∃ f, fuel = f + 1 := ⟨fuel - 1, by simp [Tree.height] at hf; omega⟩
    have : min ncap idx = idx := by omega
    cases s <;> simp [array_subnodes, Tree.keys, fill, Tree.size, this]
  | node a c k l r ihl ihr =>
    intro par fuel arr idx hrep hnil hf hi hlen
    obtain ⟨f, rfl⟩ : ∃ f, fuel = f + 1 := ⟨fuel - 1, by simp [Tree.height] at hf; omega⟩
    obtain ⟨hc, hl, hr⟩ := hrep
    have hane : (some a : Ptr) ≠ t.nil := hnil a (by simp [Tree.addrs])
    simp only [Tree.height] at hf
    simp only [Tree.size] at hlen ⊢
    by_cases hcap : idx = ncap
    · subst hcap
      simp [array_subnodes, fill]
    · have hlt : idx < ncap := by omega
      have e1 := ihl (some a) f arr idx hl (fun b hb => hnil b (by simp [Tree.addrs, hb]))
        (by omega) hi (by omega)
      simp only [array_subnodes, Tree.ptr_node, hane, hcap, reduceCtorEq, or_self, if_false,
        getLeft_of hc, getRight_of hc, getKey_of hc, Res.ok_bind, e1, Res.pure_eq]
      by_cases h1 : idx + l.size < ncap
      · have hm : min ncap (idx + l.size) = idx + l.size := by omega
        have htl : l.keys.take (ncap - idx) = l.keys := by
          apply List.take_of_length_le; rw [Tree.keys_length]; omega
        simp only [hm, h1, if_true, arr_store, fill_length, Res.ok_bind, Res.pure_eq,
          show idx + l.size < arr.length by omega]
        rw [ihr (some a) f _ _ hr (fun b hb => hnil b (by simp [Tree.addrs, hb])) (by omega)
          (by omega) (by simp [fill_length]; omega)]
        congr 2
        · simp only [Tree.keys]
          rw [List.take_append_eq_append_take, fill_append, htl, Tree.keys_length,
            show ncap - idx - l.size = (ncap - (idx + l.size + 1)) + 1 by omega,
            List.take_succ_cons]
          simp [fill]
        · omega
      · have hm : min ncap (idx + l.size) = ncap := by omega
        simp only [hm, lt_irrefl, if_false, Res.ok_bind]
        obtain ⟨f', rfl⟩ : ∃ f', f = f' + 1 := ⟨f - 1, by omega⟩
        simp only [array_subnodes, or_true, if_true, Res.pure_eq]
        congr 2
        · simp only [Tree.keys]
          rw [List.take_append_eq_append_take, Tree.keys_length,
            show ncap - idx - l.size = 0 by omega]
          simp
        · omega

/-! ## Lookup and export -/

/-- C6: `rbtree_find` is a correct membership lookup.  On a tree whose in-order keys are
non-decreasing it returns (with enough fuel) a node of the tree holding `k` whenever some
node holds `k`, and it returns `NULL` exactly when no node holds `k`. -/
theorem rbtree_find_correct (h : Heap) (t : rbtree) (T : Tree) (k : key_t) (fuel : Nat)
    (hS : Shape h t T) (hsorted : T.keys.Sorted (· ≤ ·)) (hfuel : T.height < fuel) :
    ∃ r, rbtree_find fuel h (some t) k = .ok r ∧
      (k ∈ T.keys → ∃ a, r = some a ∧ (a, k) ∈ T.entries) ∧ (r = none ↔ k ∉ T.keys) := by
  have := find_loop_spec h t k T none fuel hS.rep hS.nil_fresh hsorted hfuel
  rw [← hS.root_eq] at this
  exact this

/-- Witness for C6 on the three-node example tree. -/
theorem rbtree_find_correct_witness :
    ∃ r, rbtree_find 3 exHeap (some exT) 30 = .ok r ∧
      ((30 : key_t) ∈ exTree.keys → ∃ a, r = some a ∧ (a, (30 : key_t)) ∈ exTree.entries) ∧
      (r = none ↔ (30 : key_t) ∉ exTree.keys) :=
  rbtree_find_correct exHeap exT exTree 30 3 ex_shape (by decide) (by decide)

/-- C7: `rbtree_min` returns the first and `rbtree_max` the last node of the in-order
traversal (`NULL` on an empty tree); when the in-order keys are non-decreasing the key of
the node returned by `rbtree_min` is at most, and the key of the node returned by
`rbtree_max` at least, every key of the tree. -/
theorem rbtree_min_max_correct (h : Heap) (t : rbtree) (T : Tree) (fuel : Nat)
    (hS : Shape h t T) (hfuel : T.height < fuel) :
    rbtree_min fuel h (some t) = .ok (T.entries.head?.map Prod.fst) ∧
    rbtree_max fuel h (some t) = .ok (T.entries.getLast?.map Prod.fst) ∧
    (T.keys.Sorted (· ≤ ·) → ∀ e ∈ T.entries.head?, ∀ k ∈ T.keys, e.2 ≤ k) ∧
    (T.keys.Sorted (· ≤ ·) → ∀ e ∈ T.entries.getLast?, ∀ k ∈ T.keys, k ≤ e.2) := by
  refine ⟨?_, ?_, ?_, ?_⟩
  · cases T with
    | leaf s =>
      cases s
      · simp [rbtree_min, hS.root_eq, Tree.entries]
      · exact absurd rfl hS.top_ne
    | node a c k l r =>
      simp only [rbtree_min, hS.root_eq, Tree.ptr_node, reduceCtorEq, if_false]
      exact find_min_spec h t l a c k r none fuel hS.rep hS.nil_fresh (by omega)
  · cases T with
    | leaf s =>
      cases s
      · simp [rbtree_max, hS.root_eq, Tree.entries]
      · exact absurd rfl hS.top_ne
    | node a c k l r =>
      simp only [rbtree_max, hS.root_eq, Tree.ptr_node, reduceCtorEq, if_false]
      exact find_max_spec h t r a c k l none fuel hS.rep hS.nil_fresh (by omega)
  · intro hs e he k hk
    rw [← Tree.entries_snd] at hs hk
    cases hE : T.entries with
    | nil => simp [hE] at he
    | cons e0 es =>
      simp only [hE, List.head?_cons, Option.mem_def, Option.some.injEq] at he
      subst he
      simp only [hE, List.map_cons, List.mem_cons, List.Sorted, List.pairwise_cons] at hs hk
      rcases hk with rfl | hk
      · exact le_refl _
      · exact hs.1 k hk
  · intro hs e he k hk
    rw [← Tree.entries_snd] at hs hk
    simp only [Option.mem_def] at he
    obtain ⟨es, hE⟩ : ∃ es, T.entries = es ++ [e] := by
      have hne : T.entries ≠ [] := by intro h0; simp [h0] at he
      refine ⟨T.entries.dropLast, ?_⟩
      have h1 := List.dropLast_append_getLast hne
      rw [List.getLast?_eq_getLast _ hne, Option.some.injEq] at he
      rw [he] at h1
      exact h1.symm
    simp only [hE, List.map_append, List.map_cons, List.map_nil, List.mem_append, List.mem_singleton,
      List.Sorted, List.pairwise_append, List.mem_map] at hs hk
    rcases hk with ⟨e1, he1, rfl⟩ | rfl
    · exact hs.2.2 _ ⟨e1, he1, rfl⟩ _ (by simp)
    · exact le_refl _

/-- Witness for C7 on the three-node example tree. -/
theorem rbtree_min_max_correct_witness :
    rbtree_min 3 exHeap (some exT) = .ok (exTree.entries.head?.map Prod.fst) ∧
    rbtree_max 3 exHeap (some exT) = .ok (exTree.entries.getLast?.map Prod.fst) ∧
    (exTree.keys.Sorted (· ≤ ·) → ∀ e ∈ exTree.entries.head?, ∀ k ∈ exTree.keys, e.2 ≤ k) ∧
    (exTree.keys.Sorted (· ≤ ·) → ∀ e ∈ exTree.entries.getLast?, ∀ k ∈ exTree.keys, k ≤ e.2) :=
  rbtree_min_max_correct exHeap exT exTree 3 ex_shape (by decide)

/-- The export, with the count returned through the cast to `int`. -/
theorem rbtree_to_array_spec (h : Heap) (t : rbtree) (T : Tree) (fuel : Nat)
    (arr : List key_t) (n : Nat)
    (hS : Shape h t T) (hfuel : T.height < fuel) (hroom : min n T.size ≤ arr.length) :
    rbtree_to_array fuel h (some t) (some arr) n =
      .ok (some (T.keys.take n ++ arr.drop (min n T.size)), size_to_int (min n T.size)) := by
  by_cases hz : n = 0 ∨ t.root = none
  · have : min n T.size = 0 ∧ T.keys.take n = [] := by
      rcases hz with rfl | hz
      · simp
      · cases T with
        | leaf s => simp [Tree.size, Tree.keys]
        | node a c k l r => simp [hS.root_eq] at hz
    simp [rbtree_to_array, hz, this.1, this.2, size_to_int, INT_MAX]
  · have e := array_subnodes_spec h t n T none fuel arr 0 hS.rep hS.nil_fresh hfuel (by omega)
      (by simpa using hroom)
    rw [← hS.root_eq] at e
    simp only [rbtree_to_array, hz, if_false, e, Res.ok_bind, Res.pure_eq, Nat.sub_zero,
      Nat.zero_add]
    rw [fill_eq _ _ _ (by simp [Tree.keys_length]; omega)]
    simp [Tree.keys_length]

theorem and_of_right {p q : Prop} (hq : q) (hp : q → p) : p ∧ q := ⟨hp hq, hq⟩

theorem left_rotation_spec {h : Heap} {t : rbtree} {C : Ctx} {x y : Nat} {cx cy : color_t}
    {kx ky : key_t} {A B D : Tree}
    (z : ZShape h t C (.node x cx kx A (.node y cy ky B D))) :
    ∃ h' t', left_rotation h t (some x) = .ok (h', t') ∧ t'.nil = t.nil ∧
      ZShape h' t' C (.node y cy ky (.node x cx kx A B) D) ∧
      (∀ a, a ∉ C.addrs ++ (Tree.node x cx kx A (.node y cy ky B D)).addrs → h' a = h a) := by
  obtain ⟨hroot, -, hrc, hr, hnd, ⟨n, cn, hnn, hnl⟩, hnf⟩ := z
  simp only [Rep, Tree.ptr_node] at hr
  obtain ⟨hx, hA, hy, hB, hD⟩ := hr
  have hxn : (some x : Ptr) ≠ t.nil := hnf x (by simp [Tree.addrs])
  have hyn : (some y : Ptr) ≠ t.nil := hnf y (by simp [Tree.addrs])
  have hnn' : t.nil ≠ none := by simp [hnn]
  have hnd0 := hnd
  have hnf0 := hnf
  rcases C with _ | ⟨a, c, k, r, up⟩ | ⟨a, c, k, l, up⟩ <;>
  rcases B with ⟨_ | _⟩ | ⟨b, cb, kb, Bl, Br⟩ <;>
  simp only [Tree.addrs, Ctx.addrs, List.nodup_append, List.nodup_cons, List.mem_append, List.mem_cons,
    List.disjoint_cons_left, List.disjoint_cons_right, List.disjoint_append_left,
    List.disjoint_append_right, not_or, List.nil_append, List.not_mem_nil, List.append_nil,
    List.nodup_nil, List.disjoint_nil_left, List.disjoint_nil_right, true_and, and_true,
    not_false_eq_true, List.cons_append] at hnd <;>
  simp only [RepCtx, Rep, Tree.ptr_node, Tree.ptr_leaf_true, Tree.ptr_leaf_false] at hrc hB
  all_goals (
    simp only [Tree.addrs, Ctx.addrs, List.mem_append, List.mem_cons, or_imp, forall_and, forall_eq,
      List.not_mem_nil, false_imp_iff, implies_true, true_and, and_true, List.nil_append,
      List.cons_append] at hnf
    generalize hres : left_rotation h t (some x) = res
    simp only [left_rotation, getRight, getLeft, getParent, getColor, getKey, setRight, setLeft,
      setParent, setColor, load, store, Res.bind_ok', Res.ok_bind, Res.pure_eq, Ctx.par, ne_eq,
      Function.update_same, Function.update_idem, upd_ne1, upd_ne2, reduceCtorEq, or_self, or_true,
      true_or, or_false, false_or, and_self, and_true, true_and, and_false, false_and,
      not_true_eq_false, not_false_eq_true, ↓reduceIte, if_true, if_false, Option.some.injEq,
      Tree.ptr_node, Tree.ptr_leaf_true, Tree.ptr_leaf_false, Tree.some_ne_ptr, Tree.ptr_ne_some,
      hx, hy, hrc, hB, hnd, hxn, hyn, Ne.symm hxn, Ne.symm hyn, hnn', hnf] at hres
    subst hres
    refine ⟨_, _, rfl, rfl, and_of_right ?_ (fun hfr => ?_)⟩
    · intro a' ha'
      simp only [Tree.addrs, Ctx.addrs, List.mem_append, List.mem_cons, not_or, List.not_mem_nil,
        not_false_eq_true, true_and, List.cons_append] at ha'
      simp [upd_ne2, ha']
    · constructor
      · simp [Ctx.rootPtr, hroot]
      · simp
      · simp [RepCtx, Ctx.par, upd_ne1, upd_ne2, hnd, Rep_update, RepCtx_update, hrc]
      · simp [Rep, Ctx.par, upd_ne1, upd_ne2, hnd, Rep_update, hA, hD, hB]
      · simpa [Tree.addrs, Ctx.addrs] using hnd0
      · exact ⟨n, cn, hnn, by rw [hfr n (fun hm => hnf0 n hm hnn.symm)]; exact hnl⟩
      · simpa [Tree.addrs, Ctx.addrs] using hnf0)

theorem right_rotation_spec {h : Heap} {t : rbtree} {C : Ctx} {x y : Nat} {cx cy : color_t}
    {kx ky : key_t} {A B D : Tree}
    (z : ZShape h t C (.node x cx kx (.node y cy ky A B) D)) :
    ∃ h' t', right_rotation h t (some x) = .ok (h', t') ∧ t'.nil = t.nil ∧
      ZShape h' t' C (.node y cy ky A (.node x cx kx B D)) ∧
      (∀ a, a ∉ C.addrs ++ (Tree.node x cx kx (.node y cy ky A B) D).addrs → h' a = h a) := by
  obtain ⟨hroot, -, hrc, hr, hnd, ⟨n, cn, hnn, hnl⟩, hnf⟩ := z
  simp only [Rep, Tree.ptr_node] at hr
  obtain ⟨hx, ⟨hy, hA, hB⟩, hD⟩ := hr
  have hxn : (some x : Ptr) ≠ t.nil := hnf x (by simp [Tree.addrs])
  have hyn : (some y : Ptr) ≠ t.nil := hnf y (by simp [Tree.addrs])
  have hnn' : t.nil ≠ none := by simp [hnn]
  have hnd0 := hnd
  have hnf0 := hnf
  rcases C with _ | ⟨a, c, k, r, up⟩ | ⟨a, c, k, l, up⟩ <;>
  rcases B with ⟨_ | _⟩ | ⟨b, cb, kb, Bl, Br⟩ <;>
  simp only [Tree.addrs, Ctx.addrs, List.nodup_append, List.nodup_cons, List.mem_append, List.mem_cons,
    List.disjoint_cons_left, List.disjoint_cons_right, List.disjoint_append_left,
    List.disjoint_append_right, not_or, List.nil_append, List.not_mem_nil, List.append_nil,
    List.nodup_nil, List.disjoint_nil_left, List.disjoint_nil_right, true_and, and_true,
    not_false_eq_true, List.cons_append] at hnd <;>
  simp only [RepCtx, Rep, Tree.ptr_node, Tree.ptr_leaf_true, Tree.ptr_leaf_false] at hrc hB
  all_goals (
    simp only [Tree.addrs, Ctx.addrs, List.mem_append, List.mem_cons, or_imp, forall_and, forall_eq,
      List.not_mem_nil, false_imp_iff, implies_true, true_and, and_true, List.nil_append,
      List.cons_append] at hnf
    generalize hres : right_rotation h t (some x) = res
    simp only [right_rotation, getRight, getLeft, getParent, getColor, getKey, setRight, setLeft,
      setParent, setColor, load, store, Res.bind_ok', Res.ok_bind, Res.pure_eq, Ctx.par, ne_eq,
      Function.update_same, Function.update_idem, upd_ne1, upd_ne2, reduceCtorEq, or_self, or_true,
      true_or, or_false, false_or, and_self, and_true, true_and, and_false, false_and,
      not_true_eq_false, not_false_eq_true, ↓reduceIte, if_true, if_false, Option.some.injEq,
      Tree.ptr_node, Tree.ptr_leaf_true, Tree.ptr_leaf_false, Tree.some_ne_ptr, Tree.ptr_ne_some,
      hx, hy, hrc, hB, hnd, hxn, hyn, Ne.symm hxn, Ne.symm hyn, hnn', hnf] at hres
    subst hres
    refine ⟨_, _, rfl, rfl, and_of_right ?_ (fun hfr => ?_)⟩
    · intro a' ha'
      simp only [Tree.addrs, Ctx.addrs, List.mem_append, List.mem_cons, not_or, List.not_mem_nil,
        not_false_eq_true, true_and, List.cons_append] at ha'
      simp [upd_ne2, ha']
    · constructor
      · simp [Ctx.rootPtr, hroot]
      · simp
      · simp [RepCtx, Ctx.par, upd_ne1, upd_ne2, hnd, Rep_update, RepCtx_update, hrc]
      · simp [Rep, Ctx.par, upd_ne1, upd_ne2, hnd, Rep_update, hA, hD, hB]
      · simpa [Tree.addrs, Ctx.addrs] using hnd0
      · exact ⟨n, cn, hnn, by rw [hfr n (fun hm => hnf0 n hm hnn.symm)]; exact hnl⟩
      · simpa [Tree.addrs, Ctx.addrs] using hnf0)

/-! ## Reading and repainting the node in focus -/

theorem setColor_of {h : Heap} {a : Nat} {c : node_t} (hc : h a = some c) (v : color_t) :
    setColor h (some a) v = .ok (Function.update h a (some { c with color := v })) := by
  simp [setColor, store, hc]

theorem mem_addrs_plug {C : Ctx} {T : Tree} {a : Nat} :
    a ∈ (C.plug T).addrs ↔ a ∈ C.addrs ∨ a ∈ T.addrs := by
  rw [(addrs_plug_perm C T).mem_iff, List.mem_append]

theorem Shape.cell {h : Heap} {t : rbtree} (C : Ctx) {x : Nat} {c : color_t} {k : key_t}
    {l r : Tree} (s : Shape h t (C.plug (.node x c k l r))) :
    h x = some ⟨c, k, C.par, l.ptr t.nil, r.ptr t.nil⟩ :=
  ((Shape_plug_iff h t C _).1 s).rep.1

theorem Shape.ne_nil {h : Heap} {t : rbtree} (C : Ctx) {x : Nat} {c : color_t} {k : key_t}
    {l r : Tree} (s : Shape h t (C.plug (.node x c k l r))) : (some x : Ptr) ≠ t.nil :=
  s.nil_fresh x (mem_addrs_plug.2 (Or.inr (by simp [Tree.addrs])))

theorem Shape.nil_ne_none {h : Heap} {t : rbtree} {T : Tree} (s : Shape h t T) :
    t.nil ≠ none := by
  obtain ⟨n, c, hn, -⟩ := s.nil_live
  simp [hn]

/-- Repainting the node in focus. -/
theorem setColor_spec {h : Heap} {t : rbtree} (C : Ctx) {x : Nat} {c : color_t} {k : key_t}
    {l r : Tree} (s : Shape h t (C.plug (.node x c k l r))) (c' : color_t) :
    ∃ h', setColor h (some x) c' = .ok h' ∧ Shape h' t (C.plug (.node x c' k l r)) ∧
      ∀ a, a ≠ x → h' a = h a := by
  have z := (Shape_plug_iff h t C _).1 s
  refine ⟨_, setColor_of z.rep.1 c', (Shape_plug_iff _ t C _).2 ?_, fun a ha => upd_ne2 ha⟩
  obtain ⟨hroot, htop, hrc, hr, hnd, ⟨n, cn, hnn, hnl⟩, hnf⟩ := z
  have hnd' := hnd
  simp only [Tree.addrs, List.nodup_append, List.nodup_cons, List.mem_append, List.mem_cons,
    List.disjoint_cons_right, List.disjoint_append_right, not_or] at hnd'
  obtain ⟨-, ⟨-, ⟨hxr, -⟩, hxl, -⟩, -, hxC, -⟩ := hnd'
  refine ⟨hroot, by intro _; simp, ?_, ?_, hnd, ⟨n, cn, hnn, ?_⟩, hnf⟩
  · rw [RepCtx_update hxC]; exact hrc
  · refine ⟨by simp, ?_, ?_⟩
    · rw [Rep_update hxl]; exact hr.2.1
    · rw [Rep_update hxr]; exact hr.2.2
  · have : x ≠ n := by
      intro e; subst e; exact hnf x (by simp [Tree.addrs]) hnn.symm
    rw [upd_ne1 this]; exact hnl

/-- Colour lookup through a link to a subtree. -/
theorem Shape.color_ptr {h : Heap} {t : rbtree} (C : Ctx) (T : Tree) (sh : Shape h t (C.plug T)) :
    node_color h t (T.ptr t.nil) = .ok T.rootColor := by
  have z := (Shape_plug_iff h t C _).1 sh
  cases T with
  | leaf s => cases s <;> simp [node_color, Tree.rootColor]
  | node a c k l r =>
    have := z.nil_fresh a (by simp [Tree.addrs])
    simp [node_color, this, getColor_of z.rep.1, Tree.rootColor]

theorem Shape.color_ptr' {h : Heap} {t : rbtree} (C : Ctx) (T : Tree) (sh : Shape h t (C.plug T)) :
    node_color h t (if T.ptr t.nil = none then t.nil else T.ptr t.nil) = .ok T.rootColor := by
  have z := (Shape_plug_iff h t C _).1 sh
  cases T with
  | leaf s => cases s <;> simp [node_color, Tree.rootColor]
  | node a c k l r =>
    have := z.nil_fresh a (by simp [Tree.addrs])
    simp [node_color, this, getColor_of z.rep.1, Tree.rootColor]

theorem left_rotation_shape {h : Heap} {t : rbtree} (C : Ctx) {x y : Nat} {cx cy : color_t}
    {kx ky : key_t} {A B D : Tree}
    (s : Shape h t (C.plug (.node x cx kx A (.node y cy ky B D)))) :
    ∃ h' t', left_rotation h t (some x) = .ok (h', t') ∧ t'.nil = t.nil ∧
      Shape h' t' (C.plug (.node y cy ky (.node x cx kx A B) D)) ∧
      (∀ a, a ∉ (C.plug (.node x cx kx A (.node y cy ky B D))).addrs → h' a = h a) := by
  obtain ⟨h', t', e, hn, z, f⟩ := left_rotation_spec ((Shape_plug_iff h t C _).1 s)
  exact ⟨h', t', e, hn, (Shape_plug_iff _ _ C _).2 z,
    fun a ha => f a (fun hm => ha ((addrs_plug_perm C _).mem_iff.2 hm))⟩

theorem right_rotation_shape {h : Heap} {t : rbtree} (C : Ctx) {x y : Nat} {cx cy : color_t}
    {kx ky : key_t} {A B D : Tree}
    (s : Shape h t (C.plug (.node x cx kx (.node y cy ky A B) D))) :
    ∃ h' t', right_rotation h t (some x) = .ok (h', t') ∧ t'.nil = t.nil ∧
      Shape h' t' (C.plug (.node y cy ky A (.node x cx kx B D))) ∧
      (∀ a, a ∉ (C.plug (.node x cx kx (.node y cy ky A B) D)).addrs → h' a = h a) := by
  obtain ⟨h', t', e, hn, z, f⟩ := right_rotation_spec ((Shape_plug_iff h t C _).1 s)
  exact ⟨h', t', e, hn, (Shape_plug_iff _ _ C _).2 z,
    fun a ha => f a (fun hm => ha ((addrs_plug_perm C _).mem_iff.2 hm))⟩

theorem addrs_plug_congr (C : Ctx) {T T' : Tree} (e : T'.entries = T.entries) :
    (C.plug T').addrs = (C.plug T).addrs := by
  rw [← Tree.entries_fst, ← Tree.entries_fst, entries_plug, entries_plug, e]

/-! ## Red-black conditions through a context -/

theorem color_cases (c : color_t) : c = RBTREE_RED ∨ c = RBTREE_BLACK := by
  cases c <;> simp

theorem plug_ok : ∀ (C : Ctx) (T : Tree), T.Balanced → T.NoRedRed → C.RB T.bh T.rootColor →
    (C.plug T).Balanced ∧ (C.plug T).NoRedRed ∧ (C ≠ .top → (C.plug T).rootColor = RBTREE_BLACK) := by
  intro C
  induction C with
  | top => intro T hb hr _; exact ⟨hb, hr, fun h => absurd rfl h⟩
  | left a c k r up ih =>
    intro T hb hr hC
    obtain ⟨h1, h2, h3, h4, h5, h6⟩ := hC
    have := ih (.node a c k T r) ⟨h3.symm, hb, h1⟩ ⟨h4, hr, h2⟩ (by simpa [Tree.bh, Tree.rootColor] using h6)
    refine ⟨this.1, this.2.1, fun _ => ?_⟩
    by_cases hu : up = .top
    · subst hu; simpa [Ctx.plug, Tree.rootColor] using h5 rfl
    · exact this.2.2 hu
  | right a c k l up ih =>
    intro T hb hr hC
    obtain ⟨h1, h2, h3, h4, h5, h6⟩ := hC
    have := ih (.node a c k l T) ⟨h3, h1, hb⟩ ⟨fun hc => ⟨(h4 hc).2, (h4 hc).1⟩, h2, hr⟩
      (by simpa [Tree.bh, Tree.rootColor, h3] using h6)
    refine ⟨this.1, this.2.1, fun _ => ?_⟩
    by_cases hu : up = .top
    · subst hu; simpa [Ctx.plug, Tree.rootColor] using h5 rfl
    · exact this.2.2 hu

theorem unplug_ok : ∀ (C : Ctx) (T : Tree), (C.plug T).Balanced → (C.plug T).NoRedRed →
    (C.plug T).rootColor = RBTREE_BLACK →
    T.Balanced ∧ T.NoRedRed ∧ C.RB T.bh T.rootColor ∧ (C = .top → T.rootColor = RBTREE_BLACK) := by
  intro C
  induction C with
  | top => intro T hb hr hc; exact ⟨hb, hr, trivial, fun _ => hc⟩
  | left a c k r up ih =>
    intro T hb hr hc
    obtain ⟨⟨e, b1, b2⟩, ⟨n1, n2, n3⟩, hC, htop⟩ := ih (.node a c k T r) hb hr hc
    refine ⟨b1, n2, ⟨b2, n3, e.symm, n1, fun hu => ?_, by simpa [Tree.bh, Tree.rootColor] using hC⟩,
      fun h => by cases h⟩
    simpa [Tree.rootColor] using htop hu
  | right a c k l up ih =>
    intro T hb hr hc
    obtain ⟨⟨e, b1, b2⟩, ⟨n1, n2, n3⟩, hC, htop⟩ := ih (.node a c k l T) hb hr hc
    refine ⟨b2, n3, ⟨b1, n2, e, fun hc => ⟨(n1 hc).2, (n1 hc).1⟩, fun hu => ?_,
      by simpa [Tree.bh, Tree.rootColor, e] using hC⟩, fun h => by cases h⟩
    simpa [Tree.rootColor] using htop hu

theorem RB_black_frame_left {a : Nat} {k : key_t} {r : Tree} {up : Ctx} {n : Nat} {hc : color_t}
    (h : (Ctx.left a RBTREE_BLACK k r up).RB n hc) (hc' : color_t) :
    (Ctx.left a RBTREE_BLACK k r up).RB n hc' := by
  simpa [Ctx.RB] using h

theorem RB_black_frame_right {a : Nat} {k : key_t} {l : Tree} {up : Ctx} {n : Nat} {hc : color_t}
    (h : (Ctx.right a RBTREE_BLACK k l up).RB n hc) (hc' : color_t) :
    (Ctx.right a RBTREE_BLACK k l up).RB n hc' := by
  simpa [Ctx.RB] using h

theorem blacken_ok {T : Tree} (hb : T.Balanced) (hr : T.NoRedRed) : RBInv T.blacken := by
  cases T with
  | leaf s => exact ⟨rfl, trivial, trivial⟩
  | node a c k l r =>
    exact ⟨rfl, ⟨(fun h => by cases h), hr.2.1, hr.2.2⟩, hb⟩

theorem blacken_entries (T : Tree) : T.blacken.entries = T.entries := by
  cases T <;> rfl

/-! ## Insertion fixup, one iteration at a time -/

theorem Shape.left_ne_right_ptr {h : Heap} {t : rbtree} (C : Ctx) {x a : Nat} {c ca : color_t}
    {k ka : key_t} {al ar R : Tree}
    (s : Shape h t (C.plug (.node x c k (.node a ca ka al ar) R))) :
    (some a : Ptr) ≠ R.ptr t.nil := by
  have z := (Shape_plug_iff h t C _).1 s
  have hnd := z.nodup
  simp only [Tree.addrs, List.nodup_append, List.nodup_cons, List.mem_append, List.mem_cons,
    List.disjoint_cons_left, List.disjoint_cons_right, List.disjoint_append_left,
    List.disjoint_append_right, not_or] at hnd
  exact Tree.some_ne_ptr (by tauto) (z.nil_fresh a (by simp [Tree.addrs]))

theorem Shape.right_ne_left_ptr {h : Heap} {t : rbtree} (C : Ctx) {x a : Nat} {c ca : color_t}
    {k ka : key_t} {al ar L : Tree}
    (s : Shape h t (C.plug (.node x c k L (.node a ca ka al ar)))) :
    (some a : Ptr) ≠ L.ptr t.nil := by
  have z := (Shape_plug_iff h t C _).1 s
  have hnd := z.nodup
  simp only [Tree.addrs, List.nodup_append, List.nodup_cons, List.mem_append, List.mem_cons,
    List.disjoint_cons_left, List.disjoint_cons_right, List.disjoint_append_left,
    List.disjoint_append_right, not_or] at hnd
  exact Tree.some_ne_ptr (by tauto) (z.nil_fresh a (by simp [Tree.addrs]))

theorem Shape.color_node {h : Heap} {t : rbtree} (C : Ctx) {x : Nat} {c : color_t} {k : key_t}
    {l r : Tree} (s : Shape h t (C.plug (.node x c k l r))) :
    node_color h t (some x) = .ok c := by
  simpa [Tree.rootColor] using Shape.color_ptr C _ s

theorem ins_exit_top {h : Heap} {t : rbtree} {p : Nat} {c : color_t} {k : key_t} {l r : Tree}
    (fuel : Nat) (s : Shape h t (.node p c k l r)) :
    insert_fixedup_loop (fuel + 1) h t (some p) = .ok (h, t) := by
  have hp := Shape.cell .top s
  simp only [insert_fixedup_loop, getParent_of hp, Ctx.par, Res.ok_bind, ne_eq, not_true_eq_false,
    false_and, if_false, Res.pure_eq, if_true]

theorem ins_exit_black {h : Heap} {t : rbtree} {C : Ctx} {p pp : Nat} {kp : key_t} {A B : Tree}
    (fuel : Nat) (s : Shape h t (C.plug (.node pp RBTREE_BLACK kp A B)))
    (hp : getParent h (some p) = .ok (some pp)) :
    insert_fixedup_loop (fuel + 1) h t (some p) = .ok (h, t) := by
  have hpp := Shape.cell C s
  have npp := Shape.ne_nil C s
  simp only [insert_fixedup_loop, hp, Res.ok_bind, ne_eq, reduceCtorEq, not_false_eq_true, npp,
    and_self, if_true, node_color, false_or, if_false, getColor_of hpp, Res.pure_eq,
    decide_False, decide_eq_false_iff_not]

theorem ins_case1_left {h : Heap} {t : rbtree} {up : Ctx} {p pp gp u : Nat} {cg : color_t}
    {kp kg ku : key_t} {A B Ul Ur : Tree} (fuel : Nat)
    (s : Shape h t (up.plug (.node gp cg kg (.node pp RBTREE_RED kp A B)
      (.node u RBTREE_RED ku Ul Ur))))
    (hp : getParent h (some p) = .ok (some pp)) :
    ∃ h', insert_fixedup_loop (fuel + 1) h t (some p) = insert_fixedup_loop fuel h' t (some gp) ∧
      Shape h' t (up.plug (.node gp RBTREE_RED kg (.node pp RBTREE_BLACK kp A B)
        (.node u RBTREE_BLACK ku Ul Ur))) ∧
      (∀ a, a ∉ (up.plug (.node gp cg kg (.node pp RBTREE_RED kp A B)
        (.node u RBTREE_RED ku Ul Ur))).addrs → h' a = h a) := by
  have hpp := Shape.cell (.left gp cg kg _ up) s
  have hgp := Shape.cell up s
  have hu := Shape.cell (.right gp cg kg _ up) s
  have npp := Shape.ne_nil (.left gp cg kg _ up) s
  have nu := Shape.ne_nil (.right gp cg kg _ up) s
  obtain ⟨h1, e1, s1, f1⟩ := setColor_spec (.left gp cg kg _ up) s RBTREE_BLACK
  obtain ⟨h2, e2, s2, f2⟩ := setColor_spec (.right gp cg kg _ up) s1 RBTREE_BLACK
  obtain ⟨h3, e3, s3, f3⟩ := setColor_spec up s2 RBTREE_RED
  refine ⟨h3, ?_, s3, ?_⟩
  · simp only [insert_fixedup_loop, hp, Res.ok_bind, ne_eq, reduceCtorEq, not_false_eq_true, npp,
      and_self, if_true, node_color, false_or, if_false, getColor_of hpp, Res.pure_eq,
      decide_True, decide_eq_true_eq, getParent_of hpp, getLeft_of hgp, getRight_of hgp,
      Tree.ptr_node, nu, getColor_of hu, e1, e2, e3, Ctx.par, Bool.true_eq_false]
  · intro a ha
    simp only [mem_addrs_plug, Tree.addrs, List.mem_append, List.mem_cons, not_or] at ha
    rw [f3 a (by tauto), f2 a (by tauto), f1 a (by tauto)]

theorem ins_case1_right {h : Heap} {t : rbtree} {up : Ctx} {p pp gp u : Nat} {cg : color_t}
    {kp kg ku : key_t} {A B Ul Ur : Tree} (fuel : Nat)
    (s : Shape h t (up.plug (.node gp cg kg (.node u RBTREE_RED ku Ul Ur)
      (.node pp RBTREE_RED kp A B))))
    (hp : getParent h (some p) = .ok (some pp)) :
    ∃ h', insert_fixedup_loop (fuel + 1) h t (some p) = insert_fixedup_loop fuel h' t (some gp) ∧
      Shape h' t (up.plug (.node gp RBTREE_RED kg (.node u RBTREE_BLACK ku Ul Ur)
        (.node pp RBTREE_BLACK kp A B))) ∧
      (∀ a, a ∉ (up.plug (.node gp cg kg (.node u RBTREE_RED ku Ul Ur)
        (.node pp RBTREE_RED kp A B))).addrs → h' a = h a) := by
  have hpp := Shape.cell (.right gp cg kg _ up) s
  have hgp := Shape.cell up s
  have hu := Shape.cell (.left gp cg kg _ up) s
  have npp := Shape.ne_nil (.right gp cg kg _ up) s
  have nu := Shape.ne_nil (.left gp cg kg _ up) s
  have hne : (some pp : Ptr) ≠ some u := Shape.right_ne_left_ptr up s
  obtain ⟨h1, e1, s1, f1⟩ := setColor_spec (.right gp cg kg _ up) s RBTREE_BLACK
  obtain ⟨h2, e2, s2, f2⟩ := setColor_spec (.left gp cg kg _ up) s1 RBTREE_BLACK
  obtain ⟨h3, e3, s3, f3⟩ := setColor_spec up s2 RBTREE_RED
  refine ⟨h3, ?_, s3, ?_⟩
  · simp only [insert_fixedup_loop, hp, Res.ok_bind, ne_eq, reduceCtorEq, not_false_eq_true, npp,
      and_self, if_true, node_color, false_or, if_false, getColor_of hpp, Res.pure_eq,
      decide_True, decide_eq_true_eq, getParent_of hpp, getLeft_of hgp, getRight_of hgp,
      Tree.ptr_node, nu, getColor_of hu, e1, e2, e3, Ctx.par, Bool.true_eq_false, hne]
  · intro a ha
    simp only [mem_addrs_plug, Tree.addrs, List.mem_append, List.mem_cons, not_or] at ha
    rw [f3 a (by tauto), f2 a (by tauto), f1 a (by tauto)]

theorem ins_case3_left {h : Heap} {t : rbtree} {up : Ctx} {p pp gp : Nat} {cg cP : color_t}
    {kp kg kP : key_t} {Pl Pr S U : Tree} (fuel : Nat)
    (s : Shape h t (up.plug (.node gp cg kg
      (.node pp RBTREE_RED kp (.node p cP kP Pl Pr) S) U)))
    (hU : U.rootColor = RBTREE_BLACK) :
    ∃ h' t', insert_fixedup_loop (fuel + 1) h t (some p) = insert_fixedup_loop fuel h' t' (some p) ∧
      t'.nil = t.nil ∧
      Shape h' t' (up.plug (.node pp RBTREE_BLACK kp (.node p cP kP Pl Pr)
        (.node gp RBTREE_RED kg S U))) ∧
      (∀ a, a ∉ (up.plug (.node gp cg kg
        (.node pp RBTREE_RED kp (.node p cP kP Pl Pr) S) U)).addrs → h' a = h a) := by
  have hp := Shape.cell (.left pp RBTREE_RED kp S (.left gp cg kg U up)) s
  have hpp := Shape.cell (.left gp cg kg _ up) s
  have hgp := Shape.cell up s
  have npp := Shape.ne_nil (.left gp cg kg _ up) s
  have hppc := Shape.color_node (.left gp cg kg _ up) s
  have hUc := Shape.color_ptr' (.right gp cg kg _ up) U s
  have hne : (some p : Ptr) ≠ S.ptr t.nil := Shape.left_ne_right_ptr (.left gp cg kg _ up) s
  obtain ⟨h1, e1, s1, f1⟩ := setColor_spec (.left gp cg kg _ up) s RBTREE_BLACK
  obtain ⟨h2, e2, s2, f2⟩ := setColor_spec up s1 RBTREE_RED
  obtain ⟨h3, t3, e3, n3, s3, f3⟩ := right_rotation_shape up s2
  refine ⟨h3, t3, ?_, n3, s3, ?_⟩
  · simp only [insert_fixedup_loop, getParent_of hp, Res.ok_bind, ne_eq, reduceCtorEq,
      not_false_eq_true, npp, and_self, if_true, if_false, hppc,
      Res.pure_eq, decide_True, decide_eq_true_eq, getParent_of hpp, getLeft_of hgp,
      getRight_of hgp, getRight_of hpp, Tree.ptr_node, e1, e2, e3, Ctx.par, Bool.true_eq_false,
      hne, hUc, hU]
  · intro a ha
    simp only [mem_addrs_plug, Tree.addrs, List.mem_append, List.mem_cons, not_or] at ha
    rw [f3 a (by simp only [mem_addrs_plug, Tree.addrs, List.mem_append, List.mem_cons, not_or]
                 tauto), f2 a (by tauto), f1 a (by tauto)]

theorem ins_case2_left {h : Heap} {t : rbtree} {up : Ctx} {p pp gp : Nat} {cg cP : color_t}
    {kp kg kP : key_t} {Pl Pr S U : Tree} (fuel : Nat)
    (s : Shape h t (up.plug (.node gp cg kg
      (.node pp RBTREE_RED kp S (.node p cP kP Pl Pr)) U)))
    (hU : U.rootColor = RBTREE_BLACK) :
    ∃ h' t', insert_fixedup_loop (fuel + 1) h t (some p) = insert_fixedup_loop fuel h' t' (some pp) ∧
      t'.nil = t.nil ∧
      Shape h' t' (up.plug (.node p RBTREE_BLACK kP (.node pp RBTREE_RED kp S Pl)
        (.node gp RBTREE_RED kg Pr U))) ∧
      (∀ a, a ∉ (up.plug (.node gp cg kg
        (.node pp RBTREE_RED kp S (.node p cP kP Pl Pr)) U)).addrs → h' a = h a) := by
  have hp := Shape.cell (.right pp RBTREE_RED kp S (.left gp cg kg U up)) s
  have hpp := Shape.cell (.left gp cg kg _ up) s
  have hgp := Shape.cell up s
  have npp := Shape.ne_nil (.left gp cg kg _ up) s
  have hppc := Shape.color_node (.left gp cg kg _ up) s
  have hUc := Shape.color_ptr' (.right gp cg kg _ up) U s
  obtain ⟨h0, t0, e0, n0, s0, f0⟩ := left_rotation_shape (.left gp cg kg _ up) s
  have hpp0 := Shape.cell (.left p cP kP Pr (.left gp cg kg U up)) s0
  obtain ⟨h1, e1, s1, f1⟩ := setColor_spec (.left gp cg kg _ up) s0 RBTREE_BLACK
  obtain ⟨h2, e2, s2, f2⟩ := setColor_spec up s1 RBTREE_RED
  obtain ⟨h3, t3, e3, n3, s3, f3⟩ := right_rotation_shape up s2
  refine ⟨h3, t3, ?_, n3.trans n0, s3, ?_⟩
  · simp only [insert_fixedup_loop, getParent_of hp, Res.ok_bind, ne_eq, reduceCtorEq,
      not_false_eq_true, npp, and_self, if_true, if_false, hppc,
      Res.pure_eq, decide_True, decide_eq_true_eq, getParent_of hpp, getLeft_of hgp,
      getRight_of hgp, getRight_of hpp, Tree.ptr_node, e0, getParent_of hpp0, e1, e2, e3, Ctx.par,
      Bool.true_eq_false, hUc, hU]
  · intro a ha
    simp only [mem_addrs_plug, Tree.addrs, List.mem_append, List.mem_cons, not_or] at ha
    rw [f3 a (by simp only [mem_addrs_plug, Tree.addrs, List.mem_append, List.mem_cons, not_or]
                 tauto), f2 a (by tauto), f1 a (by tauto),
      f0 a (by simp only [mem_addrs_plug, Ctx.addrs, Tree.addrs, List.mem_append, List.mem_cons,
                 not_or]
               tauto)]

theorem ins_case3_right {h : Heap} {t : rbtree} {up : Ctx} {p pp gp : Nat} {cg cP : color_t}
    {kp kg kP : key_t} {Pl Pr S U : Tree} (fuel : Nat)
    (s : Shape h t (up.plug (.node gp cg kg U
      (.node pp RBTREE_RED kp S (.node p cP kP Pl Pr)))))
    (hU : U.rootColor = RBTREE_BLACK) :
    ∃ h' t', insert_fixedup_loop (fuel + 1) h t (some p) = insert_fixedup_loop fuel h' t' (some p) ∧
      t'.nil = t.nil ∧
      Shape h' t' (up.plug (.node pp RBTREE_BLACK kp (.node gp RBTREE_RED kg U S)
        (.node p cP kP Pl Pr))) ∧
      (∀ a, a ∉ (up.plug (.node gp cg kg U
        (.node pp RBTREE_RED kp S (.node p cP kP Pl Pr)))).addrs → h' a = h a) := by
  have hp := Shape.cell (.right pp RBTREE_RED kp S (.right gp cg kg U up)) s
  have hpp := Shape.cell (.right gp cg kg _ up) s
  have hgp := Shape.cell up s
  have npp := Shape.ne_nil (.right gp cg kg _ up) s
  have hppc := Shape.color_node (.right gp cg kg _ up) s
  have hUc := Shape.color_ptr' (.left gp cg kg _ up) U s
  have hne : (some pp : Ptr) ≠ U.ptr t.nil := Shape.right_ne_left_ptr up s
  have hne2 : (some p : Ptr) ≠ S.ptr t.nil := Shape.right_ne_left_ptr (.right gp cg kg _ up) s
  obtain ⟨h1, e1, s1, f1⟩ := setColor_spec (.right gp cg kg _ up) s RBTREE_BLACK
  obtain ⟨h2, e2, s2, f2⟩ := setColor_spec up s1 RBTREE_RED
  obtain ⟨h3, t3, e3, n3, s3, f3⟩ := left_rotation_shape up s2
  refine ⟨h3, t3, ?_, n3, s3, ?_⟩
  · simp only [insert_fixedup_loop, getParent_of hp, Res.ok_bind, ne_eq, reduceCtorEq,
      not_false_eq_true, npp, and_self, if_true, if_false, hppc,
      Res.pure_eq, decide_True, decide_eq_true_eq, getParent_of hpp, getLeft_of hgp,
      getRight_of hgp, getLeft_of hpp, Tree.ptr_node, e1, e2, e3, Ctx.par, Bool.true_eq_false,
      hne, hne2, hUc, hU]
  · intro a ha
    simp only [mem_addrs_plug, Tree.addrs, List.mem_append, List.mem_cons, not_or] at ha
    rw [f3 a (by simp only [mem_addrs_plug, Tree.addrs, List.mem_append, List.mem_cons, not_or]
                 tauto), f2 a (by tauto), f1 a (by tauto)]

theorem ins_case2_right {h : Heap} {t : rbtree} {up : Ctx} {p pp gp : Nat} {cg cP : color_t}
    {kp kg kP : key_t} {Pl Pr S U : Tree} (fuel : Nat)
    (s : Shape h t (up.plug (.node gp cg kg U
      (.node pp RBTREE_RED kp (.node p cP kP Pl Pr) S))))
    (hU : U.rootColor = RBTREE_BLACK) :
    ∃ h' t', insert_fixedup_loop (fuel + 1) h t (some p) = insert_fixedup_loop fuel h' t' (some pp) ∧
      t'.nil = t.nil ∧
      Shape h' t' (up.plug (.node p RBTREE_BLACK kP (.node gp RBTREE_RED kg U Pl)
        (.node pp RBTREE_RED kp Pr S))) ∧
      (∀ a, a ∉ (up.plug (.node gp cg kg U
        (.node pp RBTREE_RED kp (.node p cP kP Pl Pr) S))).addrs → h' a = h a) := by
  have hp := Shape.cell (.left pp RBTREE_RED kp S (.right gp cg kg U up)) s
  have hpp := Shape.cell (.right gp cg kg _ up) s
  have hgp := Shape.cell up s
  have npp := Shape.ne_nil (.right gp cg kg _ up) s
  have hppc := Shape.color_node (.right gp cg kg _ up) s
  have hUc := Shape.color_ptr' (.left gp cg kg _ up) U s
  have hne : (some pp : Ptr) ≠ U.ptr t.nil := Shape.right_ne_left_ptr up s
  obtain ⟨h0, t0, e0, n0, s0, f0⟩ := right_rotation_shape (.right gp cg kg _ up) s
  have hpp0 := Shape.cell (.right p cP kP Pl (.right gp cg kg U up)) s0
  obtain ⟨h1, e1, s1, f1⟩ := setColor_spec (.right gp cg kg _ up) s0 RBTREE_BLACK
  obtain ⟨h2, e2, s2, f2⟩ := setColor_spec up s1 RBTREE_RED
  obtain ⟨h3, t3, e3, n3, s3, f3⟩ := left_rotation_shape up s2
  refine ⟨h3, t3, ?_, n3.trans n0, s3, ?_⟩
  · simp only [insert_fixedup_loop, getParent_of hp, Res.ok_bind, ne_eq, reduceCtorEq,
      not_false_eq_true, npp, and_self, if_true, if_false, hppc,
      Res.pure_eq, decide_True, decide_eq_true_eq, getParent_of hpp, getLeft_of hgp,
      getRight_of hgp, getLeft_of hpp, Tree.ptr_node, e0, getParent_of hpp0, e1, e2, e3, Ctx.par,
      Bool.true_eq_false, hne, hUc, hU]
  · intro a ha
    simp only [mem_addrs_plug, Tree.addrs, List.mem_append, List.mem_cons, not_or] at ha
    rw [f3 a (by simp only [mem_addrs_plug, Tree.addrs, List.mem_append, List.mem_cons, not_or]
                 tauto), f2 a (by tauto), f1 a (by tauto),
      f0 a (by simp only [mem_addrs_plug, Ctx.addrs, Tree.addrs, List.mem_append, List.mem_cons,
                 not_or]
               tauto)]

/-! ## Unfolding the red-black conditions on a node -/

namespace Tree

@[simp] theorem rootColor_node (a : Nat) (c : color_t) (k : key_t) (l r : Tree) :
    (node a c k l r).rootColor = c := rfl
@[simp] theorem rootColor_leaf (s : Bool) : (leaf s).rootColor = RBTREE_BLACK := rfl
@[simp] theorem bh_leaf (s : Bool) : (leaf s).bh = 0 := rfl
@[simp] theorem bh_red (a : Nat) (k : key_t) (l r : Tree) :
    (node a RBTREE_RED k l r).bh = l.bh := by simp [bh]
@[simp] theorem bh_black (a : Nat) (k : key_t) (l r : Tree) :
    (node a RBTREE_BLACK k l r).bh = l.bh + 1 := by simp [bh]
@[simp] theorem balanced_leaf (s : Bool) : (leaf s).Balanced ↔ True := Iff.rfl
@[simp] theorem balanced_node (a : Nat) (c : color_t) (k : key_t) (l r : Tree) :
    (node a c k l r).Balanced ↔ l.bh = r.bh ∧ l.Balanced ∧ r.Balanced := Iff.rfl
@[simp] theorem noRedRed_leaf (s : Bool) : (leaf s).NoRedRed ↔ True := Iff.rfl
@[simp] theorem noRedRed_red (a : Nat) (k : key_t) (l r : Tree) :
    (node a RBTREE_RED k l r).NoRedRed ↔
      l.rootColor = RBTREE_BLACK ∧ r.rootColor = RBTREE_BLACK ∧ l.NoRedRed ∧ r.NoRedRed := by
  simp [NoRedRed, and_assoc]
@[simp] theorem noRedRed_black (a : Nat) (k : key_t) (l r : Tree) :
    (node a RBTREE_BLACK k l r).NoRedRed ↔ l.NoRedRed ∧ r.NoRedRed := by
  simp [NoRedRed]

end Tree

/-! ## Insertion fixup: the red-black conditions after each case -/

theorem rootColor_red {T : Tree} (h : T.rootColor ≠ RBTREE_BLACK) :
    ∃ a k l r, T = .node a RBTREE_RED k l r := by
  cases T with
  | leaf s => exact absurd rfl h
  | node a c k l r =>
    rcases color_cases c with rfl | rfl
    · exact ⟨a, k, l, r, rfl⟩
    · exact absurd rfl h

theorem RB_red_frame_left {a : Nat} {k : key_t} {r : Tree} {up : Ctx} {n : Nat} {hc : color_t}
    (h : (Ctx.left a RBTREE_RED k r up).RB n hc) :
    r.Balanced ∧ r.NoRedRed ∧ r.bh = n ∧ r.rootColor = RBTREE_BLACK ∧ up ≠ .top ∧
      up.RB n RBTREE_RED := by
  obtain ⟨h1, h2, h3, h4, h5, h6⟩ := h
  exact ⟨h1, h2, h3, (h4 rfl).2, fun e => absurd (h5 e) (by decide), by simpa using h6⟩

theorem RB_red_frame_right {a : Nat} {k : key_t} {l : Tree} {up : Ctx} {n : Nat} {hc : color_t}
    (h : (Ctx.right a RBTREE_RED k l up).RB n hc) :
    l.Balanced ∧ l.NoRedRed ∧ l.bh = n ∧ l.rootColor = RBTREE_BLACK ∧ up ≠ .top ∧
      up.RB n RBTREE_RED := by
  obtain ⟨h1, h2, h3, h4, h5, h6⟩ := h
  exact ⟨h1, h2, h3, (h4 rfl).2, fun e => absurd (h5 e) (by decide), by simpa using h6⟩

theorem RB_under_red_left {a : Nat} {c : color_t} {k : key_t} {r : Tree} {up : Ctx} {n : Nat}
    (h : (Ctx.left a c k r up).RB n RBTREE_RED) :
    c = RBTREE_BLACK ∧ r.Balanced ∧ r.NoRedRed ∧ r.bh = n ∧ up.RB (n + 1) RBTREE_BLACK := by
  obtain ⟨h1, h2, h3, h4, h5, h6⟩ := h
  rcases color_cases c with rfl | rfl
  · exact absurd (h4 rfl).1 (by decide)
  · exact ⟨rfl, h1, h2, h3, by simpa using h6⟩

theorem RB_under_red_right {a : Nat} {c : color_t} {k : key_t} {l : Tree} {up : Ctx} {n : Nat}
    (h : (Ctx.right a c k l up).RB n RBTREE_RED) :
    c = RBTREE_BLACK ∧ l.Balanced ∧ l.NoRedRed ∧ l.bh = n ∧ up.RB (n + 1) RBTREE_BLACK := by
  obtain ⟨h1, h2, h3, h4, h5, h6⟩ := h
  rcases color_cases c with rfl | rfl
  · exact absurd (h4 rfl).1 (by decide)
  · exact ⟨rfl, h1, h2, h3, by simpa using h6⟩

theorem ins_pure3_left (pp gp : Nat) (kp kg : key_t) {p : Nat} {kP : key_t} {Pl Pr S U : Tree}
    (hb : (Tree.node p RBTREE_RED kP Pl Pr).Balanced) (hr : (Tree.node p RBTREE_RED kP Pl Pr).NoRedRed)
    (hS : S.Balanced ∧ S.NoRedRed ∧ S.bh = Pl.bh ∧ S.rootColor = RBTREE_BLACK)
    (hU : U.Balanced ∧ U.NoRedRed ∧ U.bh = Pl.bh) (hUc : U.rootColor = RBTREE_BLACK) :
    (Tree.node pp RBTREE_BLACK kp (.node p RBTREE_RED kP Pl Pr) (.node gp RBTREE_RED kg S U)).Balanced ∧
    (Tree.node pp RBTREE_BLACK kp (.node p RBTREE_RED kP Pl Pr) (.node gp RBTREE_RED kg S U)).NoRedRed ∧
    (Tree.node pp RBTREE_BLACK kp (.node p RBTREE_RED kP Pl Pr) (.node gp RBTREE_RED kg S U)).bh
      = Pl.bh + 1 := by
  simp only [Tree.balanced_node, Tree.noRedRed_red, Tree.noRedRed_black, Tree.bh_red,
    Tree.bh_black, Tree.rootColor_node] at *
  repeat' apply And.intro
  all_goals first | omega | tauto

theorem ins_pure3_right (pp gp : Nat) (kp kg : key_t) {p : Nat} {kP : key_t} {Pl Pr S U : Tree}
    (hb : (Tree.node p RBTREE_RED kP Pl Pr).Balanced) (hr : (Tree.node p RBTREE_RED kP Pl Pr).NoRedRed)
    (hS : S.Balanced ∧ S.NoRedRed ∧ S.bh = Pl.bh ∧ S.rootColor = RBTREE_BLACK)
    (hU : U.Balanced ∧ U.NoRedRed ∧ U.bh = Pl.bh) (hUc : U.rootColor = RBTREE_BLACK) :
    (Tree.node pp RBTREE_BLACK kp (.node gp RBTREE_RED kg U S) (.node p RBTREE_RED kP Pl Pr)).Balanced ∧
    (Tree.node pp RBTREE_BLACK kp (.node gp RBTREE_RED kg U S) (.node p RBTREE_RED kP Pl Pr)).NoRedRed ∧
    (Tree.node pp RBTREE_BLACK kp (.node gp RBTREE_RED kg U S) (.node p RBTREE_RED kP Pl Pr)).bh
      = Pl.bh + 1 := by
  simp only [Tree.balanced_node, Tree.noRedRed_red, Tree.noRedRed_black, Tree.bh_red,
    Tree.bh_black, Tree.rootColor_node] at *
  repeat' apply And.intro
  all_goals first | omega | tauto

theorem ins_pure2_left (pp gp : Nat) (kp kg : key_t) {p : Nat} {kP : key_t} {Pl Pr S U : Tree}
    (hb : (Tree.node p RBTREE_RED kP Pl Pr).Balanced) (hr : (Tree.node p RBTREE_RED kP Pl Pr).NoRedRed)
    (hS : S.Balanced ∧ S.NoRedRed ∧ S.bh = Pl.bh ∧ S.rootColor = RBTREE_BLACK)
    (hU : U.Balanced ∧ U.NoRedRed ∧ U.bh = Pl.bh) (hUc : U.rootColor = RBTREE_BLACK) :
    (Tree.node p RBTREE_BLACK kP (.node pp RBTREE_RED kp S Pl) (.node gp RBTREE_RED kg Pr U)).Balanced ∧
    (Tree.node p RBTREE_BLACK kP (.node pp RBTREE_RED kp S Pl) (.node gp RBTREE_RED kg Pr U)).NoRedRed ∧
    (Tree.node p RBTREE_BLACK kP (.node pp RBTREE_RED kp S Pl) (.node gp RBTREE_RED kg Pr U)).bh
      = Pl.bh + 1 := by
  simp only [Tree.balanced_node, Tree.noRedRed_red, Tree.noRedRed_black, Tree.bh_red,
    Tree.bh_black, Tree.rootColor_node] at *
  repeat' apply And.intro
  all_goals first | omega | tauto

theorem ins_pure2_right (pp gp : Nat) (kp kg : key_t) {p : Nat} {kP : key_t} {Pl Pr S U : Tree}
    (hb : (Tree.node p RBTREE_RED kP Pl Pr).Balanced) (hr : (Tree.node p RBTREE_RED kP Pl Pr).NoRedRed)
    (hS : S.Balanced ∧ S.NoRedRed ∧ S.bh = Pl.bh ∧ S.rootColor = RBTREE_BLACK)
    (hU : U.Balanced ∧ U.NoRedRed ∧ U.bh = Pl.bh) (hUc : U.rootColor = RBTREE_BLACK) :
    (Tree.node p RBTREE_BLACK kP (.node gp RBTREE_RED kg U Pl) (.node pp RBTREE_RED kp Pr S)).Balanced ∧
    (Tree.node p RBTREE_BLACK kP (.node gp RBTREE_RED kg U Pl) (.node pp RBTREE_RED kp Pr S)).NoRedRed ∧
    (Tree.node p RBTREE_BLACK kP (.node gp RBTREE_RED kg U Pl) (.node pp RBTREE_RED kp Pr S)).bh
      = Pl.bh + 1 := by
  simp only [Tree.balanced_node, Tree.noRedRed_red, Tree.noRedRed_black, Tree.bh_red,
    Tree.bh_black, Tree.rootColor_node] at *
  repeat' apply And.intro
  all_goals first | omega | tauto

theorem ins_pure1 (gp pp : Nat) (kg kp : key_t) {u : Nat} {ku : key_t} {A B Ul Ur : Tree} {n : Nat}
    (hA : A.Balanced ∧ A.NoRedRed ∧ A.bh = n) (hB : B.Balanced ∧ B.NoRedRed ∧ B.bh = n)
    (hU : (Tree.node u RBTREE_RED ku Ul Ur).Balanced ∧ (Tree.node u RBTREE_RED ku Ul Ur).NoRedRed ∧
      (Tree.node u RBTREE_RED ku Ul Ur).bh = n) :
    (Tree.node gp RBTREE_RED kg (.node pp RBTREE_BLACK kp A B)
      (.node u RBTREE_BLACK ku Ul Ur)).Balanced ∧
    (Tree.node gp RBTREE_RED kg (.node pp RBTREE_BLACK kp A B)
      (.node u RBTREE_BLACK ku Ul Ur)).NoRedRed ∧
    (Tree.node gp RBTREE_RED kg (.node u RBTREE_BLACK ku Ul Ur)
      (.node pp RBTREE_BLACK kp A B)).Balanced ∧
    (Tree.node gp RBTREE_RED kg (.node u RBTREE_BLACK ku Ul Ur)
      (.node pp RBTREE_BLACK kp A B)).NoRedRed ∧
    (Tree.node pp RBTREE_BLACK kp A B).bh = n + 1 ∧
    (Tree.node u RBTREE_BLACK ku Ul Ur).bh = n + 1 := by
  simp only [Tree.balanced_node, Tree.noRedRed_red, Tree.noRedRed_black, Tree.bh_red,
    Tree.bh_black, Tree.rootColor_node] at *
  repeat' apply And.intro
  all_goals first | omega | tauto

/-! ## Insertion fixup: the whole loop -/

theorem insert_fixedup_loop_spec : ∀ (n : Nat) (C : Ctx) (h : Heap) (t : rbtree) (p : Nat)
    (kP : key_t) (Pl Pr : Tree), C.depth ≤ n →
    Shape h t (C.plug (.node p RBTREE_RED kP Pl Pr)) →
    (Tree.node p RBTREE_RED kP Pl Pr).Balanced → (Tree.node p RBTREE_RED kP Pl Pr).NoRedRed →
    C.RB Pl.bh RBTREE_BLACK →
    ∀ fuel, n + 2 ≤ fuel → ∃ h' t' T', insert_fixedup_loop fuel h t (some p) = .ok (h', t') ∧
      t'.nil = t.nil ∧ Shape h' t' T' ∧ T'.Balanced ∧ T'.NoRedRed ∧
      T'.entries = (C.plug (.node p RBTREE_RED kP Pl Pr)).entries ∧
      (∀ a, a ∉ (C.plug (.node p RBTREE_RED kP Pl Pr)).addrs → h' a = h a) := by
  intro n
  induction n using Nat.strong_induction_on with
  | _ n ih =>
    intro C h t p kP Pl Pr hd s hb hr hC fuel hf
    obtain ⟨f, rfl⟩ : ∃ f, fuel = f + 1 := ⟨fuel - 1, by omega⟩
    rcases C with _ | ⟨pp, cp, kp, S, up1⟩ | ⟨pp, cp, kp, S, up1⟩
    · exact ⟨h, t, _, ins_exit_top f s, rfl, s, hb, hr, rfl, fun _ _ => rfl⟩
    · rcases color_cases cp with rfl | rfl
      · obtain ⟨hS1, hS2, hS3, hS4, hS5, hS6⟩ := RB_red_frame_left hC
        rcases up1 with _ | ⟨gp, cg, kg, U, up⟩ | ⟨gp, cg, kg, U, up⟩
        · exact absurd rfl hS5
        · obtain ⟨rfl, hU1, hU2, hU3, hU4⟩ := RB_under_red_left hS6
          simp only [Ctx.depth] at hd
          by_cases hU : U.rootColor = RBTREE_BLACK
          · obtain ⟨h3, t3, e3, n3, s3, f3⟩ := ins_case3_left f s hU
            obtain ⟨f', rfl⟩ : ∃ f', f = f' + 1 := ⟨f - 1, by omega⟩
            have hp3 := Shape.cell (.left pp RBTREE_BLACK kp _ up) s3
            have e4 := ins_exit_black f' (C := up) s3 (getParent_of hp3)
            obtain ⟨q1, q2, q3⟩ := ins_pure3_left pp gp kp kg
              hb hr ⟨hS1, hS2, hS3, hS4⟩ ⟨hU1, hU2, hU3⟩ hU
            have := plug_ok up _ q1 q2 (by rw [q3]; exact hU4)
            refine ⟨h3, t3, _, e3.trans e4, n3, s3, this.1, this.2.1, ?_, f3⟩
            simp [entries_plug, Tree.entries, Ctx.before, Ctx.after]
          · obtain ⟨u, ku, Ul, Ur, rfl⟩ := rootColor_red hU
            obtain ⟨h1, e1, s1, f1⟩ := ins_case1_left f s
              (getParent_of (Shape.cell (.left pp RBTREE_RED kp S (.left gp RBTREE_BLACK kg _ up)) s))
            obtain ⟨q1, q2, -, -, q5, -⟩ := ins_pure1 gp pp kg kp
              (A := .node p RBTREE_RED kP Pl Pr) (B := S) (n := Pl.bh)
              ⟨hb, hr, by simp⟩ ⟨hS1, hS2, hS3⟩ ⟨hU1, hU2, hU3⟩
            obtain ⟨h', t', T', e', n', s', b', r', en', f'⟩ :=
              ih up.depth (by omega) up h1 t gp kg _ _ le_rfl s1 q1 q2 (by rw [q5]; exact hU4)
                f (by omega)
            refine ⟨h', t', T', e1.trans e', n', s', b', r', ?_, ?_⟩
            · rw [en']; simp [entries_plug, Tree.entries, Ctx.before, Ctx.after]
            · intro a ha
              rw [f' a (by
                simp only [mem_addrs_plug, Ctx.addrs, Tree.addrs, List.mem_append, List.mem_cons,
                  not_or] at ha ⊢
                tauto), f1 a ha]
        · obtain ⟨rfl, hU1, hU2, hU3, hU4⟩ := RB_under_red_right hS6
          simp only [Ctx.depth] at hd
          by_cases hU : U.rootColor = RBTREE_BLACK
          · obtain ⟨h3, t3, e3, n3, s3, f3⟩ := ins_case2_right f s hU
            obtain ⟨f', rfl⟩ : ∃ f', f = f' + 1 := ⟨f - 1, by omega⟩
            have hp3 := Shape.cell (.right p RBTREE_BLACK kP _ up) s3
            have e4 := ins_exit_black f' (C := up) s3 (getParent_of hp3)
            obtain ⟨q1, q2, q3⟩ := ins_pure2_right pp gp kp kg
              hb hr ⟨hS1, hS2, hS3, hS4⟩ ⟨hU1, hU2, hU3⟩ hU
            have := plug_ok up _ q1 q2 (by rw [q3]; exact hU4)
            refine ⟨h3, t3, _, e3.trans e4, n3, s3, this.1, this.2.1, ?_, f3⟩
            simp [entries_plug, Tree.entries, Ctx.before, Ctx.after]
          · obtain ⟨u, ku, Ul, Ur, rfl⟩ := rootColor_red hU
            obtain ⟨h1, e1, s1, f1⟩ := ins_case1_right f s
              (getParent_of (Shape.cell (.left pp RBTREE_RED kp S (.right gp RBTREE_BLACK kg _ up)) s))
            obtain ⟨-, -, q1, q2, -, q5⟩ := ins_pure1 gp pp kg kp
              (A := .node p RBTREE_RED kP Pl Pr) (B := S) (n := Pl.bh)
              ⟨hb, hr, by simp⟩ ⟨hS1, hS2, hS3⟩ ⟨hU1, hU2, hU3⟩
            obtain ⟨h', t', T', e', n', s', b', r', en', f'⟩ :=
              ih up.depth (by omega) up h1 t gp kg _ _ le_rfl s1 q1 q2
                (by rw [q5]; exact hU4)
                f (by omega)
            refine ⟨h', t', T', e1.trans e', n', s', b', r', ?_, ?_⟩
            · rw [en']; simp [entries_plug, Tree.entries, Ctx.before, Ctx.after]
            · intro a ha
              rw [f' a (by
                simp only [mem_addrs_plug, Ctx.addrs, Tree.addrs, List.mem_append, List.mem_cons,
                  not_or] at ha ⊢
                tauto), f1 a ha]
      · have hp := Shape.cell (.left pp RBTREE_BLACK kp S up1) s
        have := plug_ok (.left pp RBTREE_BLACK kp S up1) _ hb hr (RB_black_frame_left hC _)
        exact ⟨h, t, _, ins_exit_black f (C := up1) s (getParent_of hp), rfl, s, this.1, this.2.1,
          rfl, fun _ _ => rfl⟩
    · rcases color_cases cp with rfl | rfl
      · obtain ⟨hS1, hS2, hS3, hS4, hS5, hS6⟩ := RB_red_frame_right hC
        rcases up1 with _ | ⟨gp, cg, kg, U, up⟩ | ⟨gp, cg, kg, U, up⟩
        · exact absurd rfl hS5
        · obtain ⟨rfl, hU1, hU2, hU3, hU4⟩ := RB_under_red_left hS6
          simp only [Ctx.depth] at hd
          by_cases hU : U.rootColor = RBTREE_BLACK
          · obtain ⟨h3, t3, e3, n3, s3, f3⟩ := ins_case2_left f s hU
            obtain ⟨f', rfl⟩ : ∃ f', f = f' + 1 := ⟨f - 1, by omega⟩
            have hp3 := Shape.cell (.left p RBTREE_BLACK kP _ up) s3
            have e4 := ins_exit_black f' (C := up) s3 (getParent_of hp3)
            obtain ⟨q1, q2, q3⟩ := ins_pure2_left pp gp kp kg
              hb hr ⟨hS1, hS2, hS3, hS4⟩ ⟨hU1, hU2, hU3⟩ hU
            have := plug_ok up _ q1 q2 (by rw [q3]; exact hU4)
            refine ⟨h3, t3, _, e3.trans e4, n3, s3, this.1, this.2.1, ?_, f3⟩
            simp [entries_plug, Tree.entries, Ctx.before, Ctx.after]
          · obtain ⟨u, ku, Ul, Ur, rfl⟩ := rootColor_red hU
            obtain ⟨h1, e1, s1, f1⟩ := ins_case1_left f s
              (getParent_of (Shape.cell (.right pp RBTREE_RED kp S (.left gp RBTREE_BLACK kg _ up)) s))
            obtain ⟨q1, q2, -, -, q5, -⟩ := ins_pure1 gp pp kg kp
              (A := S) (B := .node p RBTREE_RED kP Pl Pr) (n := Pl.bh)
              ⟨hS1, hS2, hS3⟩ ⟨hb, hr, by simp⟩ ⟨hU1, hU2, hU3⟩
            obtain ⟨h', t', T', e', n', s', b', r', en', f'⟩ :=
              ih up.depth (by omega) up h1 t gp kg _ _ le_rfl s1 q1 q2 (by rw [q5]; exact hU4)
                f (by omega)
            refine ⟨h', t', T', e1.trans e', n', s', b', r', ?_, ?_⟩
            · rw [en']; simp [entries_plug, Tree.entries, Ctx.before, Ctx.after]
            · intro a ha
              rw [f' a (by
                simp only [mem_addrs_plug, Ctx.addrs, Tree.addrs, List.mem_append, List.mem_cons,
                  not_or] at ha ⊢
                tauto), f1 a ha]
        · obtain ⟨rfl, hU1, hU2, hU3, hU4⟩ := RB_under_red_right hS6
          simp only [Ctx.depth] at hd
          by_cases hU : U.rootColor = RBTREE_BLACK
          · obtain ⟨h3, t3, e3, n3, s3, f3⟩ := ins_case3_right f s hU
            obtain ⟨f', rfl⟩ : ∃ f', f = f' + 1 := ⟨f - 1, by omega⟩
            have hp3 := Shape.cell (.right pp RBTREE_BLACK kp _ up) s3
            have e4 := ins_exit_black f' (C := up) s3 (getParent_of hp3)
            obtain ⟨q1, q2, q3⟩ := ins_pure3_right pp gp kp kg
              hb hr ⟨hS1, hS2, hS3, hS4⟩ ⟨hU1, hU2, hU3⟩ hU
            have := plug_ok up _ q1 q2 (by rw [q3]; exact hU4)
            refine ⟨h3, t3, _, e3.trans e4, n3, s3, this.1, this.2.1, ?_, f3⟩
            simp [entries_plug, Tree.entries, Ctx.before, Ctx.after]
          · obtain ⟨u, ku, Ul, Ur, rfl⟩ := rootColor_red hU
            obtain ⟨h1, e1, s1, f1⟩ := ins_case1_right f s
              (getParent_of (Shape.cell (.right pp RBTREE_RED kp S (.right gp RBTREE_BLACK kg _ up)) s))
            obtain ⟨-, -, q1, q2, -, q5⟩ := ins_pure1 gp pp kg kp
              (A := S) (B := .node p RBTREE_RED kP Pl Pr) (n := Pl.bh)
              ⟨hS1, hS2, hS3⟩ ⟨hb, hr, by simp⟩ ⟨hU1, hU2, hU3⟩
            obtain ⟨h', t', T', e', n', s', b', r', en', f'⟩ :=
              ih up.depth (by omega) up h1 t gp kg _ _ le_rfl s1 q1 q2 (by rw [q5]; exact hU4)
                f (by omega)
            refine ⟨h', t', T', e1.trans e', n', s', b', r', ?_, ?_⟩
            · rw [en']; simp [entries_plug, Tree.entries, Ctx.before, Ctx.after]
            · intro a ha
              rw [f' a (by
                simp only [mem_addrs_plug, Ctx.addrs, Tree.addrs, List.mem_append, List.mem_cons,
                  not_or] at ha ⊢
                tauto), f1 a ha]
      · have hp := Shape.cell (.right pp RBTREE_BLACK kp S up1) s
        have := plug_ok (.right pp RBTREE_BLACK kp S up1) _ hb hr (RB_black_frame_right hC _)
        exact ⟨h, t, _, ins_exit_black f (C := up1) s (getParent_of hp), rfl, s, this.1, this.2.1,
          rfl, fun _ _ => rfl⟩

/-! ## Insertion: the descent -/

theorem descend_plug (k : key_t) : ∀ (T : Tree) (C : Ctx),
    (T.descend k C).1.plug (.leaf (T.descend k C).2) = C.plug T := by
  intro T
  induction T with
  | leaf s => intro C; rfl
  | node a c kx l r ihl ihr =>
    intro C
    simp only [Tree.descend]
    split
    · rw [ihl]; rfl
    · rw [ihr]; rfl

theorem descend_depth (k : key_t) : ∀ (T : Tree) (C : Ctx),
    (T.descend k C).1.depth ≤ C.depth + T.height := by
  intro T
  induction T with
  | leaf s => intro C; simp [Tree.descend]
  | node a c kx l r ihl ihr =>
    intro C
    simp only [Tree.descend, Tree.height]
    split
    · have := ihl (.left a c kx r C); simp only [Ctx.depth] at this; omega
    · have := ihr (.right a c kx l C); simp only [Ctx.depth] at this; omega

theorem descend_dir (k : key_t) : ∀ (T : Tree) (C : Ctx), C.Dir k → (T.descend k C).1.Dir k := by
  intro T
  induction T with
  | leaf s => intro C h; exact h
  | node a c kx l r ihl ihr =>
    intro C h
    simp only [Tree.descend]
    split
    · exact ihl _ ⟨by assumption, h⟩
    · exact ihr _ ⟨by assumption, h⟩

theorem descend_ne_top (k : key_t) : ∀ (T : Tree) (C : Ctx), C ≠ .top → (T.descend k C).1 ≠ .top := by
  intro T
  induction T with
  | leaf s => intro C h; exact h
  | node a c kx l r ihl ihr =>
    intro C h
    simp only [Tree.descend]
    split
    · exact ihl _ (by simp)
    · exact ihr _ (by simp)

theorem insert_descend_spec {h : Heap} {t : rbtree} (k : key_t) (y0 : Ptr) :
    ∀ (T : Tree) (C : Ctx) (par : Ptr) (fuel : Nat), Rep h t.nil T par →
      (∀ a ∈ T.addrs, some a ≠ t.nil) → T.height < fuel → T ≠ .leaf false →
      insert_descend fuel h t k (T.ptr t.nil) (C.parOr y0) = .ok ((T.descend k C).1.parOr y0) := by
  intro T
  induction T with
  | leaf s =>
    intro C par fuel _ _ hf hne
    obtain ⟨f, rfl⟩ : ∃ f, fuel = f + 1 := ⟨fuel - 1, by omega⟩
    cases s
    · exact absurd rfl hne
    · simp [insert_descend, Tree.descend]
  | node a c kx l r ihl ihr =>
    intro C par fuel hrep hnf hf _
    obtain ⟨f, rfl⟩ : ∃ f, fuel = f + 1 := ⟨fuel - 1, by omega⟩
    obtain ⟨hc, hl, hr⟩ := hrep
    have hane : (some a : Ptr) ≠ t.nil := hnf a (by simp [Tree.addrs])
    simp only [Tree.height] at hf
    simp only [insert_descend, Tree.ptr_node, ne_eq, hane, not_false_eq_true, reduceCtorEq,
      and_self, if_true, getKey_of hc, getLeft_of hc, getRight_of hc, Res.ok_bind, Tree.descend]
    have key : ∀ (S : Tree) (C' : Ctx) (f' : Nat), Rep h t.nil S (some a) →
        (∀ b ∈ S.addrs, some b ≠ t.nil) → S.height < f' → C'.parOr y0 = some a →
        (∀ (C : Ctx) (par : Ptr) (fuel : Nat), Rep h t.nil S par →
          (∀ a ∈ S.addrs, some a ≠ t.nil) → S.height < fuel → S ≠ .leaf false →
          insert_descend fuel h t k (S.ptr t.nil) (C.parOr y0) = .ok ((S.descend k C).1.parOr y0)) →
        insert_descend f' h t k (S.ptr t.nil) (some a) = .ok ((S.descend k C').1.parOr y0) := by
      intro S C' f' hS hSn hSf hC' ih
      by_cases hS0 : S = .leaf false
      · subst hS0
        obtain ⟨f'', rfl⟩ : ∃ f'', f' = f'' + 1 := ⟨f' - 1, by omega⟩
        simp [insert_descend, Tree.descend, hC']
      · rw [← hC']; exact ih C' (some a) f' hS hSn hSf hS0
    split
    · exact key l _ f hl (fun b hb => hnf b (by simp [Tree.addrs, hb])) (by omega) rfl ihl
    · exact key r _ f hr (fun b hb => hnf b (by simp [Tree.addrs, hb])) (by omega) rfl ihr

/-- On a sorted tree, the descent for `k` ends between the keys that are `≤ k` and those `> k`. -/
theorem dir_sorted (k : key_t) : ∀ (C : Ctx), C.Dir k →
    (C.before ++ C.after).Pairwise (fun e e' => e.2 ≤ e'.2) →
    (∀ e ∈ C.before, e.2 ≤ k) ∧ (∀ e ∈ C.after, k < e.2) := by
  intro C
  induction C with
  | top => intro _ _; simp [Ctx.before, Ctx.after]
  | left a c kx r up ih =>
    intro hd hs
    simp only [Ctx.before, Ctx.after, Ctx.Dir] at hs hd ⊢
    have hsub : (up.before ++ up.after).Sublist (up.before ++ ((a, kx) :: r.entries ++ up.after)) :=
      List.Sublist.append (List.Sublist.refl _)
        (List.Sublist.trans (List.sublist_append_right _ _) (List.sublist_cons_self _ _))
    obtain ⟨i1, i2⟩ := ih hd.2 (hs.sublist hsub)
    rw [List.pairwise_append] at hs
    obtain ⟨-, hs2, -⟩ := hs
    rw [List.cons_append, List.pairwise_cons] at hs2
    refine ⟨i1, ?_⟩
    intro e he
    simp only [List.cons_append, List.mem_cons, List.mem_append] at he
    rcases he with rfl | he | he
    · exact hd.1
    · have := hs2.1 e (List.mem_append_left _ he)
      have h1 := hd.1
      simp only at this
      linarith
    · exact i2 e he
  | right a c kx l up ih =>
    intro hd hs
    simp only [Ctx.before, Ctx.after, Ctx.Dir] at hs hd ⊢
    have hsub : (up.before ++ up.after).Sublist (up.before ++ l.entries ++ [(a, kx)] ++ up.after) :=
      List.Sublist.append
        (List.Sublist.trans (List.sublist_append_left _ _) (List.sublist_append_left _ _))
        (List.Sublist.refl _)
    obtain ⟨i1, i2⟩ := ih hd.2 (hs.sublist hsub)
    rw [List.pairwise_append] at hs
    obtain ⟨hs1, -, -⟩ := hs
    rw [List.pairwise_append] at hs1
    obtain ⟨-, -, hs3⟩ := hs1
    refine ⟨?_, i2⟩
    intro e he
    simp only [List.mem_append, List.mem_singleton] at he
    have hk : kx ≤ k := not_lt.mp hd.1
    rcases he with (he | he) | rfl
    · exact i1 e he
    · have := hs3 e (List.mem_append_right _ he) (a, kx) (by simp)
      simp only at this
      linarith
    · exact hk

/-! ## Insertion: the whole operation -/

theorem Shape.live {h : Heap} {t : rbtree} {T : Tree} (s : Shape h t T) :
    ∀ a ∈ T.addrs, ∃ c, h a = some c := by
  have : ∀ (T : Tree) (par : Ptr), Rep h t.nil T par → ∀ a ∈ T.addrs, ∃ c, h a = some c := by
    intro T
    induction T with
    | leaf s => intro _ _ a ha; simp [Tree.addrs] at ha
    | node b c k l r ihl ihr =>
      intro par hr a ha
      simp only [Tree.addrs, List.mem_append, List.mem_cons] at ha
      rcases ha with ha | rfl | ha
      · exact ihl _ hr.2.1 a ha
      · exact ⟨_, hr.1⟩
      · exact ihr _ hr.2.2 a ha
  exact this T none s.rep

theorem Shape.fresh {h : Heap} {t : rbtree} {T : Tree} (s : Shape h t T) {z : Nat}
    (hz : h z = none) : z ∉ T.addrs ∧ (some z : Ptr) ≠ t.nil := by
  constructor
  · intro hm
    obtain ⟨c, hc⟩ := s.live z hm
    simp [hz] at hc
  · obtain ⟨n, c, hn, hc⟩ := s.nil_live
    rw [hn]
    intro e
    simp only [Option.some.injEq] at e
    subst e
    simp [hz] at hc

theorem insert_fixedup_spec {C : Ctx} {h : Heap} {t : rbtree} {p : Nat} {kP : key_t}
    {Pl Pr : Tree} (s : Shape h t (C.plug (.node p RBTREE_RED kP Pl Pr)))
    (hb : (Tree.node p RBTREE_RED kP Pl Pr).Balanced)
    (hr : (Tree.node p RBTREE_RED kP Pl Pr).NoRedRed) (hC : C.RB Pl.bh RBTREE_BLACK)
    (fuel : Nat) (hf : C.depth + 2 ≤ fuel) :
    ∃ h' t' T', insert_fixedup fuel h t (some p) = .ok (h', t') ∧
      t'.nil = t.nil ∧ Shape h' t' T' ∧ RBInv T' ∧
      T'.entries = (C.plug (.node p RBTREE_RED kP Pl Pr)).entries ∧
      (∀ a, a ∉ (C.plug (.node p RBTREE_RED kP Pl Pr)).addrs → h' a = h a) := by
  obtain ⟨h1, t1, T1, e1, n1, s1, b1, r1, en1, f1⟩ :=
    insert_fixedup_loop_spec C.depth C h t p kP Pl Pr le_rfl s hb hr hC fuel hf
  cases T1 with
  | leaf s0 => simp [entries_plug, Tree.entries] at en1
  | node a c k l r =>
    obtain ⟨h2, e2, s2, f2⟩ := setColor_spec .top s1 RBTREE_BLACK
    have hroot : t1.root = some a := s1.root_eq
    refine ⟨h2, t1, _, ?_, n1, s2, blacken_ok b1 r1, en1, ?_⟩
    · simp only [insert_fixedup, e1, Res.ok_bind, hroot, ne_eq, reduceCtorEq, not_false_eq_true,
        if_true, e2, Res.pure_eq]
    · intro x hx
      have hx' : x ≠ a := by
        rintro rfl
        apply hx
        rw [← Tree.entries_fst, ← en1, Tree.entries_fst]
        simp [Tree.addrs]
      rw [f2 x hx', f1 x hx]

theorem setParent_root {h : Heap} {t : rbtree} {T : Tree} (s : Shape h t T) :
    (if t.root ≠ none then setParent h t.root none else pure h) = .ok h := by
  cases T with
  | leaf s0 =>
    cases s0
    · simp [s.root_eq]
    · exact absurd rfl s.top_ne
  | node a c k l r =>
    have hc := Shape.cell .top s
    simp only [s.root_eq, Tree.ptr_node, ne_eq, reduceCtorEq, not_false_eq_true, if_true,
      setParent, store, hc, Ctx.par]
    congr 1
    exact Function.update_eq_self_iff.2 hc.symm

theorem link_left {h : Heap} {t : rbtree} {y : Nat} {cy : color_t} {ky : key_t} {r : Tree}
    {up : Ctx} {s0 : Bool} {z : Nat} (k : key_t)
    (zs : ZShape h t (.left y cy ky r up) (.leaf s0)) (hz : h z = none) :
    ZShape (Function.update (Function.update h z (some ⟨RBTREE_RED, k, some y, none, none⟩)) y
        (some ⟨cy, ky, up.par, some z, r.ptr t.nil⟩)) t (.left y cy ky r up)
      (.node z RBTREE_RED k (.leaf false) (.leaf false)) := by
  have sh := (Shape_plug_iff _ _ _ _).2 zs
  obtain ⟨hz1, hz2⟩ := Shape.fresh sh hz
  simp only [mem_addrs_plug, Ctx.addrs, Tree.addrs, List.mem_append, List.mem_cons,
    List.not_mem_nil, or_false, not_or, List.cons_append] at hz1
  obtain ⟨hroot, -, hrc, -, hnd, ⟨n, cn, hnn, hnl⟩, hnf⟩ := zs
  simp only [Ctx.addrs, Tree.addrs, List.append_nil, List.cons_append, List.nodup_cons,
    List.mem_append, not_or, List.nodup_append] at hnd
  obtain ⟨hy, hr1, hu⟩ := hrc
  have hzy : z ≠ y := hz1.1
  refine ⟨(by simpa [Ctx.rootPtr] using hroot), (by intro e; cases e), ?_, ?_, ?_, ⟨n, cn, hnn, ?_⟩, ?_⟩
  · refine ⟨by simp [upd_ne1, upd_ne2], ?_, ?_⟩
    · rw [Rep_update hnd.1.1, Rep_update hz1.2.1]; exact hr1
    · rw [RepCtx_update hnd.1.2, RepCtx_update hz1.2.2]; exact hu
  · exact ⟨by simp [upd_ne1 (Ne.symm hzy), Ctx.par], trivial, trivial⟩
  · simp only [Ctx.addrs, Tree.addrs, List.nil_append, List.cons_append, List.nodup_cons,
      List.mem_append, List.mem_cons, List.not_mem_nil, or_false, not_or, List.nodup_append,
      List.nodup_nil, and_true, List.disjoint_cons_right, List.disjoint_nil_right,
      List.mem_singleton, List.append_nil, List.disjoint_singleton, not_false_eq_true,
      true_and, List.nodup_singleton]
    simp only [List.disjoint_left] at hnd ⊢
    exact ⟨⟨⟨hnd.1.1, hnd.1.2⟩, Ne.symm hzy⟩, ⟨hnd.2.1, hnd.2.2.1, hnd.2.2.2⟩, hz1.2.1, hz1.2.2⟩
  · have hny : y ≠ n := by
      rintro rfl; exact hnf y (by simp [Ctx.addrs]) hnn.symm
    have hnz : z ≠ n := by
      rintro rfl; exact hz2 hnn.symm
    rw [upd_ne1 hny, upd_ne1 hnz]; exact hnl
  · intro a ha
    simp only [Ctx.addrs, Tree.addrs, List.nil_append, List.cons_append, List.mem_cons,
      List.mem_append, List.not_mem_nil, or_false, List.append_nil] at ha hnf
    rcases ha with rfl | ha | rfl
    · exact hnf _ (Or.inl rfl)
    · exact hnf _ (Or.inr ha)
    · exact hz2

theorem link_right {h : Heap} {t : rbtree} {y : Nat} {cy : color_t} {ky : key_t} {r : Tree}
    {up : Ctx} {s0 : Bool} {z : Nat} (k : key_t)
    (zs : ZShape h t (.right y cy ky r up) (.leaf s0)) (hz : h z = none) :
    ZShape (Function.update (Function.update h z (some ⟨RBTREE_RED, k, some y, none, none⟩)) y
        (some ⟨cy, ky, up.par, r.ptr t.nil, some z⟩)) t (.right y cy ky r up)
      (.node z RBTREE_RED k (.leaf false) (.leaf false)) := by
  have sh := (Shape_plug_iff _ _ _ _).2 zs
  obtain ⟨hz1, hz2⟩ := Shape.fresh sh hz
  simp only [mem_addrs_plug, Ctx.addrs, Tree.addrs, List.mem_append, List.mem_cons,
    List.not_mem_nil, or_false, not_or, List.cons_append] at hz1
  obtain ⟨hroot, -, hrc, -, hnd, ⟨n, cn, hnn, hnl⟩, hnf⟩ := zs
  simp only [Ctx.addrs, Tree.addrs, List.append_nil, List.cons_append, List.nodup_cons,
    List.mem_append, not_or, List.nodup_append] at hnd
  obtain ⟨hy, hr1, hu⟩ := hrc
  have hzy : z ≠ y := hz1.1
  refine ⟨(by simpa [Ctx.rootPtr] using hroot), (by intro e; cases e), ?_, ?_, ?_, ⟨n, cn, hnn, ?_⟩, ?_⟩
  · refine ⟨by simp [upd_ne1, upd_ne2], ?_, ?_⟩
    · rw [Rep_update hnd.1.1, Rep_update hz1.2.1]; exact hr1
    · rw [RepCtx_update hnd.1.2, RepCtx_update hz1.2.2]; exact hu
  · exact ⟨by simp [upd_ne1 (Ne.symm hzy), Ctx.par], trivial, trivial⟩
  · simp only [Ctx.addrs, Tree.addrs, List.nil_append, List.cons_append, List.nodup_cons,
      List.mem_append, List.mem_cons, List.not_mem_nil, or_false, not_or, List.nodup_append,
      List.nodup_nil, and_true, List.disjoint_cons_right, List.disjoint_nil_right,
      List.mem_singleton, List.append_nil, List.disjoint_singleton, not_false_eq_true,
      true_and, List.nodup_singleton]
    simp only [List.disjoint_left] at hnd ⊢
    exact ⟨⟨⟨hnd.1.1, hnd.1.2⟩, Ne.symm hzy⟩, ⟨hnd.2.1, hnd.2.2.1, hnd.2.2.2⟩, hz1.2.1, hz1.2.2⟩
  · have hny : y ≠ n := by
      rintro rfl; exact hnf y (by simp [Ctx.addrs]) hnn.symm
    have hnz : z ≠ n := by
      rintro rfl; exact hz2 hnn.symm
    rw [upd_ne1 hny, upd_ne1 hnz]; exact hnl
  · intro a ha
    simp only [Ctx.addrs, Tree.addrs, List.nil_append, List.cons_append, List.mem_cons,
      List.mem_append, List.not_mem_nil, or_false, List.append_nil] at ha hnf
    rcases ha with rfl | ha | rfl
    · exact hnf _ (Or.inl rfl)
    · exact hnf _ (Or.inr ha)
    · exact hz2

theorem rbtree_insert_spec {h : Heap} {t : rbtree} {T : Tree} (k : key_t) {z : Nat}
    (s : Shape h t T) (hI : RBInv T) (hz : h z = none) (fuel : Nat) (hf : T.height + 2 ≤ fuel) :
    ∃ h' t' T' pre post, rbtree_insert fuel h (some t) k (some z) = .ok (h', some t', some z) ∧
      t'.nil = t.nil ∧ Shape h' t' T' ∧ RBInv T' ∧
      T.entries = pre ++ post ∧ T'.entries = pre ++ (z, k) :: post ∧
      (T.entries.Pairwise (fun e e' => e.2 ≤ e'.2) →
        (∀ e ∈ pre, e.2 ≤ k) ∧ (∀ e ∈ post, k < e.2)) ∧
      (∀ a, a ≠ z → a ∉ T.addrs → h' a = h a) := by
  obtain ⟨hz1, hz2⟩ := Shape.fresh s hz
  have hnn := Shape.nil_ne_none s
  obtain ⟨f, rfl⟩ : ∃ f, fuel = f + 1 := ⟨fuel - 1, by omega⟩
  cases T with
  | leaf s0 =>
    cases s0
    · refine ⟨Function.update h z (some ⟨RBTREE_BLACK, k, none, none, none⟩), ⟨some z, t.nil⟩,
        .node z RBTREE_BLACK k (.leaf false) (.leaf false), [], [], ?_, rfl, ?_, ?_, rfl, rfl,
        fun _ => by simp, fun a ha _ => upd_ne2 ha⟩
      · obtain ⟨f', rfl⟩ : ∃ f', f = f' + 1 := ⟨f - 1, by omega⟩
        simp only [rbtree_insert, s.root_eq, Tree.ptr_leaf_false, ne_eq, not_true_eq_false,
          if_false, calloc, setKey, setColor, setLeft, setRight, setParent, getParent, load, store,
          Function.update_same, Function.update_idem, Res.ok_bind, Res.bind_ok', Res.pure_eq,
          insert_descend, insert_fixedup, insert_fixedup_loop, reduceCtorEq, not_false_eq_true,
          true_and, and_false, and_true, if_true, zero_node, hnn]
      · obtain ⟨n, c, hn, hc⟩ := s.nil_live
        refine ⟨rfl, by simp, ⟨by simp, trivial, trivial⟩, by simp [Tree.addrs], ⟨n, c, hn, ?_⟩, ?_⟩
        · have : z ≠ n := by rintro rfl; exact hz2 hn.symm
          rw [upd_ne1 this]; exact hc
        · intro a ha
          simp only [Tree.addrs, List.nil_append, List.mem_singleton] at ha
          subst ha; exact hz2
      · exact ⟨rfl, by simp, by simp⟩
    · exact absurd rfl s.top_ne
  | node a0 c0 k0 l0 r0 =>
    generalize hT : Tree.node a0 c0 k0 l0 r0 = T at s hI hf hz1
    have hroot : t.root = some a0 := by rw [s.root_eq, ← hT]; rfl
    have hTn : T ≠ .leaf false := by rw [← hT]; exact fun e => by cases e
    have hplug := descend_plug k T .top
    have hdir := descend_dir k T .top trivial
    have hdep := descend_depth k T .top
    have hCne : (T.descend k .top).1 ≠ .top := by
      rw [← hT]
      simp only [Tree.descend]
      split <;> exact descend_ne_top k _ _ (by simp)
    -- the state right after the new cell has been filled in
    have s1 : Shape (Function.update h z (some ⟨RBTREE_RED, k, t.nil, none, none⟩)) t T := by
      obtain ⟨n, c, hn, hc⟩ := s.nil_live
      refine ⟨s.root_eq, s.top_ne, (Rep_update hz1).2 s.rep, s.nodup, ⟨n, c, hn, ?_⟩, s.nil_fresh⟩
      have : z ≠ n := by rintro rfl; exact hz2 hn.symm
      rw [upd_ne1 this]; exact hc
    have hd := insert_descend_spec k t.nil T .top none (f + 1) s1.rep s1.nil_fresh (by omega) hTn
    rw [← s1.root_eq, hroot] at hd
    generalize hCs : T.descend k .top = Cs at hplug hdir hdep hCne hd
    obtain ⟨C, s0⟩ := Cs
    simp only [Ctx.parOr] at hd hplug hdir hdep hCne
    simp only [Ctx.plug] at hplug
    rw [← hplug] at s hI hz1 s1
    have hpair : T.entries = C.before ++ C.after := by
      rw [← hplug, entries_plug]; simp [Tree.entries]
    have hC := (unplug_ok C (.leaf s0) hI.balanced hI.no_red_red hI.root_black).2.2.1
    simp only [Tree.bh_leaf, Tree.rootColor_leaf] at hC
    have zs := (Shape_plug_iff _ _ _ _).1 s
    simp only [Ctx.depth, Nat.zero_add] at hdep
    generalize hres : rbtree_insert (f + 1) h (some t) k (some z) = res
    rcases C with _ | ⟨y, cy, ky, r, up⟩ | ⟨y, cy, ky, l, up⟩
    · exact absurd rfl hCne
    · dsimp only at hd
      have hy := zs.repc.1
      have hyn : (some y : Ptr) ≠ t.nil := zs.nil_fresh y (by simp [Ctx.addrs])
      have hzy : z ≠ y := by
        rintro rfl; exact hz1 (mem_addrs_plug.2 (Or.inl (by simp [Ctx.addrs])))
      have sH2 := (Shape_plug_iff _ _ _ _).2 (link_left k zs hz)
      obtain ⟨h3, t3, T3, e3, n3, s3, i3, en3, f3⟩ := insert_fixedup_spec sH2 (by simp) (by simp)
        (by simpa using hC) (f + 1) (by omega)
      simp only [rbtree_insert, hroot, ne_eq, reduceCtorEq, not_false_eq_true,
          if_false, if_true, calloc, setKey, setColor, setLeft, setRight, setParent, load, store,
          Function.update_same, Function.update_idem, Res.ok_bind, Res.bind_ok', Res.pure_eq,
          zero_node, hd, hyn, getKey, upd_ne1 hzy, hy, hdir.1, e3] at hres
      obtain ⟨a3, c3, k3, l3, r3, rfl⟩ : ∃ a3 c3 k3 l3 r3, T3 = .node a3 c3 k3 l3 r3 := by
        cases T3 with
        | leaf _ => simp [entries_plug, Tree.entries] at en3
        | node a3 c3 k3 l3 r3 => exact ⟨a3, c3, k3, l3, r3, rfl⟩
      have hc3 := Shape.cell .top s3
      simp only [Ctx.par] at hc3
      have hr3 : t3.root = some a3 := s3.root_eq
      have hself : Function.update h3 a3 (some ⟨c3, k3, none, l3.ptr t3.nil, r3.ptr t3.nil⟩) = h3 := by
        rw [← hc3]; exact Function.update_eq_self a3 h3
      simp only [hr3, hc3, reduceCtorEq, not_false_eq_true, if_true, Res.ok_bind, hself] at hres
      subst hres
      refine ⟨h3, t3, _, _, _, rfl, n3, s3, i3, hpair, ?_, ?_, ?_⟩
      · rw [en3, entries_plug]; simp [Tree.entries]
      · intro hp; rw [hpair] at hp; exact dir_sorted k _ hdir hp
      · intro a ha1 ha2
        rw [← hplug] at ha2
        have hay : a ≠ y := by
          rintro rfl; exact ha2 (mem_addrs_plug.2 (Or.inl (by simp [Ctx.addrs])))
        rw [f3 a (by
          simp only [mem_addrs_plug, Tree.addrs, List.mem_append, List.mem_cons, List.not_mem_nil,
            or_false, false_or, not_or] at ha2 ⊢
          exact ⟨ha2, ha1⟩), upd_ne2 hay, upd_ne2 ha1]
    · dsimp only at hd
      have hy := zs.repc.1
      have hyn : (some y : Ptr) ≠ t.nil := zs.nil_fresh y (by simp [Ctx.addrs])
      have hzy : z ≠ y := by
        rintro rfl; exact hz1 (mem_addrs_plug.2 (Or.inl (by simp [Ctx.addrs])))
      have sH2 := (Shape_plug_iff _ _ _ _).2 (link_right k zs hz)
      obtain ⟨h3, t3, T3, e3, n3, s3, i3, en3, f3⟩ := insert_fixedup_spec sH2 (by simp) (by simp)
        (by simpa using hC) (f + 1) (by omega)
      simp only [rbtree_insert, hroot, ne_eq, reduceCtorEq, not_false_eq_true,
          if_false, if_true, calloc, setKey, setColor, setLeft, setRight, setParent, load, store,
          Function.update_same, Function.update_idem, Res.ok_bind, Res.bind_ok', Res.pure_eq,
          zero_node, hd, hyn, getKey, upd_ne1 hzy, hy, hdir.1, e3, if_false] at hres
      obtain ⟨a3, c3, k3, l3, r3, rfl⟩ : ∃ a3 c3 k3 l3 r3, T3 = .node a3 c3 k3 l3 r3 := by
        cases T3 with
        | leaf _ => simp [entries_plug, Tree.entries] at en3
        | node a3 c3 k3 l3 r3 => exact ⟨a3, c3, k3, l3, r3, rfl⟩
      have hc3 := Shape.cell .top s3
      simp only [Ctx.par] at hc3
      have hr3 : t3.root = some a3 := s3.root_eq
      have hself : Function.update h3 a3 (some ⟨c3, k3, none, l3.ptr t3.nil, r3.ptr t3.nil⟩) = h3 := by
        rw [← hc3]; exact Function.update_eq_self a3 h3
      simp only [hr3, hc3, reduceCtorEq, not_false_eq_true, if_true, Res.ok_bind, hself] at hres
      subst hres
      refine ⟨h3, t3, _, _, _, rfl, n3, s3, i3, hpair, ?_, ?_, ?_⟩
      · rw [en3, entries_plug]; simp [Tree.entries]
      · intro hp; rw [hpair] at hp; exact dir_sorted k _ hdir hp
      · intro a ha1 ha2
        rw [← hplug] at ha2
        have hay : a ≠ y := by
          rintro rfl; exact ha2 (mem_addrs_plug.2 (Or.inl (by simp [Ctx.addrs])))
        rw [f3 a (by
          simp only [mem_addrs_plug, Tree.addrs, List.mem_append, List.mem_cons, List.not_mem_nil,
            or_false, false_or, not_or] at ha2 ⊢
          exact ⟨ha2, ha1⟩), upd_ne2 hay, upd_ne2 ha1]

theorem ex_rb : RBInv exTree := by
  refine ⟨rfl, ?_, ?_⟩ <;> simp [exTree]

theorem sorted_keys_iff (T : Tree) :
    T.keys.Sorted (· ≤ ·) ↔ T.entries.Pairwise (fun e e' => e.2 ≤ e'.2) := by
  rw [← Tree.entries_snd, List.Sorted, List.pairwise_map]

theorem pairwise_insert_mid {pre post : List (Nat × key_t)} {z : Nat} {k : key_t}
    (hp : (pre ++ post).Pairwise (fun e e' => e.2 ≤ e'.2))
    (h1 : ∀ e ∈ pre, e.2 ≤ k) (h2 : ∀ e ∈ post, k < e.2) :
    (pre ++ (z, k) :: post).Pairwise (fun e e' => e.2 ≤ e'.2) := by
  rw [List.pairwise_append] at hp ⊢
  refine ⟨hp.1, List.pairwise_cons.2 ⟨fun e he => le_of_lt (h2 e he), hp.2.1⟩, ?_⟩
  intro a ha b hb
  rcases List.mem_cons.1 hb with rfl | hb
  · exact h1 a ha
  · exact hp.2.2 a ha b hb

/-- C1: `rbtree_insert` preserves the red-black conditions.  On a state that holds a tree whose
root is BLACK and parentless, with no RED node above a RED child and the same number of BLACK
nodes on every path, inserting any key into freshly allocated storage `z` succeeds (with enough
fuel), returns `z`, and leaves a state that holds a tree with the same three properties. -/
theorem rbtree_insert_preserves_rb (h : Heap) (t : rbtree) (T : Tree) (k : key_t) (z : Nat)
    (fuel : Nat) (hS : Shape h t T) (hI : RBInv T) (hz : h z = none)
    (hfuel : T.height + 2 ≤ fuel) :
    ∃ h' t' T', rbtree_insert fuel h (some t) k (some z) = .ok (h', some t', some z) ∧
      Shape h' t' T' ∧ RBInv T' := by
  obtain ⟨h', t', T', _, _, e, _, s', i', _⟩ := rbtree_insert_spec k hS hI hz fuel hfuel
  exact ⟨h', t', T', e, s', i'⟩

/-- Witness for C1: inserting 25 into the three-node example tree. -/
theorem rbtree_insert_preserves_rb_witness :
    ∃ h' t' T', rbtree_insert 4 exHeap (some exT) 25 (some 4) = .ok (h', some t', some 4) ∧
      Shape h' t' T' ∧ RBInv T' :=
  rbtree_insert_preserves_rb exHeap exT exTree 25 4 4 ex_shape ex_rb rfl (by decide)

/-- C5: insert position and tie-break.  On a red-black tree whose in-order keys are
non-decreasing, `rbtree_insert` returns the new node `z`, which holds `k`; the in-order
sequence of the new tree is the old one with `(z, k)` put in after every old node whose key
is `≤ k` and before every old node whose key is `> k`, the old nodes keeping their relative
order; so the in-order keys stay non-decreasing. -/
theorem rbtree_insert_position (h : Heap) (t : rbtree) (T : Tree) (k : key_t) (z : Nat)
    (fuel : Nat) (hS : Shape h t T) (hI : RBInv T) (hsorted : T.keys.Sorted (· ≤ ·))
    (hz : h z = none) (hfuel : T.height + 2 ≤ fuel) :
    ∃ h' t' T' pre post, rbtree_insert fuel h (some t) k (some z) = .ok (h', some t', some z) ∧
      Shape h' t' T' ∧ T.entries = pre ++ post ∧ T'.entries = pre ++ (z, k) :: post ∧
      (∀ e ∈ pre, e.2 ≤ k) ∧ (∀ e ∈ post, k < e.2) ∧ T'.keys.Sorted (· ≤ ·) := by
  obtain ⟨h', t', T', pre, post, e, _, s', _, e1, e2, hb, _⟩ :=
    rbtree_insert_spec k hS hI hz fuel hfuel
  have hp := (sorted_keys_iff T).1 hsorted
  obtain ⟨b1, b2⟩ := hb hp
  refine ⟨h', t', T', pre, post, e, s', e1, e2, b1, b2, ?_⟩
  rw [sorted_keys_iff, e2]
  rw [e1] at hp
  exact pairwise_insert_mid hp b1 b2

/-- Witness for C5: inserting a second 20 into the three-node example tree. -/
theorem rbtree_insert_position_witness :
    ∃ h' t' T' pre post, rbtree_insert 4 exHeap (some exT) 20 (some 4) = .ok (h', some t', some 4) ∧
      Shape h' t' T' ∧ exTree.entries = pre ++ post ∧ T'.entries = pre ++ (4, 20) :: post ∧
      (∀ e ∈ pre, e.2 ≤ 20) ∧ (∀ e ∈ post, 20 < e.2) ∧ T'.keys.Sorted (· ≤ ·) :=
  rbtree_insert_position exHeap exT exTree 20 4 4 ex_shape ex_rb (by decide) rfl (by decide)

/-! ## Transplant -/

theorem transplant_spec_right {h : Heap} {t : rbtree} {C : Ctx} {u : Nat} {cu : color_t}
    {ku : key_t} {L V : Tree} (z : ZShape h t C (.node u cu ku L V)) :
    ∃ h' t', transplant h t (some u) (V.ptr t.nil) = .ok (h', t') ∧ t'.nil = t.nil ∧
      ZShape h' t' C (V.hang C.isTop) ∧
      (∀ a, a ∉ C.addrs ++ V.addrs → h' a = h a) := by
  obtain ⟨hroot, -, hrc, hr, hnd, ⟨n, cn, hnn, hnl⟩, hnf⟩ := z
  simp only [Rep, Tree.ptr_node] at hr
  obtain ⟨hu, hL, hV⟩ := hr
  have hun : (some u : Ptr) ≠ t.nil := hnf u (by simp [Tree.addrs])
  have hnn' : t.nil ≠ none := by simp [hnn]
  have hnd0 : (C.addrs ++ V.addrs).Nodup := by
    refine hnd.sublist (List.Sublist.append (List.Sublist.refl _) ?_)
    simp only [Tree.addrs]
    exact List.Sublist.trans (List.sublist_cons_self _ _) (List.sublist_append_right _ _)
  have hnf0 : ∀ a ∈ C.addrs ++ V.addrs, some a ≠ t.nil := by
    intro a ha
    apply hnf a
    simp only [Tree.addrs, List.mem_append, List.mem_cons] at ha ⊢
    tauto
  rcases C with _ | ⟨a, c, k, r, up⟩ | ⟨a, c, k, l, up⟩ <;>
  rcases V with ⟨_ | _⟩ | ⟨b, cb, kb, Bl, Br⟩ <;>
  simp only [Tree.addrs, Ctx.addrs, List.nodup_append, List.nodup_cons, List.mem_append, List.mem_cons,
    List.disjoint_cons_left, List.disjoint_cons_right, List.disjoint_append_left,
    List.disjoint_append_right, not_or, List.nil_append, List.not_mem_nil, List.append_nil,
    List.nodup_nil, List.disjoint_nil_left, List.disjoint_nil_right, true_and, and_true,
    not_false_eq_true, List.cons_append] at hnd <;>
  simp only [RepCtx, Rep, Tree.ptr_node, Tree.ptr_leaf_true, Tree.ptr_leaf_false] at hrc hV
  all_goals (
    simp only [Tree.addrs, Ctx.addrs, List.mem_append, List.mem_cons, or_imp, forall_and, forall_eq,
      List.not_mem_nil, false_imp_iff, implies_true, true_and, and_true, List.nil_append,
      List.cons_append] at hnf
    generalize hres : transplant h t (some u) _ = res
    simp only [transplant, getRight, getLeft, getParent, getColor, getKey, setRight, setLeft,
      setParent, setColor, load, store, Res.bind_ok', Res.ok_bind, Res.pure_eq, Ctx.par, ne_eq,
      Function.update_same, Function.update_idem, upd_ne1, upd_ne2, reduceCtorEq, or_self, or_true,
      true_or, or_false, false_or, and_self, and_true, true_and, and_false, false_and,
      not_true_eq_false, not_false_eq_true, ↓reduceIte, if_true, if_false, Option.some.injEq,
      Tree.ptr_node, Tree.ptr_leaf_true, Tree.ptr_leaf_false, Tree.some_ne_ptr, Tree.ptr_ne_some,
      hu, hrc, hV, hnd, hun, Ne.symm hun, hnn', hnf] at hres
    subst hres
    refine ⟨_, _, rfl, rfl, and_of_right ?_ (fun hfr => ?_)⟩
    · intro a' ha'
      simp only [Tree.addrs, Ctx.addrs, List.mem_append, List.mem_cons, not_or, List.not_mem_nil,
        not_false_eq_true, true_and, List.cons_append] at ha'
      simp [upd_ne2, ha']
    · constructor
      · simp [Ctx.rootPtr, hroot, Tree.hang, Ctx.isTop]
      · simp [Tree.hang, Ctx.isTop]
      · simp [RepCtx, Ctx.par, upd_ne1, upd_ne2, hnd, Rep_update, RepCtx_update, hrc, Tree.hang,
          Ctx.isTop]
      · simp [Rep, Ctx.par, upd_ne1, upd_ne2, hnd, Rep_update, hV, Tree.hang, Ctx.isTop]
      · simp only [Tree.addrs, Ctx.addrs, Tree.hang] at hnd0 ⊢; exact hnd0
      · exact ⟨n, cn, hnn, by rw [hfr n (fun hm => hnf0 n hm hnn.symm)]; exact hnl⟩
      · simp only [Tree.addrs, Ctx.addrs, Tree.hang] at hnf0 ⊢; exact hnf0)

theorem transplant_spec_left {h : Heap} {t : rbtree} {C : Ctx} {u : Nat} {cu : color_t}
    {ku : key_t} {V R : Tree} (z : ZShape h t C (.node u cu ku V R)) :
    ∃ h' t', transplant h t (some u) (V.ptr t.nil) = .ok (h', t') ∧ t'.nil = t.nil ∧
      ZShape h' t' C (V.hang C.isTop) ∧
      (∀ a, a ∉ C.addrs ++ V.addrs → h' a = h a) := by
  obtain ⟨hroot, -, hrc, hr, hnd, ⟨n, cn, hnn, hnl⟩, hnf⟩ := z
  simp only [Rep, Tree.ptr_node] at hr
  obtain ⟨hu, hV, hR⟩ := hr
  have hun : (some u : Ptr) ≠ t.nil := hnf u (by simp [Tree.addrs])
  have hnn' : t.nil ≠ none := by simp [hnn]
  have hnd0 : (C.addrs ++ V.addrs).Nodup := by
    refine hnd.sublist (List.Sublist.append (List.Sublist.refl _) ?_)
    simp only [Tree.addrs]
    exact List.sublist_append_left _ _
  have hnf0 : ∀ a ∈ C.addrs ++ V.addrs, some a ≠ t.nil := by
    intro a ha
    apply hnf a
    simp only [Tree.addrs, List.mem_append, List.mem_cons] at ha ⊢
    tauto
  rcases C with _ | ⟨a, c, k, r, up⟩ | ⟨a, c, k, l, up⟩ <;>
  rcases V with ⟨_ | _⟩ | ⟨b, cb, kb, Bl, Br⟩ <;>
  simp only [Tree.addrs, Ctx.addrs, List.nodup_append, List.nodup_cons, List.mem_append, List.mem_cons,
    List.disjoint_cons_left, List.disjoint_cons_right, List.disjoint_append_left,
    List.disjoint_append_right, not_or, List.nil_append, List.not_mem_nil, List.append_nil,
    List.nodup_nil, List.disjoint_nil_left, List.disjoint_nil_right, true_and, and_true,
    not_false_eq_true, List.cons_append] at hnd <;>
  simp only [RepCtx, Rep, Tree.ptr_node, Tree.ptr_leaf_true, Tree.ptr_leaf_false] at hrc hV
  all_goals (
    simp only [Tree.addrs, Ctx.addrs, List.mem_append, List.mem_cons, or_imp, forall_and, forall_eq,
      List.not_mem_nil, false_imp_iff, implies_true, true_and, and_true, List.nil_append,
      List.cons_append] at hnf
    generalize hres : transplant h t (some u) _ = res
    simp only [transplant, getRight, getLeft, getParent, getColor, getKey, setRight, setLeft,
      setParent, setColor, load, store, Res.bind_ok', Res.ok_bind, Res.pure_eq, Ctx.par, ne_eq,
      Function.update_same, Function.update_idem, upd_ne1, upd_ne2, reduceCtorEq, or_self, or_true,
      true_or, or_false, false_or, and_self, and_true, true_and, and_false, false_and,
      not_true_eq_false, not_false_eq_true, ↓reduceIte, if_true, if_false, Option.some.injEq,
      Tree.ptr_node, Tree.ptr_leaf_true, Tree.ptr_leaf_false, Tree.some_ne_ptr, Tree.ptr_ne_some,
      hu, hrc, hV, hnd, hun, Ne.symm hun, hnn', hnf] at hres
    subst hres
    refine ⟨_, _, rfl, rfl, and_of_right ?_ (fun hfr => ?_)⟩
    · intro a' ha'
      simp only [Tree.addrs, Ctx.addrs, List.mem_append, List.mem_cons, not_or, List.not_mem_nil,
        not_false_eq_true, true_and, List.cons_append] at ha'
      simp [upd_ne2, ha']
    · constructor
      · simp [Ctx.rootPtr, hroot, Tree.hang, Ctx.isTop]
      · simp [Tree.hang, Ctx.isTop]
      · simp [RepCtx, Ctx.par, upd_ne1, upd_ne2, hnd, Rep_update, RepCtx_update, hrc, Tree.hang,
          Ctx.isTop]
      · simp [Rep, Ctx.par, upd_ne1, upd_ne2, hnd, Rep_update, hV, Tree.hang, Ctx.isTop]
      · simp only [Tree.addrs, Ctx.addrs, Tree.hang] at hnd0 ⊢; exact hnd0
      · exact ⟨n, cn, hnn, by rw [hfr n (fun hm => hnf0 n hm hnn.symm)]; exact hnl⟩
      · simp only [Tree.addrs, Ctx.addrs, Tree.hang] at hnf0 ⊢; exact hnf0)

/-! ## Deletion fixup, one iteration at a time -/

@[simp] theorem Tree.xptr_node (nl : Ptr) (a : Nat) (c : color_t) (k : key_t) (l r : Tree) :
    (Tree.node a c k l r).xptr nl = some a := rfl
@[simp] theorem Tree.xptr_leaf (nl : Ptr) (s : Bool) : (Tree.leaf s).xptr nl = nl := rfl

theorem Tree.xptr_eq_ptr {nl : Ptr} {T : Tree} (h : T ≠ .leaf false) : T.xptr nl = T.ptr nl := by
  cases T with
  | leaf s => cases s <;> simp_all
  | node a c k l r => rfl

/-- The root reference is an address of the tree, different from every other one. -/
theorem Shape.root_ne {h : Heap} {t : rbtree} {a : Nat} {c : color_t} {k : key_t} {A B : Tree}
    (s : Shape h t (.node a c k A B)) : t.root = some a := s.root_eq

theorem rootPtr_mem : ∀ (C : Ctx) (q : Ptr), C ≠ .top → ∃ a, C.rootPtr q = some a ∧ a ∈ C.addrs := by
  intro C
  induction C with
  | top => intro q h; exact absurd rfl h
  | left a c k r up ih =>
    intro q _
    by_cases hu : up = .top
    · subst hu; exact ⟨a, rfl, by simp [Ctx.addrs]⟩
    · obtain ⟨b, hb, hm⟩ := ih (some a) hu
      exact ⟨b, hb, by simp [Ctx.addrs, hm]⟩
  | right a c k l up ih =>
    intro q _
    by_cases hu : up = .top
    · subst hu; exact ⟨a, rfl, by simp [Ctx.addrs]⟩
    · obtain ⟨b, hb, hm⟩ := ih (some a) hu
      exact ⟨b, hb, by simp [Ctx.addrs, hm]⟩

/-- Below the root position, the pointer kept in `x` is not the root reference. -/
theorem Shape.xptr_ne_root {h : Heap} {t : rbtree} (C : Ctx) (X : Tree)
    (s : Shape h t (C.plug X)) (hC : C ≠ .top) : X.xptr t.nil ≠ t.root := by
  have z := (Shape_plug_iff h t C X).1 s
  obtain ⟨a, ha, hm⟩ := rootPtr_mem C (X.ptr t.nil) hC
  rw [z.root_eq, ha]
  cases X with
  | leaf s0 => exact Ne.symm (z.nil_fresh a (by simp [hm]))
  | node b cb kb l r =>
    simp only [Tree.xptr_node, ne_eq, Option.some.injEq]
    rintro rfl
    have := z.nodup
    simp only [Tree.addrs, List.nodup_append, List.disjoint_left] at this
    exact this.2.2 hm (by simp)

theorem Shape.color_xptr {h : Heap} {t : rbtree} (C : Ctx) (X : Tree) (s : Shape h t (C.plug X)) :
    node_color h t (X.xptr t.nil) = .ok X.rootColor := by
  cases X with
  | leaf s0 => simp [node_color]
  | node b cb kb l r => exact Shape.color_node C s

theorem Shape.parent_xptr {h : Heap} {t : rbtree} (C : Ctx) (X : Tree) (s : Shape h t (C.plug X))
    (xp : Ptr) (hxp : ∀ s0, X = .leaf s0 → xp = C.par) :
    (if X.xptr t.nil = t.nil then Res.ok xp else getParent h (X.xptr t.nil)) = .ok C.par := by
  cases X with
  | leaf s0 => simp [hxp s0 rfl]
  | node b cb kb l r =>
    simp only [Tree.xptr_node, Shape.ne_nil C s, if_false, getParent_of (Shape.cell C s)]

@[simp] theorem Ctx.par_top : Ctx.top.par = none := rfl
@[simp] theorem Ctx.par_left (a : Nat) (c : color_t) (k : key_t) (r : Tree) (up : Ctx) :
    (Ctx.left a c k r up).par = some a := rfl
@[simp] theorem Ctx.par_right (a : Nat) (c : color_t) (k : key_t) (l : Tree) (up : Ctx) :
    (Ctx.right a c k l up).par = some a := rfl

theorem node_color_nil (h : Heap) (t : rbtree) : node_color h t t.nil = .ok RBTREE_BLACK := by
  simp [node_color]

theorem era_exit_root {h : Heap} {t : rbtree} (fuel : Nat) (xp : Ptr) :
    erase_fixedup_loop (fuel + 1) h t t.root xp = .ok (h, t, t.root) := by
  simp only [erase_fixedup_loop, ne_eq, not_true_eq_false, if_false, Res.pure_eq, Res.ok_bind,
    if_true]

theorem era_case2_left {h : Heap} {t : rbtree} {up : Ctx} {pa w : Nat} {cpa : color_t} {kpa kw : key_t} {X Wn Wf : Tree} (fuel : Nat) (xp : Ptr)
    (s : Shape h t (up.plug (.node pa cpa kpa X (.node w RBTREE_BLACK kw Wn Wf))))
    (hXb : X.rootColor = RBTREE_BLACK) (hXf : X ≠ .leaf false)
    (hxp : ∀ s0, X = .leaf s0 → xp = some pa)
    (hWn : Wn.rootColor = RBTREE_BLACK) (hWf : Wf.rootColor = RBTREE_BLACK) :
    ∃ h', erase_fixedup_loop (fuel + 1) h t (X.xptr t.nil) xp =
        erase_fixedup_loop fuel h' t (some pa) up.par ∧
      Shape h' t (up.plug (.node pa cpa kpa X (.node w RBTREE_RED kw Wn Wf))) ∧
      (∀ a, a ∉ (up.plug (.node pa cpa kpa X (.node w RBTREE_BLACK kw Wn Wf))).addrs → h' a = h a) := by
  rcases X with s0 | ⟨xa, cx, kx, Xl, Xr⟩
  · have hs0 : s0 = true := by
      cases s0
      · exact absurd rfl hXf
      · rfl
    subst hs0
    have x1 := Shape.xptr_ne_root (.left pa cpa kpa _ up) _ s (by simp)
    simp only [Tree.xptr_leaf, Tree.xptr_node] at x1
    have hpa := Shape.cell up s
    have npa := Shape.ne_nil up s
    have hw := Shape.cell (.right pa cpa kpa _ up) s
    have nw := Shape.ne_nil (.right pa cpa kpa _ up) s
    have cw := Shape.color_node (.right pa cpa kpa _ up) s
    have cwn := Shape.color_ptr (.left w RBTREE_BLACK kw Wf (.right pa cpa kpa (.leaf true) up)) Wn s
    have cwf := Shape.color_ptr (.right w RBTREE_BLACK kw Wn (.right pa cpa kpa (.leaf true) up)) Wf s
    obtain ⟨h1, e1, sF, f1⟩ := setColor_spec (.right pa cpa kpa _ up) s RBTREE_RED
    have hpa1 := Shape.cell up sF
    have hx : xp = some pa := hxp _ rfl
    subst hx
    refine ⟨_, ?_, sF, ?_⟩
    · simp only [erase_fixedup_loop, ne_eq, not_false_eq_true, not_true_eq_false, if_true, if_false, Res.ok_bind, Res.pure_eq, decide_True, decide_False, Bool.true_eq_false, Bool.false_eq_true, Ctx.par_top, Ctx.par_left, Ctx.par_right, node_color_nil, reduceCtorEq, Tree.ptr_node, Tree.xptr_leaf, Tree.xptr_node, Tree.ptr_leaf_true, and_self, and_true, true_and, Option.some.injEq, decide_eq_true_eq, ite_self, x1, getLeft_of hpa, getRight_of hpa, cw, getLeft_of hw, getRight_of hw, cwn, cwf, hWn, hWf, nw, e1, npa, getParent_of hpa1]
    · intro a ha
      simp only [mem_addrs_plug, Tree.addrs, List.mem_append, List.mem_cons, not_or,
        List.not_mem_nil, not_false_eq_true, true_and, and_true] at ha
      rw [f1 a (by tauto)]
  · simp only [Tree.rootColor_node] at hXb
    subst hXb
    have x1 := Shape.xptr_ne_root (.left pa cpa kpa _ up) _ s (by simp)
    simp only [Tree.xptr_leaf, Tree.xptr_node] at x1
    have hpa := Shape.cell up s
    have npa := Shape.ne_nil up s
    have hw := Shape.cell (.right pa cpa kpa _ up) s
    have nw := Shape.ne_nil (.right pa cpa kpa _ up) s
    have cw := Shape.color_node (.right pa cpa kpa _ up) s
    have cwn := Shape.color_ptr (.left w RBTREE_BLACK kw Wf (.right pa cpa kpa (.node xa RBTREE_BLACK kx Xl Xr) up)) Wn s
    have cwf := Shape.color_ptr (.right w RBTREE_BLACK kw Wn (.right pa cpa kpa (.node xa RBTREE_BLACK kx Xl Xr) up)) Wf s
    obtain ⟨h1, e1, sF, f1⟩ := setColor_spec (.right pa cpa kpa _ up) s RBTREE_RED
    have hpa1 := Shape.cell up sF
    have hx := Shape.cell (.left pa cpa kpa _ up) s
    have nx := Shape.ne_nil (.left pa cpa kpa _ up) s
    have cx' := Shape.color_node (.left pa cpa kpa _ up) s
    refine ⟨_, ?_, sF, ?_⟩
    · simp only [erase_fixedup_loop, ne_eq, not_false_eq_true, not_true_eq_false, if_true, if_false, Res.ok_bind, Res.pure_eq, decide_True, decide_False, Bool.true_eq_false, Bool.false_eq_true, Ctx.par_top, Ctx.par_left, Ctx.par_right, node_color_nil, reduceCtorEq, Tree.ptr_node, Tree.xptr_leaf, Tree.xptr_node, Tree.ptr_leaf_true, and_self, and_true, true_and, Option.some.injEq, decide_eq_true_eq, ite_self, x1, getParent_of hx, nx, cx', getLeft_of hpa, getRight_of hpa, cw, getLeft_of hw, getRight_of hw, cwn, cwf, hWn, hWf, nw, e1, npa, getParent_of hpa1]
    · intro a ha
      simp only [mem_addrs_plug, Tree.addrs, List.mem_append, List.mem_cons, not_or,
        List.not_mem_nil, not_false_eq_true, true_and, and_true] at ha
      rw [f1 a (by tauto)]

theorem era_case4_left {h : Heap} {t : rbtree} {up : Ctx} {pa w wf : Nat} {cpa : color_t} {kpa kw kwf : key_t} {X Wn Wfn Wff : Tree} (fuel : Nat) (xp : Ptr)
    (s : Shape h t (up.plug (.node pa cpa kpa X (.node w RBTREE_BLACK kw Wn (.node wf RBTREE_RED kwf Wfn Wff)))))
    (hXb : X.rootColor = RBTREE_BLACK) (hXf : X ≠ .leaf false)
    (hxp : ∀ s0, X = .leaf s0 → xp = some pa) :
    ∃ h' t', erase_fixedup_loop (fuel + 1) h t (X.xptr t.nil) xp =
        erase_fixedup_loop fuel h' t' t'.root xp ∧ t'.nil = t.nil ∧
      Shape h' t' (up.plug (.node w cpa kw (.node pa RBTREE_BLACK kpa X Wn) (.node wf RBTREE_BLACK kwf Wfn Wff))) ∧
      (∀ a, a ∉ (up.plug (.node pa cpa kpa X (.node w RBTREE_BLACK kw Wn (.node wf RBTREE_RED kwf Wfn Wff)))).addrs → h' a = h a) := by
  rcases X with s0 | ⟨xa, cx, kx, Xl, Xr⟩
  · have hs0 : s0 = true := by
      cases s0
      · exact absurd rfl hXf
      · rfl
    subst hs0
    have x1 := Shape.xptr_ne_root (.left pa cpa kpa _ up) _ s (by simp)
    simp only [Tree.xptr_leaf, Tree.xptr_node] at x1
    have hpa := Shape.cell up s
    have npa := Shape.ne_nil up s
    have hw := Shape.cell (.right pa cpa kpa _ up) s
    have nw := Shape.ne_nil (.right pa cpa kpa _ up) s
    have cw := Shape.color_node (.right pa cpa kpa _ up) s
    have cwn := Shape.color_ptr (.left w RBTREE_BLACK kw _ (.right pa cpa kpa (.leaf true) up)) Wn s
    have cwf := Shape.color_node (.right w RBTREE_BLACK kw _ (.right pa cpa kpa (.leaf true) up)) s
    have nwf := Shape.ne_nil (.right w RBTREE_BLACK kw _ (.right pa cpa kpa (.leaf true) up)) s
    obtain ⟨h1, e1, s1, f1⟩ := setColor_spec (.right pa cpa kpa _ up) s cpa
    obtain ⟨h2, e2, s2, f2⟩ := setColor_spec up s1 RBTREE_BLACK
    have hw2 := Shape.cell (.right pa RBTREE_BLACK kpa _ up) s2
    obtain ⟨h3, e3, s3, f3⟩ := setColor_spec (.right w cpa kw _ (.right pa RBTREE_BLACK kpa (.leaf true) up)) s2 RBTREE_BLACK
    obtain ⟨h4, t4, e4, n4, sF, f4⟩ := left_rotation_shape up s3
    have hx : xp = some pa := hxp _ rfl
    subst hx
    refine ⟨_, _, ?_, n4, sF, ?_⟩
    · simp only [erase_fixedup_loop, ne_eq, not_false_eq_true, not_true_eq_false, if_true, if_false, Res.ok_bind, Res.pure_eq, decide_True, decide_False, Bool.true_eq_false, Bool.false_eq_true, Ctx.par_top, Ctx.par_left, Ctx.par_right, node_color_nil, reduceCtorEq, Tree.ptr_node, Tree.xptr_leaf, Tree.xptr_node, Tree.ptr_leaf_true, and_self, and_true, true_and, Option.some.injEq, decide_eq_true_eq, ite_self, x1, getLeft_of hpa, getRight_of hpa, getColor_of hpa, cw, getLeft_of hw, getRight_of hw, cwn, cwf, nw, nwf, e1, e2, getLeft_of hw2, getRight_of hw2, e3, e4, npa]
    · intro a ha
      simp only [mem_addrs_plug, Tree.addrs, List.mem_append, List.mem_cons, not_or,
        List.not_mem_nil, not_false_eq_true, true_and, and_true] at ha
      rw [f4 a (by
          simp only [mem_addrs_plug, Ctx.addrs, Tree.addrs, List.mem_append, List.mem_cons, not_or,
            List.not_mem_nil, not_false_eq_true, true_and, and_true]
          tauto), f3 a (by tauto), f2 a (by tauto), f1 a (by tauto)]
  · simp only [Tree.rootColor_node] at hXb
    subst hXb
    have x1 := Shape.xptr_ne_root (.left pa cpa kpa _ up) _ s (by simp)
    simp only [Tree.xptr_leaf, Tree.xptr_node] at x1
    have hpa := Shape.cell up s
    have npa := Shape.ne_nil up s
    have hw := Shape.cell (.right pa cpa kpa _ up) s
    have nw := Shape.ne_nil (.right pa cpa kpa _ up) s
    have cw := Shape.color_node (.right pa cpa kpa _ up) s
    have cwn := Shape.color_ptr (.left w RBTREE_BLACK kw _ (.right pa cpa kpa (.node xa RBTREE_BLACK kx Xl Xr) up)) Wn s
    have cwf := Shape.color_node (.right w RBTREE_BLACK kw _ (.right pa cpa kpa (.node xa RBTREE_BLACK kx Xl Xr) up)) s
    have nwf := Shape.ne_nil (.right w RBTREE_BLACK kw _ (.right pa cpa kpa (.node xa RBTREE_BLACK kx Xl Xr) up)) s
    obtain ⟨h1, e1, s1, f1⟩ := setColor_spec (.right pa cpa kpa _ up) s cpa
    obtain ⟨h2, e2, s2, f2⟩ := setColor_spec up s1 RBTREE_BLACK
    have hw2 := Shape.cell (.right pa RBTREE_BLACK kpa _ up) s2
    obtain ⟨h3, e3, s3, f3⟩ := setColor_spec (.right w cpa kw _ (.right pa RBTREE_BLACK kpa (.node xa RBTREE_BLACK kx Xl Xr) up)) s2 RBTREE_BLACK
    obtain ⟨h4, t4, e4, n4, sF, f4⟩ := left_rotation_shape up s3
    have hx := Shape.cell (.left pa cpa kpa _ up) s
    have nx := Shape.ne_nil (.left pa cpa kpa _ up) s
    have cx' := Shape.color_node (.left pa cpa kpa _ up) s
    refine ⟨_, _, ?_, n4, sF, ?_⟩
    · simp only [erase_fixedup_loop, ne_eq, not_false_eq_true, not_true_eq_false, if_true, if_false, Res.ok_bind, Res.pure_eq, decide_True, decide_False, Bool.true_eq_false, Bool.false_eq_true, Ctx.par_top, Ctx.par_left, Ctx.par_right, node_color_nil, reduceCtorEq, Tree.ptr_node, Tree.xptr_leaf, Tree.xptr_node, Tree.ptr_leaf_true, and_self, and_true, true_and, Option.some.injEq, decide_eq_true_eq, ite_self, x1, getParent_of hx, nx, cx', getLeft_of hpa, getRight_of hpa, getColor_of hpa, cw, getLeft_of hw, getRight_of hw, cwn, cwf, nw, nwf, e1, e2, getLeft_of hw2, getRight_of hw2, e3, e4, npa]
    · intro a ha
      simp only [mem_addrs_plug, Tree.addrs, List.mem_append, List.mem_cons, not_or,
        List.not_mem_nil, not_false_eq_true, true_and, and_true] at ha
      rw [f4 a (by
          simp only [mem_addrs_plug, Ctx.addrs, Tree.addrs, List.mem_append, List.mem_cons, not_or,
            List.not_mem_nil, not_false_eq_true, true_and, and_true]
          tauto), f3 a (by tauto), f2 a (by tauto), f1 a (by tauto)]

theorem era_case3_left {h : Heap} {t : rbtree} {up : Ctx} {pa w wn : Nat} {cpa : color_t} {kpa kw kwn : key_t} {X Wf Wnn Wnf : Tree} (fuel : Nat) (xp : Ptr)
    (s : Shape h t (up.plug (.node pa cpa kpa X (.node w RBTREE_BLACK kw (.node wn RBTREE_RED kwn Wnn Wnf) Wf))))
    (hXb : X.rootColor = RBTREE_BLACK) (hXf : X ≠ .leaf false)
    (hxp : ∀ s0, X = .leaf s0 → xp = some pa)
    (hWf : Wf.rootColor = RBTREE_BLACK) :
    ∃ h' t', erase_fixedup_loop (fuel + 1) h t (X.xptr t.nil) xp =
        erase_fixedup_loop fuel h' t' t'.root xp ∧ t'.nil = t.nil ∧
      Shape h' t' (up.plug (.node wn cpa kwn (.node pa RBTREE_BLACK kpa X Wnn) (.node w RBTREE_BLACK kw Wnf Wf))) ∧
      (∀ a, a ∉ (up.plug (.node pa cpa kpa X (.node w RBTREE_BLACK kw (.node wn RBTREE_RED kwn Wnn Wnf) Wf))).addrs → h' a = h a) := by
  rcases X with s0 | ⟨xa, cx, kx, Xl, Xr⟩
  · have hs0 : s0 = true := by
      cases s0
      · exact absurd rfl hXf
      · rfl
    subst hs0
    have x1 := Shape.xptr_ne_root (.left pa cpa kpa _ up) _ s (by simp)
    simp only [Tree.xptr_leaf, Tree.xptr_node] at x1
    have hpa := Shape.cell up s
    have npa := Shape.ne_nil up s
    have hw := Shape.cell (.right pa cpa kpa _ up) s
    have nw := Shape.ne_nil (.right pa cpa kpa _ up) s
    have cw := Shape.color_node (.right pa cpa kpa _ up) s
    have cwn := Shape.color_node (.left w RBTREE_BLACK kw _ (.right pa cpa kpa (.leaf true) up)) s
    have nwn := Shape.ne_nil (.left w RBTREE_BLACK kw _ (.right pa cpa kpa (.leaf true) up)) s
    have cwf := Shape.color_ptr (.right w RBTREE_BLACK kw _ (.right pa cpa kpa (.leaf true) up)) Wf s
    obtain ⟨h1, e1, s1, f1⟩ := setColor_spec (.left w RBTREE_BLACK kw _ (.right pa cpa kpa (.leaf true) up)) s RBTREE_BLACK
    obtain ⟨h2, e2, s2, f2⟩ := setColor_spec (.right pa cpa kpa _ up) s1 RBTREE_RED
    obtain ⟨h3, t3, e3, n3, s3, f3⟩ := right_rotation_shape (.right pa cpa kpa _ up) s2
    have hpa3 := Shape.cell up s3
    obtain ⟨h4, e4, s4, f4⟩ := setColor_spec (.right pa cpa kpa _ up) s3 cpa
    obtain ⟨h5, e5, s5, f5⟩ := setColor_spec up s4 RBTREE_BLACK
    have hwn5 := Shape.cell (.right pa RBTREE_BLACK kpa _ up) s5
    obtain ⟨h6, e6, s6, f6⟩ := setColor_spec (.right wn cpa kwn _ (.right pa RBTREE_BLACK kpa (.leaf true) up)) s5 RBTREE_BLACK
    obtain ⟨h7, t7, e7, n7, sF, f7⟩ := left_rotation_shape up s6
    have hx : xp = some pa := hxp _ rfl
    subst hx
    refine ⟨_, _, ?_, n7.trans n3, sF, ?_⟩
    · simp only [erase_fixedup_loop, ne_eq, not_false_eq_true, not_true_eq_false, if_true, if_false, Res.ok_bind, Res.pure_eq, decide_True, decide_False, Bool.true_eq_false, Bool.false_eq_true, Ctx.par_top, Ctx.par_left, Ctx.par_right, node_color_nil, reduceCtorEq, Tree.ptr_node, Tree.xptr_leaf, Tree.xptr_node, Tree.ptr_leaf_true, and_self, and_true, true_and, Option.some.injEq, decide_eq_true_eq, ite_self, x1, getLeft_of hpa, getRight_of hpa, cw, getLeft_of hw, getRight_of hw, cwn, cwf, hWf, nw, nwn, e1, e2, e3, n3, getLeft_of hpa3, getRight_of hpa3, getColor_of hpa3, e4, e5, getLeft_of hwn5, getRight_of hwn5, e6, e7, npa]
    · intro a ha
      simp only [mem_addrs_plug, Tree.addrs, List.mem_append, List.mem_cons, not_or,
        List.not_mem_nil, not_false_eq_true, true_and, and_true] at ha
      rw [f7 a (by
          simp only [mem_addrs_plug, Ctx.addrs, Tree.addrs, List.mem_append, List.mem_cons, not_or,
            List.not_mem_nil, not_false_eq_true, true_and, and_true]
          tauto), f6 a (by tauto), f5 a (by tauto), f4 a (by tauto), f3 a (by
          simp only [mem_addrs_plug, Ctx.addrs, Tree.addrs, List.mem_append, List.mem_cons, not_or,
            List.not_mem_nil, not_false_eq_true, true_and, and_true]
          tauto), f2 a (by tauto), f1 a (by tauto)]
  · simp only [Tree.rootColor_node] at hXb
    subst hXb
    have x1 := Shape.xptr_ne_root (.left pa cpa kpa _ up) _ s (by simp)
    simp only [Tree.xptr_leaf, Tree.xptr_node] at x1
    have hpa := Shape.cell up s
    have npa := Shape.ne_nil up s
    have hw := Shape.cell (.right pa cpa kpa _ up) s
    have nw := Shape.ne_nil (.right pa cpa kpa _ up) s
    have cw := Shape.color_node (.right pa cpa kpa _ up) s
    have cwn := Shape.color_node (.left w RBTREE_BLACK kw _ (.right pa cpa kpa (.node xa RBTREE_BLACK kx Xl Xr) up)) s
    have nwn := Shape.ne_nil (.left w RBTREE_BLACK kw _ (.right pa cpa kpa (.node xa RBTREE_BLACK kx Xl Xr) up)) s
    have cwf := Shape.color_ptr (.right w RBTREE_BLACK kw _ (.right pa cpa kpa (.node xa RBTREE_BLACK kx Xl Xr) up)) Wf s
    obtain ⟨h1, e1, s1, f1⟩ := setColor_spec (.left w RBTREE_BLACK kw _ (.right pa cpa kpa (.node xa RBTREE_BLACK kx Xl Xr) up)) s RBTREE_BLACK
    obtain ⟨h2, e2, s2, f2⟩ := setColor_spec (.right pa cpa kpa _ up) s1 RBTREE_RED
    obtain ⟨h3, t3, e3, n3, s3, f3⟩ := right_rotation_shape (.right pa cpa kpa _ up) s2
    have hpa3 := Shape.cell up s3
    obtain ⟨h4, e4, s4, f4⟩ := setColor_spec (.right pa cpa kpa _ up) s3 cpa
    obtain ⟨h5, e5, s5, f5⟩ := setColor_spec up s4 RBTREE_BLACK
    have hwn5 := Shape.cell (.right pa RBTREE_BLACK kpa _ up) s5
    obtain ⟨h6, e6, s6, f6⟩ := setColor_spec (.right wn cpa kwn _ (.right pa RBTREE_BLACK kpa (.node xa RBTREE_BLACK kx Xl Xr) up)) s5 RBTREE_BLACK
    obtain ⟨h7, t7, e7, n7, sF, f7⟩ := left_rotation_shape up s6
    have hx := Shape.cell (.left pa cpa kpa _ up) s
    have nx := Shape.ne_nil (.left pa cpa kpa _ up) s
    have cx' := Shape.color_node (.left pa cpa kpa _ up) s
    refine ⟨_, _, ?_, n7.trans n3, sF, ?_⟩
    · simp only [erase_fixedup_loop, ne_eq, not_false_eq_true, not_true_eq_false, if_true, if_false, Res.ok_bind, Res.pure_eq, decide_True, decide_False, Bool.true_eq_false, Bool.false_eq_true, Ctx.par_top, Ctx.par_left, Ctx.par_right, node_color_nil, reduceCtorEq, Tree.ptr_node, Tree.xptr_leaf, Tree.xptr_node, Tree.ptr_leaf_true, and_self, and_true, true_and, Option.some.injEq, decide_eq_true_eq, ite_self, x1, getParent_of hx, nx, cx', getLeft_of hpa, getRight_of hpa, cw, getLeft_of hw, getRight_of hw, cwn, cwf, hWf, nw, nwn, e1, e2, e3, n3, getLeft_of hpa3, getRight_of hpa3, getColor_of hpa3, e4, e5, getLeft_of hwn5, getRight_of hwn5, e6, e7, npa]
    · intro a ha
      simp only [mem_addrs_plug, Tree.addrs, List.mem_append, List.mem_cons, not_or,
        List.not_mem_nil, not_false_eq_true, true_and, and_true] at ha
      rw [f7 a (by
          simp only [mem_addrs_plug, Ctx.addrs, Tree.addrs, List.mem_append, List.mem_cons, not_or,
            List.not_mem_nil, not_false_eq_true, true_and, and_true]
          tauto), f6 a (by tauto), f5 a (by tauto), f4 a (by tauto), f3 a (by
          simp only [mem_addrs_plug, Ctx.addrs, Tree.addrs, List.mem_append, List.mem_cons, not_or,
            List.not_mem_nil, not_false_eq_true, true_and, and_true]
          tauto), f2 a (by tauto), f1 a (by tauto)]

theorem era_case12_left {h : Heap} {t : rbtree} {up : Ctx} {pa w wn : Nat} {kpa kw kwn : key_t} {X Wf Wnn Wnf : Tree} (fuel : Nat) (xp : Ptr)
    (s : Shape h t (up.plug (.node pa RBTREE_BLACK kpa X (.node w RBTREE_RED kw (.node wn RBTREE_BLACK kwn Wnn Wnf) Wf))))
    (hXb : X.rootColor = RBTREE_BLACK) (hXf : X ≠ .leaf false)
    (hxp : ∀ s0, X = .leaf s0 → xp = some pa)
    (hWnn : Wnn.rootColor = RBTREE_BLACK) (hWnf : Wnf.rootColor = RBTREE_BLACK) :
    ∃ h' t', erase_fixedup_loop (fuel + 1) h t (X.xptr t.nil) xp =
        erase_fixedup_loop fuel h' t' (some pa) (some w) ∧ t'.nil = t.nil ∧
      Shape h' t' (up.plug (.node w RBTREE_BLACK kw (.node pa RBTREE_RED kpa X (.node wn RBTREE_RED kwn Wnn Wnf)) Wf)) ∧
      (∀ a, a ∉ (up.plug (.node pa RBTREE_BLACK kpa X (.node w RBTREE_RED kw (.node wn RBTREE_BLACK kwn Wnn Wnf) Wf))).addrs → h' a = h a) := by
  rcases X with s0 | ⟨xa, cx, kx, Xl, Xr⟩
  · have hs0 : s0 = true := by
      cases s0
      · exact absurd rfl hXf
      · rfl
    subst hs0
    have x1 := Shape.xptr_ne_root (.left pa RBTREE_BLACK kpa _ up) _ s (by simp)
    simp only [Tree.xptr_leaf, Tree.xptr_node] at x1
    have hpa := Shape.cell up s
    have npa := Shape.ne_nil up s
    have hw := Shape.cell (.right pa RBTREE_BLACK kpa _ up) s
    have nw := Shape.ne_nil (.right pa RBTREE_BLACK kpa _ up) s
    have cw := Shape.color_node (.right pa RBTREE_BLACK kpa _ up) s
    obtain ⟨h1, e1, s1, f1⟩ := setColor_spec (.right pa RBTREE_BLACK kpa _ up) s RBTREE_BLACK
    obtain ⟨h2, e2, s2, f2⟩ := setColor_spec up s1 RBTREE_RED
    obtain ⟨h3, t3, e3, n3, s3, f3⟩ := left_rotation_shape up s2
    have hpa3 := Shape.cell (.left w RBTREE_BLACK kw Wf up) s3
    have npa3 := Shape.ne_nil (.left w RBTREE_BLACK kw Wf up) s3
    have hwn3 := Shape.cell (.right pa RBTREE_RED kpa _ (.left w RBTREE_BLACK kw Wf up)) s3
    have nwn3 := Shape.ne_nil (.right pa RBTREE_RED kpa _ (.left w RBTREE_BLACK kw Wf up)) s3
    have cwnn := Shape.color_ptr (.left wn RBTREE_BLACK kwn _ (.right pa RBTREE_RED kpa (.leaf true) (.left w RBTREE_BLACK kw Wf up))) Wnn s3
    have cwnf := Shape.color_ptr (.right wn RBTREE_BLACK kwn _ (.right pa RBTREE_RED kpa (.leaf true) (.left w RBTREE_BLACK kw Wf up))) Wnf s3
    try rw [n3] at cwnn
    try rw [n3] at cwnf
    obtain ⟨h4, e4, sF, f4⟩ := setColor_spec (.right pa RBTREE_RED kpa _ (.left w RBTREE_BLACK kw Wf up)) s3 RBTREE_RED
    have hpa4 := Shape.cell (.left w RBTREE_BLACK kw Wf up) sF
    have hx : xp = some pa := hxp _ rfl
    subst hx
    refine ⟨_, _, ?_, n3, sF, ?_⟩
    · simp only [erase_fixedup_loop, ne_eq, not_false_eq_true, not_true_eq_false, if_true, if_false, Res.ok_bind, Res.pure_eq, decide_True, decide_False, Bool.true_eq_false, Bool.false_eq_true, Ctx.par_top, Ctx.par_left, Ctx.par_right, node_color_nil, reduceCtorEq, Tree.ptr_node, Tree.xptr_leaf, Tree.xptr_node, Tree.ptr_leaf_true, and_self, and_true, true_and, Option.some.injEq, decide_eq_true_eq, ite_self, x1, getLeft_of hpa, getRight_of hpa, cw, nw, e1, e2, e3, n3, getLeft_of hpa3, getRight_of hpa3, getColor_of hpa3, getLeft_of hwn3, getRight_of hwn3, npa, n3 ▸ npa3, n3 ▸ nwn3, cwnn, cwnf, hWnn, hWnf, e4, getParent_of hpa4]
    · intro a ha
      simp only [mem_addrs_plug, Tree.addrs, List.mem_append, List.mem_cons, not_or,
        List.not_mem_nil, not_false_eq_true, true_and, and_true] at ha
      rw [f4 a (by tauto), f3 a (by
          simp only [mem_addrs_plug, Ctx.addrs, Tree.addrs, List.mem_append, List.mem_cons, not_or,
            List.not_mem_nil, not_false_eq_true, true_and, and_true]
          tauto), f2 a (by tauto), f1 a (by tauto)]
  · simp only [Tree.rootColor_node] at hXb
    subst hXb
    have x1 := Shape.xptr_ne_root (.left pa RBTREE_BLACK kpa _ up) _ s (by simp)
    simp only [Tree.xptr_leaf, Tree.xptr_node] at x1
    have hpa := Shape.cell up s
    have npa := Shape.ne_nil up s
    have hw := Shape.cell (.right pa RBTREE_BLACK kpa _ up) s
    have nw := Shape.ne_nil (.right pa RBTREE_BLACK kpa _ up) s
    have cw := Shape.color_node (.right pa RBTREE_BLACK kpa _ up) s
    obtain ⟨h1, e1, s1, f1⟩ := setColor_spec (.right pa RBTREE_BLACK kpa _ up) s RBTREE_BLACK
    obtain ⟨h2, e2, s2, f2⟩ := setColor_spec up s1 RBTREE_RED
    obtain ⟨h3, t3, e3, n3, s3, f3⟩ := left_rotation_shape up s2
    have hpa3 := Shape.cell (.left w RBTREE_BLACK kw Wf up) s3
    have npa3 := Shape.ne_nil (.left w RBTREE_BLACK kw Wf up) s3
    have hwn3 := Shape.cell (.right pa RBTREE_RED kpa _ (.left w RBTREE_BLACK kw Wf up)) s3
    have nwn3 := Shape.ne_nil (.right pa RBTREE_RED kpa _ (.left w RBTREE_BLACK kw Wf up)) s3
    have cwnn := Shape.color_ptr (.left wn RBTREE_BLACK kwn _ (.right pa RBTREE_RED kpa (.node xa RBTREE_BLACK kx Xl Xr) (.left w RBTREE_BLACK kw Wf up))) Wnn s3
    have cwnf := Shape.color_ptr (.right wn RBTREE_BLACK kwn _ (.right pa RBTREE_RED kpa (.node xa RBTREE_BLACK kx Xl Xr) (.left w RBTREE_BLACK kw Wf up))) Wnf s3
    try rw [n3] at cwnn
    try rw [n3] at cwnf
    obtain ⟨h4, e4, sF, f4⟩ := setColor_spec (.right pa RBTREE_RED kpa _ (.left w RBTREE_BLACK kw Wf up)) s3 RBTREE_RED
    have hpa4 := Shape.cell (.left w RBTREE_BLACK kw Wf up) sF
    have hx := Shape.cell (.left pa RBTREE_BLACK kpa _ up) s
    have nx := Shape.ne_nil (.left pa RBTREE_BLACK kpa _ up) s
    have cx' := Shape.color_node (.left pa RBTREE_BLACK kpa _ up) s
    refine ⟨_, _, ?_, n3, sF, ?_⟩
    · simp only [erase_fixedup_loop, ne_eq, not_false_eq_true, not_true_eq_false, if_true, if_false, Res.ok_bind, Res.pure_eq, decide_True, decide_False, Bool.true_eq_false, Bool.false_eq_true, Ctx.par_top, Ctx.par_left, Ctx.par_right, node_color_nil, reduceCtorEq, Tree.ptr_node, Tree.xptr_leaf, Tree.xptr_node, Tree.ptr_leaf_true, and_self, and_true, true_and, Option.some.injEq, decide_eq_true_eq, ite_self, x1, getParent_of hx, nx, cx', getLeft_of hpa, getRight_of hpa, cw, nw, e1, e2, e3, n3, getLeft_of hpa3, getRight_of hpa3, getColor_of hpa3, getLeft_of hwn3, getRight_of hwn3, npa, n3 ▸ npa3, n3 ▸ nwn3, cwnn, cwnf, hWnn, hWnf, e4, getParent_of hpa4]
    · intro a ha
      simp only [mem_addrs_plug, Tree.addrs, List.mem_append, List.mem_cons, not_or,
        List.not_mem_nil, not_false_eq_true, true_and, and_true] at ha
      rw [f4 a (by tauto), f3 a (by
          simp only [mem_addrs_plug, Ctx.addrs, Tree.addrs, List.mem_append, List.mem_cons, not_or,
            List.not_mem_nil, not_false_eq_true, true_and, and_true]
          tauto), f2 a (by tauto), f1 a (by tauto)]

theorem era_case14_left {h : Heap} {t : rbtree} {up : Ctx} {pa w wn wnf : Nat} {kpa kw kwn kwnf : key_t} {X Wf Wnn Wnfn Wnff : Tree} (fuel : Nat) (xp : Ptr)
    (s : Shape h t (up.plug (.node pa RBTREE_BLACK kpa X (.node w RBTREE_RED kw (.node wn RBTREE_BLACK kwn Wnn (.node wnf RBTREE_RED kwnf Wnfn Wnff)) Wf))))
    (hXb : X.rootColor = RBTREE_BLACK) (hXf : X ≠ .leaf false)
    (hxp : ∀ s0, X = .leaf s0 → xp = some pa) :
    ∃ h' t', erase_fixedup_loop (fuel + 1) h t (X.xptr t.nil) xp =
        erase_fixedup_loop fuel h' t' t'.root xp ∧ t'.nil = t.nil ∧
      Shape h' t' (up.plug (.node w RBTREE_BLACK kw (.node wn RBTREE_RED kwn (.node pa RBTREE_BLACK kpa X Wnn) (.node wnf RBTREE_BLACK kwnf Wnfn Wnff)) Wf)) ∧
      (∀ a, a ∉ (up.plug (.node pa RBTREE_BLACK kpa X (.node w RBTREE_RED kw (.node wn RBTREE_BLACK kwn Wnn (.node wnf RBTREE_RED kwnf Wnfn Wnff)) Wf))).addrs → h' a = h a) := by
  rcases X with s0 | ⟨xa, cx, kx, Xl, Xr⟩
  · have hs0 : s0 = true := by
      cases s0
      · exact absurd rfl hXf
      · rfl
    subst hs0
    have x1 := Shape.xptr_ne_root (.left pa RBTREE_BLACK kpa _ up) _ s (by simp)
    simp only [Tree.xptr_leaf, Tree.xptr_node] at x1
    have hpa := Shape.cell up s
    have npa := Shape.ne_nil up s
    have hw := Shape.cell (.right pa RBTREE_BLACK kpa _ up) s
    have nw := Shape.ne_nil (.right pa RBTREE_BLACK kpa _ up) s
    have cw := Shape.color_node (.right pa RBTREE_BLACK kpa _ up) s
    obtain ⟨h1, e1, s1, f1⟩ := setColor_spec (.right pa RBTREE_BLACK kpa _ up) s RBTREE_BLACK
    obtain ⟨h2, e2, s2, f2⟩ := setColor_spec up s1 RBTREE_RED
    obtain ⟨h3, t3, e3, n3, s3, f3⟩ := left_rotation_shape up s2
    have hpa3 := Shape.cell (.left w RBTREE_BLACK kw Wf up) s3
    have npa3 := Shape.ne_nil (.left w RBTREE_BLACK kw Wf up) s3
    have hwn3 := Shape.cell (.right pa RBTREE_RED kpa _ (.left w RBTREE_BLACK kw Wf up)) s3
    have nwn3 := Shape.ne_nil (.right pa RBTREE_RED kpa _ (.left w RBTREE_BLACK kw Wf up)) s3
    have cwnn := Shape.color_ptr (.left wn RBTREE_BLACK kwn _ (.right pa RBTREE_RED kpa (.leaf true) (.left w RBTREE_BLACK kw Wf up))) Wnn s3
    have cwnf := Shape.color_node (.right wn RBTREE_BLACK kwn _ (.right pa RBTREE_RED kpa (.leaf true) (.left w RBTREE_BLACK kw Wf up))) s3
    have nwnf := Shape.ne_nil (.right wn RBTREE_BLACK kwn _ (.right pa RBTREE_RED kpa (.leaf true) (.left w RBTREE_BLACK kw Wf up))) s3
    try rw [n3] at cwnn
    try rw [n3] at cwnf
    try rw [n3] at nwnf
    obtain ⟨h4, e4, s4, f4⟩ := setColor_spec (.right pa RBTREE_RED kpa _ (.left w RBTREE_BLACK kw Wf up)) s3 RBTREE_RED
    obtain ⟨h5, e5, s5, f5⟩ := setColor_spec (.left w RBTREE_BLACK kw Wf up) s4 RBTREE_BLACK
    have hwn5 := Shape.cell (.right pa RBTREE_BLACK kpa _ (.left w RBTREE_BLACK kw Wf up)) s5
    obtain ⟨h6, e6, s6, f6⟩ := setColor_spec (.right wn RBTREE_RED kwn _ (.right pa RBTREE_BLACK kpa (.leaf true) (.left w RBTREE_BLACK kw Wf up))) s5 RBTREE_BLACK
    obtain ⟨h7, t7, e7, n7, sF, f7⟩ := left_rotation_shape (.left w RBTREE_BLACK kw Wf up) s6
    have hx : xp = some pa := hxp _ rfl
    subst hx
    refine ⟨_, _, ?_, n7.trans n3, sF, ?_⟩
    · simp only [erase_fixedup_loop, ne_eq, not_false_eq_true, not_true_eq_false, if_true, if_false, Res.ok_bind, Res.pure_eq, decide_True, decide_False, Bool.true_eq_false, Bool.false_eq_true, Ctx.par_top, Ctx.par_left, Ctx.par_right, node_color_nil, reduceCtorEq, Tree.ptr_node, Tree.xptr_leaf, Tree.xptr_node, Tree.ptr_leaf_true, and_self, and_true, true_and, Option.some.injEq, decide_eq_true_eq, ite_self, x1, getLeft_of hpa, getRight_of hpa, cw, nw, e1, e2, e3, n3, getLeft_of hpa3, getRight_of hpa3, getColor_of hpa3, getLeft_of hwn3, getRight_of hwn3, npa, n3 ▸ npa3, n3 ▸ nwn3, cwnn, cwnf, nwnf, e4, e5, getLeft_of hwn5, getRight_of hwn5, e6, e7]
    · intro a ha
      simp only [mem_addrs_plug, Tree.addrs, List.mem_append, List.mem_cons, not_or,
        List.not_mem_nil, not_false_eq_true, true_and, and_true] at ha
      rw [f7 a (by
          simp only [mem_addrs_plug, Ctx.addrs, Tree.addrs, List.mem_append, List.mem_cons, not_or,
            List.not_mem_nil, not_false_eq_true, true_and, and_true]
          tauto), f6 a (by tauto), f5 a (by tauto), f4 a (by tauto), f3 a (by
          simp only [mem_addrs_plug, Ctx.addrs, Tree.addrs, List.mem_append, List.mem_cons, not_or,
            List.not_mem_nil, not_false_eq_true, true_and, and_true]
          tauto), f2 a (by tauto), f1 a (by tauto)]
  · simp only [Tree.rootColor_node] at hXb
    subst hXb
    have x1 := Shape.xptr_ne_root (.left pa RBTREE_BLACK kpa _ up) _ s (by simp)
    simp only [Tree.xptr_leaf, Tree.xptr_node] at x1
    have hpa := Shape.cell up s
    have npa := Shape.ne_nil up s
    have hw := Shape.cell (.right pa RBTREE_BLACK kpa _ up) s
    have nw := Shape.ne_nil (.right pa RBTREE_BLACK kpa _ up) s
    have cw := Shape.color_node (.right pa RBTREE_BLACK kpa _ up) s
    obtain ⟨h1, e1, s1, f1⟩ := setColor_spec (.right pa RBTREE_BLACK kpa _ up) s RBTREE_BLACK
    obtain ⟨h2, e2, s2, f2⟩ := setColor_spec up s1 RBTREE_RED
    obtain ⟨h3, t3, e3, n3, s3, f3⟩ := left_rotation_shape up s2
    have hpa3 := Shape.cell (.left w RBTREE_BLACK kw Wf up) s3
    have npa3 := Shape.ne_nil (.left w RBTREE_BLACK kw Wf up) s3
    have hwn3 := Shape.cell (.right pa RBTREE_RED kpa _ (.left w RBTREE_BLACK kw Wf up)) s3
    have nwn3 := Shape.ne_nil (.right pa RBTREE_RED kpa _ (.left w RBTREE_BLACK kw Wf up)) s3
    have cwnn := Shape.color_ptr (.left wn RBTREE_BLACK kwn _ (.right pa RBTREE_RED kpa (.node xa RBTREE_BLACK kx Xl Xr) (.left w RBTREE_BLACK kw Wf up))) Wnn s3
    have cwnf := Shape.color_node (.right wn RBTREE_BLACK kwn _ (.right pa RBTREE_RED kpa (.node xa RBTREE_BLACK kx Xl Xr) (.left w RBTREE_BLACK kw Wf up))) s3
    have nwnf := Shape.ne_nil (.right wn RBTREE_BLACK kwn _ (.right pa RBTREE_RED kpa (.node xa RBTREE_BLACK kx Xl Xr) (.left w RBTREE_BLACK kw Wf up))) s3
    try rw [n3] at cwnn
    try rw [n3] at cwnf
    try rw [n3] at nwnf
    obtain ⟨h4, e4, s4, f4⟩ := setColor_spec (.right pa RBTREE_RED kpa _ (.left w RBTREE_BLACK kw Wf up)) s3 RBTREE_RED
    obtain ⟨h5, e5, s5, f5⟩ := setColor_spec (.left w RBTREE_BLACK kw Wf up) s4 RBTREE_BLACK
    have hwn5 := Shape.cell (.right pa RBTREE_BLACK kpa _ (.left w RBTREE_BLACK kw Wf up)) s5
    obtain ⟨h6, e6, s6, f6⟩ := setColor_spec (.right wn RBTREE_RED kwn _ (.right pa RBTREE_BLACK kpa (.node xa RBTREE_BLACK kx Xl Xr) (.left w RBTREE_BLACK kw Wf up))) s5 RBTREE_BLACK
    obtain ⟨h7, t7, e7, n7, sF, f7⟩ := left_rotation_shape (.left w RBTREE_BLACK kw Wf up) s6
    have hx := Shape.cell (.left pa RBTREE_BLACK kpa _ up) s
    have nx := Shape.ne_nil (.left pa RBTREE_BLACK kpa _ up) s
    have cx' := Shape.color_node (.left pa RBTREE_BLACK kpa _ up) s
    refine ⟨_, _, ?_, n7.trans n3, sF, ?_⟩
    · simp only [erase_fixedup_loop, ne_eq, not_false_eq_true, not_true_eq_false, if_true, if_false, Res.ok_bind, Res.pure_eq, decide_True, decide_False, Bool.true_eq_false, Bool.false_eq_true, Ctx.par_top, Ctx.par_left, Ctx.par_right, node_color_nil, reduceCtorEq, Tree.ptr_node, Tree.xptr_leaf, Tree.xptr_node, Tree.ptr_leaf_true, and_self, and_true, true_and, Option.some.injEq, decide_eq_true_eq, ite_self, x1, getParent_of hx, nx, cx', getLeft_of hpa, getRight_of hpa, cw, nw, e1, e2, e3, n3, getLeft_of hpa3, getRight_of hpa3, getColor_of hpa3, getLeft_of hwn3, getRight_of hwn3, npa, n3 ▸ npa3, n3 ▸ nwn3, cwnn, cwnf, nwnf, e4, e5, getLeft_of hwn5, getRight_of hwn5, e6, e7]
    · intro a ha
      simp only [mem_addrs_plug, Tree.addrs, List.mem_append, List.mem_cons, not_or,
        List.not_mem_nil, not_false_eq_true, true_and, and_true] at ha
      rw [f7 a (by
          simp only [mem_addrs_plug, Ctx.addrs, Tree.addrs, List.mem_append, List.mem_cons, not_or,
            List.not_mem_nil, not_false_eq_true, true_and, and_true]
          tauto), f6 a (by tauto), f5 a (by tauto), f4 a (by tauto), f3 a (by
          simp only [mem_addrs_plug, Ctx.addrs, Tree.addrs, List.mem_append, List.mem_cons, not_or,
            List.not_mem_nil, not_false_eq_true, true_and, and_true]
          tauto), f2 a (by tauto), f1 a (by tauto)]

theorem era_case134_left {h : Heap} {t : rbtree} {up : Ctx} {pa w wn wnn : Nat} {kpa kw kwn kwnn : key_t} {X Wf Wnf Wnnn Wnnf : Tree} (fuel : Nat) (xp : Ptr)
    (s : Shape h t (up.plug (.node pa RBTREE_BLACK kpa X (.node w RBTREE_RED kw (.node wn RBTREE_BLACK kwn (.node wnn RBTREE_RED kwnn Wnnn Wnnf) Wnf) Wf))))
    (hXb : X.rootColor = RBTREE_BLACK) (hXf : X ≠ .leaf false)
    (hxp : ∀ s0, X = .leaf s0 → xp = some pa)
    (hWnf : Wnf.rootColor = RBTREE_BLACK) :
    ∃ h' t', erase_fixedup_loop (fuel + 1) h t (X.xptr t.nil) xp =
        erase_fixedup_loop fuel h' t' t'.root xp ∧ t'.nil = t.nil ∧
      Shape h' t' (up.plug (.node w RBTREE_BLACK kw (.node wnn RBTREE_RED kwnn (.node pa RBTREE_BLACK kpa X Wnnn) (.node wn RBTREE_BLACK kwn Wnnf Wnf)) Wf)) ∧
      (∀ a, a ∉ (up.plug (.node pa RBTREE_BLACK kpa X (.node w RBTREE_RED kw (.node wn RBTREE_BLACK kwn (.node wnn RBTREE_RED kwnn Wnnn Wnnf) Wnf) Wf))).addrs → h' a = h a) := by
  rcases X with s0 | ⟨xa, cx, kx, Xl, Xr⟩
  · have hs0 : s0 = true := by
      cases s0
      · exact absurd rfl hXf
      · rfl
    subst hs0
    have x1 := Shape.xptr_ne_root (.left pa RBTREE_BLACK kpa _ up) _ s (by simp)
    simp only [Tree.xptr_leaf, Tree.xptr_node] at x1
    have hpa := Shape.cell up s
    have npa := Shape.ne_nil up s
    have hw := Shape.cell (.right pa RBTREE_BLACK kpa _ up) s
    have nw := Shape.ne_nil (.right pa RBTREE_BLACK kpa _ up) s
    have cw := Shape.color_node (.right pa RBTREE_BLACK kpa _ up) s
    obtain ⟨h1, e1, s1, f1⟩ := setColor_spec (.right pa RBTREE_BLACK kpa _ up) s RBTREE_BLACK
    obtain ⟨h2, e2, s2, f2⟩ := setColor_spec up s1 RBTREE_RED
    obtain ⟨h3, t3, e3, n3, s3, f3⟩ := left_rotation_shape up s2
    have hpa3 := Shape.cell (.left w RBTREE_BLACK kw Wf up) s3
    have npa3 := Shape.ne_nil (.left w RBTREE_BLACK kw Wf up) s3
    have hwn3 := Shape.cell (.right pa RBTREE_RED kpa _ (.left w RBTREE_BLACK kw Wf up)) s3
    have nwn3 := Shape.ne_nil (.right pa RBTREE_RED kpa _ (.left w RBTREE_BLACK kw Wf up)) s3
    have cwnn := Shape.color_node (.left wn RBTREE_BLACK kwn _ (.right pa RBTREE_RED kpa (.leaf true) (.left w RBTREE_BLACK kw Wf up))) s3
    have nwnn := Shape.ne_nil (.left wn RBTREE_BLACK kwn _ (.right pa RBTREE_RED kpa (.leaf true) (.left w RBTREE_BLACK kw Wf up))) s3
    have cwnf := Shape.color_ptr (.right wn RBTREE_BLACK kwn _ (.right pa RBTREE_RED kpa (.leaf true) (.left w RBTREE_BLACK kw Wf up))) Wnf s3
    try rw [n3] at cwnn
    try rw [n3] at cwnf
    try rw [n3] at nwnn
    obtain ⟨h4, e4, s4, f4⟩ := setColor_spec (.left wn RBTREE_BLACK kwn _ (.right pa RBTREE_RED kpa (.leaf true) (.left w RBTREE_BLACK kw Wf up))) s3 RBTREE_BLACK
    obtain ⟨h5, e5, s5, f5⟩ := setColor_spec (.right pa RBTREE_RED kpa _ (.left w RBTREE_BLACK kw Wf up)) s4 RBTREE_RED
    obtain ⟨h6, t6, e6, n6, s6, f6⟩ := right_rotation_shape (.right pa RBTREE_RED kpa _ (.left w RBTREE_BLACK kw Wf up)) s5
    have hpa6 := Shape.cell (.left w RBTREE_BLACK kw Wf up) s6
    have nwnn6 := Shape.ne_nil (.right pa RBTREE_RED kpa _ (.left w RBTREE_BLACK kw Wf up)) s6
    obtain ⟨h7, e7, s7, f7⟩ := setColor_spec (.right pa RBTREE_RED kpa _ (.left w RBTREE_BLACK kw Wf up)) s6 RBTREE_RED
    obtain ⟨h8, e8, s8, f8⟩ := setColor_spec (.left w RBTREE_BLACK kw Wf up) s7 RBTREE_BLACK
    have hwnn8 := Shape.cell (.right pa RBTREE_BLACK kpa _ (.left w RBTREE_BLACK kw Wf up)) s8
    obtain ⟨h9, e9, s9, f9⟩ := setColor_spec (.right wnn RBTREE_RED kwnn _ (.right pa RBTREE_BLACK kpa (.leaf true) (.left w RBTREE_BLACK kw Wf up))) s8 RBTREE_BLACK
    obtain ⟨h10, t10, e10, n10, sF, f10⟩ := left_rotation_shape (.left w RBTREE_BLACK kw Wf up) s9
    have hx : xp = some pa := hxp _ rfl
    subst hx
    refine ⟨_, _, ?_, (n10.trans n6).trans n3, sF, ?_⟩
    · simp only [erase_fixedup_loop, ne_eq, not_false_eq_true, not_true_eq_false, if_true, if_false, Res.ok_bind, Res.pure_eq, decide_True, decide_False, Bool.true_eq_false, Bool.false_eq_true, Ctx.par_top, Ctx.par_left, Ctx.par_right, node_color_nil, reduceCtorEq, Tree.ptr_node, Tree.xptr_leaf, Tree.xptr_node, Tree.ptr_leaf_true, and_self, and_true, true_and, Option.some.injEq, decide_eq_true_eq, ite_self, x1, getLeft_of hpa, getRight_of hpa, cw, nw, e1, e2, e3, n3, getLeft_of hpa3, getRight_of hpa3, getColor_of hpa3, getLeft_of hwn3, getRight_of hwn3, npa, n3 ▸ npa3, n3 ▸ nwn3, cwnn, cwnf, nwnn, hWnf, e4, e5, e6, n6, getLeft_of hpa6, getRight_of hpa6, getColor_of hpa6, e7, e8, getLeft_of hwnn8, getRight_of hwnn8, e9, e10]
    · intro a ha
      simp only [mem_addrs_plug, Tree.addrs, List.mem_append, List.mem_cons, not_or,
        List.not_mem_nil, not_false_eq_true, true_and, and_true] at ha
      rw [f10 a (by
          simp only [mem_addrs_plug, Ctx.addrs, Tree.addrs, List.mem_append, List.mem_cons, not_or,
            List.not_mem_nil, not_false_eq_true, true_and, and_true]
          tauto), f9 a (by tauto), f8 a (by tauto), f7 a (by tauto), f6 a (by
          simp only [mem_addrs_plug, Ctx.addrs, Tree.addrs, List.mem_append, List.mem_cons, not_or,
            List.not_mem_nil, not_false_eq_true, true_and, and_true]
          tauto), f5 a (by tauto), f4 a (by tauto), f3 a (by
          simp only [mem_addrs_plug, Ctx.addrs, Tree.addrs, List.mem_append, List.mem_cons, not_or,
            List.not_mem_nil, not_false_eq_true, true_and, and_true]
          tauto), f2 a (by tauto), f1 a (by tauto)]
  · simp only [Tree.rootColor_node] at hXb
    subst hXb
    have x1 := Shape.xptr_ne_root (.left pa RBTREE_BLACK kpa _ up) _ s (by simp)
    simp only [Tree.xptr_leaf, Tree.xptr_node] at x1
    have hpa := Shape.cell up s
    have npa := Shape.ne_nil up s
    have hw := Shape.cell (.right pa RBTREE_BLACK kpa _ up) s
    have nw := Shape.ne_nil (.right pa RBTREE_BLACK kpa _ up) s
    have cw := Shape.color_node (.right pa RBTREE_BLACK kpa _ up) s
    obtain ⟨h1, e1, s1, f1⟩ := setColor_spec (.right pa RBTREE_BLACK kpa _ up) s RBTREE_BLACK
    obtain ⟨h2, e2, s2, f2⟩ := setColor_spec up s1 RBTREE_RED
    obtain ⟨h3, t3, e3, n3, s3, f3⟩ := left_rotation_shape up s2
    have hpa3 := Shape.cell (.left w RBTREE_BLACK kw Wf up) s3
    have npa3 := Shape.ne_nil (.left w RBTREE_BLACK kw Wf up) s3
    have hwn3 := Shape.cell (.right pa RBTREE_RED kpa _ (.left w RBTREE_BLACK kw Wf up)) s3
    have nwn3 := Shape.ne_nil (.right pa RBTREE_RED kpa _ (.left w RBTREE_BLACK kw Wf up)) s3
    have cwnn := Shape.color_node (.left wn RBTREE_BLACK kwn _ (.right pa RBTREE_RED kpa (.node xa RBTREE_BLACK kx Xl Xr) (.left w RBTREE_BLACK kw Wf up))) s3
    have nwnn := Shape.ne_nil (.left wn RBTREE_BLACK kwn _ (.right pa RBTREE_RED kpa (.node xa RBTREE_BLACK kx Xl Xr) (.left w RBTREE_BLACK kw Wf up))) s3
    have cwnf := Shape.color_ptr (.right wn RBTREE_BLACK kwn _ (.right pa RBTREE_RED kpa (.node xa RBTREE_BLACK kx Xl Xr) (.left w RBTREE_BLACK kw Wf up))) Wnf s3
    try rw [n3] at cwnn
    try rw [n3] at cwnf
    try rw [n3] at nwnn
    obtain ⟨h4, e4, s4, f4⟩ := setColor_spec (.left wn RBTREE_BLACK kwn _ (.right pa RBTREE_RED kpa (.node xa RBTREE_BLACK kx Xl Xr) (.left w RBTREE_BLACK kw Wf up))) s3 RBTREE_BLACK
    obtain ⟨h5, e5, s5, f5⟩ := setColor_spec (.right pa RBTREE_RED kpa _ (.left w RBTREE_BLACK kw Wf up)) s4 RBTREE_RED
    obtain ⟨h6, t6, e6, n6, s6, f6⟩ := right_rotation_shape (.right pa RBTREE_RED kpa _ (.left w RBTREE_BLACK kw Wf up)) s5
    have hpa6 := Shape.cell (.left w RBTREE_BLACK kw Wf up) s6
    have nwnn6 := Shape.ne_nil (.right pa RBTREE_RED kpa _ (.left w RBTREE_BLACK kw Wf up)) s6
    obtain ⟨h7, e7, s7, f7⟩ := setColor_spec (.right pa RBTREE_RED kpa _ (.left w RBTREE_BLACK kw Wf up)) s6 RBTREE_RED
    obtain ⟨h8, e8, s8, f8⟩ := setColor_spec (.left w RBTREE_BLACK kw Wf up) s7 RBTREE_BLACK
    have hwnn8 := Shape.cell (.right pa RBTREE_BLACK kpa _ (.left w RBTREE_BLACK kw Wf up)) s8
    obtain ⟨h9, e9, s9, f9⟩ := setColor_spec (.right wnn RBTREE_RED kwnn _ (.right pa RBTREE_BLACK kpa (.node xa RBTREE_BLACK kx Xl Xr) (.left w RBTREE_BLACK kw Wf up))) s8 RBTREE_BLACK
    obtain ⟨h10, t10, e10, n10, sF, f10⟩ := left_rotation_shape (.left w RBTREE_BLACK kw Wf up) s9
    have hx := Shape.cell (.left pa RBTREE_BLACK kpa _ up) s
    have nx := Shape.ne_nil (.left pa RBTREE_BLACK kpa _ up) s
    have cx' := Shape.color_node (.left pa RBTREE_BLACK kpa _ up) s
    refine ⟨_, _, ?_, (n10.trans n6).trans n3, sF, ?_⟩
    · simp only [erase_fixedup_loop, ne_eq, not_false_eq_true, not_true_eq_false, if_true, if_false, Res.ok_bind, Res.pure_eq, decide_True, decide_False, Bool.true_eq_false, Bool.false_eq_true, Ctx.par_top, Ctx.par_left, Ctx.par_right, node_color_nil, reduceCtorEq, Tree.ptr_node, Tree.xptr_leaf, Tree.xptr_node, Tree.ptr_leaf_true, and_self, and_true, true_and, Option.some.injEq, decide_eq_true_eq, ite_self, x1, getParent_of hx, nx, cx', getLeft_of hpa, getRight_of hpa, cw, nw, e1, e2, e3, n3, getLeft_of hpa3, getRight_of hpa3, getColor_of hpa3, getLeft_of hwn3, getRight_of hwn3, npa, n3 ▸ npa3, n3 ▸ nwn3, cwnn, cwnf, nwnn, hWnf, e4, e5, e6, n6, getLeft_of hpa6, getRight_of hpa6, getColor_of hpa6, e7, e8, getLeft_of hwnn8, getRight_of hwnn8, e9, e10]
    · intro a ha
      simp only [mem_addrs_plug, Tree.addrs, List.mem_append, List.mem_cons, not_or,
        List.not_mem_nil, not_false_eq_true, true_and, and_true] at ha
      rw [f10 a (by
          simp only [mem_addrs_plug, Ctx.addrs, Tree.addrs, List.mem_append, List.mem_cons, not_or,
            List.not_mem_nil, not_false_eq_true, true_and, and_true]
          tauto), f9 a (by tauto), f8 a (by tauto), f7 a (by tauto), f6 a (by
          simp only [mem_addrs_plug, Ctx.addrs, Tree.addrs, List.mem_append, List.mem_cons, not_or,
            List.not_mem_nil, not_false_eq_true, true_and, and_true]
          tauto), f5 a (by tauto), f4 a (by tauto), f3 a (by
          simp only [mem_addrs_plug, Ctx.addrs, Tree.addrs, List.mem_append, List.mem_cons, not_or,
            List.not_mem_nil, not_false_eq_true, true_and, and_true]
          tauto), f2 a (by tauto), f1 a (by tauto)]

theorem era_case2_right {h : Heap} {t : rbtree} {up : Ctx} {pa w : Nat} {cpa : color_t} {kpa kw : key_t} {X Wn Wf : Tree} (fuel : Nat) (xp : Ptr)
    (s : Shape h t (up.plug (.node pa cpa kpa (.node w RBTREE_BLACK kw Wf Wn) X)))
    (hXb : X.rootColor = RBTREE_BLACK)
    (hxp : ∀ s0, X = .leaf s0 → xp = some pa)
    (hWn : Wn.rootColor = RBTREE_BLACK) (hWf : Wf.rootColor = RBTREE_BLACK) :
    ∃ h', erase_fixedup_loop (fuel + 1) h t (X.xptr t.nil) xp =
        erase_fixedup_loop fuel h' t (some pa) up.par ∧
      Shape h' t (up.plug (.node pa cpa kpa (.node w RBTREE_RED kw Wf Wn) X)) ∧
      (∀ a, a ∉ (up.plug (.node pa cpa kpa (.node w RBTREE_BLACK kw Wf Wn) X)).addrs → h' a = h a) := by
  rcases X with s0 | ⟨xa, cx, kx, Xl, Xr⟩
  · have x1 := Shape.xptr_ne_root (.right pa cpa kpa _ up) _ s (by simp)
    simp only [Tree.xptr_leaf, Tree.xptr_node] at x1
    have hpa := Shape.cell up s
    have npa := Shape.ne_nil up s
    have hw := Shape.cell (.left pa cpa kpa _ up) s
    have nw := Shape.ne_nil (.left pa cpa kpa _ up) s
    have cw := Shape.color_node (.left pa cpa kpa _ up) s
    have cwn := Shape.color_ptr (.right w RBTREE_BLACK kw Wf (.left pa cpa kpa (.leaf s0) up)) Wn s
    have cwf := Shape.color_ptr (.left w RBTREE_BLACK kw Wn (.left pa cpa kpa (.leaf s0) up)) Wf s
    obtain ⟨h1, e1, sF, f1⟩ := setColor_spec (.left pa cpa kpa _ up) s RBTREE_RED
    have hpa1 := Shape.cell up sF
    have hx : xp = some pa := hxp _ rfl
    subst hx
    have sx : t.nil ≠ some w := Ne.symm nw
    refine ⟨_, ?_, sF, ?_⟩
    · simp only [erase_fixedup_loop, ne_eq, not_false_eq_true, not_true_eq_false, if_true, if_false, Res.ok_bind, Res.pure_eq, decide_True, decide_False, Bool.true_eq_false, Bool.false_eq_true, Ctx.par_top, Ctx.par_left, Ctx.par_right, node_color_nil, reduceCtorEq, Tree.ptr_node, Tree.xptr_leaf, Tree.xptr_node, Tree.ptr_leaf_true, and_self, and_true, true_and, Option.some.injEq, decide_eq_true_eq, ite_self, x1, sx, getLeft_of hpa, getRight_of hpa, cw, getLeft_of hw, getRight_of hw, cwn, cwf, hWn, hWf, nw, e1, npa, getParent_of hpa1]
    · intro a ha
      simp only [mem_addrs_plug, Tree.addrs, List.mem_append, List.mem_cons, not_or,
        List.not_mem_nil, not_false_eq_true, true_and, and_true] at ha
      rw [f1 a (by tauto)]
  · simp only [Tree.rootColor_node] at hXb
    subst hXb
    have x1 := Shape.xptr_ne_root (.right pa cpa kpa _ up) _ s (by simp)
    simp only [Tree.xptr_leaf, Tree.xptr_node] at x1
    have hpa := Shape.cell up s
    have npa := Shape.ne_nil up s
    have hw := Shape.cell (.left pa cpa kpa _ up) s
    have nw := Shape.ne_nil (.left pa cpa kpa _ up) s
    have cw := Shape.color_node (.left pa cpa kpa _ up) s
    have cwn := Shape.color_ptr (.right w RBTREE_BLACK kw Wf (.left pa cpa kpa (.node xa RBTREE_BLACK kx Xl Xr) up)) Wn s
    have cwf := Shape.color_ptr (.left w RBTREE_BLACK kw Wn (.left pa cpa kpa (.node xa RBTREE_BLACK kx Xl Xr) up)) Wf s
    obtain ⟨h1, e1, sF, f1⟩ := setColor_spec (.left pa cpa kpa _ up) s RBTREE_RED
    have hpa1 := Shape.cell up sF
    have hx := Shape.cell (.right pa cpa kpa _ up) s
    have nx := Shape.ne_nil (.right pa cpa kpa _ up) s
    have cx' := Shape.color_node (.right pa cpa kpa _ up) s
    have sx : (some xa : Ptr) ≠ some w := Shape.right_ne_left_ptr up s
    refine ⟨_, ?_, sF, ?_⟩
    · simp only [erase_fixedup_loop, ne_eq, not_false_eq_true, not_true_eq_false, if_true, if_false, Res.ok_bind, Res.pure_eq, decide_True, decide_False, Bool.true_eq_false, Bool.false_eq_true, Ctx.par_top, Ctx.par_left, Ctx.par_right, node_color_nil, reduceCtorEq, Tree.ptr_node, Tree.xptr_leaf, Tree.xptr_node, Tree.ptr_leaf_true, and_self, and_true, true_and, Option.some.injEq, decide_eq_true_eq, ite_self, x1, getParent_of hx, nx, cx', sx, getLeft_of hpa, getRight_of hpa, cw, getLeft_of hw, getRight_of hw, cwn, cwf, hWn, hWf, nw, e1, npa, getParent_of hpa1]
    · intro a ha
      simp only [mem_addrs_plug, Tree.addrs, List.mem_append, List.mem_cons, not_or,
        List.not_mem_nil, not_false_eq_true, true_and, and_true] at ha
      rw [f1 a (by tauto)]

theorem era_case4_right {h : Heap} {t : rbtree} {up : Ctx} {pa w wf : Nat} {cpa : color_t} {kpa kw kwf : key_t} {X Wn Wfn Wff : Tree} (fuel : Nat) (xp : Ptr)
    (s : Shape h t (up.plug (.node pa cpa kpa (.node w RBTREE_BLACK kw (.node wf RBTREE_RED kwf Wff Wfn) Wn) X)))
    (hXb : X.rootColor = RBTREE_BLACK)
    (hxp : ∀ s0, X = .leaf s0 → xp = some pa) :
    ∃ h' t', erase_fixedup_loop (fuel + 1) h t (X.xptr t.nil) xp =
        erase_fixedup_loop fuel h' t' t'.root xp ∧ t'.nil = t.nil ∧
      Shape h' t' (up.plug (.node w cpa kw (.node wf RBTREE_BLACK kwf Wff Wfn) (.node pa RBTREE_BLACK kpa Wn X))) ∧
      (∀ a, a ∉ (up.plug (.node pa cpa kpa (.node w RBTREE_BLACK kw (.node wf RBTREE_RED kwf Wff Wfn) Wn) X)).addrs → h' a = h a) := by
  rcases X with s0 | ⟨xa, cx, kx, Xl, Xr⟩
  · have x1 := Shape.xptr_ne_root (.right pa cpa kpa _ up) _ s (by simp)
    simp only [Tree.xptr_leaf, Tree.xptr_node] at x1
    have hpa := Shape.cell up s
    have npa := Shape.ne_nil up s
    have hw := Shape.cell (.left pa cpa kpa _ up) s
    have nw := Shape.ne_nil (.left pa cpa kpa _ up) s
    have cw := Shape.color_node (.left pa cpa kpa _ up) s
    have cwn := Shape.color_ptr (.right w RBTREE_BLACK kw _ (.left pa cpa kpa (.leaf s0) up)) Wn s
    have cwf := Shape.color_node (.left w RBTREE_BLACK kw _ (.left pa cpa kpa (.leaf s0) up)) s
    have nwf := Shape.ne_nil (.left w RBTREE_BLACK kw _ (.left pa cpa kpa (.leaf s0) up)) s
    obtain ⟨h1, e1, s1, f1⟩ := setColor_spec (.left pa cpa kpa _ up) s cpa
    obtain ⟨h2, e2, s2, f2⟩ := setColor_spec up s1 RBTREE_BLACK
    have hw2 := Shape.cell (.left pa RBTREE_BLACK kpa _ up) s2
    obtain ⟨h3, e3, s3, f3⟩ := setColor_spec (.left w cpa kw _ (.left pa RBTREE_BLACK kpa (.leaf s0) up)) s2 RBTREE_BLACK
    obtain ⟨h4, t4, e4, n4, sF, f4⟩ := right_rotation_shape up s3
    have hx : xp = some pa := hxp _ rfl
    subst hx
    have sx : t.nil ≠ some w := Ne.symm nw
    refine ⟨_, _, ?_, n4, sF, ?_⟩
    · simp only [erase_fixedup_loop, ne_eq, not_false_eq_true, not_true_eq_false, if_true, if_false, Res.ok_bind, Res.pure_eq, decide_True, decide_False, Bool.true_eq_false, Bool.false_eq_true, Ctx.par_top, Ctx.par_left, Ctx.par_right, node_color_nil, reduceCtorEq, Tree.ptr_node, Tree.xptr_leaf, Tree.xptr_node, Tree.ptr_leaf_true, and_self, and_true, true_and, Option.some.injEq, decide_eq_true_eq, ite_self, x1, sx, getLeft_of hpa, getRight_of hpa, getColor_of hpa, cw, getLeft_of hw, getRight_of hw, cwn, cwf, nw, nwf, e1, e2, getLeft_of hw2, getRight_of hw2, e3, e4, npa]
    · intro a ha
      simp only [mem_addrs_plug, Tree.addrs, List.mem_append, List.mem_cons, not_or,
        List.not_mem_nil, not_false_eq_true, true_and, and_true] at ha
      rw [f4 a (by
          simp only [mem_addrs_plug, Ctx.addrs, Tree.addrs, List.mem_append, List.mem_cons, not_or,
            List.not_mem_nil, not_false_eq_true, true_and, and_true]
          tauto), f3 a (by tauto), f2 a (by tauto), f1 a (by tauto)]
  · simp only [Tree.rootColor_node] at hXb
    subst hXb
    have x1 := Shape.xptr_ne_root (.right pa cpa kpa _ up) _ s (by simp)
    simp only [Tree.xptr_leaf, Tree.xptr_node] at x1
    have hpa := Shape.cell up s
    have npa := Shape.ne_nil up s
    have hw := Shape.cell (.left pa cpa kpa _ up) s
    have nw := Shape.ne_nil (.left pa cpa kpa _ up) s
    have cw := Shape.color_node (.left pa cpa kpa _ up) s
    have cwn := Shape.color_ptr (.right w RBTREE_BLACK kw _ (.left pa cpa kpa (.node xa RBTREE_BLACK kx Xl Xr) up)) Wn s
    have cwf := Shape.color_node (.left w RBTREE_BLACK kw _ (.left pa cpa kpa (.node xa RBTREE_BLACK kx Xl Xr) up)) s
    have nwf := Shape.ne_nil (.left w RBTREE_BLACK kw _ (.left pa cpa kpa (.node xa RBTREE_BLACK kx Xl Xr) up)) s
    obtain ⟨h1, e1, s1, f1⟩ := setColor_spec (.left pa cpa kpa _ up) s cpa
    obtain ⟨h2, e2, s2, f2⟩ := setColor_spec up s1 RBTREE_BLACK
    have hw2 := Shape.cell (.left pa RBTREE_BLACK kpa _ up) s2
    obtain ⟨h3, e3, s3, f3⟩ := setColor_spec (.left w cpa kw _ (.left pa RBTREE_BLACK kpa (.node xa RBTREE_BLACK kx Xl Xr) up)) s2 RBTREE_BLACK
    obtain ⟨h4, t4, e4, n4, sF, f4⟩ := right_rotation_shape up s3
    have hx := Shape.cell (.right pa cpa kpa _ up) s
    have nx := Shape.ne_nil (.right pa cpa kpa _ up) s
    have cx' := Shape.color_node (.right pa cpa kpa _ up) s
    have sx : (some xa : Ptr) ≠ some w := Shape.right_ne_left_ptr up s
    refine ⟨_, _, ?_, n4, sF, ?_⟩
    · simp only [erase_fixedup_loop, ne_eq, not_false_eq_true, not_true_eq_false, if_true, if_false, Res.ok_bind, Res.pure_eq, decide_True, decide_False, Bool.true_eq_false, Bool.false_eq_true, Ctx.par_top, Ctx.par_left, Ctx.par_right, node_color_nil, reduceCtorEq, Tree.ptr_node, Tree.xptr_leaf, Tree.xptr_node, Tree.ptr_leaf_true, and_self, and_true, true_and, Option.some.injEq, decide_eq_true_eq, ite_self, x1, getParent_of hx, nx, cx', sx, getLeft_of hpa, getRight_of hpa, getColor_of hpa, cw, getLeft_of hw, getRight_of hw, cwn, cwf, nw, nwf, e1, e2, getLeft_of hw2, getRight_of hw2, e3, e4, npa]
    · intro a ha
      simp only [mem_addrs_plug, Tree.addrs, List.mem_append, List.mem_cons, not_or,
        List.not_mem_nil, not_false_eq_true, true_and, and_true] at ha
      rw [f4 a (by
          simp only [mem_addrs_plug, Ctx.addrs, Tree.addrs, List.mem_append, List.mem_cons, not_or,
            List.not_mem_nil, not_false_eq_true, true_and, and_true]
          tauto), f3 a (by tauto), f2 a (by tauto), f1 a (by tauto)]

theorem era_case3_right {h : Heap} {t : rbtree} {up : Ctx} {pa w wn : Nat} {cpa : color_t} {kpa kw kwn : key_t} {X Wf Wnn Wnf : Tree} (fuel : Nat) (xp : Ptr)
    (s : Shape h t (up.plug (.node pa cpa kpa (.node w RBTREE_BLACK kw Wf (.node wn RBTREE_RED kwn Wnf Wnn)) X)))
    (hXb : X.rootColor = RBTREE_BLACK)
    (hxp : ∀ s0, X = .leaf s0 → xp = some pa)
    (hWf : Wf.rootColor = RBTREE_BLACK) :
    ∃ h' t', erase_fixedup_loop (fuel + 1) h t (X.xptr t.nil) xp =
        erase_fixedup_loop fuel h' t' t'.root xp ∧ t'.nil = t.nil ∧
      Shape h' t' (up.plug (.node wn cpa kwn (.node w RBTREE_BLACK kw Wf Wnf) (.node pa RBTREE_BLACK kpa Wnn X))) ∧
      (∀ a, a ∉ (up.plug (.node pa cpa kpa (.node w RBTREE_BLACK kw Wf (.node wn RBTREE_RED kwn Wnf Wnn)) X)).addrs → h' a = h a) := by
  rcases X with s0 | ⟨xa, cx, kx, Xl, Xr⟩
  · have x1 := Shape.xptr_ne_root (.right pa cpa kpa _ up) _ s (by simp)
    simp only [Tree.xptr_leaf, Tree.xptr_node] at x1
    have hpa := Shape.cell up s
    have npa := Shape.ne_nil up s
    have hw := Shape.cell (.left pa cpa kpa _ up) s
    have nw := Shape.ne_nil (.left pa cpa kpa _ up) s
    have cw := Shape.color_node (.left pa cpa kpa _ up) s
    have cwn := Shape.color_node (.right w RBTREE_BLACK kw _ (.left pa cpa kpa (.leaf s0) up)) s
    have nwn := Shape.ne_nil (.right w RBTREE_BLACK kw _ (.left pa cpa kpa (.leaf s0) up)) s
    have cwf := Shape.color_ptr (.left w RBTREE_BLACK kw _ (.left pa cpa kpa (.leaf s0) up)) Wf s
    obtain ⟨h1, e1, s1, f1⟩ := setColor_spec (.right w RBTREE_BLACK kw _ (.left pa cpa kpa (.leaf s0) up)) s RBTREE_BLACK
    obtain ⟨h2, e2, s2, f2⟩ := setColor_spec (.left pa cpa kpa _ up) s1 RBTREE_RED
    obtain ⟨h3, t3, e3, n3, s3, f3⟩ := left_rotation_shape (.left pa cpa kpa _ up) s2
    have hpa3 := Shape.cell up s3
    obtain ⟨h4, e4, s4, f4⟩ := setColor_spec (.left pa cpa kpa _ up) s3 cpa
    obtain ⟨h5, e5, s5, f5⟩ := setColor_spec up s4 RBTREE_BLACK
    have hwn5 := Shape.cell (.left pa RBTREE_BLACK kpa _ up) s5
    obtain ⟨h6, e6, s6, f6⟩ := setColor_spec (.left wn cpa kwn _ (.left pa RBTREE_BLACK kpa (.leaf s0) up)) s5 RBTREE_BLACK
    obtain ⟨h7, t7, e7, n7, sF, f7⟩ := right_rotation_shape up s6
    have hx : xp = some pa := hxp _ rfl
    subst hx
    have sx : t.nil ≠ some w := Ne.symm nw
    refine ⟨_, _, ?_, n7.trans n3, sF, ?_⟩
    · simp only [erase_fixedup_loop, ne_eq, not_false_eq_true, not_true_eq_false, if_true, if_false, Res.ok_bind, Res.pure_eq, decide_True, decide_False, Bool.true_eq_false, Bool.false_eq_true, Ctx.par_top, Ctx.par_left, Ctx.par_right, node_color_nil, reduceCtorEq, Tree.ptr_node, Tree.xptr_leaf, Tree.xptr_node, Tree.ptr_leaf_true, and_self, and_true, true_and, Option.some.injEq, decide_eq_true_eq, ite_self, x1, sx, getLeft_of hpa, getRight_of hpa, cw, getLeft_of hw, getRight_of hw, cwn, cwf, hWf, nw, nwn, e1, e2, e3, n3, getLeft_of hpa3, getRight_of hpa3, getColor_of hpa3, e4, e5, getLeft_of hwn5, getRight_of hwn5, e6, e7, npa]
    · intro a ha
      simp only [mem_addrs_plug, Tree.addrs, List.mem_append, List.mem_cons, not_or,
        List.not_mem_nil, not_false_eq_true, true_and, and_true] at ha
      rw [f7 a (by
          simp only [mem_addrs_plug, Ctx.addrs, Tree.addrs, List.mem_append, List.mem_cons, not_or,
            List.not_mem_nil, not_false_eq_true, true_and, and_true]
          tauto), f6 a (by tauto), f5 a (by tauto), f4 a (by tauto), f3 a (by
          simp only [mem_addrs_plug, Ctx.addrs, Tree.addrs, List.mem_append, List.mem_cons, not_or,
            List.not_mem_nil, not_false_eq_true, true_and, and_true]
          tauto), f2 a (by tauto), f1 a (by tauto)]
  · simp only [Tree.rootColor_node] at hXb
    subst hXb
    have x1 := Shape.xptr_ne_root (.right pa cpa kpa _ up) _ s (by simp)
    simp only [Tree.xptr_leaf, Tree.xptr_node] at x1
    have hpa := Shape.cell up s
    have npa := Shape.ne_nil up s
    have hw := Shape.cell (.left pa cpa kpa _ up) s
    have nw := Shape.ne_nil (.left pa cpa kpa _ up) s
    have cw := Shape.color_node (.left pa cpa kpa _ up) s
    have cwn := Shape.color_node (.right w RBTREE_BLACK kw _ (.left pa cpa kpa (.node xa RBTREE_BLACK kx Xl Xr) up)) s
    have nwn := Shape.ne_nil (.right w RBTREE_BLACK kw _ (.left pa cpa kpa (.node xa RBTREE_BLACK kx Xl Xr) up)) s
    have cwf := Shape.color_ptr (.left w RBTREE_BLACK kw _ (.left pa cpa kpa (.node xa RBTREE_BLACK kx Xl Xr) up)) Wf s
    obtain ⟨h1, e1, s1, f1⟩ := setColor_spec (.right w RBTREE_BLACK kw _ (.left pa cpa kpa (.node xa RBTREE_BLACK kx Xl Xr) up)) s RBTREE_BLACK
    obtain ⟨h2, e2, s2, f2⟩ := setColor_spec (.left pa cpa kpa _ up) s1 RBTREE_RED
    obtain ⟨h3, t3, e3, n3, s3, f3⟩ := left_rotation_shape (.left pa cpa kpa _ up) s2
    have hpa3 := Shape.cell up s3
    obtain ⟨h4, e4, s4, f4⟩ := setColor_spec (.left pa cpa kpa _ up) s3 cpa
    obtain ⟨h5, e5, s5, f5⟩ := setColor_spec up s4 RBTREE_BLACK
    have hwn5 := Shape.cell (.left pa RBTREE_BLACK kpa _ up) s5
    obtain ⟨h6, e6, s6, f6⟩ := setColor_spec (.left wn cpa kwn _ (.left pa RBTREE_BLACK kpa (.node xa RBTREE_BLACK kx Xl Xr) up)) s5 RBTREE_BLACK
    obtain ⟨h7, t7, e7, n7, sF, f7⟩ := right_rotation_shape up s6
    have hx := Shape.cell (.right pa cpa kpa _ up) s
    have nx := Shape.ne_nil (.right pa cpa kpa _ up) s
    have cx' := Shape.color_node (.right pa cpa kpa _ up) s
    have sx : (some xa : Ptr) ≠ some w := Shape.right_ne_left_ptr up s
    refine ⟨_, _, ?_, n7.trans n3, sF, ?_⟩
    · simp only [erase_fixedup_loop, ne_eq, not_false_eq_true, not_true_eq_false, if_true, if_false, Res.ok_bind, Res.pure_eq, decide_True, decide_False, Bool.true_eq_false, Bool.false_eq_true, Ctx.par_top, Ctx.par_left, Ctx.par_right, node_color_nil, reduceCtorEq, Tree.ptr_node, Tree.xptr_leaf, Tree.xptr_node, Tree.ptr_leaf_true, and_self, and_true, true_and, Option.some.injEq, decide_eq_true_eq, ite_self, x1, getParent_of hx, nx, cx', sx, getLeft_of hpa, getRight_of hpa, cw, getLeft_of hw, getRight_of hw, cwn, cwf, hWf, nw, nwn, e1, e2, e3, n3, getLeft_of hpa3, getRight_of hpa3, getColor_of hpa3, e4, e5, getLeft_of hwn5, getRight_of hwn5, e6, e7, npa]
    · intro a ha
      simp only [mem_addrs_plug, Tree.addrs, List.mem_append, List.mem_cons, not_or,
        List.not_mem_nil, not_false_eq_true, true_and, and_true] at ha
      rw [f7 a (by
          simp only [mem_addrs_plug, Ctx.addrs, Tree.addrs, List.mem_append, List.mem_cons, not_or,
            List.not_mem_nil, not_false_eq_true, true_and, and_true]
          tauto), f6 a (by tauto), f5 a (by tauto), f4 a (by tauto), f3 a (by
          simp only [mem_addrs_plug, Ctx.addrs, Tree.addrs, List.mem_append, List.mem_cons, not_or,
            List.not_mem_nil, not_false_eq_true, true_and, and_true]
          tauto), f2 a (by tauto), f1 a (by tauto)]

theorem era_case12_right {h : Heap} {t : rbtree} {up : Ctx} {pa w wn : Nat} {kpa kw kwn : key_t} {X Wf Wnn Wnf : Tree} (fuel : Nat) (xp : Ptr)
    (s : Shape h t (up.plug (.node pa RBTREE_BLACK kpa (.node w RBTREE_RED kw Wf (.node wn RBTREE_BLACK kwn Wnf Wnn)) X)))
    (hXb : X.rootColor = RBTREE_BLACK)
    (hxp : ∀ s0, X = .leaf s0 → xp = some pa)
    (hWnn : Wnn.rootColor = RBTREE_BLACK) (hWnf : Wnf.rootColor = RBTREE_BLACK) :
    ∃ h' t', erase_fixedup_loop (fuel + 1) h t (X.xptr t.nil) xp =
        erase_fixedup_loop fuel h' t' (some pa) (some w) ∧ t'.nil = t.nil ∧
      Shape h' t' (up.plug (.node w RBTREE_BLACK kw Wf (.node pa RBTREE_RED kpa (.node wn RBTREE_RED kwn Wnf Wnn) X))) ∧
      (∀ a, a ∉ (up.plug (.node pa RBTREE_BLACK kpa (.node w RBTREE_RED kw Wf (.node wn RBTREE_BLACK kwn Wnf Wnn)) X)).addrs → h' a = h a) := by
  rcases X with s0 | ⟨xa, cx, kx, Xl, Xr⟩
  · have x1 := Shape.xptr_ne_root (.right pa RBTREE_BLACK kpa _ up) _ s (by simp)
    simp only [Tree.xptr_leaf, Tree.xptr_node] at x1
    have hpa := Shape.cell up s
    have npa := Shape.ne_nil up s
    have hw := Shape.cell (.left pa RBTREE_BLACK kpa _ up) s
    have nw := Shape.ne_nil (.left pa RBTREE_BLACK kpa _ up) s
    have cw := Shape.color_node (.left pa RBTREE_BLACK kpa _ up) s
    obtain ⟨h1, e1, s1, f1⟩ := setColor_spec (.left pa RBTREE_BLACK kpa _ up) s RBTREE_BLACK
    obtain ⟨h2, e2, s2, f2⟩ := setColor_spec up s1 RBTREE_RED
    obtain ⟨h3, t3, e3, n3, s3, f3⟩ := right_rotation_shape up s2
    have hpa3 := Shape.cell (.right w RBTREE_BLACK kw Wf up) s3
    have npa3 := Shape.ne_nil (.right w RBTREE_BLACK kw Wf up) s3
    have hwn3 := Shape.cell (.left pa RBTREE_RED kpa _ (.right w RBTREE_BLACK kw Wf up)) s3
    have nwn3 := Shape.ne_nil (.left pa RBTREE_RED kpa _ (.right w RBTREE_BLACK kw Wf up)) s3
    have cwnn := Shape.color_ptr (.right wn RBTREE_BLACK kwn _ (.left pa RBTREE_RED kpa (.leaf s0) (.right w RBTREE_BLACK kw Wf up))) Wnn s3
    have cwnf := Shape.color_ptr (.left wn RBTREE_BLACK kwn _ (.left pa RBTREE_RED kpa (.leaf s0) (.right w RBTREE_BLACK kw Wf up))) Wnf s3
    try rw [n3] at cwnn
    try rw [n3] at cwnf
    obtain ⟨h4, e4, sF, f4⟩ := setColor_spec (.left pa RBTREE_RED kpa _ (.right w RBTREE_BLACK kw Wf up)) s3 RBTREE_RED
    have hpa4 := Shape.cell (.right w RBTREE_BLACK kw Wf up) sF
    have hx : xp = some pa := hxp _ rfl
    subst hx
    have sx : t.nil ≠ some w := Ne.symm nw
    refine ⟨_, _, ?_, n3, sF, ?_⟩
    · simp only [erase_fixedup_loop, ne_eq, not_false_eq_true, not_true_eq_false, if_true, if_false, Res.ok_bind, Res.pure_eq, decide_True, decide_False, Bool.true_eq_false, Bool.false_eq_true, Ctx.par_top, Ctx.par_left, Ctx.par_right, node_color_nil, reduceCtorEq, Tree.ptr_node, Tree.xptr_leaf, Tree.xptr_node, Tree.ptr_leaf_true, and_self, and_true, true_and, Option.some.injEq, decide_eq_true_eq, ite_self, x1, sx, getLeft_of hpa, getRight_of hpa, cw, nw, e1, e2, e3, n3, getLeft_of hpa3, getRight_of hpa3, getColor_of hpa3, getLeft_of hwn3, getRight_of hwn3, npa, n3 ▸ npa3, n3 ▸ nwn3, cwnn, cwnf, hWnn, hWnf, e4, getParent_of hpa4]
    · intro a ha
      simp only [mem_addrs_plug, Tree.addrs, List.mem_append, List.mem_cons, not_or,
        List.not_mem_nil, not_false_eq_true, true_and, and_true] at ha
      rw [f4 a (by tauto), f3 a (by
          simp only [mem_addrs_plug, Ctx.addrs, Tree.addrs, List.mem_append, List.mem_cons, not_or,
            List.not_mem_nil, not_false_eq_true, true_and, and_true]
          tauto), f2 a (by tauto), f1 a (by tauto)]
  · simp only [Tree.rootColor_node] at hXb
    subst hXb
    have x1 := Shape.xptr_ne_root (.right pa RBTREE_BLACK kpa _ up) _ s (by simp)
    simp only [Tree.xptr_leaf, Tree.xptr_node] at x1
    have hpa := Shape.cell up s
    have npa := Shape.ne_nil up s
    have hw := Shape.cell (.left pa RBTREE_BLACK kpa _ up) s
    have nw := Shape.ne_nil (.left pa RBTREE_BLACK kpa _ up) s
    have cw := Shape.color_node (.left pa RBTREE_BLACK kpa _ up) s
    obtain ⟨h1, e1, s1, f1⟩ := setColor_spec (.left pa RBTREE_BLACK kpa _ up) s RBTREE_BLACK
    obtain ⟨h2, e2, s2, f2⟩ := setColor_spec up s1 RBTREE_RED
    obtain ⟨h3, t3, e3, n3, s3, f3⟩ := right_rotation_shape up s2
    have hpa3 := Shape.cell (.right w RBTREE_BLACK kw Wf up) s3
    have npa3 := Shape.ne_nil (.right w RBTREE_BLACK kw Wf up) s3
    have hwn3 := Shape.cell (.left pa RBTREE_RED kpa _ (.right w RBTREE_BLACK kw Wf up)) s3
    have nwn3 := Shape.ne_nil (.left pa RBTREE_RED kpa _ (.right w RBTREE_BLACK kw Wf up)) s3
    have cwnn := Shape.color_ptr (.right wn RBTREE_BLACK kwn _ (.left pa RBTREE_RED kpa (.node xa RBTREE_BLACK kx Xl Xr) (.right w RBTREE_BLACK kw Wf up))) Wnn s3
    have cwnf := Shape.color_ptr (.left wn RBTREE_BLACK kwn _ (.left pa RBTREE_RED kpa (.node xa RBTREE_BLACK kx Xl Xr) (.right w RBTREE_BLACK kw Wf up))) Wnf s3
    try rw [n3] at cwnn
    try rw [n3] at cwnf
    obtain ⟨h4, e4, sF, f4⟩ := setColor_spec (.left pa RBTREE_RED kpa _ (.right w RBTREE_BLACK kw Wf up)) s3 RBTREE_RED
    have hpa4 := Shape.cell (.right w RBTREE_BLACK kw Wf up) sF
    have hx := Shape.cell (.right pa RBTREE_BLACK kpa _ up) s
    have nx := Shape.ne_nil (.right pa RBTREE_BLACK kpa _ up) s
    have cx' := Shape.color_node (.right pa RBTREE_BLACK kpa _ up) s
    have sx : (some xa : Ptr) ≠ some w := Shape.right_ne_left_ptr up s
    refine ⟨_, _, ?_, n3, sF, ?_⟩
    · simp only [erase_fixedup_loop, ne_eq, not_false_eq_true, not_true_eq_false, if_true, if_false, Res.ok_bind, Res.pure_eq, decide_True, decide_False, Bool.true_eq_false, Bool.false_eq_true, Ctx.par_top, Ctx.par_left, Ctx.par_right, node_color_nil, reduceCtorEq, Tree.ptr_node, Tree.xptr_leaf, Tree.xptr_node, Tree.ptr_leaf_true, and_self, and_true, true_and, Option.some.injEq, decide_eq_true_eq, ite_self, x1, getParent_of hx, nx, cx', sx, getLeft_of hpa, getRight_of hpa, cw, nw, e1, e2, e3, n3, getLeft_of hpa3, getRight_of hpa3, getColor_of hpa3, getLeft_of hwn3, getRight_of hwn3, npa, n3 ▸ npa3, n3 ▸ nwn3, cwnn, cwnf, hWnn, hWnf, e4, getParent_of hpa4]
    · intro a ha
      simp only [mem_addrs_plug, Tree.addrs, List.mem_append, List.mem_cons, not_or,
        List.not_mem_nil, not_false_eq_true, true_and, and_true] at ha
      rw [f4 a (by tauto), f3 a (by
          simp only [mem_addrs_plug, Ctx.addrs, Tree.addrs, List.mem_append, List.mem_cons, not_or,
            List.not_mem_nil, not_false_eq_true, true_and, and_true]
          tauto), f2 a (by tauto), f1 a (by tauto)]

theorem era_case14_right {h : Heap} {t : rbtree} {up : Ctx} {pa w wn wnf : Nat} {kpa kw kwn kwnf : key_t} {X Wf Wnn Wnfn Wnff : Tree} (fuel : Nat) (xp : Ptr)
    (s : Shape h t (up.plug (.node pa RBTREE_BLACK kpa (.node w RBTREE_RED kw Wf (.node wn RBTREE_BLACK kwn (.node wnf RBTREE_RED kwnf Wnff Wnfn) Wnn)) X)))
    (hXb : X.rootColor = RBTREE_BLACK)
    (hxp : ∀ s0, X = .leaf s0 → xp = some pa) :
    ∃ h' t', erase_fixedup_loop (fuel + 1) h t (X.xptr t.nil) xp =
        erase_fixedup_loop fuel h' t' t'.root xp ∧ t'.nil = t.nil ∧
      Shape h' t' (up.plug (.node w RBTREE_BLACK kw Wf (.node wn RBTREE_RED kwn (.node wnf RBTREE_BLACK kwnf Wnff Wnfn) (.node pa RBTREE_BLACK kpa Wnn X)))) ∧
      (∀ a, a ∉ (up.plug (.node pa RBTREE_BLACK kpa (.node w RBTREE_RED kw Wf (.node wn RBTREE_BLACK kwn (.node wnf RBTREE_RED kwnf Wnff Wnfn) Wnn)) X)).addrs → h' a = h a) := by
  rcases X with s0 | ⟨xa, cx, kx, Xl, Xr⟩
  · have x1 := Shape.xptr_ne_root (.right pa RBTREE_BLACK kpa _ up) _ s (by simp)
    simp only [Tree.xptr_leaf, Tree.xptr_node] at x1
    have hpa := Shape.cell up s
    have npa := Shape.ne_nil up s
    have hw := Shape.cell (.left pa RBTREE_BLACK kpa _ up) s
    have nw := Shape.ne_nil (.left pa RBTREE_BLACK kpa _ up) s
    have cw := Shape.color_node (.left pa RBTREE_BLACK kpa _ up) s
    obtain ⟨h1, e1, s1, f1⟩ := setColor_spec (.left pa RBTREE_BLACK kpa _ up) s RBTREE_BLACK
    obtain ⟨h2, e2, s2, f2⟩ := setColor_spec up s1 RBTREE_RED
    obtain ⟨h3, t3, e3, n3, s3, f3⟩ := right_rotation_shape up s2
    have hpa3 := Shape.cell (.right w RBTREE_BLACK kw Wf up) s3
    have npa3 := Shape.ne_nil (.right w RBTREE_BLACK kw Wf up) s3
    have hwn3 := Shape.cell (.left pa RBTREE_RED kpa _ (.right w RBTREE_BLACK kw Wf up)) s3
    have nwn3 := Shape.ne_nil (.left pa RBTREE_RED kpa _ (.right w RBTREE_BLACK kw Wf up)) s3
    have cwnn := Shape.color_ptr (.right wn RBTREE_BLACK kwn _ (.left pa RBTREE_RED kpa (.leaf s0) (.right w RBTREE_BLACK kw Wf up))) Wnn s3
    have cwnf := Shape.color_node (.left wn RBTREE_BLACK kwn _ (.left pa RBTREE_RED kpa (.leaf s0) (.right w RBTREE_BLACK kw Wf up))) s3
    have nwnf := Shape.ne_nil (.left wn RBTREE_BLACK kwn _ (.left pa RBTREE_RED kpa (.leaf s0) (.right w RBTREE_BLACK kw Wf up))) s3
    try rw [n3] at cwnn
    try rw [n3] at cwnf
    try rw [n3] at nwnf
    obtain ⟨h4, e4, s4, f4⟩ := setColor_spec (.left pa RBTREE_RED kpa _ (.right w RBTREE_BLACK kw Wf up)) s3 RBTREE_RED
    obtain ⟨h5, e5, s5, f5⟩ := setColor_spec (.right w RBTREE_BLACK kw Wf up) s4 RBTREE_BLACK
    have hwn5 := Shape.cell (.left pa RBTREE_BLACK kpa _ (.right w RBTREE_BLACK kw Wf up)) s5
    obtain ⟨h6, e6, s6, f6⟩ := setColor_spec (.left wn RBTREE_RED kwn _ (.left pa RBTREE_BLACK kpa (.leaf s0) (.right w RBTREE_BLACK kw Wf up))) s5 RBTREE_BLACK
    obtain ⟨h7, t7, e7, n7, sF, f7⟩ := right_rotation_shape (.right w RBTREE_BLACK kw Wf up) s6
    have hx : xp = some pa := hxp _ rfl
    subst hx
    have sx : t.nil ≠ some w := Ne.symm nw
    refine ⟨_, _, ?_, n7.trans n3, sF, ?_⟩
    · simp only [erase_fixedup_loop, ne_eq, not_false_eq_true, not_true_eq_false, if_true, if_false, Res.ok_bind, Res.pure_eq, decide_True, decide_False, Bool.true_eq_false, Bool.false_eq_true, Ctx.par_top, Ctx.par_left, Ctx.par_right, node_color_nil, reduceCtorEq, Tree.ptr_node, Tree.xptr_leaf, Tree.xptr_node, Tree.ptr_leaf_true, and_self, and_true, true_and, Option.some.injEq, decide_eq_true_eq, ite_self, x1, sx, getLeft_of hpa, getRight_of hpa, cw, nw, e1, e2, e3, n3, getLeft_of hpa3, getRight_of hpa3, getColor_of hpa3, getLeft_of hwn3, getRight_of hwn3, npa, n3 ▸ npa3, n3 ▸ nwn3, cwnn, cwnf, nwnf, e4, e5, getLeft_of hwn5, getRight_of hwn5, e6, e7]
    · intro a ha
      simp only [mem_addrs_plug, Tree.addrs, List.mem_append, List.mem_cons, not_or,
        List.not_mem_nil, not_false_eq_true, true_and, and_true] at ha
      rw [f7 a (by
          simp only [mem_addrs_plug, Ctx.addrs, Tree.addrs, List.mem_append, List.mem_cons, not_or,
            List.not_mem_nil, not_false_eq_true, true_and, and_true]
          tauto), f6 a (by tauto), f5 a (by tauto), f4 a (by tauto), f3 a (by
          simp only [mem_addrs_plug, Ctx.addrs, Tree.addrs, List.mem_append, List.mem_cons, not_or,
            List.not_mem_nil, not_false_eq_true, true_and, and_true]
          tauto), f2 a (by tauto), f1 a (by tauto)]
  · simp only [Tree.rootColor_node] at hXb
    subst hXb
    have x1 := Shape.xptr_ne_root (.right pa RBTREE_BLACK kpa _ up) _ s (by simp)
    simp only [Tree.xptr_leaf, Tree.xptr_node] at x1
    have hpa := Shape.cell up s
    have npa := Shape.ne_nil up s
    have hw := Shape.cell (.left pa RBTREE_BLACK kpa _ up) s
    have nw := Shape.ne_nil (.left pa RBTREE_BLACK kpa _ up) s
    have cw := Shape.color_node (.left pa RBTREE_BLACK kpa _ up) s
    obtain ⟨h1, e1, s1, f1⟩ := setColor_spec (.left pa RBTREE_BLACK kpa _ up) s RBTREE_BLACK
    obtain ⟨h2, e2, s2, f2⟩ := setColor_spec up s1 RBTREE_RED
    obtain ⟨h3, t3, e3, n3, s3, f3⟩ := right_rotation_shape up s2
    have hpa3 := Shape.cell (.right w RBTREE_BLACK kw Wf up) s3
    have npa3 := Shape.ne_nil (.right w RBTREE_BLACK kw Wf up) s3
    have hwn3 := Shape.cell (.left pa RBTREE_RED kpa _ (.right w RBTREE_BLACK kw Wf up)) s3
    have nwn3 := Shape.ne_nil (.left pa RBTREE_RED kpa _ (.right w RBTREE_BLACK kw Wf up)) s3
    have cwnn := Shape.color_ptr (.right wn RBTREE_BLACK kwn _ (.left pa RBTREE_RED kpa (.node xa RBTREE_BLACK kx Xl Xr) (.right w RBTREE_BLACK kw Wf up))) Wnn s3
    have cwnf := Shape.color_node (.left wn RBTREE_BLACK kwn _ (.left pa RBTREE_RED kpa (.node xa RBTREE_BLACK kx Xl Xr) (.right w RBTREE_BLACK kw Wf up))) s3
    have nwnf := Shape.ne_nil (.left wn RBTREE_BLACK kwn _ (.left pa RBTREE_RED kpa (.node xa RBTREE_BLACK kx Xl Xr) (.right w RBTREE_BLACK kw Wf up))) s3
    try rw [n3] at cwnn
    try rw [n3] at cwnf
    try rw [n3] at nwnf
    obtain ⟨h4, e4, s4, f4⟩ := setColor_spec (.left pa RBTREE_RED kpa _ (.right w RBTREE_BLACK kw Wf up)) s3 RBTREE_RED
    obtain ⟨h5, e5, s5, f5⟩ := setColor_spec (.right w RBTREE_BLACK kw Wf up) s4 RBTREE_BLACK
    have hwn5 := Shape.cell (.left pa RBTREE_BLACK kpa _ (.right w RBTREE_BLACK kw Wf up)) s5
    obtain ⟨h6, e6, s6, f6⟩ := setColor_spec (.left wn RBTREE_RED kwn _ (.left pa RBTREE_BLACK kpa (.node xa RBTREE_BLACK kx Xl Xr) (.right w RBTREE_BLACK kw Wf up))) s5 RBTREE_BLACK
    obtain ⟨h7, t7, e7, n7, sF, f7⟩ := right_rotation_shape (.right w RBTREE_BLACK kw Wf up) s6
    have hx := Shape.cell (.right pa RBTREE_BLACK kpa _ up) s
    have nx := Shape.ne_nil (.right pa RBTREE_BLACK kpa _ up) s
    have cx' := Shape.color_node (.right pa RBTREE_BLACK kpa _ up) s
    have sx : (some xa : Ptr) ≠ some w := Shape.right_ne_left_ptr up s
    refine ⟨_, _, ?_, n7.trans n3, sF, ?_⟩
    · simp only [erase_fixedup_loop, ne_eq, not_false_eq_true, not_true_eq_false, if_true, if_false, Res.ok_bind, Res.pure_eq, decide_True, decide_False, Bool.true_eq_false, Bool.false_eq_true, Ctx.par_top, Ctx.par_left, Ctx.par_right, node_color_nil, reduceCtorEq, Tree.ptr_node, Tree.xptr_leaf, Tree.xptr_node, Tree.ptr_leaf_true, and_self, and_true, true_and, Option.some.injEq, decide_eq_true_eq, ite_self, x1, getParent_of hx, nx, cx', sx, getLeft_of hpa, getRight_of hpa, cw, nw, e1, e2, e3, n3, getLeft_of hpa3, getRight_of hpa3, getColor_of hpa3, getLeft_of hwn3, getRight_of hwn3, npa, n3 ▸ npa3, n3 ▸ nwn3, cwnn, cwnf, nwnf, e4, e5, getLeft_of hwn5, getRight_of hwn5, e6, e7]
    · intro a ha
      simp only [mem_addrs_plug, Tree.addrs, List.mem_append, List.mem_cons, not_or,
        List.not_mem_nil, not_false_eq_true, true_and, and_true] at ha
      rw [f7 a (by
          simp only [mem_addrs_plug, Ctx.addrs, Tree.addrs, List.mem_append, List.mem_cons, not_or,
            List.not_mem_nil, not_false_eq_true, true_and, and_true]
          tauto), f6 a (by tauto), f5 a (by tauto), f4 a (by tauto), f3 a (by
          simp only [mem_addrs_plug, Ctx.addrs, Tree.addrs, List.mem_append, List.mem_cons, not_or,
            List.not_mem_nil, not_false_eq_true, true_and, and_true]
          tauto), f2 a (by tauto), f1 a (by tauto)]

theorem era_case134_right {h : Heap} {t : rbtree} {up : Ctx} {pa w wn wnn : Nat} {kpa kw kwn kwnn : key_t} {X Wf Wnf Wnnn Wnnf : Tree} (fuel : Nat) (xp : Ptr)
    (s : Shape h t (up.plug (.node pa RBTREE_BLACK kpa (.node w RBTREE_RED kw Wf (.node wn RBTREE_BLACK kwn Wnf (.node wnn RBTREE_RED kwnn Wnnf Wnnn))) X)))
    (hXb : X.rootColor = RBTREE_BLACK)
    (hxp : ∀ s0, X = .leaf s0 → xp = some pa)
    (hWnf : Wnf.rootColor = RBTREE_BLACK) :
    ∃ h' t', erase_fixedup_loop (fuel + 1) h t (X.xptr t.nil) xp =
        erase_fixedup_loop fuel h' t' t'.root xp ∧ t'.nil = t.nil ∧
      Shape h' t' (up.plug (.node w RBTREE_BLACK kw Wf (.node wnn RBTREE_RED kwnn (.node wn RBTREE_BLACK kwn Wnf Wnnf) (.node pa RBTREE_BLACK kpa Wnnn X)))) ∧
      (∀ a, a ∉ (up.plug (.node pa RBTREE_BLACK kpa (.node w RBTREE_RED kw Wf (.node wn RBTREE_BLACK kwn Wnf (.node wnn RBTREE_RED kwnn Wnnf Wnnn))) X)).addrs → h' a = h a) := by
  rcases X with s0 | ⟨xa, cx, kx, Xl, Xr⟩
  · have x1 := Shape.xptr_ne_root (.right pa RBTREE_BLACK kpa _ up) _ s (by simp)
    simp only [Tree.xptr_leaf, Tree.xptr_node] at x1
    have hpa := Shape.cell up s
    have npa := Shape.ne_nil up s
    have hw := Shape.cell (.left pa RBTREE_BLACK kpa _ up) s
    have nw := Shape.ne_nil (.left pa RBTREE_BLACK kpa _ up) s
    have cw := Shape.color_node (.left pa RBTREE_BLACK kpa _ up) s
    obtain ⟨h1, e1, s1, f1⟩ := setColor_spec (.left pa RBTREE_BLACK kpa _ up) s RBTREE_BLACK
    obtain ⟨h2, e2, s2, f2⟩ := setColor_spec up s1 RBTREE_RED
    obtain ⟨h3, t3, e3, n3, s3, f3⟩ := right_rotation_shape up s2
    have hpa3 := Shape.cell (.right w RBTREE_BLACK kw Wf up) s3
    have npa3 := Shape.ne_nil (.right w RBTREE_BLACK kw Wf up) s3
    have hwn3 := Shape.cell (.left pa RBTREE_RED kpa _ (.right w RBTREE_BLACK kw Wf up)) s3
    have nwn3 := Shape.ne_nil (.left pa RBTREE_RED kpa _ (.right w RBTREE_BLACK kw Wf up)) s3
    have cwnn := Shape.color_node (.right wn RBTREE_BLACK kwn _ (.left pa RBTREE_RED kpa (.leaf s0) (.right w RBTREE_BLACK kw Wf up))) s3
    have nwnn := Shape.ne_nil (.right wn RBTREE_BLACK kwn _ (.left pa RBTREE_RED kpa (.leaf s0) (.right w RBTREE_BLACK kw Wf up))) s3
    have cwnf := Shape.color_ptr (.left wn RBTREE_BLACK kwn _ (.left pa RBTREE_RED kpa (.leaf s0) (.right w RBTREE_BLACK kw Wf up))) Wnf s3
    try rw [n3] at cwnn
    try rw [n3] at cwnf
    try rw [n3] at nwnn
    obtain ⟨h4, e4, s4, f4⟩ := setColor_spec (.right wn RBTREE_BLACK kwn _ (.left pa RBTREE_RED kpa (.leaf s0) (.right w RBTREE_BLACK kw Wf up))) s3 RBTREE_BLACK
    obtain ⟨h5, e5, s5, f5⟩ := setColor_spec (.left pa RBTREE_RED kpa _ (.right w RBTREE_BLACK kw Wf up)) s4 RBTREE_RED
    obtain ⟨h6, t6, e6, n6, s6, f6⟩ := left_rotation_shape (.left pa RBTREE_RED kpa _ (.right w RBTREE_BLACK kw Wf up)) s5
    have hpa6 := Shape.cell (.right w RBTREE_BLACK kw Wf up) s6
    have nwnn6 := Shape.ne_nil (.left pa RBTREE_RED kpa _ (.right w RBTREE_BLACK kw Wf up)) s6
    obtain ⟨h7, e7, s7, f7⟩ := setColor_spec (.left pa RBTREE_RED kpa _ (.right w RBTREE_BLACK kw Wf up)) s6 RBTREE_RED
    obtain ⟨h8, e8, s8, f8⟩ := setColor_spec (.right w RBTREE_BLACK kw Wf up) s7 RBTREE_BLACK
    have hwnn8 := Shape.cell (.left pa RBTREE_BLACK kpa _ (.right w RBTREE_BLACK kw Wf up)) s8
    obtain ⟨h9, e9, s9, f9⟩ := setColor_spec (.left wnn RBTREE_RED kwnn _ (.left pa RBTREE_BLACK kpa (.leaf s0) (.right w RBTREE_BLACK kw Wf up))) s8 RBTREE_BLACK
    obtain ⟨h10, t10, e10, n10, sF, f10⟩ := right_rotation_shape (.right w RBTREE_BLACK kw Wf up) s9
    have hx : xp = some pa := hxp _ rfl
    subst hx
    have sx : t.nil ≠ some w := Ne.symm nw
    refine ⟨_, _, ?_, (n10.trans n6).trans n3, sF, ?_⟩
    · simp only [erase_fixedup_loop, ne_eq, not_false_eq_true, not_true_eq_false, if_true, if_false, Res.ok_bind, Res.pure_eq, decide_True, decide_False, Bool.true_eq_false, Bool.false_eq_true, Ctx.par_top, Ctx.par_left, Ctx.par_right, node_color_nil, reduceCtorEq, Tree.ptr_node, Tree.xptr_leaf, Tree.xptr_node, Tree.ptr_leaf_true, and_self, and_true, true_and, Option.some.injEq, decide_eq_true_eq, ite_self, x1, sx, getLeft_of hpa, getRight_of hpa, cw, nw, e1, e2, e3, n3, getLeft_of hpa3, getRight_of hpa3, getColor_of hpa3, getLeft_of hwn3, getRight_of hwn3, npa, n3 ▸ npa3, n3 ▸ nwn3, cwnn, cwnf, nwnn, hWnf, e4, e5, e6, n6, getLeft_of hpa6, getRight_of hpa6, getColor_of hpa6, e7, e8, getLeft_of hwnn8, getRight_of hwnn8, e9, e10]
    · intro a ha
      simp only [mem_addrs_plug, Tree.addrs, List.mem_append, List.mem_cons, not_or,
        List.not_mem_nil, not_false_eq_true, true_and, and_true] at ha
      rw [f10 a (by
          simp only [mem_addrs_plug, Ctx.addrs, Tree.addrs, List.mem_append, List.mem_cons, not_or,
            List.not_mem_nil, not_false_eq_true, true_and, and_true]
          tauto), f9 a (by tauto), f8 a (by tauto), f7 a (by tauto), f6 a (by
          simp only [mem_addrs_plug, Ctx.addrs, Tree.addrs, List.mem_append, List.mem_cons, not_or,
            List.not_mem_nil, not_false_eq_true, true_and, and_true]
          tauto), f5 a (by tauto), f4 a (by tauto), f3 a (by
          simp only [mem_addrs_plug, Ctx.addrs, Tree.addrs, List.mem_append, List.mem_cons, not_or,
            List.not_mem_nil, not_false_eq_true, true_and, and_true]
          tauto), f2 a (by tauto), f1 a (by tauto)]
  · simp only [Tree.rootColor_node] at hXb
    subst hXb
    have x1 := Shape.xptr_ne_root (.right pa RBTREE_BLACK kpa _ up) _ s (by simp)
    simp only [Tree.xptr_leaf, Tree.xptr_node] at x1
    have hpa := Shape.cell up s
    have npa := Shape.ne_nil up s
    have hw := Shape.cell (.left pa RBTREE_BLACK kpa _ up) s
    have nw := Shape.ne_nil (.left pa RBTREE_BLACK kpa _ up) s
    have cw := Shape.color_node (.left pa RBTREE_BLACK kpa _ up) s
    obtain ⟨h1, e1, s1, f1⟩ := setColor_spec (.left pa RBTREE_BLACK kpa _ up) s RBTREE_BLACK
    obtain ⟨h2, e2, s2, f2⟩ := setColor_spec up s1 RBTREE_RED
    obtain ⟨h3, t3, e3, n3, s3, f3⟩ := right_rotation_shape up s2
    have hpa3 := Shape.cell (.right w RBTREE_BLACK kw Wf up) s3
    have npa3 := Shape.ne_nil (.right w RBTREE_BLACK kw Wf up) s3
    have hwn3 := Shape.cell (.left pa RBTREE_RED kpa _ (.right w RBTREE_BLACK kw Wf up)) s3
    have nwn3 := Shape.ne_nil (.left pa RBTREE_RED kpa _ (.right w RBTREE_BLACK kw Wf up)) s3
    have cwnn := Shape.color_node (.right wn RBTREE_BLACK kwn _ (.left pa RBTREE_RED kpa (.node xa RBTREE_BLACK kx Xl Xr) (.right w RBTREE_BLACK kw Wf up))) s3
    have nwnn := Shape.ne_nil (.right wn RBTREE_BLACK kwn _ (.left pa RBTREE_RED kpa (.node xa RBTREE_BLACK kx Xl Xr) (.right w RBTREE_BLACK kw Wf up))) s3
    have cwnf := Shape.color_ptr (.left wn RBTREE_BLACK kwn _ (.left pa RBTREE_RED kpa (.node xa RBTREE_BLACK kx Xl Xr) (.right w RBTREE_BLACK kw Wf up))) Wnf s3
    try rw [n3] at cwnn
    try rw [n3] at cwnf
    try rw [n3] at nwnn
    obtain ⟨h4, e4, s4, f4⟩ := setColor_spec (.right wn RBTREE_BLACK kwn _ (.left pa RBTREE_RED kpa (.node xa RBTREE_BLACK kx Xl Xr) (.right w RBTREE_BLACK kw Wf up))) s3 RBTREE_BLACK
    obtain ⟨h5, e5, s5, f5⟩ := setColor_spec (.left pa RBTREE_RED kpa _ (.right w RBTREE_BLACK kw Wf up)) s4 RBTREE_RED
    obtain ⟨h6, t6, e6, n6, s6, f6⟩ := left_rotation_shape (.left pa RBTREE_RED kpa _ (.right w RBTREE_BLACK kw Wf up)) s5
    have hpa6 := Shape.cell (.right w RBTREE_BLACK kw Wf up) s6
    have nwnn6 := Shape.ne_nil (.left pa RBTREE_RED kpa _ (.right w RBTREE_BLACK kw Wf up)) s6
    obtain ⟨h7, e7, s7, f7⟩ := setColor_spec (.left pa RBTREE_RED kpa _ (.right w RBTREE_BLACK kw Wf up)) s6 RBTREE_RED
    obtain ⟨h8, e8, s8, f8⟩ := setColor_spec (.right w RBTREE_BLACK kw Wf up) s7 RBTREE_BLACK
    have hwnn8 := Shape.cell (.left pa RBTREE_BLACK kpa _ (.right w RBTREE_BLACK kw Wf up)) s8
    obtain ⟨h9, e9, s9, f9⟩ := setColor_spec (.left wnn RBTREE_RED kwnn _ (.left pa RBTREE_BLACK kpa (.node xa RBTREE_BLACK kx Xl Xr) (.right w RBTREE_BLACK kw Wf up))) s8 RBTREE_BLACK
    obtain ⟨h10, t10, e10, n10, sF, f10⟩ := right_rotation_shape (.right w RBTREE_BLACK kw Wf up) s9
    have hx := Shape.cell (.right pa RBTREE_BLACK kpa _ up) s
    have nx := Shape.ne_nil (.right pa RBTREE_BLACK kpa _ up) s
    have cx' := Shape.color_node (.right pa RBTREE_BLACK kpa _ up) s
    have sx : (some xa : Ptr) ≠ some w := Shape.right_ne_left_ptr up s
    refine ⟨_, _, ?_, (n10.trans n6).trans n3, sF, ?_⟩
    · simp only [erase_fixedup_loop, ne_eq, not_false_eq_true, not_true_eq_false, if_true, if_false, Res.ok_bind, Res.pure_eq, decide_True, decide_False, Bool.true_eq_false, Bool.false_eq_true, Ctx.par_top, Ctx.par_left, Ctx.par_right, node_color_nil, reduceCtorEq, Tree.ptr_node, Tree.xptr_leaf, Tree.xptr_node, Tree.ptr_leaf_true, and_self, and_true, true_and, Option.some.injEq, decide_eq_true_eq, ite_self, x1, getParent_of hx, nx, cx', sx, getLeft_of hpa, getRight_of hpa, cw, nw, e1, e2, e3, n3, getLeft_of hpa3, getRight_of hpa3, getColor_of hpa3, getLeft_of hwn3, getRight_of hwn3, npa, n3 ▸ npa3, n3 ▸ nwn3, cwnn, cwnf, nwnn, hWnf, e4, e5, e6, n6, getLeft_of hpa6, getRight_of hpa6, getColor_of hpa6, e7, e8, getLeft_of hwnn8, getRight_of hwnn8, e9, e10]
    · intro a ha
      simp only [mem_addrs_plug, Tree.addrs, List.mem_append, List.mem_cons, not_or,
        List.not_mem_nil, not_false_eq_true, true_and, and_true] at ha
      rw [f10 a (by
          simp only [mem_addrs_plug, Ctx.addrs, Tree.addrs, List.mem_append, List.mem_cons, not_or,
            List.not_mem_nil, not_false_eq_true, true_and, and_true]
          tauto), f9 a (by tauto), f8 a (by tauto), f7 a (by tauto), f6 a (by
          simp only [mem_addrs_plug, Ctx.addrs, Tree.addrs, List.mem_append, List.mem_cons, not_or,
            List.not_mem_nil, not_false_eq_true, true_and, and_true]
          tauto), f5 a (by tauto), f4 a (by tauto), f3 a (by
          simp only [mem_addrs_plug, Ctx.addrs, Tree.addrs, List.mem_append, List.mem_cons, not_or,
            List.not_mem_nil, not_false_eq_true, true_and, and_true]
          tauto), f2 a (by tauto), f1 a (by tauto)]

/-! ## Removal fixup: leaving the loop -/

theorem erase_fixedup_chain {fuel : Nat} {h h1 : Heap} {t t1 : rbtree} {x x1 xp xp1 : Ptr}
    (e : erase_fixedup_loop (fuel + 1) h t x xp = erase_fixedup_loop fuel h1 t1 x1 xp1) :
    erase_fixedup (fuel + 1) h t x xp = erase_fixedup fuel h1 t1 x1 xp1 := by
  simp only [erase_fixedup, e]

theorem era_fix_red {h : Heap} {t : rbtree} (C : Ctx) {x : Nat} {k : key_t} {l r : Tree}
    (fuel : Nat) (xp : Ptr) (s : Shape h t (C.plug (.node x RBTREE_RED k l r))) :
    ∃ h', erase_fixedup (fuel + 1) h t (some x) xp = .ok (h', t) ∧
      Shape h' t (C.plug (.node x RBTREE_BLACK k l r)) ∧ (∀ a, a ≠ x → h' a = h a) := by
  obtain ⟨h1, e1, s1, f1⟩ := setColor_spec C s RBTREE_BLACK
  have cx := Shape.color_node C s
  have nx := Shape.ne_nil C s
  refine ⟨h1, ?_, s1, f1⟩
  by_cases hr : t.root = some x
  · simp only [erase_fixedup, erase_fixedup_loop, hr, ne_eq, not_true_eq_false, if_false,
      Res.pure_eq, Res.ok_bind, if_true, nx, not_false_eq_true, and_self, e1,
      reduceCtorEq, Bool.false_eq_true]
  · have hr' : ¬ (some x : Ptr) = t.root := fun e => hr e.symm
    simp only [erase_fixedup, erase_fixedup_loop, hr', ne_eq, not_true_eq_false, if_false,
      Res.pure_eq, Res.ok_bind, if_true, nx, not_false_eq_true, and_self, e1, cx,
      reduceCtorEq, decide_False, Bool.false_eq_true]

theorem era_fix_root {h : Heap} {t : rbtree} {x : Nat} {c : color_t} {k : key_t} {l r : Tree}
    (fuel : Nat) (xp : Ptr) (s : Shape h t (.node x c k l r)) :
    ∃ h', erase_fixedup (fuel + 1) h t t.root xp = .ok (h', t) ∧
      Shape h' t (.node x RBTREE_BLACK k l r) ∧ (∀ a, a ≠ x → h' a = h a) := by
  obtain ⟨h1, e1, s1, f1⟩ := setColor_spec .top s RBTREE_BLACK
  have nx := Shape.ne_nil .top s
  have hr : t.root = some x := s.root_eq
  refine ⟨h1, ?_, s1, f1⟩
  rw [erase_fixedup, era_exit_root]
  simp only [Res.ok_bind, hr, ne_eq, reduceCtorEq, not_false_eq_true, nx, and_self, if_true, e1,
    Res.pure_eq]

theorem era_fix_empty {h : Heap} {t : rbtree} (fuel : Nat) (s : Shape h t (.leaf false)) :
    erase_fixedup (fuel + 1) h t t.nil none = .ok (h, t) := by
  have hr : t.root = none := s.root_eq
  have nn := s.nil_ne_none
  simp only [erase_fixedup, erase_fixedup_loop, hr, ne_eq, nn, not_false_eq_true, if_true,
    node_color_nil, Res.ok_bind, Res.pure_eq, decide_True, Bool.true_eq_false, if_false,
    not_true_eq_false, and_false]

theorem plug_node : ∀ (C : Ctx) (a : Nat) (c : color_t) (k : key_t) (l r : Tree),
    ∃ a' c' k' l' r', C.plug (.node a c k l r) = .node a' c' k' l' r' := by
  intro C
  induction C with
  | top => intro a c k l r; exact ⟨a, c, k, l, r, rfl⟩
  | left a0 c0 k0 r0 up ih => intro a c k l r; exact ih _ _ _ _ _
  | right a0 c0 k0 l0 up ih => intro a c k l r; exact ih _ _ _ _ _

theorem RB_weaken : ∀ (C : Ctx) (n : Nat) (hc : color_t), C.RB n hc → C.RB n RBTREE_BLACK := by
  intro C n hc h
  cases C with
  | top => trivial
  | left a c k r up =>
    obtain ⟨h1, h2, h3, h4, h5, h6⟩ := h
    exact ⟨h1, h2, h3, fun e => ⟨rfl, (h4 e).2⟩, h5, h6⟩
  | right a c k l up =>
    obtain ⟨h1, h2, h3, h4, h5, h6⟩ := h
    exact ⟨h1, h2, h3, fun e => ⟨rfl, (h4 e).2⟩, h5, h6⟩

theorem plug_rbinv (C : Ctx) (S : Tree) (hb : S.Balanced) (hr : S.NoRedRed)
    (hC : C.RB S.bh S.rootColor) (ht : C = .top → S.rootColor = RBTREE_BLACK) :
    RBInv (C.plug S) := by
  obtain ⟨p1, p2, p3⟩ := plug_ok C S hb hr hC
  refine ⟨?_, p2, p1⟩
  by_cases hc : C = .top
  · subst hc; exact ht rfl
  · exact p3 hc

theorem noRedRed_of_blacken {X : Tree} (hc : X.rootColor = RBTREE_BLACK)
    (h : X.blacken.NoRedRed) : X.NoRedRed := by
  cases X with
  | leaf s => trivial
  | node a c k l r =>
    simp only [Tree.rootColor_node] at hc
    subst hc
    exact h

/-- The loop has restored the red-black conditions below the root: it stops at the root, which
is then painted BLACK. -/
theorem era_done {h : Heap} {t : rbtree} (C : Ctx) {a : Nat} {c : color_t} {k : key_t}
    {l r : Tree} (fuel : Nat) (xp : Ptr) (s : Shape h t (C.plug (.node a c k l r)))
    (hb : (Tree.node a c k l r).Balanced) (hr : (Tree.node a c k l r).NoRedRed)
    (hC : C.RB (Tree.node a c k l r).bh c) :
    ∃ h' T', erase_fixedup (fuel + 1) h t t.root xp = .ok (h', t) ∧ Shape h' t T' ∧ RBInv T' ∧
      T'.entries = (C.plug (.node a c k l r)).entries ∧
      (∀ b, b ∉ (C.plug (.node a c k l r)).addrs → h' b = h b) := by
  obtain ⟨p1, p2, -⟩ := plug_ok C _ hb hr hC
  obtain ⟨a', c', k', l', r', hp⟩ := plug_node C a c k l r
  rw [hp] at s p1 p2 ⊢
  obtain ⟨h1, e1, s1, f1⟩ := era_fix_root fuel xp s
  refine ⟨h1, _, e1, s1, blacken_ok (T := .node a' c' k' l' r') p1 p2, rfl, ?_⟩
  intro b hb'
  exact f1 b (by
    intro e
    subst e
    exact hb' (by simp [Tree.addrs]))

/-- The loop stops at a RED node, which is then painted BLACK. -/
theorem era_done_red {h : Heap} {t : rbtree} (C : Ctx) {x : Nat} {k : key_t} {l r : Tree}
    (fuel : Nat) (xp : Ptr) (s : Shape h t (C.plug (.node x RBTREE_RED k l r)))
    (hb : (Tree.node x RBTREE_BLACK k l r).Balanced)
    (hr : (Tree.node x RBTREE_BLACK k l r).NoRedRed)
    (hC : C.RB (Tree.node x RBTREE_BLACK k l r).bh RBTREE_BLACK) :
    ∃ h' T', erase_fixedup (fuel + 1) h t (some x) xp = .ok (h', t) ∧ Shape h' t T' ∧
      RBInv T' ∧ T'.entries = (C.plug (.node x RBTREE_RED k l r)).entries ∧
      (∀ b, b ∉ (C.plug (.node x RBTREE_RED k l r)).addrs → h' b = h b) := by
  obtain ⟨h1, e1, s1, f1⟩ := era_fix_red C fuel xp s
  refine ⟨h1, _, e1, s1, plug_rbinv C _ hb hr hC (fun _ => rfl), ?_, ?_⟩
  · simp only [entries_plug, Tree.entries]
  · intro b hb'
    exact f1 b (by
      intro e
      subst e
      exact hb' (mem_addrs_plug.2 (Or.inr (by simp [Tree.addrs]))))

/-! ## Removal fixup: the red-black conditions after each case -/

theorem era_pure2_left (pa : Nat) (kpa : key_t) {w : Nat} {kw : key_t} {X Wn Wf : Tree}
    (hXb : X.Balanced) (hXr : X.NoRedRed)
    (hWb : (Tree.node w RBTREE_BLACK kw Wn Wf).Balanced)
    (hWr : (Tree.node w RBTREE_BLACK kw Wn Wf).NoRedRed)
    (hWh : (Tree.node w RBTREE_BLACK kw Wn Wf).bh = X.bh + 1)
    (hWn : Wn.rootColor = RBTREE_BLACK) (hWf : Wf.rootColor = RBTREE_BLACK) :
    (Tree.node pa RBTREE_BLACK kpa X (Tree.node w RBTREE_RED kw Wn Wf)).Balanced ∧
    (Tree.node pa RBTREE_BLACK kpa X (Tree.node w RBTREE_RED kw Wn Wf)).NoRedRed ∧
    (Tree.node pa RBTREE_BLACK kpa X (Tree.node w RBTREE_RED kw Wn Wf)).bh = X.bh + 1 := by
  simp only [Tree.balanced_node, Tree.noRedRed_red, Tree.noRedRed_black, Tree.bh_red,
    Tree.bh_black, Tree.rootColor_node] at *
  repeat' apply And.intro
  all_goals first | omega | tauto

theorem era_pure4_left (pa : Nat) (kpa : key_t) {w wf : Nat} {cpa : color_t} {kw kwf : key_t} {X Wn Wfn Wff : Tree}
    (hXb : X.Balanced) (hXr : X.NoRedRed)
    (hWb : (Tree.node w RBTREE_BLACK kw Wn (Tree.node wf RBTREE_RED kwf Wfn Wff)).Balanced)
    (hWr : (Tree.node w RBTREE_BLACK kw Wn (Tree.node wf RBTREE_RED kwf Wfn Wff)).NoRedRed)
    (hWh : (Tree.node w RBTREE_BLACK kw Wn (Tree.node wf RBTREE_RED kwf Wfn Wff)).bh = X.bh + 1) :
    (Tree.node w cpa kw (Tree.node pa RBTREE_BLACK kpa X Wn) (Tree.node wf RBTREE_BLACK kwf Wfn Wff)).Balanced ∧
    (Tree.node w cpa kw (Tree.node pa RBTREE_BLACK kpa X Wn) (Tree.node wf RBTREE_BLACK kwf Wfn Wff)).NoRedRed ∧
    (Tree.node w cpa kw (Tree.node pa RBTREE_BLACK kpa X Wn) (Tree.node wf RBTREE_BLACK kwf Wfn Wff)).bh = X.bh + 1 + (if cpa = RBTREE_BLACK then 1 else 0) := by
  rcases color_cases cpa with rfl | rfl
  all_goals simp only [Tree.balanced_node, Tree.noRedRed_red, Tree.noRedRed_black, Tree.bh_red,
    Tree.bh_black, Tree.rootColor_node, reduceCtorEq, if_true, if_false] at *
  all_goals repeat' apply And.intro
  all_goals first | omega | tauto

theorem era_pure3_left (pa : Nat) (kpa : key_t) {w wn : Nat} {cpa : color_t} {kw kwn : key_t} {X Wf Wnn Wnf : Tree}
    (hXb : X.Balanced) (hXr : X.NoRedRed)
    (hWb : (Tree.node w RBTREE_BLACK kw (Tree.node wn RBTREE_RED kwn Wnn Wnf) Wf).Balanced)
    (hWr : (Tree.node w RBTREE_BLACK kw (Tree.node wn RBTREE_RED kwn Wnn Wnf) Wf).NoRedRed)
    (hWh : (Tree.node w RBTREE_BLACK kw (Tree.node wn RBTREE_RED kwn Wnn Wnf) Wf).bh = X.bh + 1) :
    (Tree.node wn cpa kwn (Tree.node pa RBTREE_BLACK kpa X Wnn) (Tree.node w RBTREE_BLACK kw Wnf Wf)).Balanced ∧
    (Tree.node wn cpa kwn (Tree.node pa RBTREE_BLACK kpa X Wnn) (Tree.node w RBTREE_BLACK kw Wnf Wf)).NoRedRed ∧
    (Tree.node wn cpa kwn (Tree.node pa RBTREE_BLACK kpa X Wnn) (Tree.node w RBTREE_BLACK kw Wnf Wf)).bh = X.bh + 1 + (if cpa = RBTREE_BLACK then 1 else 0) := by
  rcases color_cases cpa with rfl | rfl
  all_goals simp only [Tree.balanced_node, Tree.noRedRed_red, Tree.noRedRed_black, Tree.bh_red,
    Tree.bh_black, Tree.rootColor_node, reduceCtorEq, if_true, if_false] at *
  all_goals repeat' apply And.intro
  all_goals first | omega | tauto

theorem era_pure12_left (pa : Nat) (kpa : key_t) {w wn : Nat} {kw kwn : key_t} {X Wf Wnn Wnf : Tree}
    (hXb : X.Balanced) (hXr : X.NoRedRed)
    (hWb : (Tree.node w RBTREE_RED kw (Tree.node wn RBTREE_BLACK kwn Wnn Wnf) Wf).Balanced)
    (hWr : (Tree.node w RBTREE_RED kw (Tree.node wn RBTREE_BLACK kwn Wnn Wnf) Wf).NoRedRed)
    (hWh : (Tree.node w RBTREE_RED kw (Tree.node wn RBTREE_BLACK kwn Wnn Wnf) Wf).bh = X.bh + 1)
    (hWnn : Wnn.rootColor = RBTREE_BLACK) (hWnf : Wnf.rootColor = RBTREE_BLACK) :
    (Tree.node w RBTREE_BLACK kw (Tree.node pa RBTREE_BLACK kpa X (Tree.node wn RBTREE_RED kwn Wnn Wnf)) Wf).Balanced ∧
    (Tree.node w RBTREE_BLACK kw (Tree.node pa RBTREE_BLACK kpa X (Tree.node wn RBTREE_RED kwn Wnn Wnf)) Wf).NoRedRed ∧
    (Tree.node w RBTREE_BLACK kw (Tree.node pa RBTREE_BLACK kpa X (Tree.node wn RBTREE_RED kwn Wnn Wnf)) Wf).bh = X.bh + 1 + 1 := by
  simp only [Tree.balanced_node, Tree.noRedRed_red, Tree.noRedRed_black, Tree.bh_red,
    Tree.bh_black, Tree.rootColor_node] at *
  repeat' apply And.intro
  all_goals first | omega | tauto

theorem era_pure14_left (pa : Nat) (kpa : key_t) {w wn wnf : Nat} {kw kwn kwnf : key_t} {X Wf Wnn Wnfn Wnff : Tree}
    (hXb : X.Balanced) (hXr : X.NoRedRed)
    (hWb : (Tree.node w RBTREE_RED kw (Tree.node wn RBTREE_BLACK kwn Wnn (Tree.node wnf RBTREE_RED kwnf Wnfn Wnff)) Wf).Balanced)
    (hWr : (Tree.node w RBTREE_RED kw (Tree.node wn RBTREE_BLACK kwn Wnn (Tree.node wnf RBTREE_RED kwnf Wnfn Wnff)) Wf).NoRedRed)
    (hWh : (Tree.node w RBTREE_RED kw (Tree.node wn RBTREE_BLACK kwn Wnn (Tree.node wnf RBTREE_RED kwnf Wnfn Wnff)) Wf).bh = X.bh + 1) :
    (Tree.node w RBTREE_BLACK kw (Tree.node wn RBTREE_RED kwn (Tree.node pa RBTREE_BLACK kpa X Wnn) (Tree.node wnf RBTREE_BLACK kwnf Wnfn Wnff)) Wf).Balanced ∧
    (Tree.node w RBTREE_BLACK kw (Tree.node wn RBTREE_RED kwn (Tree.node pa RBTREE_BLACK kpa X Wnn) (Tree.node wnf RBTREE_BLACK kwnf Wnfn Wnff)) Wf).NoRedRed ∧
    (Tree.node w RBTREE_BLACK kw (Tree.node wn RBTREE_RED kwn (Tree.node pa RBTREE_BLACK kpa X Wnn) (Tree.node wnf RBTREE_BLACK kwnf Wnfn Wnff)) Wf).bh = X.bh + 1 + 1 := by
  simp only [Tree.balanced_node, Tree.noRedRed_red, Tree.noRedRed_black, Tree.bh_red,
    Tree.bh_black, Tree.rootColor_node] at *
  repeat' apply And.intro
  all_goals first | omega | tauto

theorem era_pure134_left (pa : Nat) (kpa : key_t) {w wn wnn : Nat} {kw kwn kwnn : key_t} {X Wf Wnf Wnnn Wnnf : Tree}
    (hXb : X.Balanced) (hXr : X.NoRedRed)
    (hWb : (Tree.node w RBTREE_RED kw (Tree.node wn RBTREE_BLACK kwn (Tree.node wnn RBTREE_RED kwnn Wnnn Wnnf) Wnf) Wf).Balanced)
    (hWr : (Tree.node w RBTREE_RED kw (Tree.node wn RBTREE_BLACK kwn (Tree.node wnn RBTREE_RED kwnn Wnnn Wnnf) Wnf) Wf).NoRedRed)
    (hWh : (Tree.node w RBTREE_RED kw (Tree.node wn RBTREE_BLACK kwn (Tree.node wnn RBTREE_RED kwnn Wnnn Wnnf) Wnf) Wf).bh = X.bh + 1) :
    (Tree.node w RBTREE_BLACK kw (Tree.node wnn RBTREE_RED kwnn (Tree.node pa RBTREE_BLACK kpa X Wnnn) (Tree.node wn RBTREE_BLACK kwn Wnnf Wnf)) Wf).Balanced ∧
    (Tree.node w RBTREE_BLACK kw (Tree.node wnn RBTREE_RED kwnn (Tree.node pa RBTREE_BLACK kpa X Wnnn) (Tree.node wn RBTREE_BLACK kwn Wnnf Wnf)) Wf).NoRedRed ∧
    (Tree.node w RBTREE_BLACK kw (Tree.node wnn RBTREE_RED kwnn (Tree.node pa RBTREE_BLACK kpa X Wnnn) (Tree.node wn RBTREE_BLACK kwn Wnnf Wnf)) Wf).bh = X.bh + 1 + 1 := by
  simp only [Tree.balanced_node, Tree.noRedRed_red, Tree.noRedRed_black, Tree.bh_red,
    Tree.bh_black, Tree.rootColor_node] at *
  repeat' apply And.intro
  all_goals first | omega | tauto

theorem era_pure2_right (pa : Nat) (kpa : key_t) {w : Nat} {kw : key_t} {X Wn Wf : Tree}
    (hXb : X.Balanced) (hXr : X.NoRedRed)
    (hWb : (Tree.node w RBTREE_BLACK kw Wf Wn).Balanced)
    (hWr : (Tree.node w RBTREE_BLACK kw Wf Wn).NoRedRed)
    (hWh : (Tree.node w RBTREE_BLACK kw Wf Wn).bh = X.bh + 1)
    (hWn : Wn.rootColor = RBTREE_BLACK) (hWf : Wf.rootColor = RBTREE_BLACK) :
    (Tree.node pa RBTREE_BLACK kpa (Tree.node w RBTREE_RED kw Wf Wn) X).Balanced ∧
    (Tree.node pa RBTREE_BLACK kpa (Tree.node w RBTREE_RED kw Wf Wn) X).NoRedRed ∧
    (Tree.node pa RBTREE_BLACK kpa (Tree.node w RBTREE_RED kw Wf Wn) X).bh = X.bh + 1 := by
  simp only [Tree.balanced_node, Tree.noRedRed_red, Tree.noRedRed_black, Tree.bh_red,
    Tree.bh_black, Tree.rootColor_node] at *
  repeat' apply And.intro
  all_goals first | omega | tauto

theorem era_pure4_right (pa : Nat) (kpa : key_t) {w wf : Nat} {cpa : color_t} {kw kwf : key_t} {X Wn Wfn Wff : Tree}
    (hXb : X.Balanced) (hXr : X.NoRedRed)
    (hWb : (Tree.node w RBTREE_BLACK kw (Tree.node wf RBTREE_RED kwf Wff Wfn) Wn).Balanced)
    (hWr : (Tree.node w RBTREE_BLACK kw (Tree.node wf RBTREE_RED kwf Wff Wfn) Wn).NoRedRed)
    (hWh : (Tree.node w RBTREE_BLACK kw (Tree.node wf RBTREE_RED kwf Wff Wfn) Wn).bh = X.bh + 1) :
    (Tree.node w cpa kw (Tree.node wf RBTREE_BLACK kwf Wff Wfn) (Tree.node pa RBTREE_BLACK kpa Wn X)).Balanced ∧
    (Tree.node w cpa kw (Tree.node wf RBTREE_BLACK kwf Wff Wfn) (Tree.node pa RBTREE_BLACK kpa Wn X)).NoRedRed ∧
    (Tree.node w cpa kw (Tree.node wf RBTREE_BLACK kwf Wff Wfn) (Tree.node pa RBTREE_BLACK kpa Wn X)).bh = X.bh + 1 + (if cpa = RBTREE_BLACK then 1 else 0) := by
  rcases color_cases cpa with rfl | rfl
  all_goals simp only [Tree.balanced_node, Tree.noRedRed_red, Tree.noRedRed_black, Tree.bh_red,
    Tree.bh_black, Tree.rootColor_node, reduceCtorEq, if_true, if_false] at *
  all_goals repeat' apply And.intro
  all_goals first | omega | tauto

theorem era_pure3_right (pa : Nat) (kpa : key_t) {w wn : Nat} {cpa : color_t} {kw kwn : key_t} {X Wf Wnn Wnf : Tree}
    (hXb : X.Balanced) (hXr : X.NoRedRed)
    (hWb : (Tree.node w RBTREE_BLACK kw Wf (Tree.node wn RBTREE_RED kwn Wnf Wnn)).Balanced)
    (hWr : (Tree.node w RBTREE_BLACK kw Wf (Tree.node wn RBTREE_RED kwn Wnf Wnn)).NoRedRed)
    (hWh : (Tree.node w RBTREE_BLACK kw Wf (Tree.node wn RBTREE_RED kwn Wnf Wnn)).bh = X.bh + 1) :
    (Tree.node wn cpa kwn (Tree.node w RBTREE_BLACK kw Wf Wnf) (Tree.node pa RBTREE_BLACK kpa Wnn X)).Balanced ∧
    (Tree.node wn cpa kwn (Tree.node w RBTREE_BLACK kw Wf Wnf) (Tree.node pa RBTREE_BLACK kpa Wnn X)).NoRedRed ∧
    (Tree.node wn cpa kwn (Tree.node w RBTREE_BLACK kw Wf Wnf) (Tree.node pa RBTREE_BLACK kpa Wnn X)).bh = X.bh + 1 + (if cpa = RBTREE_BLACK then 1 else 0) := by
  rcases color_cases cpa with rfl | rfl
  all_goals simp only [Tree.balanced_node, Tree.noRedRed_red, Tree.noRedRed_black, Tree.bh_red,
    Tree.bh_black, Tree.rootColor_node, reduceCtorEq, if_true, if_false] at *
  all_goals repeat' apply And.intro
  all_goals first | omega | tauto

theorem era_pure12_right (pa : Nat) (kpa : key_t) {w wn : Nat} {kw kwn : key_t} {X Wf Wnn Wnf : Tree}
    (hXb : X.Balanced) (hXr : X.NoRedRed)
    (hWb : (Tree.node w RBTREE_RED kw Wf (Tree.node wn RBTREE_BLACK kwn Wnf Wnn)).Balanced)
    (hWr : (Tree.node w RBTREE_RED kw Wf (Tree.node wn RBTREE_BLACK kwn Wnf Wnn)).NoRedRed)
    (hWh : (Tree.node w RBTREE_RED kw Wf (Tree.node wn RBTREE_BLACK kwn Wnf Wnn)).bh = X.bh + 1)
    (hWnn : Wnn.rootColor = RBTREE_BLACK) (hWnf : Wnf.rootColor = RBTREE_BLACK) :
    (Tree.node w RBTREE_BLACK kw Wf (Tree.node pa RBTREE_BLACK kpa (Tree.node wn RBTREE_RED kwn Wnf Wnn) X)).Balanced ∧
    (Tree.node w RBTREE_BLACK kw Wf (Tree.node pa RBTREE_BLACK kpa (Tree.node wn RBTREE_RED kwn Wnf Wnn) X)).NoRedRed ∧
    (Tree.node w RBTREE_BLACK kw Wf (Tree.node pa RBTREE_BLACK kpa (Tree.node wn RBTREE_RED kwn Wnf Wnn) X)).bh = X.bh + 1 + 1 := by
  simp only [Tree.balanced_node, Tree.noRedRed_red, Tree.noRedRed_black, Tree.bh_red,
    Tree.bh_black, Tree.rootColor_node] at *
  repeat' apply And.intro
  all_goals first | omega | tauto

theorem era_pure14_right (pa : Nat) (kpa : key_t) {w wn wnf : Nat} {kw kwn kwnf : key_t} {X Wf Wnn Wnfn Wnff : Tree}
    (hXb : X.Balanced) (hXr : X.NoRedRed)
    (hWb : (Tree.node w RBTREE_RED kw Wf (Tree.node wn RBTREE_BLACK kwn (Tree.node wnf RBTREE_RED kwnf Wnff Wnfn) Wnn)).Balanced)
    (hWr : (Tree.node w RBTREE_RED kw Wf (Tree.node wn RBTREE_BLACK kwn (Tree.node wnf RBTREE_RED kwnf Wnff Wnfn) Wnn)).NoRedRed)
    (hWh : (Tree.node w RBTREE_RED kw Wf (Tree.node wn RBTREE_BLACK kwn (Tree.node wnf RBTREE_RED kwnf Wnff Wnfn) Wnn)).bh = X.bh + 1) :
    (Tree.node w RBTREE_BLACK kw Wf (Tree.node wn RBTREE_RED kwn (Tree.node wnf RBTREE_BLACK kwnf Wnff Wnfn) (Tree.node pa RBTREE_BLACK kpa Wnn X))).Balanced ∧
    (Tree.node w RBTREE_BLACK kw Wf (Tree.node wn RBTREE_RED kwn (Tree.node wnf RBTREE_BLACK kwnf Wnff Wnfn) (Tree.node pa RBTREE_BLACK kpa Wnn X))).NoRedRed ∧
    (Tree.node w RBTREE_BLACK kw Wf (Tree.node wn RBTREE_RED kwn (Tree.node wnf RBTREE_BLACK kwnf Wnff Wnfn) (Tree.node pa RBTREE_BLACK kpa Wnn X))).bh = X.bh + 1 + 1 := by
  simp only [Tree.balanced_node, Tree.noRedRed_red, Tree.noRedRed_black, Tree.bh_red,
    Tree.bh_black, Tree.rootColor_node] at *
  repeat' apply And.intro
  all_goals first | omega | tauto

theorem era_pure134_right (pa : Nat) (kpa : key_t) {w wn wnn : Nat} {kw kwn kwnn : key_t} {X Wf Wnf Wnnn Wnnf : Tree}
    (hXb : X.Balanced) (hXr : X.NoRedRed)
    (hWb : (Tree.node w RBTREE_RED kw Wf (Tree.node wn RBTREE_BLACK kwn Wnf (Tree.node wnn RBTREE_RED kwnn Wnnf Wnnn))).Balanced)
    (hWr : (Tree.node w RBTREE_RED kw Wf (Tree.node wn RBTREE_BLACK kwn Wnf (Tree.node wnn RBTREE_RED kwnn Wnnf Wnnn))).NoRedRed)
    (hWh : (Tree.node w RBTREE_RED kw Wf (Tree.node wn RBTREE_BLACK kwn Wnf (Tree.node wnn RBTREE_RED kwnn Wnnf Wnnn))).bh = X.bh + 1) :
    (Tree.node w RBTREE_BLACK kw Wf (Tree.node wnn RBTREE_RED kwnn (Tree.node wn RBTREE_BLACK kwn Wnf Wnnf) (Tree.node pa RBTREE_BLACK kpa Wnnn X))).Balanced ∧
    (Tree.node w RBTREE_BLACK kw Wf (Tree.node wnn RBTREE_RED kwnn (Tree.node wn RBTREE_BLACK kwn Wnf Wnnf) (Tree.node pa RBTREE_BLACK kpa Wnnn X))).NoRedRed ∧
    (Tree.node w RBTREE_BLACK kw Wf (Tree.node wnn RBTREE_RED kwnn (Tree.node wn RBTREE_BLACK kwn Wnf Wnnf) (Tree.node pa RBTREE_BLACK kpa Wnnn X))).bh = X.bh + 1 + 1 := by
  simp only [Tree.balanced_node, Tree.noRedRed_red, Tree.noRedRed_black, Tree.bh_red,
    Tree.bh_black, Tree.rootColor_node] at *
  repeat' apply And.intro
  all_goals first | omega | tauto

/-! ## Removal fixup: the whole function -/

theorem erase_fixedup_spec : ∀ (n : Nat) (C : Ctx) (h : Heap) (t : rbtree) (X : Tree) (xp : Ptr),
    C.depth ≤ n → Shape h t (C.plug X) →
    (∀ a c k r up, C = .left a c k r up → X ≠ .leaf false) →
    (∀ s0, X = .leaf s0 → xp = C.par) → X.Balanced → X.blacken.NoRedRed →
    C.RB (X.bh + 1) RBTREE_BLACK →
    ∀ fuel, n + 2 ≤ fuel → ∃ h' t' T', erase_fixedup fuel h t (X.xptr t.nil) xp = .ok (h', t') ∧
      t'.nil = t.nil ∧ Shape h' t' T' ∧ RBInv T' ∧ T'.entries = (C.plug X).entries ∧
      (∀ a, a ∉ (C.plug X).addrs → h' a = h a) := by
  intro n
  induction n using Nat.strong_induction_on with
  | _ n ih =>
  intro C h t X xp hd s hXf hxp hb hr hC fuel hf
  obtain ⟨f, rfl⟩ : ∃ f, fuel = f + 1 := ⟨fuel - 1, by omega⟩
  by_cases hred : X.rootColor = RBTREE_BLACK
  swap
  · obtain ⟨x, k, l, r, rfl⟩ := rootColor_red hred
    obtain ⟨h1, T', e1, s1, i1, en1, f1⟩ := era_done_red C f xp s hb hr
      (by simpa only [Tree.bh_red, Tree.bh_black] using hC)
    exact ⟨h1, t, T', e1, rfl, s1, i1, en1, f1⟩
  have hr' := noRedRed_of_blacken hred hr
  rcases C with _ | ⟨pa, cpa, kpa, W, up⟩ | ⟨pa, cpa, kpa, W, up⟩
  · rcases X with s0 | ⟨x, c, k, l, r⟩
    · have hs0 : s0 = false := by
        cases s0
        · rfl
        · exact absurd rfl s.top_ne
      subst hs0
      have hx : xp = none := hxp false rfl
      subst hx
      exact ⟨h, t, _, era_fix_empty f s, rfl, s, ⟨rfl, trivial, trivial⟩, rfl, fun _ _ => rfl⟩
    · obtain ⟨h1, e1, s1, f1⟩ := era_fix_root f xp s
      have hroot : t.root = some x := s.root_eq
      rw [hroot] at e1
      refine ⟨h1, t, _, e1, rfl, s1, blacken_ok (T := .node x c k l r) hb hr', rfl, ?_⟩
      intro a ha
      exact f1 a (by
        intro e
        subst e
        exact ha (by simp [Ctx.plug, Tree.addrs]))
  · obtain ⟨hW1, hW2, hW3, hW4, hW5, hW6⟩ := hC
    simp only [Ctx.depth] at hd
    have hXf' : X ≠ .leaf false := hXf _ _ _ _ _ rfl
    have hxp' : ∀ s0, X = .leaf s0 → xp = some pa := hxp
    obtain ⟨f', rfl⟩ : ∃ f', f = f' + 1 := ⟨f - 1, by omega⟩
    rcases W with sw | ⟨w, cw, kw, Wl, Wr⟩
    · simp only [Tree.bh_leaf] at hW3; omega
    rcases color_cases cw with rfl | rfl
    · have hcpa : cpa = RBTREE_BLACK := by
        rcases color_cases cpa with rfl | rfl
        · have := (hW4 rfl).2
          simp only [Tree.rootColor_node, reduceCtorEq] at this
        · rfl
      subst hcpa
      simp only [if_true] at hW6
      rcases Wl with sn | ⟨wn, cwn, kwn, Wnn, Wnf⟩
      · simp only [Tree.balanced_node, Tree.bh_red, Tree.bh_leaf] at hW1 hW3; omega
      have hcwn : cwn = RBTREE_BLACK := by
        have := (hW2.1 rfl).1
        simpa only [Tree.rootColor_node] using this
      subst hcwn
      by_cases hWnf : Wnf.rootColor = RBTREE_BLACK
      · by_cases hWnn : Wnn.rootColor = RBTREE_BLACK
        · obtain ⟨h1, t1, e1, n1, s1, f1⟩ := era_case12_left (f' + 1) xp s hred hXf' hxp' hWnn hWnf
          obtain ⟨q1, q2, q3⟩ := era_pure12_left pa kpa hb hr' hW1 hW2 hW3 hWnn hWnf
          obtain ⟨h2, e2, s2, f2⟩ := era_fix_red (.left w RBTREE_BLACK kw Wr up) f' (some w) s1
          refine ⟨h2, t1, _, (erase_fixedup_chain e1).trans e2, n1, s2,
            plug_rbinv up _ q1 q2 (by rw [q3]; exact hW6) (fun _ => rfl), ?_, ?_⟩
          · simp [Ctx.plug, entries_plug, Tree.entries, Ctx.before, Ctx.after]
          · intro a ha
            rw [f2 a (by
              simp only [Ctx.plug, mem_addrs_plug, Ctx.addrs, Tree.addrs, List.mem_append, List.mem_cons,
                not_or, List.not_mem_nil, or_false, false_or] at ha ⊢
              tauto), f1 a ha]
        · obtain ⟨wnn, kwnn, Wnnn, Wnnf, rfl⟩ := rootColor_red hWnn
          obtain ⟨h1, t1, e1, n1, s1, f1⟩ := era_case134_left (f' + 1) xp s hred hXf' hxp' hWnf
          obtain ⟨q1, q2, q3⟩ := era_pure134_left pa kpa hb hr' hW1 hW2 hW3
          obtain ⟨h2, T', e2, s2, i2, en2, f2⟩ := era_done up f' xp s1 q1 q2 (by rw [q3]; exact hW6)
          refine ⟨h2, t1, T', (erase_fixedup_chain e1).trans e2, n1, s2, i2, ?_, ?_⟩
          · rw [en2]; simp [Ctx.plug, entries_plug, Tree.entries, Ctx.before, Ctx.after]
          · intro a ha
            rw [f2 a (by
              simp only [Ctx.plug, mem_addrs_plug, Ctx.addrs, Tree.addrs, List.mem_append, List.mem_cons,
                not_or, List.not_mem_nil, or_false, false_or] at ha ⊢
              tauto), f1 a ha]
      · obtain ⟨wnf, kwnf, Wnfn, Wnff, rfl⟩ := rootColor_red hWnf
        obtain ⟨h1, t1, e1, n1, s1, f1⟩ := era_case14_left (f' + 1) xp s hred hXf' hxp'
        obtain ⟨q1, q2, q3⟩ := era_pure14_left pa kpa hb hr' hW1 hW2 hW3
        obtain ⟨h2, T', e2, s2, i2, en2, f2⟩ := era_done up f' xp s1 q1 q2 (by rw [q3]; exact hW6)
        refine ⟨h2, t1, T', (erase_fixedup_chain e1).trans e2, n1, s2, i2, ?_, ?_⟩
        · rw [en2]; simp [Ctx.plug, entries_plug, Tree.entries, Ctx.before, Ctx.after]
        · intro a ha
          rw [f2 a (by
            simp only [Ctx.plug, mem_addrs_plug, Ctx.addrs, Tree.addrs, List.mem_append, List.mem_cons,
              not_or, List.not_mem_nil, or_false, false_or] at ha ⊢
            tauto), f1 a ha]
    · by_cases hWf : Wr.rootColor = RBTREE_BLACK
      · by_cases hWn : Wl.rootColor = RBTREE_BLACK
        · obtain ⟨h1, e1, s1, f1⟩ := era_case2_left (f' + 1) xp s hred hXf' hxp' hWn hWf
          obtain ⟨q1, q2, q3⟩ := era_pure2_left pa kpa hb hr' hW1 hW2 hW3 hWn hWf
          rcases color_cases cpa with rfl | rfl
          · simp only [reduceCtorEq, if_false, Nat.add_zero] at hW6
            obtain ⟨h2, T', e2, s2, i2, en2, f2⟩ := era_done_red up f' up.par s1 q1 q2
              (by rw [q3]; exact RB_weaken _ _ _ hW6)
            refine ⟨h2, t, T', (erase_fixedup_chain e1).trans e2, rfl, s2, i2, ?_, ?_⟩
            · rw [en2]; simp [Ctx.plug, entries_plug, Tree.entries, Ctx.before, Ctx.after]
            · intro a ha
              rw [f2 a (by
                simp only [Ctx.plug, mem_addrs_plug, Ctx.addrs, Tree.addrs, List.mem_append, List.mem_cons,
                  not_or, List.not_mem_nil, or_false, false_or] at ha ⊢
                tauto), f1 a ha]
          · simp only [if_true] at hW6
            obtain ⟨h2, t2, T', e2, n2, s2, i2, en2, f2⟩ :=
              ih up.depth (by omega) up h1 t _ up.par le_rfl s1
                (fun _ _ _ _ _ _ => by simp)
                (fun s0 e => by cases e) q1 q2 (by rw [q3]; exact hW6) (f' + 1) (by omega)
            refine ⟨h2, t2, T', (erase_fixedup_chain e1).trans e2, n2, s2, i2, ?_, ?_⟩
            · rw [en2]; simp [Ctx.plug, entries_plug, Tree.entries, Ctx.before, Ctx.after]
            · intro a ha
              rw [f2 a (by
                simp only [Ctx.plug, mem_addrs_plug, Ctx.addrs, Tree.addrs, List.mem_append, List.mem_cons,
                  not_or, List.not_mem_nil, or_false, false_or] at ha ⊢
                tauto), f1 a ha]
        · obtain ⟨wn, kwn, Wnn, Wnf, rfl⟩ := rootColor_red hWn
          obtain ⟨h1, t1, e1, n1, s1, f1⟩ := era_case3_left (f' + 1) xp s hred hXf' hxp' hWf
          obtain ⟨q1, q2, q3⟩ := era_pure3_left pa kpa hb hr' hW1 hW2 hW3
          obtain ⟨h2, T', e2, s2, i2, en2, f2⟩ := era_done up f' xp s1 q1 q2 (by rw [q3]; exact hW6)
          refine ⟨h2, t1, T', (erase_fixedup_chain e1).trans e2, n1, s2, i2, ?_, ?_⟩
          · rw [en2]; simp [Ctx.plug, entries_plug, Tree.entries, Ctx.before, Ctx.after]
          · intro a ha
            rw [f2 a (by
              simp only [Ctx.plug, mem_addrs_plug, Ctx.addrs, Tree.addrs, List.mem_append, List.mem_cons,
                not_or, List.not_mem_nil, or_false, false_or] at ha ⊢
              tauto), f1 a ha]
      · obtain ⟨wf, kwf, Wfn, Wff, rfl⟩ := rootColor_red hWf
        obtain ⟨h1, t1, e1, n1, s1, f1⟩ := era_case4_left (f' + 1) xp s hred hXf' hxp'
        obtain ⟨q1, q2, q3⟩ := era_pure4_left pa kpa hb hr' hW1 hW2 hW3
        obtain ⟨h2, T', e2, s2, i2, en2, f2⟩ := era_done up f' xp s1 q1 q2 (by rw [q3]; exact hW6)
        refine ⟨h2, t1, T', (erase_fixedup_chain e1).trans e2, n1, s2, i2, ?_, ?_⟩
        · rw [en2]; simp [Ctx.plug, entries_plug, Tree.entries, Ctx.before, Ctx.after]
        · intro a ha
          rw [f2 a (by
            simp only [Ctx.plug, mem_addrs_plug, Ctx.addrs, Tree.addrs, List.mem_append, List.mem_cons,
              not_or, List.not_mem_nil, or_false, false_or] at ha ⊢
            tauto), f1 a ha]
  · obtain ⟨hW1, hW2, hW3, hW4, hW5, hW6⟩ := hC
    simp only [Ctx.depth] at hd
    have hxp' : ∀ s0, X = .leaf s0 → xp = some pa := hxp
    obtain ⟨f', rfl⟩ : ∃ f', f = f' + 1 := ⟨f - 1, by omega⟩
    rcases W with sw | ⟨w, cw, kw, Wl, Wr⟩
    · simp only [Tree.bh_leaf] at hW3; omega
    rcases color_cases cw with rfl | rfl
    · have hcpa : cpa = RBTREE_BLACK := by
        rcases color_cases cpa with rfl | rfl
        · have := (hW4 rfl).2
          simp only [Tree.rootColor_node, reduceCtorEq] at this
        · rfl
      subst hcpa
      simp only [if_true] at hW6
      rcases Wr with sn | ⟨wn, cwn, kwn, Wnf, Wnn⟩
      · simp only [Tree.balanced_node, Tree.bh_red, Tree.bh_leaf] at hW1 hW3; omega
      have hcwn : cwn = RBTREE_BLACK := by
        have := (hW2.1 rfl).2
        simpa only [Tree.rootColor_node] using this
      subst hcwn
      by_cases hWnf : Wnf.rootColor = RBTREE_BLACK
      · by_cases hWnn : Wnn.rootColor = RBTREE_BLACK
        · obtain ⟨h1, t1, e1, n1, s1, f1⟩ := era_case12_right (f' + 1) xp s hred hxp' hWnn hWnf
          obtain ⟨q1, q2, q3⟩ := era_pure12_right pa kpa hb hr' hW1 hW2 hW3 hWnn hWnf
          obtain ⟨h2, e2, s2, f2⟩ := era_fix_red (.right w RBTREE_BLACK kw Wl up) f' (some w) s1
          refine ⟨h2, t1, _, (erase_fixedup_chain e1).trans e2, n1, s2,
            plug_rbinv up _ q1 q2 (by rw [q3]; exact hW6) (fun _ => rfl), ?_, ?_⟩
          · simp [Ctx.plug, entries_plug, Tree.entries, Ctx.before, Ctx.after]
          · intro a ha
            rw [f2 a (by
              simp only [Ctx.plug, mem_addrs_plug, Ctx.addrs, Tree.addrs, List.mem_append, List.mem_cons,
                not_or, List.not_mem_nil, or_false, false_or] at ha ⊢
              tauto), f1 a ha]
        · obtain ⟨wnn, kwnn, Wnnn, Wnnf, rfl⟩ := rootColor_red hWnn
          obtain ⟨h1, t1, e1, n1, s1, f1⟩ := era_case134_right (f' + 1) xp s hred hxp' hWnf
          obtain ⟨q1, q2, q3⟩ := era_pure134_right pa kpa hb hr' hW1 hW2 hW3
          obtain ⟨h2, T', e2, s2, i2, en2, f2⟩ := era_done up f' xp s1 q1 q2 (by rw [q3]; exact hW6)
          refine ⟨h2, t1, T', (erase_fixedup_chain e1).trans e2, n1, s2, i2, ?_, ?_⟩
          · rw [en2]; simp [Ctx.plug, entries_plug, Tree.entries, Ctx.before, Ctx.after]
          · intro a ha
            rw [f2 a (by
              simp only [Ctx.plug, mem_addrs_plug, Ctx.addrs, Tree.addrs, List.mem_append, List.mem_cons,
                not_or, List.not_mem_nil, or_false, false_or] at ha ⊢
              tauto), f1 a ha]
      · obtain ⟨wnf, kwnf, Wnfn, Wnff, rfl⟩ := rootColor_red hWnf
        obtain ⟨h1, t1, e1, n1, s1, f1⟩ := era_case14_right (f' + 1) xp s hred hxp'
        obtain ⟨q1, q2, q3⟩ := era_pure14_right pa kpa hb hr' hW1 hW2 hW3
        obtain ⟨h2, T', e2, s2, i2, en2, f2⟩ := era_done up f' xp s1 q1 q2 (by rw [q3]; exact hW6)
        refine ⟨h2, t1, T', (erase_fixedup_chain e1).trans e2, n1, s2, i2, ?_, ?_⟩
        · rw [en2]; simp [Ctx.plug, entries_plug, Tree.entries, Ctx.before, Ctx.after]
        · intro a ha
          rw [f2 a (by
            simp only [Ctx.plug, mem_addrs_plug, Ctx.addrs, Tree.addrs, List.mem_append, List.mem_cons,
              not_or, List.not_mem_nil, or_false, false_or] at ha ⊢
            tauto), f1 a ha]
    · by_cases hWf : Wl.rootColor = RBTREE_BLACK
      · by_cases hWn : Wr.rootColor = RBTREE_BLACK
        · obtain ⟨h1, e1, s1, f1⟩ := era_case2_right (f' + 1) xp s hred hxp' hWn hWf
          obtain ⟨q1, q2, q3⟩ := era_pure2_right pa kpa hb hr' hW1 hW2 hW3 hWn hWf
          rcases color_cases cpa with rfl | rfl
          · simp only [reduceCtorEq, if_false, Nat.add_zero] at hW6
            obtain ⟨h2, T', e2, s2, i2, en2, f2⟩ := era_done_red up f' up.par s1 q1 q2
              (by rw [q3]; exact RB_weaken _ _ _ hW6)
            refine ⟨h2, t, T', (erase_fixedup_chain e1).trans e2, rfl, s2, i2, ?_, ?_⟩
            · rw [en2]; simp [Ctx.plug, entries_plug, Tree.entries, Ctx.before, Ctx.after]
            · intro a ha
              rw [f2 a (by
                simp only [Ctx.plug, mem_addrs_plug, Ctx.addrs, Tree.addrs, List.mem_append, List.mem_cons,
                  not_or, List.not_mem_nil, or_false, false_or] at ha ⊢
                tauto), f1 a ha]
          · simp only [if_true] at hW6
            obtain ⟨h2, t2, T', e2, n2, s2, i2, en2, f2⟩ :=
              ih up.depth (by omega) up h1 t _ up.par le_rfl s1
                (fun _ _ _ _ _ _ => by simp)
                (fun s0 e => by cases e) q1 q2 (by rw [q3]; exact hW6) (f' + 1) (by omega)
            refine ⟨h2, t2, T', (erase_fixedup_chain e1).trans e2, n2, s2, i2, ?_, ?_⟩
            · rw [en2]; simp [Ctx.plug, entries_plug, Tree.entries, Ctx.before, Ctx.after]
            · intro a ha
              rw [f2 a (by
                simp only [Ctx.plug, mem_addrs_plug, Ctx.addrs, Tree.addrs, List.mem_append, List.mem_cons,
                  not_or, List.not_mem_nil, or_false, false_or] at ha ⊢
                tauto), f1 a ha]
        · obtain ⟨wn, kwn, Wnn, Wnf, rfl⟩ := rootColor_red hWn
          obtain ⟨h1, t1, e1, n1, s1, f1⟩ := era_case3_right (f' + 1) xp s hred hxp' hWf
          obtain ⟨q1, q2, q3⟩ := era_pure3_right pa kpa hb hr' hW1 hW2 hW3
          obtain ⟨h2, T', e2, s2, i2, en2, f2⟩ := era_done up f' xp s1 q1 q2 (by rw [q3]; exact hW6)
          refine ⟨h2, t1, T', (erase_fixedup_chain e1).trans e2, n1, s2, i2, ?_, ?_⟩
          · rw [en2]; simp [Ctx.plug, entries_plug, Tree.entries, Ctx.before, Ctx.after]
          · intro a ha
            rw [f2 a (by
              simp only [Ctx.plug, mem_addrs_plug, Ctx.addrs, Tree.addrs, List.mem_append, List.mem_cons,
                not_or, List.not_mem_nil, or_false, false_or] at ha ⊢
              tauto), f1 a ha]
      · obtain ⟨wf, kwf, Wfn, Wff, rfl⟩ := rootColor_red hWf
        obtain ⟨h1, t1, e1, n1, s1, f1⟩ := era_case4_right (f' + 1) xp s hred hxp'
        obtain ⟨q1, q2, q3⟩ := era_pure4_right pa kpa hb hr' hW1 hW2 hW3
        obtain ⟨h2, T', e2, s2, i2, en2, f2⟩ := era_done up f' xp s1 q1 q2 (by rw [q3]; exact hW6)
        refine ⟨h2, t1, T', (erase_fixedup_chain e1).trans e2, n1, s2, i2, ?_, ?_⟩
        · rw [en2]; simp [Ctx.plug, entries_plug, Tree.entries, Ctx.before, Ctx.after]
        · intro a ha
          rw [f2 a (by
            simp only [Ctx.plug, mem_addrs_plug, Ctx.addrs, Tree.addrs, List.mem_append, List.mem_cons,
              not_or, List.not_mem_nil, or_false, false_or] at ha ⊢
            tauto), f1 a ha]

/-! ## Contexts inside contexts, and the leftmost node -/

theorem plug_comp : ∀ (D C : Ctx) (T : Tree), (D.comp C).plug T = C.plug (D.plug T) := by
  intro D
  induction D with
  | top => intro C T; rfl
  | left a c k r up ih => intro C T; simp only [Ctx.comp, Ctx.plug, ih]
  | right a c k l up ih => intro C T; simp only [Ctx.comp, Ctx.plug, ih]

theorem comp_par (D C : Ctx) (hD : D ≠ .top) : (D.comp C).par = D.par := by
  cases D with
  | top => exact absurd rfl hD
  | left a c k r up => rfl
  | right a c k l up => rfl

theorem comp_depth : ∀ (D C : Ctx), (D.comp C).depth = D.depth + C.depth := by
  intro D
  induction D with
  | top => intro C; simp [Ctx.comp, Ctx.depth]
  | left a c k r up ih => intro C; simp only [Ctx.comp, Ctx.depth, ih]; omega
  | right a c k l up ih => intro C; simp only [Ctx.comp, Ctx.depth, ih]; omega

theorem comp_before : ∀ (D C : Ctx), (D.comp C).before = C.before ++ D.before := by
  intro D
  induction D with
  | top => intro C; simp [Ctx.comp, Ctx.before]
  | left a c k r up ih => intro C; simp only [Ctx.comp, Ctx.before, ih]
  | right a c k l up ih => intro C; simp [Ctx.comp, Ctx.before, ih]

theorem comp_ne_top (D C : Ctx) (hC : C ≠ .top) : D.comp C ≠ .top := by
  cases D with
  | top => exact hC
  | left a c k r up => simp [Ctx.comp]
  | right a c k l up => simp [Ctx.comp]

theorem comp_isTop (D C : Ctx) (hC : C ≠ .top) : (D.comp C).isTop = false := by
  have := comp_ne_top D C hC
  cases hc : D.comp C with
  | top => exact absurd hc this
  | left a c k r up => rfl
  | right a c k l up => rfl

theorem mem_comp_addrs : ∀ (D C : Ctx) (a : Nat), a ∈ D.addrs → a ∈ (D.comp C).addrs := by
  intro D
  induction D with
  | top => intro C a h; simp [Ctx.addrs] at h
  | left a0 c k r up ih =>
    intro C a h
    have := ih C a
    simp only [Ctx.comp, Ctx.addrs, List.mem_cons, List.mem_append, List.cons_append] at h ⊢
    tauto
  | right a0 c k l up ih =>
    intro C a h
    have := ih C a
    simp only [Ctx.comp, Ctx.addrs, List.mem_cons, List.mem_append, List.cons_append] at h ⊢
    tauto

theorem RB_comp_congr (C1 C2 : Ctx) (h1 : C1 ≠ .top) (h2 : C2 ≠ .top)
    (hc : ∀ n c, C1.RB n c ↔ C2.RB n c) :
    ∀ (D : Ctx) (n : Nat) (c : color_t), (D.comp C1).RB n c ↔ (D.comp C2).RB n c := by
  intro D
  induction D with
  | top => intro n c; exact hc n c
  | left a c0 k r up ih =>
    intro n c
    simp only [Ctx.comp, Ctx.RB, ih, comp_ne_top up C1 h1, comp_ne_top up C2 h2]
  | right a c0 k l up ih =>
    intro n c
    simp only [Ctx.comp, Ctx.RB, ih, comp_ne_top up C1 h1, comp_ne_top up C2 h2]

/-- Every non-empty tree is its leftmost node, which has no left child, in a context made of
left frames only. -/
theorem min_decomp : ∀ (T : Tree) (a : Nat) (c : color_t) (k : key_t) (l r : Tree),
    T = .node a c k l r →
    ∃ (D : Ctx) (y : Nat) (cy : color_t) (ky : key_t) (s : Bool) (Ry : Tree),
      T = D.plug (.node y cy ky (.leaf s) Ry) ∧ D.before = [] ∧
      D.depth + 1 ≤ T.height ∧ T.entries.head? = some (y, ky) := by
  intro T
  induction T with
  | leaf s => intro a c k l r e; cases e
  | node a0 c0 k0 l0 r0 ihl _ =>
    intro a c k l r _
    cases l0 with
    | leaf s =>
      exact ⟨.top, a0, c0, k0, s, r0, rfl, rfl, by simp [Ctx.depth, Tree.height],
        by simp [Tree.entries]⟩
    | node a1 c1 k1 l1 r1 =>
      obtain ⟨D, y, cy, ky, s, Ry, e, hb, hd, hh⟩ := ihl a1 c1 k1 l1 r1 rfl
      refine ⟨D.comp (.left a0 c0 k0 r0 .top), y, cy, ky, s, Ry, ?_, ?_, ?_, ?_⟩
      · rw [plug_comp, ← e]; rfl
      · rw [comp_before, hb]; rfl
      · rw [comp_depth]
        simp only [Ctx.depth, Tree.height] at hd ⊢
        omega
      · rw [e] at hh ⊢
        simp only [entries_plug, hb, Tree.entries, List.nil_append, List.append_assoc,
          List.cons_append, List.head?_cons] at hh ⊢

theorem depth_le_height : ∀ (C : Ctx) (T : Tree), C.depth + T.height ≤ (C.plug T).height := by
  intro C
  induction C with
  | top => intro T; simp [Ctx.depth, Ctx.plug]
  | left a c k r up ih =>
    intro T
    have := ih (.node a c k T r)
    simp only [Ctx.depth, Ctx.plug, Tree.height] at this ⊢
    omega
  | right a c k l up ih =>
    intro T
    have := ih (.node a c k l T)
    simp only [Ctx.depth, Ctx.plug, Tree.height] at this ⊢
    omega

/-- A node of the tree is the root of a subtree in some context. -/
theorem mem_addrs_split : ∀ (T : Tree) (C : Ctx) (p : Nat), p ∈ T.addrs →
    ∃ (C' : Ctx) (cp : color_t) (kp : key_t) (L R : Tree), C.plug T = C'.plug (.node p cp kp L R) := by
  intro T
  induction T with
  | leaf s => intro C p hp; simp [Tree.addrs] at hp
  | node a c k l r ihl ihr =>
    intro C p hp
    simp only [Tree.addrs, List.mem_append, List.mem_cons] at hp
    rcases hp with hp | rfl | hp
    · exact ihl (.left a c k r C) p hp
    · exact ⟨C, c, k, l, r, rfl⟩
    · exact ihr (.right a c k l C) p hp

/-! ## Single writes -/

theorem setLeft_of {h : Heap} {a : Nat} {c : node_t} (hc : h a = some c) (v : Ptr) :
    setLeft h (some a) v = .ok (Function.update h a (some { c with left := v })) := by
  simp [setLeft, store, hc]

theorem setRight_of {h : Heap} {a : Nat} {c : node_t} (hc : h a = some c) (v : Ptr) :
    setRight h (some a) v = .ok (Function.update h a (some { c with right := v })) := by
  simp [setRight, store, hc]

theorem setParent_of {h : Heap} {a : Nat} {c : node_t} (hc : h a = some c) (v : Ptr) :
    setParent h (some a) v = .ok (Function.update h a (some { c with parent := v })) := by
  simp [setParent, store, hc]

theorem free_of {h : Heap} {a : Nat} {c : node_t} (hc : h a = some c) :
    free h (some a) = .ok (Function.update h a none) := by
  simp [free, hc]

theorem Rep_reparent {h : Heap} {nl : Ptr} {a : Nat} {c : color_t} {k : key_t} {l r : Tree}
    {par : Ptr} (par' : Ptr) (hr : Rep h nl (.node a c k l r) par)
    (hl : a ∉ l.addrs) (hr' : a ∉ r.addrs) :
    Rep (Function.update h a (some ⟨c, k, par', l.ptr nl, r.ptr nl⟩)) nl (.node a c k l r) par' := by
  obtain ⟨-, h2, h3⟩ := hr
  exact ⟨by simp, (Rep_update hl).2 h2, (Rep_update hr').2 h3⟩

theorem Shape.congr {h h' : Heap} {t : rbtree} {T : Tree} (s : Shape h t T)
    (hT : ∀ a ∈ T.addrs, h' a = h a) (hn : ∀ n, t.nil = some n → h' n = h n) : Shape h' t T := by
  obtain ⟨h1, h2, h3, h4, ⟨n, c, hn1, hn2⟩, h6⟩ := s
  exact ⟨h1, h2, Rep_congr hT h3, h4, ⟨n, c, hn1, by rw [hn n hn1]; exact hn2⟩, h6⟩

/-! ## Transplant, in general -/

/-- The node `u` in the hole of `C` is replaced by a subtree `V` that is held elsewhere in the
heap; nothing is asked of the children of `u`. -/
theorem transplant_gen {h : Heap} {t : rbtree} {C : Ctx} {u : Nat} {cu : color_t} {ku : key_t}
    {pl pr : Ptr} {V : Tree} {vpar : Ptr}
    (hroot : t.root = C.rootPtr (some u)) (hrc : RepCtx h t.nil C (some u))
    (hu : h u = some ⟨cu, ku, C.par, pl, pr⟩) (hV : Rep h t.nil V vpar)
    (hnd : (C.addrs ++ u :: V.addrs).Nodup) (hnl : ∃ n c, t.nil = some n ∧ h n = some c)
    (hnf : ∀ a ∈ C.addrs ++ u :: V.addrs, some a ≠ t.nil) :
    ∃ h' t', transplant h t (some u) (V.ptr t.nil) = .ok (h', t') ∧ t'.nil = t.nil ∧
      ZShape h' t' C (V.hang C.isTop) ∧
      (∀ a, a ∉ C.addrs ++ V.addrs → h' a = h a) := by
  obtain ⟨n, cn, hnn, hnl⟩ := hnl
  have hun : (some u : Ptr) ≠ t.nil := hnf u (by simp)
  have hnn' : t.nil ≠ none := by simp [hnn]
  have hnd0 : (C.addrs ++ V.addrs).Nodup :=
    hnd.sublist (List.Sublist.append (List.Sublist.refl _) (List.sublist_cons_self _ _))
  have hnf0 : ∀ a ∈ C.addrs ++ V.addrs, some a ≠ t.nil := by
    intro a ha
    apply hnf a
    simp only [List.mem_append, List.mem_cons] at ha ⊢
    tauto
  rcases C with _ | ⟨a, c, k, r, up⟩ | ⟨a, c, k, l, up⟩ <;>
  rcases V with ⟨_ | _⟩ | ⟨b, cb, kb, Bl, Br⟩ <;>
  simp only [Tree.addrs, Ctx.addrs, List.nodup_append, List.nodup_cons, List.mem_append, List.mem_cons,
    List.disjoint_cons_left, List.disjoint_cons_right, List.disjoint_append_left,
    List.disjoint_append_right, not_or, List.nil_append, List.not_mem_nil, List.append_nil,
    List.nodup_nil, List.disjoint_nil_left, List.disjoint_nil_right, true_and, and_true,
    not_false_eq_true, List.cons_append] at hnd <;>
  simp only [RepCtx, Rep, Tree.ptr_node, Tree.ptr_leaf_true, Tree.ptr_leaf_false] at hrc hV
  all_goals (
    simp only [Tree.addrs, Ctx.addrs, List.mem_append, List.mem_cons, or_imp, forall_and, forall_eq,
      List.not_mem_nil, false_imp_iff, implies_true, true_and, and_true, List.nil_append,
      List.cons_append] at hnf
    generalize hres : transplant h t (some u) _ = res
    simp only [transplant, getRight, getLeft, getParent, getColor, getKey, setRight, setLeft,
      setParent, setColor, load, store, Res.bind_ok', Res.ok_bind, Res.pure_eq, Ctx.par, ne_eq,
      Function.update_same, Function.update_idem, upd_ne1, upd_ne2, reduceCtorEq, or_self, or_true,
      true_or, or_false, false_or, and_self, and_true, true_and, and_false, false_and,
      not_true_eq_false, not_false_eq_true, ↓reduceIte, if_true, if_false, Option.some.injEq,
      Tree.ptr_node, Tree.ptr_leaf_true, Tree.ptr_leaf_false, Tree.some_ne_ptr, Tree.ptr_ne_some,
      hu, hrc, hV, hnd, hun, Ne.symm hun, hnn', hnf] at hres
    subst hres
    refine ⟨_, _, rfl, rfl, and_of_right ?_ (fun hfr => ?_)⟩
    · intro a' ha'
      simp only [Tree.addrs, Ctx.addrs, List.mem_append, List.mem_cons, not_or, List.not_mem_nil,
        not_false_eq_true, true_and, List.cons_append] at ha'
      simp [upd_ne2, ha']
    · constructor
      · simp [Ctx.rootPtr, hroot, Tree.hang, Ctx.isTop]
      · simp [Tree.hang, Ctx.isTop]
      · simp [RepCtx, Ctx.par, upd_ne1, upd_ne2, hnd, Rep_update, RepCtx_update, hrc, Tree.hang,
          Ctx.isTop]
      · simp [Rep, Ctx.par, upd_ne1, upd_ne2, hnd, Rep_update, hV, Tree.hang, Ctx.isTop]
      · simp only [Tree.addrs, Ctx.addrs, Tree.hang] at hnd0 ⊢; exact hnd0
      · exact ⟨n, cn, hnn, by rw [hfr n (fun hm => hnf0 n hm hnn.symm)]; exact hnl⟩
      · simp only [Tree.addrs, Ctx.addrs, Tree.hang] at hnf0 ⊢; exact hnf0)

/-! ## Removal: the subtree that moves up, and the end of the function -/

theorem hang_bh (b : Bool) (T : Tree) : (T.hang b).bh = T.bh := by cases T <;> rfl

theorem hang_balanced (b : Bool) {T : Tree} (h : T.Balanced) : (T.hang b).Balanced := by
  cases T with
  | leaf s => trivial
  | node a c k l r => exact h

theorem hang_noRedRed (b : Bool) {T : Tree} (h : T.NoRedRed) : (T.hang b).NoRedRed := by
  cases T with
  | leaf s => trivial
  | node a c k l r => exact h

theorem hang_rootColor (b : Bool) (T : Tree) : (T.hang b).rootColor = T.rootColor := by
  cases T <;> rfl

theorem hang_entries (b : Bool) (T : Tree) : (T.hang b).entries = T.entries := by
  cases T <;> rfl

theorem hang_addrs (b : Bool) (T : Tree) : (T.hang b).addrs = T.addrs := by
  cases T <;> rfl

theorem addrs_of_entries {T T' : Tree} (e : T'.entries = T.entries) : T'.addrs = T.addrs := by
  rw [← Tree.entries_fst, ← Tree.entries_fst, e]

theorem hang_xptr (b : Bool) (nl : Ptr) (T : Tree) : (T.hang b).xptr nl = T.xptr nl := by
  cases T <;> rfl

theorem hang_ne_false (T : Tree) : T.hang false ≠ .leaf false := by
  cases T <;> simp [Tree.hang]

theorem xptr_eq_ite (nl : Ptr) (T : Tree) :
    (if T.ptr nl = none then nl else T.ptr nl) = T.xptr nl := by
  rcases T with ⟨_ | _⟩ | ⟨a, c, k, l, r⟩ <;> simp [Tree.ptr, Tree.xptr]

theorem blacken_noRedRed {T : Tree} (h : T.NoRedRed) : T.blacken.NoRedRed := by
  cases T with
  | leaf s => trivial
  | node a c k l r => exact ⟨fun e => (by cases e), h.2.1, h.2.2⟩

theorem nodup_erase {T T' : Tree} {pre post : List (Nat × key_t)} {p : Nat} {kp : key_t}
    (hn : T.addrs.Nodup) (e : T.entries = pre ++ (p, kp) :: post) (e' : T'.entries = pre ++ post) :
    T'.addrs.Nodup ∧ p ∉ T'.addrs := by
  rw [← Tree.entries_fst, e, List.map_append, List.map_cons] at hn
  rw [← Tree.entries_fst, e', List.map_append]
  have := List.nodup_middle.1 hn
  exact ⟨(List.nodup_cons.1 this).2, (List.nodup_cons.1 this).1⟩

/-- The last lines of `rbtree_erase`: the links of the removed node are cleared and its storage
is released; the tree does not hold the node any more, so it is left as it is. -/
theorem erase_clear {h : Heap} {t : rbtree} {T : Tree} {p : Nat} {cell : node_t}
    (s : Shape h t T) (hp : h p = some cell) (hpT : p ∉ T.addrs) (hpn : (some p : Ptr) ≠ t.nil) :
    ∃ h3 h4 h5 h6, setLeft h (some p) none = .ok h3 ∧ setRight h3 (some p) none = .ok h4 ∧
      setParent h4 (some p) none = .ok h5 ∧ free h5 (some p) = .ok h6 ∧ Shape h6 t T ∧
      h6 p = none ∧ (∀ a, a ≠ p → h6 a = h a) := by
  have e3 := setLeft_of hp none
  have hp3 : Function.update h p (some { cell with left := none }) p = some _ :=
    Function.update_same _ _ _
  have e4 := setRight_of hp3 none
  have hp4 : Function.update (Function.update h p (some { cell with left := none })) p
      (some { ({ cell with left := none } : node_t) with right := none }) p = some _ :=
    Function.update_same _ _ _
  have e5 := setParent_of hp4 none
  have hp5 := Function.update_same p
    (some { ({ ({ cell with left := none } : node_t) with right := none } : node_t) with
      parent := none })
    (Function.update (Function.update h p (some { cell with left := none })) p
      (some { ({ cell with left := none } : node_t) with right := none }))
  have e6 := free_of hp5
  refine ⟨_, _, _, _, e3, e4, e5, e6, ?_, Function.update_same _ _ _, ?_⟩
  · refine s.congr ?_ ?_
    · intro a ha
      have : a ≠ p := fun e => hpT (e ▸ ha)
      simp [upd_ne2 this]
    · intro n hn
      have : n ≠ p := fun e => hpn (by rw [hn, e])
      simp [upd_ne2 this]
  · intro a ha
    simp [upd_ne2 ha]

/-- The fixup call of `rbtree_erase`, made when the node that left its place was BLACK: in both
cases the tree that results is a red-black tree with the same nodes. -/
theorem erase_fix_or_not {h : Heap} {t : rbtree} (C : Ctx) (X : Tree) (yoc : color_t) (xp : Ptr)
    (s : Shape h t (C.plug X))
    (hXf : ∀ a c k r up, C = .left a c k r up → X ≠ .leaf false)
    (hxp : ∀ s0, X = .leaf s0 → xp = C.par) (hb : X.Balanced) (hr : X.NoRedRed)
    (hC : C.RB (X.bh + if yoc = RBTREE_BLACK then 1 else 0) yoc)
    (hred : yoc = RBTREE_RED → X.rootColor = RBTREE_BLACK)
    (htop : C = .top → yoc = RBTREE_BLACK)
    (fuel : Nat) (hf : C.depth + 2 ≤ fuel) :
    ∃ h' t' T', (if yoc = RBTREE_BLACK then erase_fixedup fuel h t (X.xptr t.nil) xp
        else pure (h, t)) = .ok (h', t') ∧
      t'.nil = t.nil ∧ Shape h' t' T' ∧ RBInv T' ∧ T'.entries = (C.plug X).entries ∧
      (∀ a, a ∉ (C.plug X).addrs → h' a = h a) := by
  rcases color_cases yoc with rfl | rfl
  · have hx := hred rfl
    simp only [reduceCtorEq, if_false, Nat.add_zero] at hC ⊢
    refine ⟨h, t, _, rfl, rfl, s, plug_rbinv C X hb hr (by rw [hx]; exact RB_weaken _ _ _ hC) ?_,
      rfl, fun _ _ => rfl⟩
    intro e
    exact absurd (htop e) (by simp)
  · simp only [if_true] at hC ⊢
    exact erase_fixedup_spec C.depth C h t X xp le_rfl s hXf hxp hb (blacken_noRedRed hr) hC
      fuel hf

/-! ## Removal of a node with at most one child -/

theorem erase_right_only {h : Heap} {t : rbtree} (C : Ctx) {p : Nat} {cp : color_t} {kp : key_t}
    {s : Bool} {R : Tree} (sh : Shape h t (C.plug (.node p cp kp (.leaf s) R)))
    (hI : RBInv (C.plug (.node p cp kp (.leaf s) R))) (fuel : Nat)
    (hf : (C.plug (.node p cp kp (.leaf s) R)).height + 2 ≤ fuel) :
    ∃ h' t' T', rbtree_erase fuel h (some t) (some p) = .ok (h', some t', 0) ∧ t'.nil = t.nil ∧
      Shape h' t' T' ∧ RBInv T' ∧ T'.entries = C.before ++ R.entries ++ C.after ∧ h' p = none ∧
      (∀ a, a ∉ (C.plug (.node p cp kp (.leaf s) R)).addrs → h' a = h a) := by
  have z := (Shape_plug_iff _ _ _ _).1 sh
  obtain ⟨h1, t1, e1, n1, z1, f1⟩ := transplant_spec_right z
  have s1 := (Shape_plug_iff _ _ _ _).2 z1
  have hp := Shape.cell C sh
  have npn := Shape.ne_nil C sh
  obtain ⟨ub, ur, uC, utop⟩ := unplug_ok C _ hI.balanced hI.no_red_red hI.root_black
  have hd := depth_le_height C (.node p cp kp (.leaf s) R)
  have hnd := sh.nodup
  have hent : (C.plug (.node p cp kp (.leaf s) R)).entries
      = (C.before ++ []) ++ (p, kp) :: (R.entries ++ C.after) := by
    simp [entries_plug, Tree.entries]
  obtain ⟨h2, t2, T', e2, n2, s2, i2, en2, f2⟩ :=
    erase_fix_or_not C (R.hang C.isTop) cp C.par s1
      (by intro a c k r up e; subst e; exact hang_ne_false R)
      (fun _ _ => rfl) (hang_balanced _ ub.2.2) (hang_noRedRed _ ur.2.2)
      (by
        rw [hang_bh]
        have hb0 : R.bh = 0 := by
          have := ub.1
          simp only [Tree.bh_leaf] at this
          exact this.symm
        have hb1 : (Tree.node p cp kp (.leaf s) R).bh
            = R.bh + if cp = RBTREE_BLACK then 1 else 0 := by
          rw [hb0]; rfl
        rw [← hb1]; exact uC)
      (by intro e; rw [hang_rootColor]; exact (ur.1 e).2)
      (by intro e; exact utop e) fuel (by simp only [Tree.height] at hd; omega)
  rw [hang_xptr, n1] at e2
  have hpX : p ∉ (C.plug (R.hang C.isTop)).addrs := by
    have en2' : T'.entries = (C.before ++ []) ++ (R.entries ++ C.after) := by
      rw [en2, entries_plug, hang_entries]; simp
    rw [← addrs_of_entries en2]
    exact (nodup_erase hnd hent en2').2
  have hpCR : p ∉ C.addrs ++ R.addrs := by
    rw [mem_addrs_plug, hang_addrs] at hpX
    simpa only [List.mem_append] using hpX
  have hp2 : h2 p = _ := ((f2 p hpX).trans (f1 p hpCR)).trans hp
  obtain ⟨h3, h4, h5, h6, e3, e4, e5, e6, s6, hp6, f6⟩ :=
    erase_clear s2 hp2 (by rw [addrs_of_entries en2]; exact hpX) (by rw [n2, n1]; exact npn)
  refine ⟨h6, t2, T', ?_, n2.trans n1, s6, i2, ?_, hp6, ?_⟩
  · rcases color_cases cp with rfl | rfl <;>
    simp only [reduceCtorEq, if_true, if_false, Res.pure_eq, Res.ok.injEq, Prod.mk.injEq] at e2 <;>
    cases s <;>
    simp only [rbtree_erase, reduceCtorEq, npn, or_self, if_false, getColor_of hp, getLeft_of hp,
      getRight_of hp, getParent_of hp, Res.ok_bind, Res.pure_eq, Tree.ptr_leaf_true,
      Tree.ptr_leaf_false, or_true, true_or, if_true, e1, xptr_eq_ite, e2, e3, e4, e5, e6]
  · rw [en2, entries_plug, hang_entries]
  · intro a ha
    have hap : a ≠ p := by
      intro e
      subst e
      exact ha (mem_addrs_plug.2 (Or.inr (by simp [Tree.addrs])))
    rw [f6 a hap, f2 a (by
      rw [mem_addrs_plug, hang_addrs]
      rw [mem_addrs_plug] at ha
      simp only [Tree.addrs, List.mem_append, List.mem_cons, not_or] at ha ⊢
      tauto), f1 a (by
      rw [mem_addrs_plug] at ha
      simp only [Tree.addrs, List.mem_append, List.mem_cons, not_or] at ha ⊢
      tauto)]

theorem erase_left_only {h : Heap} {t : rbtree} (C : Ctx) {p l0 : Nat} {cp cl : color_t}
    {kp kl : key_t} {s : Bool} {Ll Lr : Tree}
    (sh : Shape h t (C.plug (.node p cp kp (.node l0 cl kl Ll Lr) (.leaf s))))
    (hI : RBInv (C.plug (.node p cp kp (.node l0 cl kl Ll Lr) (.leaf s)))) (fuel : Nat)
    (hf : (C.plug (.node p cp kp (.node l0 cl kl Ll Lr) (.leaf s))).height + 2 ≤ fuel) :
    ∃ h' t' T', rbtree_erase fuel h (some t) (some p) = .ok (h', some t', 0) ∧ t'.nil = t.nil ∧
      Shape h' t' T' ∧ RBInv T' ∧
      T'.entries = C.before ++ (Tree.node l0 cl kl Ll Lr).entries ++ C.after ∧ h' p = none ∧
      (∀ a, a ∉ (C.plug (.node p cp kp (.node l0 cl kl Ll Lr) (.leaf s))).addrs → h' a = h a) := by
  have z := (Shape_plug_iff _ _ _ _).1 sh
  obtain ⟨h1, t1, e1, n1, z1, f1⟩ := transplant_spec_left z
  have s1 := (Shape_plug_iff _ _ _ _).2 z1
  have hp := Shape.cell C sh
  have npn := Shape.ne_nil C sh
  have nl0 := Shape.ne_nil (.left p cp kp (.leaf s) C) sh
  obtain ⟨ub, ur, uC, utop⟩ := unplug_ok C _ hI.balanced hI.no_red_red hI.root_black
  have hd := depth_le_height C (.node p cp kp (.node l0 cl kl Ll Lr) (.leaf s))
  have hnd := sh.nodup
  have hent : (C.plug (.node p cp kp (.node l0 cl kl Ll Lr) (.leaf s))).entries
      = (C.before ++ (Tree.node l0 cl kl Ll Lr).entries) ++ (p, kp) :: ([] ++ C.after) := by
    simp [entries_plug, Tree.entries]
  obtain ⟨h2, t2, T', e2, n2, s2, i2, en2, f2⟩ :=
    erase_fix_or_not C ((Tree.node l0 cl kl Ll Lr).hang C.isTop) cp C.par s1
      (by intro a c k r up e; subst e; exact hang_ne_false _)
      (fun _ _ => rfl) (hang_balanced _ ub.2.1) (hang_noRedRed _ ur.2.1)
      (by rw [hang_bh]; exact uC)
      (by intro e; rw [hang_rootColor]; exact (ur.1 e).1)
      (by intro e; exact utop e) fuel (by simp only [Tree.height] at hd; omega)
  rw [hang_xptr, n1] at e2
  have hpX : p ∉ (C.plug ((Tree.node l0 cl kl Ll Lr).hang C.isTop)).addrs := by
    have en2' : T'.entries
        = (C.before ++ (Tree.node l0 cl kl Ll Lr).entries) ++ ([] ++ C.after) := by
      rw [en2, entries_plug, hang_entries]; simp
    rw [← addrs_of_entries en2]
    exact (nodup_erase hnd hent en2').2
  have hpCR : p ∉ C.addrs ++ (Tree.node l0 cl kl Ll Lr).addrs := by
    rw [mem_addrs_plug, hang_addrs] at hpX
    simpa only [List.mem_append] using hpX
  have hp2 : h2 p = _ := ((f2 p hpX).trans (f1 p hpCR)).trans hp
  obtain ⟨h3, h4, h5, h6, e3, e4, e5, e6, s6, hp6, f6⟩ :=
    erase_clear s2 hp2 (by rw [addrs_of_entries en2]; exact hpX) (by rw [n2, n1]; exact npn)
  refine ⟨h6, t2, T', ?_, n2.trans n1, s6, i2, ?_, hp6, ?_⟩
  · rw [Tree.ptr_node] at e1
    rcases color_cases cp with rfl | rfl <;>
    simp only [reduceCtorEq, if_true, if_false, Res.pure_eq, Res.ok.injEq, Prod.mk.injEq,
      Tree.xptr_node] at e2 <;>
    cases s <;>
    simp only [rbtree_erase, reduceCtorEq, npn, nl0, or_self, if_false, getColor_of hp,
      getLeft_of hp, getRight_of hp, getParent_of hp, Res.ok_bind, Res.pure_eq,
      Tree.ptr_leaf_true, Tree.ptr_leaf_false, Tree.ptr_node, Tree.xptr_node, or_true, true_or,
      if_true, e1, e2, e3, e4, e5, e6]
  · rw [en2, entries_plug, hang_entries]
  · intro a ha
    have hap : a ≠ p := by
      intro e
      subst e
      exact ha (mem_addrs_plug.2 (Or.inr (by simp [Tree.addrs])))
    rw [f6 a hap, f2 a (by
      rw [mem_addrs_plug, hang_addrs]
      rw [mem_addrs_plug] at ha
      simp only [Tree.addrs, List.mem_append, List.mem_cons, not_or] at ha ⊢
      tauto), f1 a (by
      rw [mem_addrs_plug] at ha
      simp only [Tree.addrs, List.mem_append, List.mem_cons, not_or] at ha ⊢
      tauto)]

/-! ## Removal of a node with two children -/

/-- The successor `y`, already holding the right subtree `R'`, takes the place, the left subtree
and the colour of the node `p`. -/
theorem graft {h : Heap} {t : rbtree} {C : Ctx} {p l0 y : Nat} {cp cl c : color_t}
    {kp kl ky : key_t} {Ll Lr V : Tree} {s : Bool} {v pr : Ptr}
    (hroot : t.root = C.rootPtr (some p)) (hrc : RepCtx h t.nil C (some p))
    (hp : h p = some ⟨cp, kp, C.par, some l0, pr⟩)
    (hL : Rep h t.nil (.node l0 cl kl Ll Lr) (some p))
    (hy : Rep h t.nil (.node y c ky (.leaf s) V) v)
    (hnd : (C.plug (.node y cp ky (.node l0 cl kl Ll Lr) V)).addrs.Nodup)
    (hpn : p ∉ (C.plug (.node y cp ky (.node l0 cl kl Ll Lr) V)).addrs)
    (hnl : ∃ n c, t.nil = some n ∧ h n = some c)
    (hnf : ∀ a ∈ (C.plug (.node y cp ky (.node l0 cl kl Ll Lr) V)).addrs, some a ≠ t.nil)
    (hpf : (some p : Ptr) ≠ t.nil) :
    ∃ h4 t4 h5 h6 h7, transplant h t (some p) (some y) = .ok (h4, t4) ∧ t4.nil = t.nil ∧
      getLeft h4 (some p) = .ok (some l0) ∧ setLeft h4 (some y) (some l0) = .ok h5 ∧
      getLeft h5 (some y) = .ok (some l0) ∧ setParent h5 (some l0) (some y) = .ok h6 ∧
      getColor h6 (some p) = .ok cp ∧ setColor h6 (some y) cp = .ok h7 ∧
      Shape h7 t4 (C.plug (.node y cp ky (.node l0 cl kl Ll Lr) V)) ∧ h7 p = h p ∧
      (∀ a, a ∉ (C.plug (.node y cp ky (.node l0 cl kl Ll Lr) V)).addrs → h7 a = h a) := by
  have hnd' := (addrs_plug_perm C _).nodup_iff.1 hnd
  have hnf' : ∀ a ∈ C.addrs ++ (Tree.node y cp ky (.node l0 cl kl Ll Lr) V).addrs,
      some a ≠ t.nil := fun a ha => hnf a (mem_addrs_plug.2 (List.mem_append.1 ha))
  have hpn' : p ∉ C.addrs ++ (Tree.node y cp ky (.node l0 cl kl Ll Lr) V).addrs :=
    fun ha => hpn (mem_addrs_plug.2 (List.mem_append.1 ha))
  have hndV : (C.addrs ++ p :: (Tree.node y c ky (.leaf s) V).addrs).Nodup := by
    refine List.nodup_middle.2 (List.nodup_cons.2 ⟨?_, ?_⟩)
    · simp only [Tree.addrs, List.mem_append, List.mem_cons, not_or, List.not_mem_nil] at hpn' ⊢
      tauto
    · refine hnd'.sublist (List.Sublist.append (List.Sublist.refl _) ?_)
      simp only [Tree.addrs, List.nil_append]
      exact List.sublist_append_right _ _
  obtain ⟨h4, t4, e4, n4, z4, f4⟩ := transplant_gen hroot hrc hp hy hndV hnl (by
    intro a ha
    simp only [Tree.addrs, List.mem_append, List.mem_cons, List.not_mem_nil, false_or] at ha
    rcases ha with ha | rfl | ha
    · exact hnf' a (by simp [ha])
    · exact hpf
    · exact hnf' a (by simp only [Tree.addrs, List.mem_append, List.mem_cons]; tauto))
  rw [Tree.ptr_node] at e4
  obtain ⟨hroot4, -, hrc4, hr4, -, ⟨n, cn, hnn, hnl4⟩, -⟩ := z4
  simp only [Tree.hang, Rep, Tree.ptr_node] at hroot4 hrc4 hr4
  rw [n4] at hrc4 hr4 hnn
  obtain ⟨hy4, -, hR4⟩ := hr4
  simp only [Tree.addrs, List.nodup_append, List.nodup_cons, List.mem_append, List.mem_cons,
    List.disjoint_cons_left, List.disjoint_cons_right, List.disjoint_append_left,
    List.disjoint_append_right, not_or] at hnd'
  simp only [Tree.addrs, List.mem_append, List.mem_cons, not_or] at hpn'
  have fr4 : ∀ a, a ∉ C.addrs → a ≠ y → a ∉ V.addrs → h4 a = h a := by
    intro a h1 h2 h3
    exact f4 a (by
      simp only [Tree.addrs, List.mem_append, List.mem_cons, not_or, List.not_mem_nil]
      tauto)
  have hp4 : h4 p = _ := (fr4 p (by tauto) (by tauto) (by tauto)).trans hp
  have hl4 : h4 l0 = _ := (fr4 l0 (by tauto) (by tauto) (by tauto)).trans hL.1
  have hyl : y ≠ l0 := by tauto
  have hyp : y ≠ p := by tauto
  have hlp : l0 ≠ p := by tauto
  have e5 := setLeft_of hy4 (some l0)
  have hl5 : Function.update h4 y (some { (⟨c, ky, C.par, (Tree.leaf s).ptr t.nil,
      V.ptr t.nil⟩ : node_t) with left := some l0 }) l0 = _ := (upd_ne1 hyl).trans hl4
  have e6 := setParent_of hl5 (some y)
  have hy6 : Function.update (Function.update h4 y (some { (⟨c, ky, C.par,
      (Tree.leaf s).ptr t.nil, V.ptr t.nil⟩ : node_t) with left := some l0 })) l0
      (some { (⟨cl, kl, some p, Ll.ptr t.nil, Lr.ptr t.nil⟩ : node_t) with parent := some y }) y
      = _ := (upd_ne2 hyl).trans (Function.update_same _ _ _)
  have e7 := setColor_of hy6 cp
  refine ⟨h4, t4, _, _, _, e4, n4, getLeft_of hp4, e5,
    getLeft_of (Function.update_same _ _ _), e6, ?_, e7, ?_, ?_, ?_⟩
  · rw [getColor_of ((upd_ne1 hlp).trans ((upd_ne1 hyp).trans hp4))]
  · refine (Shape_plug_iff _ _ _ _).2 ⟨hroot4, by intro _; simp, ?_, ⟨?_, ⟨?_, ?_, ?_⟩, ?_⟩,
      (addrs_plug_perm C _).nodup_iff.1 hnd, ⟨n, cn, n4.trans hnn, ?_⟩, by rw [n4]; exact hnf'⟩
    · rw [n4]
      simp only [RepCtx_update, hnd', not_false_eq_true, hrc4, Tree.ptr_node]
    · rw [n4]; simp
    · rw [n4]; simp [upd_ne1 hyl]
    · have : Rep h4 t.nil Ll (some l0) := Rep_congr (fun a ha => fr4 a (by tauto) (by
        intro e; subst e; tauto) (by tauto)) hL.2.1
      rw [n4]
      simp only [Rep_update, hnd', not_false_eq_true, this]
    · have : Rep h4 t.nil Lr (some l0) := Rep_congr (fun a ha => fr4 a (by tauto) (by
        intro e; subst e; tauto) (by tauto)) hL.2.2
      rw [n4]
      simp only [Rep_update, hnd', not_false_eq_true, this]
    · rw [n4]
      simp only [Rep_update, hnd', not_false_eq_true, hR4]
    · have h1 : n ≠ y := fun e => hnf' y (by simp [Tree.addrs]) (by rw [hnn, e])
      have h2 : n ≠ l0 := fun e => hnf' l0 (by simp [Tree.addrs]) (by rw [hnn, e])
      simp [upd_ne2 h1, upd_ne2 h2, hnl4]
  · simp [upd_ne1 hyp, upd_ne1 hlp, hp4, hp]
  · intro a ha
    rw [mem_addrs_plug] at ha
    simp only [Tree.addrs, List.mem_append, List.mem_cons, not_or] at ha
    have h1 : a ≠ y := by tauto
    have h2 : a ≠ l0 := by tauto
    simp only [upd_ne2 h1, upd_ne2 h2]
    exact fr4 a (by tauto) h1 (by tauto)

theorem mem_of_erase_entries {T T' : Tree} {pre post : List (Nat × key_t)} {p : Nat}
    {kp : key_t} (e : T.entries = pre ++ (p, kp) :: post) (e' : T'.entries = pre ++ post) :
    ∀ a ∈ T'.addrs, a ∈ T.addrs := by
  intro a ha
  rw [← Tree.entries_fst, e', List.map_append, List.mem_append] at ha
  rw [← Tree.entries_fst, e, List.map_append, List.map_cons, List.mem_append, List.mem_cons]
  tauto

theorem par_mem (C : Ctx) (hC : C ≠ .top) : ∃ q, C.par = some q ∧ q ∈ C.addrs := by
  cases C with
  | top => exact absurd rfl hC
  | left a c k r up => exact ⟨a, rfl, by simp [Ctx.addrs]⟩
  | right a c k l up => exact ⟨a, rfl, by simp [Ctx.addrs]⟩

theorem plug_ne_top_node (C : Ctx) (hC : C ≠ .top) (T : Tree) :
    ∃ a c k l r, C.plug T = .node a c k l r := by
  cases C with
  | top => exact absurd rfl hC
  | left a c k r up => exact plug_node up a c k T r
  | right a c k l up => exact plug_node up a c k l T

/-- The red-black conditions around the successor, read off the tree before the removal: they
do not depend on which node sits in the place of `p`. -/
theorem erase_two_inv (C D : Ctx) (y' : Nat) (ky' : key_t) {p y : Nat} {cp cy : color_t}
    {kp ky : key_t}
    {L Ry : Tree} {s : Bool}
    (hI : RBInv ((D.comp (.right p cp kp L C)).plug (.node y cy ky (.leaf s) Ry))) :
    Ry.Balanced ∧ Ry.NoRedRed ∧ (cy = RBTREE_RED → Ry.rootColor = RBTREE_BLACK) ∧
      (D.comp (.right y' cp ky' L C)).RB (Ry.bh + if cy = RBTREE_BLACK then 1 else 0) cy := by
  obtain ⟨ub, ur, uC, -⟩ := unplug_ok _ _ hI.balanced hI.no_red_red hI.root_black
  have hb0 : Ry.bh = 0 := by
    have := ub.1
    simp only [Tree.bh_leaf] at this
    exact this.symm
  refine ⟨ub.2.2, ur.2.2, fun e => (ur.1 e).2, ?_⟩
  have hb1 : (Tree.node y cy ky (.leaf s) Ry).bh = Ry.bh + if cy = RBTREE_BLACK then 1 else 0 := by
    rw [hb0]; rfl
  rw [← hb1]
  exact (RB_comp_congr (.right p cp kp L C) (.right y' cp ky' L C) (by simp) (by simp)
    (fun _ _ => Iff.rfl) D _ _).1 uC

/-- Removal of a node with two children whose successor is its right child. -/
theorem erase_two_near {h : Heap} {t : rbtree} (C : Ctx) {p l0 y : Nat} {cp cl cy : color_t}
    {kp kl ky : key_t} {Ll Lr Ry : Tree} {s : Bool}
    (sh : Shape h t (C.plug (.node p cp kp (.node l0 cl kl Ll Lr) (.node y cy ky (.leaf s) Ry))))
    (hI : RBInv (C.plug (.node p cp kp (.node l0 cl kl Ll Lr) (.node y cy ky (.leaf s) Ry))))
    (fuel : Nat)
    (hf : (C.plug (.node p cp kp (.node l0 cl kl Ll Lr) (.node y cy ky (.leaf s) Ry))).height + 2
      ≤ fuel) :
    ∃ h' t' T', rbtree_erase fuel h (some t) (some p) = .ok (h', some t', 0) ∧ t'.nil = t.nil ∧
      Shape h' t' T' ∧ RBInv T' ∧
      T'.entries = C.before ++ (Tree.node l0 cl kl Ll Lr).entries ++
        (Tree.node y cy ky (.leaf s) Ry).entries ++ C.after ∧ h' p = none ∧
      (∀ a, a ∉ (C.plug (.node p cp kp (.node l0 cl kl Ll Lr)
        (.node y cy ky (.leaf s) Ry))).addrs → h' a = h a) := by
  have z := (Shape_plug_iff _ _ _ _).1 sh
  have hp := Shape.cell C sh
  have npn := Shape.ne_nil C sh
  have nl0 := Shape.ne_nil (.left p cp kp _ C) sh
  have hy := Shape.cell (.right p cp kp _ C) sh
  have ny := Shape.ne_nil (.right p cp kp _ C) sh
  have hd := depth_le_height C (.node p cp kp (.node l0 cl kl Ll Lr) (.node y cy ky (.leaf s) Ry))
  have hent : (C.plug (.node p cp kp (.node l0 cl kl Ll Lr) (.node y cy ky (.leaf s) Ry))).entries
      = (C.before ++ (Tree.node l0 cl kl Ll Lr).entries) ++
        (p, kp) :: ((Tree.node y cy ky (.leaf s) Ry).entries ++ C.after) := by
    simp [entries_plug, Tree.entries]
  have hent1 : (C.plug (.node y cp ky (.node l0 cl kl Ll Lr) Ry)).entries
      = (C.before ++ (Tree.node l0 cl kl Ll Lr).entries) ++
        ((Tree.node y cy ky (.leaf s) Ry).entries ++ C.after) := by
    simp [entries_plug, Tree.entries]
  obtain ⟨hnd1, hp1⟩ := nodup_erase sh.nodup hent hent1
  have hsub := mem_of_erase_entries hent hent1
  have hfm : find_min fuel h t (some y) = .ok (some y) := by
    have := find_min_spec h t (.leaf s) y cy ky Ry (some p) fuel z.rep.2.2
      (fun b hb => sh.nil_fresh b (mem_addrs_plug.2 (Or.inr (by
        simp only [Tree.addrs, List.mem_append, List.mem_cons] at hb ⊢; tauto))))
      (by simp only [Tree.height] at hd ⊢; omega)
    simpa [Tree.entries] using this
  obtain ⟨h4, t4, h5, h6, h7, e4, n4, g4, e5, g5, e6, g6, e7, s7, hp7, f7⟩ :=
    graft (by simpa using z.root_eq) (by simpa using z.repc) hp z.rep.2.1 z.rep.2.2 hnd1 hp1
      sh.nil_live (fun a ha => sh.nil_fresh a (hsub a ha)) npn
  obtain ⟨iB, iR, iC, iRB⟩ := erase_two_inv C .top y ky hI
  obtain ⟨h8, t8, T', e8, n8, s8, i8, en8, f8⟩ :=
    erase_fix_or_not (.right y cp ky (.node l0 cl kl Ll Lr) C) Ry cy (some y) s7
      (by intro a c k r up e; cases e) (fun _ _ => rfl) iB iR iRB iC
      (by intro e; cases e) fuel (by simp only [Tree.height, Ctx.depth] at hd ⊢; omega)
  rw [n4] at e8
  have hp8 : h8 p = _ := ((f8 p hp1).trans hp7).trans hp
  have hT' : T'.addrs = (C.plug (.node y cp ky (.node l0 cl kl Ll Lr) Ry)).addrs :=
    addrs_of_entries en8
  obtain ⟨h9, h10, h11, h12, e9, e10, e11, e12, s12, hp12, f12⟩ :=
    erase_clear s8 hp8 (by rw [hT']; exact hp1) (by rw [n8, n4]; exact npn)
  refine ⟨h12, t8, T', ?_, n8.trans n4, s12, i8, ?_, hp12, ?_⟩
  · rcases color_cases cy with rfl | rfl <;>
    simp only [reduceCtorEq, if_true, if_false, Res.pure_eq, Res.ok.injEq, Prod.mk.injEq] at e8 <;>
    simp only [rbtree_erase, reduceCtorEq, npn, nl0, ny, or_self, if_false, getColor_of hp,
      getLeft_of hp, getRight_of hp, getParent_of hp, getColor_of hy, getRight_of hy,
      getParent_of hy, Ctx.par_right, Res.ok_bind, Res.pure_eq, Tree.ptr_node,
      or_true, true_or, if_true, hfm, xptr_eq_ite, e4, n4, g4, e5, g5, e6, g6, e7, e8, e9, e10,
      e11, e12, ne_eq, not_false_eq_true, and_self, n8.trans n4]
  · rw [en8]; simp [Ctx.plug, entries_plug, Tree.entries]
  · intro a ha
    have hap : a ≠ p := by
      intro e
      subst e
      exact ha (mem_addrs_plug.2 (Or.inr (by simp [Tree.addrs])))
    have ha1 : a ∉ (C.plug (.node y cp ky (.node l0 cl kl Ll Lr) Ry)).addrs :=
      fun hm => ha (hsub a hm)
    rw [f12 a hap, f8 a ha1, f7 a ha1]

/-- Removal of a node with two children whose successor lies deeper in the right subtree. -/
theorem erase_two_far {h : Heap} {t : rbtree} (C D : Ctx) (hD : D ≠ .top) (hDb : D.before = [])
    {p l0 y : Nat} {cp cl cy : color_t} {kp kl ky : key_t} {Ll Lr Ry : Tree} {s : Bool}
    (sh : Shape h t (C.plug (.node p cp kp (.node l0 cl kl Ll Lr)
      (D.plug (.node y cy ky (.leaf s) Ry)))))
    (hI : RBInv (C.plug (.node p cp kp (.node l0 cl kl Ll Lr)
      (D.plug (.node y cy ky (.leaf s) Ry)))))
    (fuel : Nat)
    (hf : (C.plug (.node p cp kp (.node l0 cl kl Ll Lr)
      (D.plug (.node y cy ky (.leaf s) Ry)))).height + 2 ≤ fuel) :
    ∃ h' t' T', rbtree_erase fuel h (some t) (some p) = .ok (h', some t', 0) ∧ t'.nil = t.nil ∧
      Shape h' t' T' ∧ RBInv T' ∧
      T'.entries = C.before ++ (Tree.node l0 cl kl Ll Lr).entries ++
        (D.plug (.node y cy ky (.leaf s) Ry)).entries ++ C.after ∧ h' p = none ∧
      (∀ a, a ∉ (C.plug (.node p cp kp (.node l0 cl kl Ll Lr)
        (D.plug (.node y cy ky (.leaf s) Ry)))).addrs → h' a = h a) := by
  have z := (Shape_plug_iff _ _ _ _).1 sh
  have hp := Shape.cell C sh
  have npn := Shape.ne_nil C sh
  have nl0 := Shape.ne_nil (.left p cp kp _ C) sh
  have hd := depth_le_height C
    (.node p cp kp (.node l0 cl kl Ll Lr) (D.plug (.node y cy ky (.leaf s) Ry)))
  -- the tree seen from the successor
  have e0 : C.plug (.node p cp kp (.node l0 cl kl Ll Lr) (D.plug (.node y cy ky (.leaf s) Ry)))
      = (D.comp (.right p cp kp (.node l0 cl kl Ll Lr) C)).plug (.node y cy ky (.leaf s) Ry) := by
    rw [plug_comp]; rfl
  have sh' := sh
  rw [e0] at sh'
  have hI' := hI
  rw [e0] at hI'
  have hd' := depth_le_height (D.comp (.right p cp kp (.node l0 cl kl Ll Lr) C))
    (.node y cy ky (.leaf s) Ry)
  rw [← e0, comp_depth] at hd'
  have z' := (Shape_plug_iff _ _ _ _).1 sh'
  have hy := Shape.cell _ sh'
  have ny := Shape.ne_nil _ sh'
  obtain ⟨q, hq, hqD⟩ := par_mem D hD
  rw [comp_par _ _ hD, hq] at hy
  -- the right subtree, before and after the successor leaves it
  obtain ⟨r0, cr, kr, Rl, Rr, hR⟩ := plug_ne_top_node D hD (.node y cy ky (.leaf s) Ry)
  obtain ⟨r1, cr1, kr1, Rl1, Rr1, hR1⟩ := plug_ne_top_node D hD (Ry.hang false)
  have hRe : (D.plug (.node y cy ky (.leaf s) Ry)).entries = (y, ky) :: (Ry.entries ++ D.after) := by
    simp [entries_plug, hDb, Tree.entries]
  have hR1e : (D.plug (Ry.hang false)).entries = Ry.entries ++ D.after := by
    simp [entries_plug, hDb, hang_entries]
  have hent : (C.plug (.node p cp kp (.node l0 cl kl Ll Lr)
        (D.plug (.node y cy ky (.leaf s) Ry)))).entries
      = (C.before ++ (Tree.node l0 cl kl Ll Lr).entries) ++
        (p, kp) :: ((D.plug (.node y cy ky (.leaf s) Ry)).entries ++ C.after) := by
    simp [entries_plug, Tree.entries]
  have hent1 : (C.plug (.node y cp ky (.node l0 cl kl Ll Lr) (D.plug (Ry.hang false)))).entries
      = (C.before ++ (Tree.node l0 cl kl Ll Lr).entries) ++
        ((D.plug (.node y cy ky (.leaf s) Ry)).entries ++ C.after) := by
    rw [hRe]
    simp [entries_plug, Tree.entries, hR1e]
  obtain ⟨hnd1, hp1⟩ := nodup_erase sh.nodup hent hent1
  have hsub := mem_of_erase_entries hent hent1
  have hfm : find_min fuel h t (some r0) = .ok (some y) := by
    have hrep := z.rep.2.2
    rw [hR] at hrep
    have := find_min_spec h t Rl r0 cr kr Rr (some p) fuel hrep
      (fun b hb => sh.nil_fresh b (mem_addrs_plug.2 (Or.inr (by
        rw [← hR] at hb
        simp only [Tree.addrs, List.mem_append, List.mem_cons] at hb ⊢; tauto))))
      (by rw [← hR]; simp only [Tree.height] at hd ⊢; omega)
    rw [← hR, hRe] at this
    simpa using this
  -- the successor leaves its place
  obtain ⟨h1, t1, e1, n1, z1, f1⟩ := transplant_spec_right z'
  rw [comp_isTop _ _ (by simp)] at z1
  have s1 := (Shape_plug_iff _ _ _ _).2 z1
  rw [plug_comp] at s1
  have s1' : Shape h1 t1 (C.plug (.node p cp kp (.node l0 cl kl Ll Lr) (D.plug (Ry.hang false)))) :=
    s1
  rw [hR1] at s1' hnd1 hp1 hsub
  have z1' := (Shape_plug_iff _ _ _ _).1 s1'
  have hp1' := Shape.cell C s1'
  have hr1 := Shape.cell (.right p cp kp _ C) s1'
  have nr1 := Shape.ne_nil (.right p cp kp _ C) s1'
  have hy1 : h1 y = h y := f1 y (by
    have := z'.nodup
    simp only [Tree.addrs, List.nil_append, List.nodup_append, List.nodup_cons,
      List.disjoint_cons_right] at this
    simp only [List.mem_append, not_or]
    tauto)
  have hnd1' := (addrs_plug_perm C _).nodup_iff.1 hnd1
  simp only [Tree.addrs, List.nodup_append, List.nodup_cons, List.mem_append, List.mem_cons,
    List.disjoint_cons_left, List.disjoint_cons_right, List.disjoint_append_left,
    List.disjoint_append_right, not_or] at hnd1'
  have hp1'' := hp1
  rw [mem_addrs_plug] at hp1''
  simp only [Tree.addrs, List.mem_append, List.mem_cons, not_or] at hp1''
  have hyr : y ≠ r1 := by tauto
  have hyp : y ≠ p := by tauto
  have hrp : r1 ≠ p := by tauto
  have e2 := setRight_of (hy1.trans hy) (some r1)
  have hr2 := (upd_ne1 (v := some { (⟨cy, ky, some q, (Tree.leaf s).ptr t.nil,
      Ry.ptr t.nil⟩ : node_t) with right := some r1 }) (h := h1) hyr).trans hr1
  have e3 := setParent_of hr2 (some y)
  have g2 : getRight (Function.update h1 y (some { (⟨cy, ky, some q, (Tree.leaf s).ptr t.nil,
      Ry.ptr t.nil⟩ : node_t) with right := some r1 })) (some y) = .ok (some r1) :=
    getRight_of (Function.update_same _ _ _)
  obtain ⟨h4, t4, h5, h6, h7, e4, n4, g4, e5, g5, e6, g6, e7, s7, hp7, f7⟩ :=
    graft (V := .node r1 cr1 kr1 Rl1 Rr1) (s := s) (v := some q) (c := cy)
      (h := Function.update (Function.update h1 y (some { (⟨cy, ky, some q,
        (Tree.leaf s).ptr t.nil, Ry.ptr t.nil⟩ : node_t) with right := some r1 })) r1
        (some { (⟨cr1, kr1, some p, Rl1.ptr t1.nil, Rr1.ptr t1.nil⟩ : node_t) with
          parent := some y }))
      (by simpa using z1'.root_eq)
      (by
        have := z1'.repc
        simp only [Tree.ptr_node] at this
        simp only [RepCtx_update, hnd1', not_false_eq_true, this])
      ((upd_ne1 hrp).trans ((upd_ne1 hyp).trans hp1'))
      (by
        have := z1'.rep.2.1
        simp only [Rep_update, hnd1', Tree.addrs, List.mem_append, List.mem_cons, not_or,
          not_false_eq_true, and_self, this])
      ⟨by rw [upd_ne2 hyr, Function.update_same, n1]; rfl, trivial, by
        have := z1'.rep.2.2
        have h2r : Rep (Function.update h1 y (some { (⟨cy, ky, some q, (Tree.leaf s).ptr t.nil,
            Ry.ptr t.nil⟩ : node_t) with right := some r1 })) t1.nil
            (.node r1 cr1 kr1 Rl1 Rr1) (some p) :=
          (Rep_update (by
            simp only [Tree.addrs, List.mem_append, List.mem_cons, not_or]; tauto)).2 this
        exact Rep_reparent (some y) h2r (by tauto) (by tauto)⟩
      hnd1 hp1
      (by
        obtain ⟨n, c, hn, hc⟩ := s1'.nil_live
        have h1n : n ≠ y := fun e => ny (by rw [← n1, hn, e])
        have h2n : n ≠ r1 := fun e => nr1 (by rw [hn, e])
        exact ⟨n, c, hn, by rw [upd_ne2 h2n, upd_ne2 h1n]; exact hc⟩)
      (fun a ha => by rw [n1]; exact sh.nil_fresh a (hsub a ha)) (by rw [n1]; exact npn)
  rw [← hR1] at s7 f7 hp1 hsub
  have e7' : C.plug (.node y cp ky (.node l0 cl kl Ll Lr) (D.plug (Ry.hang false)))
      = (D.comp (.right y cp ky (.node l0 cl kl Ll Lr) C)).plug (Ry.hang false) := by
    rw [plug_comp]; rfl
  rw [e7'] at s7 f7 hp1 hsub
  obtain ⟨iB, iR, iC, iRB⟩ := erase_two_inv C D y ky hI'
  obtain ⟨h8, t8, T', e8, n8, s8, i8, en8, f8⟩ :=
    erase_fix_or_not (D.comp (.right y cp ky (.node l0 cl kl Ll Lr) C)) (Ry.hang false) cy
      (some q) s7 (fun _ _ _ _ _ _ => hang_ne_false Ry)
      (fun _ _ => by rw [comp_par _ _ hD, hq]) (hang_balanced _ iB) (hang_noRedRed _ iR)
      (by rw [hang_bh]; exact iRB) (by rw [hang_rootColor]; exact iC)
      (fun e => absurd e (comp_ne_top _ _ (by simp))) fuel
      (by
        rw [comp_depth]
        simp only [Tree.height, Ctx.depth] at hd' ⊢
        omega)
  rw [hang_xptr, n4, n1] at e8
  have hp8 : h8 p = _ := ((f8 p hp1).trans hp7).trans
    ((upd_ne1 hrp).trans ((upd_ne1 hyp).trans hp1'))
  obtain ⟨h9, h10, h11, h12, e9, e10, e11, e12, s12, hp12, f12⟩ :=
    erase_clear s8 hp8 (by rw [addrs_of_entries en8]; exact hp1)
      (by rw [n8, n4, n1]; exact npn)
  have hqp : q ≠ p := by
    intro e
    subst e
    exact hp1 (mem_addrs_plug.2 (Or.inl (mem_comp_addrs _ _ _ hqD)))
  have nr0 : (some r0 : Ptr) ≠ t.nil := sh.nil_fresh r0 (mem_addrs_plug.2 (Or.inr (by
    rw [hR]; simp [Tree.addrs])))
  rw [hR] at hp
  have nl0' : (some l0 : Ptr) ≠ t1.nil := by rw [n1]; exact nl0
  refine ⟨h12, t8, T', ?_, (n8.trans n4).trans n1, s12, i8, ?_, hp12, ?_⟩
  · rcases color_cases cy with rfl | rfl <;>
    simp only [reduceCtorEq, if_true, if_false, Res.pure_eq, Res.ok.injEq, Prod.mk.injEq] at e8 <;>
    simp only [rbtree_erase, reduceCtorEq, npn, nl0, nr0, or_self, if_false, getColor_of hp,
      getLeft_of hp, getRight_of hp, getParent_of hp, getColor_of hy, getRight_of hy,
      getParent_of hy, Option.some.injEq, hqp, Res.ok_bind, Res.pure_eq, Tree.ptr_node,
      or_true, true_or, if_true, hfm, xptr_eq_ite, e1, getRight_of hp1', e2, g2, e3,
      e4, n4, g4, e5, g5, e6, g6, e7, e8, e9, e10,
      e11, e12, ne_eq, not_false_eq_true, and_self, n8.trans n4, nl0']
  · rw [en8, ← e7', hent1]; simp
  · intro a ha
    have hap : a ≠ p := by
      intro e
      subst e
      exact ha (mem_addrs_plug.2 (Or.inr (by simp [Tree.addrs])))
    have ha1 : a ∉ ((D.comp (.right y cp ky (.node l0 cl kl Ll Lr) C)).plug (Ry.hang false)).addrs :=
      fun hm => ha (hsub a hm)
    have hay : a ≠ y := by
      intro e
      subst e
      exact ha (by rw [e0]; exact mem_addrs_plug.2 (Or.inr (by simp [Tree.addrs])))
    have har : a ≠ r1 := by
      intro e
      subst e
      exact ha1 (by rw [← e7', hR1]; exact mem_addrs_plug.2 (Or.inr (by simp [Tree.addrs])))
    rw [f12 a hap, f8 a ha1, f7 a ha1, upd_ne2 har, upd_ne2 hay]
    exact f1 a (by
      rw [e0, mem_addrs_plug] at ha
      simp only [Tree.addrs, List.mem_append, List.mem_cons, not_or] at ha ⊢
      tauto)

/-! ## Removal: the whole operation -/

/-- Removing the node `p` from a red-black tree: `rbtree_erase` returns 0 and leaves a red-black
tree that holds the other nodes in the same order; the storage of `p` is released and no cell
outside the tree is written. -/
theorem rbtree_erase_spec {h : Heap} {t : rbtree} (C : Ctx) {p : Nat} {cp : color_t} {kp : key_t}
    {L R : Tree} (sh : Shape h t (C.plug (.node p cp kp L R)))
    (hI : RBInv (C.plug (.node p cp kp L R))) (fuel : Nat)
    (hf : (C.plug (.node p cp kp L R)).height + 2 ≤ fuel) :
    ∃ h' t' T', rbtree_erase fuel h (some t) (some p) = .ok (h', some t', 0) ∧ t'.nil = t.nil ∧
      Shape h' t' T' ∧ RBInv T' ∧ T'.entries = C.before ++ L.entries ++ R.entries ++ C.after ∧
      h' p = none ∧ (∀ a, a ∉ (C.plug (.node p cp kp L R)).addrs → h' a = h a) := by
  rcases L with sl | ⟨l0, cl, kl, Ll, Lr⟩
  · simpa [Tree.entries] using erase_right_only C sh hI fuel hf
  rcases R with sr | ⟨r0, cr, kr, Rl, Rr⟩
  · simpa [Tree.entries] using erase_left_only C sh hI fuel hf
  obtain ⟨D, y, cy, ky, s, Ry, e, hDb, -, -⟩ := min_decomp _ r0 cr kr Rl Rr rfl
  rw [e] at sh hI hf ⊢
  by_cases hD : D = .top
  · subst hD
    exact erase_two_near C sh hI fuel hf
  · exact erase_two_far C D hD hDb sh hI fuel hf

/-! ## Removal: the claims -/

theorem erase_of_mem {h : Heap} {t : rbtree} {T : Tree} {p : Nat} (hS : Shape h t T)
    (hI : RBInv T) (hp : p ∈ T.addrs) (fuel : Nat) (hfuel : T.height + 2 ≤ fuel) :
    ∃ h' t' T' pre post kp, rbtree_erase fuel h (some t) (some p) = .ok (h', some t', 0) ∧
      t'.nil = t.nil ∧ Shape h' t' T' ∧ RBInv T' ∧ T.entries = pre ++ (p, kp) :: post ∧
      T'.entries = pre ++ post ∧ h' p = none ∧ (∀ a, a ∉ T.addrs → h' a = h a) := by
  obtain ⟨C, cp, kp, L, R, e⟩ := mem_addrs_split T .top p hp
  simp only [Ctx.plug] at e
  subst e
  obtain ⟨h', t', T', e1, n1, s1, i1, en1, hp1, f1⟩ := rbtree_erase_spec C hS hI fuel hfuel
  refine ⟨h', t', T', C.before ++ L.entries, R.entries ++ C.after, kp, e1, n1, s1, i1, ?_, ?_,
    hp1, f1⟩
  · simp [entries_plug, Tree.entries]
  · rw [en1]; simp

theorem rbtree_erase_freed {h : Heap} {t : rbtree} {p : Nat} (hp : h p = none)
    (hn : (some p : Ptr) ≠ t.nil) (fuel : Nat) :
    rbtree_erase fuel h (some t) (some p) = .fault := by
  simp [rbtree_erase, hn, getColor, load, hp, Res.bind]

/-- C2: `rbtree_erase` preserves the red-black conditions.  On a state that holds a tree whose
root is BLACK and parentless, with no RED node above a RED child and the same number of BLACK
nodes on every path, erasing any node `p` of the tree succeeds (with enough fuel), returns 0,
and leaves a state that holds a tree (possibly empty) with the same three properties. -/
theorem rbtree_erase_preserves_rb (h : Heap) (t : rbtree) (T : Tree) (p : Nat) (fuel : Nat)
    (hS : Shape h t T) (hI : RBInv T) (hp : p ∈ T.addrs) (hfuel : T.height + 2 ≤ fuel) :
    ∃ h' t' T', rbtree_erase fuel h (some t) (some p) = .ok (h', some t', 0) ∧
      Shape h' t' T' ∧ RBInv T' := by
  obtain ⟨h', t', T', _, _, _, e, _, s', i', _⟩ := erase_of_mem hS hI hp fuel hfuel
  exact ⟨h', t', T', e, s', i'⟩

/-- Witness for C2: erasing the root of the three-node example tree. -/
theorem rbtree_erase_preserves_rb_witness :
    ∃ h' t' T', rbtree_erase 4 exHeap (some exT) (some 1) = .ok (h', some t', 0) ∧
      Shape h' t' T' ∧ RBInv T' :=
  rbtree_erase_preserves_rb exHeap exT exTree 1 4 ex_shape ex_rb (by decide) (by decide)

/-- C4: `rbtree_erase` removes exactly the entry of the given node.  On a red-black tree,
erasing a node `p` of the tree leaves a tree whose in-order sequence of nodes is the old one
with the single entry of `p` taken out, every other node (equal keys included) staying in
place, so non-decreasing keys stay non-decreasing.  Scenario B: after inserting 10, 20, ..., 70
and erasing the node that holds 20, the export is 10, 30, 40, 50, 60, 70. -/
theorem rbtree_erase_removes_entry (h : Heap) (t : rbtree) (T : Tree) (p : Nat) (fuel : Nat)
    (hS : Shape h t T) (hI : RBInv T) (hp : p ∈ T.addrs) (hfuel : T.height + 2 ≤ fuel) :
    (∃ h' t' T' pre post kp, rbtree_erase fuel h (some t) (some p) = .ok (h', some t', 0) ∧
      Shape h' t' T' ∧ T.entries = pre ++ (p, kp) :: post ∧ T'.entries = pre ++ post ∧
      T.keys = pre.map Prod.snd ++ kp :: post.map Prod.snd ∧
      T'.keys = pre.map Prod.snd ++ post.map Prod.snd ∧ p ∉ T'.addrs ∧
      (T.keys.Sorted (· ≤ ·) → T'.keys.Sorted (· ≤ ·))) ∧
    scenario_B 6 = .ok (some [10, 30, 40, 50, 60, 70, 0], 6) := by
  refine ⟨?_, by decide⟩
  obtain ⟨h', t', T', pre, post, kp, e, _, s', _, e1, e2, _, _⟩ :=
    erase_of_mem hS hI hp fuel hfuel
  have k1 : T.keys = pre.map Prod.snd ++ kp :: post.map Prod.snd := by
    rw [← Tree.entries_snd, e1]; simp
  have k2 : T'.keys = pre.map Prod.snd ++ post.map Prod.snd := by
    rw [← Tree.entries_snd, e2]; simp
  refine ⟨h', t', T', pre, post, kp, e, s', e1, e2, k1, k2, (nodup_erase hS.nodup e1 e2).2, ?_⟩
  intro hs
  rw [k1] at hs
  rw [k2]
  exact hs.sublist (List.Sublist.append (List.Sublist.refl _) (List.sublist_cons_self _ _))

/-- Witness for C4: erasing the root of the three-node example tree. -/
theorem rbtree_erase_removes_entry_witness :
    (∃ h' t' T' pre post kp, rbtree_erase 4 exHeap (some exT) (some 1) = .ok (h', some t', 0) ∧
      Shape h' t' T' ∧ exTree.entries = pre ++ (1, kp) :: post ∧ T'.entries = pre ++ post ∧
      exTree.keys = pre.map Prod.snd ++ kp :: post.map Prod.snd ∧
      T'.keys = pre.map Prod.snd ++ post.map Prod.snd ∧ 1 ∉ T'.addrs ∧
      (exTree.keys.Sorted (· ≤ ·) → T'.keys.Sorted (· ≤ ·))) ∧
    scenario_B 6 = .ok (some [10, 30, 40, 50, 60, 70, 0], 6) :=
  rbtree_erase_removes_entry exHeap exT exTree 1 4 ex_shape ex_rb (by decide) (by decide)

/-! ## Round trip of insert and export -/

theorem height_le_size : ∀ (T : Tree), T.height ≤ T.size := by
  intro T
  induction T with
  | leaf s => simp [Tree.height]
  | node a c k l r ihl ihr =>
    simp only [Tree.height, Tree.size]
    omega

theorem new_rbtree_ok (h0 : Heap) (nl : Nat) :
    ∃ h, new_rbtree h0 true (some nl) = .ok (h, some ⟨none, some nl⟩) ∧
      Shape h ⟨none, some nl⟩ (.leaf false) ∧ ∀ a, a ≠ nl → h a = h0 a := by
  refine ⟨_, by simp [new_rbtree, calloc, setColor, setParent, setRight, setLeft, store]; rfl,
    ⟨rfl, by simp, trivial, by simp [Tree.addrs], ⟨nl, _, rfl, Function.update_same _ _ _⟩,
      by simp [Tree.addrs]⟩, ?_⟩
  intro a ha
  simp [upd_ne2 ha]

theorem new_rbtree_init : new_rbtree (fun _ => none) true (some 0) = .ok (initHeap, some initT) := by
  simp [new_rbtree, calloc, setColor, setParent, setRight, setLeft, store, initHeap, initT,
    zero_node]

theorem Rep_unique {h : Heap} {nl : Ptr} (hnl : nl ≠ none) :
    ∀ (T T' : Tree) (par par' : Ptr), Rep h nl T par → Rep h nl T' par' →
      T.ptr nl = T'.ptr nl → (∀ a ∈ T.addrs, some a ≠ nl) → (∀ a ∈ T'.addrs, some a ≠ nl) →
      T = T' := by
  intro T
  induction T with
  | leaf s =>
    intro T' par par' _ _ hp _ hf'
    rcases T' with s' | ⟨a', c', k', l', r'⟩
    · cases s <;> cases s' <;> simp_all [Tree.ptr]
    · have := hf' a' (by simp [Tree.addrs])
      cases s <;> simp_all [Tree.ptr]
  | node a c k l r ihl ihr =>
    intro T' par par' hr hr' hp hf hf'
    rcases T' with s' | ⟨a', c', k', l', r'⟩
    · have := hf a (by simp [Tree.addrs])
      cases s' <;> simp_all [Tree.ptr]
    · simp only [Tree.ptr_node, Option.some.injEq] at hp
      subst hp
      obtain ⟨h1, h2, h3⟩ := hr
      obtain ⟨h1', h2', h3'⟩ := hr'
      rw [h1] at h1'
      simp only [Option.some.injEq, node_t.mk.injEq] at h1'
      obtain ⟨rfl, rfl, -, hl, hr0⟩ := h1'
      have el := ihl l' _ _ h2 h2' hl
        (fun b hb => hf b (by simp [Tree.addrs, hb]))
        (fun b hb => hf' b (by simp [Tree.addrs, hb]))
      have er := ihr r' _ _ h3 h3' hr0
        (fun b hb => hf b (by simp [Tree.addrs, hb]))
        (fun b hb => hf' b (by simp [Tree.addrs, hb]))
      rw [el, er]

theorem Shape.unique {h : Heap} {t : rbtree} {T T' : Tree} (s : Shape h t T) (s' : Shape h t T') :
    T = T' :=
  Rep_unique s.nil_ne_none T T' none none s.rep s'.rep (s.root_eq.symm.trans s'.root_eq)
    s.nil_fresh s'.nil_fresh

theorem size_ge_pow_bh : ∀ (T : Tree), T.Balanced → 2 ^ T.bh ≤ T.size + 1 := by
  intro T
  induction T with
  | leaf s => intro _; simp [Tree.bh, Tree.size]
  | node a c k l r ihl ihr =>
    intro hb
    have h1 := ihl hb.2.1
    have h2 := ihr hb.2.2
    rw [← hb.1] at h2
    rcases color_cases c with rfl | rfl
    · simp only [Tree.bh_red, Tree.size]
      omega
    · simp only [Tree.bh_black, Tree.size, pow_succ]
      omega

theorem height_le_bh : ∀ (T : Tree), T.Balanced → T.NoRedRed →
    T.height ≤ 2 * T.bh + (if T.rootColor = RBTREE_RED then 1 else 0) := by
  intro T
  induction T with
  | leaf s => intro _ _; simp [Tree.height]
  | node a c k l r ihl ihr =>
    intro hb hr
    have h1 := ihl hb.2.1 hr.2.1
    have h2 := ihr hb.2.2 hr.2.2
    rw [← hb.1] at h2
    rcases color_cases c with rfl | rfl
    · obtain ⟨cl, cr⟩ := hr.1 rfl
      simp only [cl, cr, reduceCtorEq, if_false, Nat.add_zero] at h1 h2
      simp only [Tree.bh_red, Tree.height, Tree.rootColor_node, if_true]
      omega
    · simp only [Tree.bh_black, Tree.height, Tree.rootColor_node, reduceCtorEq, if_false]
      split at h1 <;> split at h2 <;> omega

theorem rb_height_bound {T : Tree} (hI : RBInv T) :
    2 ^ ((T.height + 1) / 2) ≤ T.size + 1 ∧ T.height ≤ 2 * Nat.log 2 (T.size + 1) := by
  have h1 := size_ge_pow_bh T hI.balanced
  have h2 := height_le_bh T hI.balanced hI.no_red_red
  simp only [hI.root_black, reduceCtorEq, if_false, Nat.add_zero] at h2
  have h3 : T.bh ≤ Nat.log 2 (T.size + 1) := Nat.le_log_of_pow_le (by omega) h1
  refine ⟨le_trans (Nat.pow_le_pow_right (by omega) (by omega)) h1, by omega⟩

theorem reachable_rb {h : Heap} {t : rbtree} (hR : Reachable h t) :
    ∃ T, Shape h t T ∧ RBInv T := by
  induction hR with
  | create nl h0 h t _ e =>
    obtain ⟨h1, e1, s1, -⟩ := new_rbtree_ok h0 nl
    rw [e1] at e
    simp only [Res.ok.injEq, Prod.mk.injEq, Option.some.injEq] at e
    obtain ⟨rfl, rfl⟩ := e
    exact ⟨_, s1, rfl, trivial, trivial⟩
  | insert h t T k z fuel h' t' r _ s hf hz e ih =>
    obtain ⟨T0, s0, i0⟩ := ih
    obtain rfl := s.unique s0
    obtain ⟨h1, t1, T1, _, _, e1, _, s1, i1, _⟩ := rbtree_insert_spec k s i0 hz fuel hf
    rw [e1] at e
    simp only [Res.ok.injEq, Prod.mk.injEq, Option.some.injEq] at e
    obtain ⟨rfl, rfl, -⟩ := e
    exact ⟨T1, s1, i1⟩
  | erase h t T p fuel h' t' r _ s hf hp e ih =>
    obtain ⟨T0, s0, i0⟩ := ih
    obtain rfl := s.unique s0
    obtain ⟨h1, t1, T1, _, _, _, e1, _, s1, i1, _⟩ := erase_of_mem s i0 hp fuel hf
    rw [e1] at e
    simp only [Res.ok.injEq, Prod.mk.injEq, Option.some.injEq] at e
    obtain ⟨rfl, rfl, -⟩ := e
    exact ⟨T1, s1, i1⟩

/-- C9: logarithmic height.  A state reached from `new_rbtree` by any finite sequence of
`rbtree_insert` calls and of `rbtree_erase` calls on nodes that are in the tree holds exactly
one tree; it is a red-black tree, and with `n` its number of nodes and `h` its height (the number
of nodes on the longest path from the root down), `2 ^ ceil (h / 2) ≤ n + 1` and
`h ≤ 2 * log2 (n + 1)`. -/
theorem reachable_height_bound (h : Heap) (t : rbtree) (hR : Reachable h t) :
    ∃ T, Shape h t T ∧ (∀ T', Shape h t T' → T' = T) ∧ RBInv T ∧
      2 ^ ((T.height + 1) / 2) ≤ T.size + 1 ∧ T.height ≤ 2 * Nat.log 2 (T.size + 1) := by
  obtain ⟨T, s, i⟩ := reachable_rb hR
  exact ⟨T, s, fun T' s' => s'.unique s, i, rb_height_bound i⟩

/-! ## Erasing with a handle that was erased before -/

theorem erase_then_erase {h : Heap} {t : rbtree} {T : Tree} {p : Nat} (hS : Shape h t T)
    (hI : RBInv T) (hp : p ∈ T.addrs) (fuel : Nat) (hfuel : T.height + 2 ≤ fuel) :
    ∃ h' t' T', rbtree_erase fuel h (some t) (some p) = .ok (h', some t', 0) ∧ Shape h' t' T' ∧
      p ∉ T'.addrs ∧ h' p = none ∧ ∀ fuel', rbtree_erase fuel' h' (some t') (some p) = .fault := by
  obtain ⟨h', t', T', pre, post, kp, e, n, s', _, e1, e2, hp', _⟩ :=
    erase_of_mem hS hI hp fuel hfuel
  have hn : (some p : Ptr) ≠ t'.nil := by
    rw [n]
    exact hS.nil_fresh p hp
  exact ⟨h', t', T', e, s', (nodup_erase hS.nodup e1 e2).2, hp',
    fun fuel' => rbtree_erase_freed hp' hn fuel'⟩

/-- C10, as stated, fails: on the three-node example tree, the first `rbtree_erase` of the node
at address 2 succeeds, and a second `rbtree_erase` with the same handle is not a no-op: it reads
the storage that the first call released, which is a fault, whatever the fuel. -/
theorem erase_twice_not_noop :
    ∃ h1 t1, rbtree_erase 4 exHeap (some exT) (some 2) = .ok (h1, some t1, 0) ∧
      (∀ fuel, rbtree_erase fuel h1 (some t1) (some 2) = .fault) ∧
      (∀ fuel r, rbtree_erase fuel h1 (some t1) (some 2) ≠ .ok (h1, some t1, r)) := by
  obtain ⟨h1, t1, _, e, _, _, _, hf⟩ :=
    erase_then_erase ex_shape ex_rb (p := 2) (by decide) 4 (by decide)
  refine ⟨h1, t1, e, hf, ?_⟩
  intro fuel r hr
  rw [hf fuel] at hr
  cases hr

/-- C10, amended: `rbtree_erase` releases the handle.  After `rbtree_erase` has removed a node
`p` of a red-black tree, the node is not in the tree any more and its storage is released;
`rbtree_erase` does not check that a handle is live, so a second call with the same handle
reads released storage (a fault) instead of being a no-op.  The calls that are no-ops, leaving
the heap and the tree as they are, are those with a `NULL` handle, the sentinel as handle, or a
`NULL` tree. -/
theorem rbtree_erase_releases_handle (h : Heap) (t : rbtree) (T : Tree) (p : Nat)
    (fuel fuel' : Nat) (hS : Shape h t T) (hI : RBInv T) (hp : p ∈ T.addrs)
    (hfuel : T.height + 2 ≤ fuel) :
    ∃ h' t' T', rbtree_erase fuel h (some t) (some p) = .ok (h', some t', 0) ∧ Shape h' t' T' ∧
      p ∉ T'.addrs ∧ h' p = none ∧
      rbtree_erase fuel' h' (some t') (some p) = .fault ∧
      rbtree_erase fuel' h' (some t') none = .ok (h', some t', 0) ∧
      rbtree_erase fuel' h' (some t') t'.nil = .ok (h', some t', 0) ∧
      rbtree_erase fuel' h' none (some p) = .ok (h', none, 0) := by
  obtain ⟨h', t', T', e, s', hp', hf, hff⟩ := erase_then_erase hS hI hp fuel hfuel
  exact ⟨h', t', T', e, s', hp', hf, hff fuel', by simp [rbtree_erase],
    by simp [rbtree_erase], rfl⟩

/-- Witness for the amended C10: the node at address 2 of the three-node example tree. -/
theorem rbtree_erase_releases_handle_witness :
    ∃ h' t' T', rbtree_erase 4 exHeap (some exT) (some 2) = .ok (h', some t', 0) ∧
      Shape h' t' T' ∧ 2 ∉ T'.addrs ∧ h' 2 = none ∧
      rbtree_erase 4 h' (some t') (some 2) = .fault ∧
      rbtree_erase 4 h' (some t') none = .ok (h', some t', 0) ∧
      rbtree_erase 4 h' (some t') t'.nil = .ok (h', some t', 0) ∧
      rbtree_erase 4 h' none (some 2) = .ok (h', none, 0) :=
  rbtree_erase_releases_handle exHeap exT exTree 2 4 4 ex_shape ex_rb (by decide) (by decide)

/-! ## Invalid handles and absent trees -/

/-- C11: `rbtree_erase` rejects invalid handles.  Called with a `NULL` handle or with the
sentinel as handle it returns 0, and the heap (every node's key, colour and links, the sentinel
included) and the tree shell (root and sentinel references) are what they were. -/
theorem rbtree_erase_rejects_invalid (fuel : Nat) (h : Heap) (t : rbtree) :
    rbtree_erase fuel h (some t) none = .ok (h, some t, 0) ∧
    rbtree_erase fuel h (some t) t.nil = .ok (h, some t, 0) := by
  constructor <;> simp [rbtree_erase]

/-- C12, evaluated: with a `NULL` tree, `rbtree_min`, `rbtree_max`, `rbtree_erase` and
`rbtree_to_array` return their no-op results, but `rbtree_find` reads `t->root` without a check
for `NULL`, which is a fault. -/
theorem null_tree_calls (fuel : Nat) (h : Heap) (k : key_t) (p : Ptr) (arr : Option (List key_t))
    (n : Nat) :
    rbtree_find fuel h none k = .fault ∧ rbtree_min fuel h none = .ok none ∧
    rbtree_max fuel h none = .ok none ∧ rbtree_erase fuel h none p = .ok (h, none, 0) ∧
    rbtree_to_array fuel h none arr n = .ok (arr, 0) := by
  refine ⟨rfl, rfl, rfl, rfl, ?_⟩
  simp [rbtree_to_array]

/-! ## Nodes, their cells and their parent links -/

theorem nodes_fst (T : Tree) : T.nodes.map Prod.fst = T.addrs := by
  induction T with
  | leaf s => rfl
  | node a c k l r ihl ihr => simp [Tree.nodes, Tree.addrs, ihl, ihr]

theorem nodes_entries (T : Tree) : T.nodes.map (fun n => (n.1, n.2.2)) = T.entries := by
  induction T with
  | leaf s => rfl
  | node a c k l r ihl ihr => simp [Tree.nodes, Tree.entries, ihl, ihr]

theorem nodes_plug_congr : ∀ (C : Ctx) {T T' : Tree}, T.nodes = T'.nodes →
    (C.plug T).nodes = (C.plug T').nodes := by
  intro C
  induction C with
  | top => intro T T' e; exact e
  | left a c k r up ih => intro T T' e; exact ih (by simp [Tree.nodes, e])
  | right a c k l up ih => intro T T' e; exact ih (by simp [Tree.nodes, e])

theorem Rep_node_cell {h : Heap} {nl : Ptr} {a : Nat} {c : color_t} {k : key_t} :
    ∀ (T : Tree) (par : Ptr), Rep h nl T par → (a, c, k) ∈ T.nodes →
      ∃ p l r, h a = some ⟨c, k, p, l, r⟩ := by
  intro T
  induction T with
  | leaf s => intro par _ hm; simp [Tree.nodes] at hm
  | node a0 c0 k0 l r ihl ihr =>
    intro par hr hm
    simp only [Tree.nodes, List.mem_append, List.mem_cons, Prod.mk.injEq] at hm
    rcases hm with hm | ⟨rfl, rfl, rfl⟩ | hm
    · exact ihl _ hr.2.1 hm
    · exact ⟨_, _, _, hr.1⟩
    · exact ihr _ hr.2.2 hm

theorem Shape.node_cell {h : Heap} {t : rbtree} {T : Tree} (s : Shape h t T) {a : Nat}
    {c : color_t} {k : key_t} (hm : (a, c, k) ∈ T.nodes) :
    getColor h (some a) = .ok c ∧ getKey h (some a) = .ok k := by
  obtain ⟨p, l, r, e⟩ := Rep_node_cell T none s.rep hm
  exact ⟨getColor_of e, getKey_of e⟩

theorem Shape.entry_key {h : Heap} {t : rbtree} {T : Tree} (s : Shape h t T) {a : Nat}
    {k : key_t} (hm : (a, k) ∈ T.entries) : getKey h (some a) = .ok k := by
  rw [← nodes_entries, List.mem_map] at hm
  obtain ⟨⟨a', c, k'⟩, hn, e⟩ := hm
  simp only [Prod.mk.injEq] at e
  obtain ⟨rfl, rfl⟩ := e
  exact (s.node_cell hn).2

theorem Rep_parents {h : Heap} {nl : Ptr} : ∀ (T : Tree) (par : Ptr), Rep h nl T par →
    ParentsOK h T par := by
  intro T
  induction T with
  | leaf s => intro par _; trivial
  | node a c k l r ihl ihr =>
    intro par hr
    exact ⟨getParent_of hr.1, ihl _ hr.2.1, ihr _ hr.2.2⟩

theorem Shape.parents {h : Heap} {t : rbtree} {T : Tree} (s : Shape h t T) :
    ParentsOK h T none :=
  Rep_parents T none s.rep

/-- With the same nodes in two states, every address holds the same colour and key in both,
provided the cells outside the trees agree. -/
theorem same_nodes_same_cells {h h' : Heap} {t t' : rbtree} {T T' : Tree} (s : Shape h t T)
    (s' : Shape h' t' T') (e : T'.nodes = T.nodes) (f : ∀ a, a ∉ T.addrs → h' a = h a) (a : Nat) :
    getColor h' (some a) = getColor h (some a) ∧ getKey h' (some a) = getKey h (some a) := by
  by_cases ha : a ∈ T.addrs
  · rw [← nodes_fst, List.mem_map] at ha
    obtain ⟨⟨a', c, k⟩, hn, rfl⟩ := ha
    have h1 := s.node_cell hn
    have h2 := s'.node_cell (e ▸ hn)
    exact ⟨h2.1.trans h1.1.symm, h2.2.trans h1.2.symm⟩
  · simp [getColor, getKey, load, f a ha]

/-! ## Rotations -/

/-- C16: rotations preserve colours and order.  In a state that holds a tree, `left_rotation` at
a node `x` with a real right child `y` (and `right_rotation` at a node `x` with a real left child
`y`) succeeds; afterwards every address holds the same colour and key as before, the in-order
sequence of nodes is the same, `y` is where `x` was (the root with no parent when `x` was the
root, otherwise the child of `x`'s former parent on the side where `x` was), and `x` is the
child of `y` on the side of the rotation. -/
theorem rotation_preserves :
    (∀ (h : Heap) (t : rbtree) (C : Ctx) (x y : Nat) (cx cy : color_t) (kx ky : key_t)
      (A B D : Tree), Shape h t (C.plug (.node x cx kx A (.node y cy ky B D))) →
      ∃ h' t', left_rotation h t (some x) = .ok (h', t') ∧ t'.nil = t.nil ∧
        Shape h' t' (C.plug (.node y cy ky (.node x cx kx A B) D)) ∧
        (C.plug (.node y cy ky (.node x cx kx A B) D)).nodes
          = (C.plug (.node x cx kx A (.node y cy ky B D))).nodes ∧
        (∀ a, getColor h' (some a) = getColor h (some a) ∧
          getKey h' (some a) = getKey h (some a)) ∧
        getParent h' (some y) = .ok C.par ∧ getLeft h' (some y) = .ok (some x) ∧
        getParent h' (some x) = .ok (some y) ∧ (C = .top → t'.root = some y) ∧
        (∀ pa c k r up, C = .left pa c k r up → getLeft h' (some pa) = .ok (some y)) ∧
        (∀ pa c k l up, C = .right pa c k l up → getRight h' (some pa) = .ok (some y))) ∧
    (∀ (h : Heap) (t : rbtree) (C : Ctx) (x y : Nat) (cx cy : color_t) (kx ky : key_t)
      (A B D : Tree), Shape h t (C.plug (.node x cx kx (.node y cy ky A B) D)) →
      ∃ h' t', right_rotation h t (some x) = .ok (h', t') ∧ t'.nil = t.nil ∧
        Shape h' t' (C.plug (.node y cy ky A (.node x cx kx B D))) ∧
        (C.plug (.node y cy ky A (.node x cx kx B D))).nodes
          = (C.plug (.node x cx kx (.node y cy ky A B) D)).nodes ∧
        (∀ a, getColor h' (some a) = getColor h (some a) ∧
          getKey h' (some a) = getKey h (some a)) ∧
        getParent h' (some y) = .ok C.par ∧ getRight h' (some y) = .ok (some x) ∧
        getParent h' (some x) = .ok (some y) ∧ (C = .top → t'.root = some y) ∧
        (∀ pa c k r up, C = .left pa c k r up → getLeft h' (some pa) = .ok (some y)) ∧
        (∀ pa c k l up, C = .right pa c k l up → getRight h' (some pa) = .ok (some y))) := by
  constructor
  · intro h t C x y cx cy kx ky A B D s
    obtain ⟨h', t', e, n, s', f⟩ := left_rotation_shape C s
    have en : (C.plug (.node y cy ky (.node x cx kx A B) D)).nodes
        = (C.plug (.node x cx kx A (.node y cy ky B D))).nodes :=
      nodes_plug_congr C (by simp [Tree.nodes])
    refine ⟨h', t', e, n, s', en, same_nodes_same_cells s s' en f,
      getParent_of (Shape.cell C s'), getLeft_of (Shape.cell C s'),
      getParent_of (Shape.cell (.left y cy ky D C) s'), ?_, ?_, ?_⟩
    · intro hC; subst hC; exact s'.root_eq
    · intro pa c k r up hC; subst hC; exact getLeft_of (Shape.cell up s')
    · intro pa c k l up hC; subst hC; exact getRight_of (Shape.cell up s')
  · intro h t C x y cx cy kx ky A B D s
    obtain ⟨h', t', e, n, s', f⟩ := right_rotation_shape C s
    have en : (C.plug (.node y cy ky A (.node x cx kx B D))).nodes
        = (C.plug (.node x cx kx (.node y cy ky A B) D)).nodes :=
      nodes_plug_congr C (by simp [Tree.nodes])
    refine ⟨h', t', e, n, s', en, same_nodes_same_cells s s' en f,
      getParent_of (Shape.cell C s'), getRight_of (Shape.cell C s'),
      getParent_of (Shape.cell (.right y cy ky A C) s'), ?_, ?_, ?_⟩
    · intro hC; subst hC; exact s'.root_eq
    · intro pa c k r up hC; subst hC; exact getLeft_of (Shape.cell up s')
    · intro pa c k l up hC; subst hC; exact getRight_of (Shape.cell up s')

/-- Witness for C16: both rotations at the root of the three-node example tree. -/
theorem rotation_preserves_witness :
    (∃ h' t', left_rotation exHeap exT (some 1) = .ok (h', t') ∧ t'.nil = exT.nil ∧
        Shape h' t' (Ctx.top.plug (.node 3 RBTREE_RED 30 (.node 1 RBTREE_BLACK 20
          (.node 2 RBTREE_RED 10 (.leaf false) (.leaf false)) (.leaf false)) (.leaf true))) ∧
        t'.root = some 3) ∧
    (∃ h' t', right_rotation exHeap exT (some 1) = .ok (h', t') ∧ t'.nil = exT.nil ∧
        Shape h' t' (Ctx.top.plug (.node 2 RBTREE_RED 10 (.leaf false) (.node 1 RBTREE_BLACK 20
          (.leaf false) (.node 3 RBTREE_RED 30 (.leaf false) (.leaf true))))) ∧
        t'.root = some 2) := by
  constructor
  · obtain ⟨h', t', e, n, s, _, _, _, _, _, r, _⟩ :=
      rotation_preserves.1 exHeap exT .top 1 3 RBTREE_BLACK RBTREE_RED 20 30
        (.node 2 RBTREE_RED 10 (.leaf false) (.leaf false)) (.leaf false) (.leaf true) ex_shape
    exact ⟨h', t', e, n, s, r rfl⟩
  · obtain ⟨h', t', e, n, s, _, _, _, _, _, r, _⟩ :=
      rotation_preserves.2 exHeap exT .top 1 2 RBTREE_BLACK RBTREE_RED 20 10
        (.leaf false) (.leaf false) (.node 3 RBTREE_RED 30 (.leaf false) (.leaf true)) ex_shape
    exact ⟨h', t', e, n, s, r rfl⟩

/-! ## The sentinel -/

theorem new_rbtree_cell (h0 : Heap) (nl : Nat) :
    ∃ h, new_rbtree h0 true (some nl) = .ok (h, some ⟨none, some nl⟩) ∧
      h nl = some ⟨RBTREE_BLACK, 0, some nl, some nl, some nl⟩ := by
  refine ⟨_, by simp [new_rbtree, calloc, setColor, setParent, setRight, setLeft, store]; rfl, ?_⟩
  simp [zero_node]

theorem reachable_sentinel {h : Heap} {t : rbtree} (hR : Reachable h t) :
    ∃ n, t.nil = some n ∧ h n = some ⟨RBTREE_BLACK, 0, some n, some n, some n⟩ := by
  induction hR with
  | create nl h0 h t _ e =>
    obtain ⟨h1, e1, c1⟩ := new_rbtree_cell h0 nl
    rw [e1] at e
    simp only [Res.ok.injEq, Prod.mk.injEq, Option.some.injEq] at e
    obtain ⟨rfl, rfl⟩ := e
    exact ⟨nl, rfl, c1⟩
  | insert h t T k z fuel h' t' r hR0 s hf hz e ih =>
    obtain ⟨n, hn, hc⟩ := ih
    obtain ⟨T0, s0, i0⟩ := reachable_rb hR0
    obtain rfl := s.unique s0
    obtain ⟨h1, t1, T1, _, _, e1, n1, _, _, _, _, _, f1⟩ := rbtree_insert_spec k s i0 hz fuel hf
    rw [e1] at e
    simp only [Res.ok.injEq, Prod.mk.injEq, Option.some.injEq] at e
    obtain ⟨rfl, rfl, -⟩ := e
    refine ⟨n, n1.trans hn, ?_⟩
    rw [f1 n (fun e => by rw [e, hz] at hc; cases hc)
      (fun hm => s.nil_fresh n hm hn.symm)]
    exact hc
  | erase h t T p fuel h' t' r hR0 s hf hp e ih =>
    obtain ⟨n, hn, hc⟩ := ih
    obtain ⟨T0, s0, i0⟩ := reachable_rb hR0
    obtain rfl := s.unique s0
    obtain ⟨h1, t1, T1, _, _, _, e1, n1, _, _, _, _, _, f1⟩ := erase_of_mem s i0 hp fuel hf
    rw [e1] at e
    simp only [Res.ok.injEq, Prod.mk.injEq, Option.some.injEq] at e
    obtain ⟨rfl, rfl, -⟩ := e
    refine ⟨n, n1.trans hn, ?_⟩
    rw [f1 n (fun hm => s.nil_fresh n hm hn.symm)]
    exact hc

/-- C17: the sentinel is never modified.  In every state reached from `new_rbtree` by
`rbtree_insert` calls and `rbtree_erase` calls on nodes of the tree, the sentinel cell is what
`new_rbtree` made it: coloured BLACK, with its left, right and parent links pointing to the
sentinel itself; and it is none of the nodes of the tree. -/
theorem sentinel_unchanged (h : Heap) (t : rbtree) (hR : Reachable h t) :
    ∃ n, t.nil = some n ∧ h n = some ⟨RBTREE_BLACK, 0, some n, some n, some n⟩ ∧
      getColor h t.nil = .ok RBTREE_BLACK ∧ getLeft h t.nil = .ok t.nil ∧
      getRight h t.nil = .ok t.nil ∧ getParent h t.nil = .ok t.nil ∧
      ∀ T, Shape h t T → n ∉ T.addrs := by
  obtain ⟨n, hn, hc⟩ := reachable_sentinel hR
  refine ⟨n, hn, hc, ?_, ?_, ?_, ?_, fun T s hm => s.nil_fresh n hm hn.symm⟩ <;>
  simp [hn, getColor_of hc, getLeft_of hc, getRight_of hc, getParent_of hc]

/-! ## Parent links and handles -/

/-- C19: parent links stay consistent with child links.  A state that holds a red-black tree
(every node's parent link is the node above it, the root's is `NULL`) is taken by
`rbtree_insert`, and by `rbtree_erase` on a node of the tree, to a state that holds a tree with
the same property; and each `left_rotation`, `right_rotation` and `transplant` step, as the
fixups and `rbtree_erase` perform them, leaves the parent links consistent too (the last part
is `transplant` of a subtree that is held apart from the place it moves to, as for the successor
of a node with two children). -/
theorem parent_links_preserved :
    (∀ (h : Heap) (t : rbtree) (T : Tree) (k : key_t) (z fuel : Nat), Shape h t T → RBInv T →
      h z = none → T.height + 2 ≤ fuel →
      ∃ h' t' T', rbtree_insert fuel h (some t) k (some z) = .ok (h', some t', some z) ∧
        Shape h' t' T' ∧ ParentsOK h' T' none) ∧
    (∀ (h : Heap) (t : rbtree) (T : Tree) (p fuel : Nat), Shape h t T → RBInv T →
      p ∈ T.addrs → T.height + 2 ≤ fuel →
      ∃ h' t' T', rbtree_erase fuel h (some t) (some p) = .ok (h', some t', 0) ∧
        Shape h' t' T' ∧ ParentsOK h' T' none) ∧
    (∀ (h : Heap) (t : rbtree) (C : Ctx) (x y : Nat) (cx cy : color_t) (kx ky : key_t)
      (A B D : Tree), Shape h t (C.plug (.node x cx kx A (.node y cy ky B D))) →
      ∃ h' t', left_rotation h t (some x) = .ok (h', t') ∧
        ParentsOK h' (C.plug (.node y cy ky (.node x cx kx A B) D)) none) ∧
    (∀ (h : Heap) (t : rbtree) (C : Ctx) (x y : Nat) (cx cy : color_t) (kx ky : key_t)
      (A B D : Tree), Shape h t (C.plug (.node x cx kx (.node y cy ky A B) D)) →
      ∃ h' t', right_rotation h t (some x) = .ok (h', t') ∧
        ParentsOK h' (C.plug (.node y cy ky A (.node x cx kx B D))) none) ∧
    (∀ (h : Heap) (t : rbtree) (C : Ctx) (u : Nat) (cu : color_t) (ku : key_t) (L V : Tree),
      Shape h t (C.plug (.node u cu ku L V)) →
      (∃ h' t', transplant h t (some u) (V.ptr t.nil) = .ok (h', t') ∧
        Shape h' t' (C.plug (V.hang C.isTop)) ∧ ParentsOK h' (C.plug (V.hang C.isTop)) none) ∧
      (∃ h' t', transplant h t (some u) (L.ptr t.nil) = .ok (h', t') ∧
        Shape h' t' (C.plug (L.hang C.isTop)) ∧ ParentsOK h' (C.plug (L.hang C.isTop)) none)) ∧
    (∀ (h : Heap) (t : rbtree) (C : Ctx) (u : Nat) (cu : color_t) (ku : key_t) (pl pr : Ptr)
      (V : Tree) (v : Ptr), t.root = C.rootPtr (some u) → RepCtx h t.nil C (some u) →
      h u = some ⟨cu, ku, C.par, pl, pr⟩ → Rep h t.nil V v → (C.addrs ++ u :: V.addrs).Nodup →
      (∃ n c, t.nil = some n ∧ h n = some c) → (∀ a ∈ C.addrs ++ u :: V.addrs, some a ≠ t.nil) →
      ∃ h' t', transplant h t (some u) (V.ptr t.nil) = .ok (h', t') ∧
        Shape h' t' (C.plug (V.hang C.isTop)) ∧ ParentsOK h' (C.plug (V.hang C.isTop)) none) := by
  refine ⟨?_, ?_, ?_, ?_, ?_, ?_⟩
  · intro h t T k z fuel s i hz hf
    obtain ⟨h', t', T', _, _, e, _, s', _⟩ := rbtree_insert_spec k s i hz fuel hf
    exact ⟨h', t', T', e, s', s'.parents⟩
  · intro h t T p fuel s i hp hf
    obtain ⟨h', t', T', _, _, _, e, _, s', _⟩ := erase_of_mem s i hp fuel hf
    exact ⟨h', t', T', e, s', s'.parents⟩
  · intro h t C x y cx cy kx ky A B D s
    obtain ⟨h', t', e, _, s', _⟩ := left_rotation_shape C s
    exact ⟨h', t', e, s'.parents⟩
  · intro h t C x y cx cy kx ky A B D s
    obtain ⟨h', t', e, _, s', _⟩ := right_rotation_shape C s
    exact ⟨h', t', e, s'.parents⟩
  · intro h t C u cu ku L V s
    have z := (Shape_plug_iff _ _ _ _).1 s
    obtain ⟨h1, t1, e1, _, z1, _⟩ := transplant_spec_right z
    obtain ⟨h2, t2, e2, _, z2, _⟩ := transplant_spec_left z
    have s1 := (Shape_plug_iff _ _ _ _).2 z1
    have s2 := (Shape_plug_iff _ _ _ _).2 z2
    exact ⟨⟨h1, t1, e1, s1, s1.parents⟩, ⟨h2, t2, e2, s2, s2.parents⟩⟩
  · intro h t C u cu ku pl pr V v hroot hrc hu hV hnd hnl hnf
    obtain ⟨h1, t1, e1, _, z1, _⟩ := transplant_gen hroot hrc hu hV hnd hnl hnf
    have s1 := (Shape_plug_iff _ _ _ _).2 z1
    exact ⟨h1, t1, e1, s1, s1.parents⟩

/-- Witness for C19: an insert into, and the erase of the root of, the three-node example
tree. -/
theorem parent_links_preserved_witness :
    (∃ h' t' T', rbtree_insert 4 exHeap (some exT) 25 (some 4) = .ok (h', some t', some 4) ∧
        Shape h' t' T' ∧ ParentsOK h' T' none) ∧
    (∃ h' t' T', rbtree_erase 4 exHeap (some exT) (some 1) = .ok (h', some t', 0) ∧
        Shape h' t' T' ∧ ParentsOK h' T' none) :=
  ⟨parent_links_preserved.1 exHeap exT exTree 25 4 4 ex_shape ex_rb rfl (by decide),
    parent_links_preserved.2.1 exHeap exT exTree 1 4 ex_shape ex_rb (by decide) (by decide)⟩

/-- C20: erase keeps all other handles valid.  After `rbtree_erase` of a node `p` of a red-black
tree, every other node of the tree is still a node of the tree, at the same address and with
the key it held (no key is copied from one node to another), no node has been added, and `p`
is not in the tree any more. -/
theorem erase_keeps_other_handles (h : Heap) (t : rbtree) (T : Tree) (p : Nat) (fuel : Nat)
    (hS : Shape h t T) (hI : RBInv T) (hp : p ∈ T.addrs) (hfuel : T.height + 2 ≤ fuel) :
    ∃ h' t' T', rbtree_erase fuel h (some t) (some p) = .ok (h', some t', 0) ∧
      Shape h' t' T' ∧ p ∉ T'.addrs ∧
      (∀ q, q ≠ p → q ∈ T.addrs → q ∈ T'.addrs ∧ getKey h' (some q) = getKey h (some q)) ∧
      (∀ q k, q ≠ p → (q, k) ∈ T.entries → (q, k) ∈ T'.entries ∧ getKey h' (some q) = .ok k) ∧
      (∀ q, q ∈ T'.addrs → q ∈ T.addrs) := by
  obtain ⟨h', t', T', pre, post, kp, e, _, s', _, e1, e2, _, _⟩ :=
    erase_of_mem hS hI hp fuel hfuel
  have key : ∀ q k, q ≠ p → (q, k) ∈ T.entries →
      (q, k) ∈ T'.entries ∧ getKey h' (some q) = .ok k := by
    intro q k hq hm
    have hm' : (q, k) ∈ T'.entries := by
      rw [e1] at hm
      rw [e2]
      simp only [List.mem_append, List.mem_cons, Prod.mk.injEq] at hm ⊢
      tauto
    exact ⟨hm', s'.entry_key hm'⟩
  refine ⟨h', t', T', e, s', (nodup_erase hS.nodup e1 e2).2, ?_, key,
    mem_of_erase_entries e1 e2⟩
  intro q hq hm
  rw [← Tree.entries_fst, List.mem_map] at hm
  obtain ⟨⟨q', k⟩, hm, rfl⟩ := hm
  obtain ⟨h1, h2⟩ := key q' k hq hm
  refine ⟨?_, h2.trans (hS.entry_key hm).symm⟩
  rw [← Tree.entries_fst]
  exact List.mem_map.2 ⟨(q', k), h1, rfl⟩

/-- Witness for C20: erasing the root of the three-node example tree. -/
theorem erase_keeps_other_handles_witness :
    ∃ h' t' T', rbtree_erase 4 exHeap (some exT) (some 1) = .ok (h', some t', 0) ∧
      Shape h' t' T' ∧ 1 ∉ T'.addrs ∧
      (∀ q, q ≠ 1 → q ∈ exTree.addrs →
        q ∈ T'.addrs ∧ getKey h' (some q) = getKey exHeap (some q)) ∧
      (∀ q k, q ≠ 1 → (q, k) ∈ exTree.entries →
        (q, k) ∈ T'.entries ∧ getKey h' (some q) = .ok k) ∧
      (∀ q, q ∈ T'.addrs → q ∈ exTree.addrs) :=
  erase_keeps_other_handles exHeap exT exTree 1 4 ex_shape ex_rb (by decide) (by decide)

/-! ## Erase and insert again -/

theorem insert_sorted_perm {h : Heap} {t : rbtree} {T : Tree} (k : key_t) {z : Nat}
    (s : Shape h t T) (hI : RBInv T) (hs : T.keys.Sorted (· ≤ ·)) (hz : h z = none) (fuel : Nat)
    (hf : T.height + 2 ≤ fuel) :
    ∃ h' t' T', rbtree_insert fuel h (some t) k (some z) = .ok (h', some t', some z) ∧
      Shape h' t' T' ∧ RBInv T' ∧ T'.keys.Sorted (· ≤ ·) ∧ T'.keys.Perm (k :: T.keys) := by
  obtain ⟨h1, t1, T1, pre, post, e, -, s1, i1, e1, e2, hb, -⟩ :=
    rbtree_insert_spec k s hI hz fuel hf
  have hp := (sorted_keys_iff T).1 hs
  obtain ⟨b1, b2⟩ := hb hp
  have hs1 : T1.keys.Sorted (· ≤ ·) := by
    rw [sorted_keys_iff, e2]
    rw [e1] at hp
    exact pairwise_insert_mid hp b1 b2
  refine ⟨h1, t1, T1, e, s1, i1, hs1, ?_⟩
  rw [← Tree.entries_snd, ← Tree.entries_snd, e1, e2]
  simp only [List.map_append, List.map_cons]
  exact List.perm_middle

/-- C14: erase, then insert the key again.  On a red-black tree with non-decreasing in-order keys,
erasing a node `p` that holds `k` and then inserting `k` (into fresh storage, which may be the
storage of `p` that was just released) gives a tree whose export by `rbtree_to_array` is the
export of the tree before the erase, for every buffer and capacity.  Scenario C: the tree built
from 5, 3, 8, 1, 4, 7, 9, its root (which holds 5) erased and 5 inserted again, exports
1, 3, 4, 5, 7, 8, 9. -/
theorem erase_reinsert_export (h : Heap) (t : rbtree) (T : Tree) (p : Nat) (k : key_t)
    (z fuel : Nat) (arr : List key_t) (n : Nat) (hS : Shape h t T) (hI : RBInv T)
    (hsorted : T.keys.Sorted (· ≤ ·)) (hp : (p, k) ∈ T.entries) (hz : z = p ∨ h z = none)
    (hfuel : T.size + 2 ≤ fuel) (hroom : min n T.size ≤ arr.length) :
    (∃ h1 t1 h2 t2, rbtree_erase fuel h (some t) (some p) = .ok (h1, some t1, 0) ∧
      rbtree_insert fuel h1 (some t1) k (some z) = .ok (h2, some t2, some z) ∧
      rbtree_to_array fuel h2 (some t2) (some arr) n
        = rbtree_to_array fuel h (some t) (some arr) n ∧
      rbtree_to_array fuel h (some t) (some arr) n
        = .ok (some (T.keys.take n ++ arr.drop (min n T.size)), size_to_int (min n T.size))) ∧
    scenario_C 6 8 = .ok (some [1, 3, 4, 5, 7, 8, 9], 7) ∧
    scenario_C 6 1 = .ok (some [1, 3, 4, 5, 7, 8, 9], 7) := by
  refine ⟨?_, by decide, by decide⟩
  have hpa : p ∈ T.addrs := by
    rw [← Tree.entries_fst]
    exact List.mem_map.2 ⟨(p, k), hp, rfl⟩
  have hh := height_le_size T
  obtain ⟨h1, t1, T1, pre, post, kp, e, _, s1, i1, e1, e2, hp1, f1⟩ :=
    erase_of_mem hS hI hpa fuel (by omega)
  -- the key found at `p` is `k`
  have hkp : kp = k := by
    have h1k := hS.entry_key hp
    have h2k := hS.entry_key (a := p) (k := kp) (by rw [e1]; simp)
    rw [h1k] at h2k
    simp only [Res.ok.injEq] at h2k
    exact h2k.symm
  subst hkp
  have k0 : T.keys = pre.map Prod.snd ++ kp :: post.map Prod.snd := by
    rw [← Tree.entries_snd, e1]; simp
  have k1 : T1.keys = pre.map Prod.snd ++ post.map Prod.snd := by
    rw [← Tree.entries_snd, e2]; simp
  have hs1 : T1.keys.Sorted (· ≤ ·) := by
    rw [k1]
    rw [k0] at hsorted
    exact hsorted.sublist (List.Sublist.append (List.Sublist.refl _) (List.sublist_cons_self _ _))
  have hsz1 : T1.size + 1 = T.size := by
    rw [← Tree.keys_length, ← Tree.keys_length, k0, k1]
    simp only [List.length_append, List.length_cons, List.length_map]
    omega
  have hz1 : h1 z = none := by
    rcases hz with rfl | hz
    · exact hp1
    · rw [f1 z (hS.fresh hz).1]; exact hz
  have hh1 := height_le_size T1
  obtain ⟨h2, t2, T2, e', s2, _, hs2, hp2⟩ :=
    insert_sorted_perm kp s1 i1 hs1 hz1 fuel (by omega)
  have hk2 : T2.keys = T.keys := by
    refine List.eq_of_perm_of_sorted ?_ hs2 hsorted
    refine hp2.trans ?_
    rw [k0, k1]
    exact List.perm_middle.symm
  have hsz2 : T2.size = T.size := by
    rw [← Tree.keys_length, ← Tree.keys_length, hk2]
  have hh2 := height_le_size T2
  have a0 := rbtree_to_array_spec h t T fuel arr n hS (by omega) hroom
  have a2 := rbtree_to_array_spec h2 t2 T2 fuel arr n s2 (by omega)
    (by rw [hsz2]; exact hroom)
  refine ⟨h1, t1, h2, t2, e, e', ?_, a0⟩
  rw [a2, a0, hk2, hsz2]

/-- Witness for C14: the root of the three-node example tree is erased and its key 20 inserted
again into the same storage. -/
theorem erase_reinsert_export_witness :
    (∃ h1 t1 h2 t2, rbtree_erase 5 exHeap (some exT) (some 1) = .ok (h1, some t1, 0) ∧
      rbtree_insert 5 h1 (some t1) 20 (some 1) = .ok (h2, some t2, some 1) ∧
      rbtree_to_array 5 h2 (some t2) (some [0, 0, 0]) 3
        = rbtree_to_array 5 exHeap (some exT) (some [0, 0, 0]) 3 ∧
      rbtree_to_array 5 exHeap (some exT) (some [0, 0, 0]) 3
        = .ok (some (exTree.keys.take 3 ++ [0, 0, 0].drop (min 3 exTree.size)),
          size_to_int (min 3 exTree.size))) ∧
    scenario_C 6 8 = .ok (some [1, 3, 4, 5, 7, 8, 9], 7) ∧
    scenario_C 6 1 = .ok (some [1, 3, 4, 5, 7, 8, 9], 7) :=
  erase_reinsert_export exHeap exT exTree 1 20 1 5 [0, 0, 0] 3 ex_shape ex_rb (by decide)
    (by decide) (Or.inl rfl) (by decide) (by decide)

/-! ## Insertion: exact shapes -/

/-- Inserting into an empty tree: the new cell becomes the root, BLACK, with both child links and
the parent link `NULL`. -/
theorem rbtree_insert_empty {h : Heap} {t : rbtree} (k : key_t) {z : Nat}
    (s : Shape h t (.leaf false)) (hz : h z = none) (fuel : Nat) (hf : 2 ≤ fuel) :
    rbtree_insert fuel h (some t) k (some z)
        = .ok (Function.update h z (some ⟨RBTREE_BLACK, k, none, none, none⟩),
            some ⟨some z, t.nil⟩, some z) ∧
      Shape (Function.update h z (some ⟨RBTREE_BLACK, k, none, none, none⟩)) ⟨some z, t.nil⟩
        (.node z RBTREE_BLACK k (.leaf false) (.leaf false)) := by
  obtain ⟨hz1, hz2⟩ := Shape.fresh s hz
  have hnn := Shape.nil_ne_none s
  obtain ⟨f, rfl⟩ : ∃ f, fuel = f + 2 := ⟨fuel - 2, by omega⟩
  refine ⟨?_, ?_⟩
  · simp only [rbtree_insert, s.root_eq, Tree.ptr_leaf_false, ne_eq, not_true_eq_false,
      if_false, calloc, setKey, setColor, setLeft, setRight, setParent, getParent, load, store,
      Function.update_same, Function.update_idem, Res.ok_bind, Res.bind_ok', Res.pure_eq,
      insert_descend, insert_fixedup, insert_fixedup_loop, reduceCtorEq, not_false_eq_true,
      true_and, and_false, and_true, if_true, zero_node, hnn]
  · obtain ⟨n, c, hn, hc⟩ := s.nil_live
    refine ⟨rfl, by simp, ⟨by simp, trivial, trivial⟩, by simp [Tree.addrs], ⟨n, c, hn, ?_⟩, ?_⟩
    · have : z ≠ n := by rintro rfl; exact hz2 hn.symm
      rw [upd_ne1 this]; exact hc
    · intro a ha
      simp only [Tree.addrs, List.nil_append, List.mem_singleton] at ha
      subst ha; exact hz2

/-- Inserting where the descent ends at a right link: the call is the linking of the new RED cell
there, followed by `insert_fixedup`. -/
theorem rbtree_insert_link_right {h : Heap} {t : rbtree} {T : Tree} (k : key_t) {z : Nat}
    (y : Nat) (cy : color_t) (ky : key_t) (l : Tree) (up : Ctx) (s0 : Bool)
    (s : Shape h t T) (hz : h z = none) (fuel : Nat) (hf : T.height + 2 ≤ fuel)
    (hd : T.descend k .top = (.right y cy ky l up, s0)) :
    ∃ h2, Shape h2 t ((Ctx.right y cy ky l up).plug
        (.node z RBTREE_RED k (.leaf false) (.leaf false))) ∧
      ∀ h3 t3 a3 c3 k3 l3 r3, insert_fixedup fuel h2 t (some z) = .ok (h3, t3) →
        Shape h3 t3 (.node a3 c3 k3 l3 r3) →
        rbtree_insert fuel h (some t) k (some z) = .ok (h3, some t3, some z) := by
  obtain ⟨hz1, hz2⟩ := Shape.fresh s hz
  have hnn := Shape.nil_ne_none s
  obtain ⟨f, rfl⟩ : ∃ f, fuel = f + 1 := ⟨fuel - 1, by omega⟩
  have hTn : T ≠ .leaf false := by
    rintro rfl
    simp [Tree.descend] at hd
  have hroot : t.root ≠ none := by
    rw [s.root_eq]
    cases T with
    | leaf b =>
      cases b
      · exact absurd rfl hTn
      · exact absurd rfl s.top_ne
    | node a0 c0 k0 l0 r0 => simp
  have hplug := descend_plug k T .top
  have hdir := descend_dir k T .top trivial
  have s1 : Shape (Function.update h z (some ⟨RBTREE_RED, k, t.nil, none, none⟩)) t T := by
    obtain ⟨n, c, hn, hc⟩ := s.nil_live
    refine ⟨s.root_eq, s.top_ne, (Rep_update hz1).2 s.rep, s.nodup, ⟨n, c, hn, ?_⟩, s.nil_fresh⟩
    have : z ≠ n := by rintro rfl; exact hz2 hn.symm
    rw [upd_ne1 this]; exact hc
  have hd' := insert_descend_spec k t.nil T .top none (f + 1) s1.rep s1.nil_fresh (by omega) hTn
  rw [← s1.root_eq] at hd'
  rw [hd] at hplug hdir hd'
  simp only [Ctx.parOr] at hd'
  dsimp only at hplug hdir
  have hplug' : (Ctx.right y cy ky l up).plug (.leaf s0) = T := hplug
  rw [← hplug'] at s hz1
  have zs := (Shape_plug_iff h t (.right y cy ky l up) (.leaf s0)).1 s
  have hy := zs.repc.1
  have hyn : (some y : Ptr) ≠ t.nil := zs.nil_fresh y (by simp [Ctx.addrs])
  have hzy : z ≠ y := by
    rintro rfl; exact hz1 (mem_addrs_plug.2 (Or.inl (by simp [Ctx.addrs])))
  have sH2 := (Shape_plug_iff _ _ _ _).2 (link_right k zs hz)
  refine ⟨_, sH2, ?_⟩
  intro h3 t3 a3 c3 k3 l3 r3 e3 s3
  have hc3 := Shape.cell .top s3
  simp only [Ctx.par] at hc3
  have hr3 : t3.root = some a3 := s3.root_eq
  have hself : Function.update h3 a3 (some ⟨c3, k3, none, l3.ptr t3.nil, r3.ptr t3.nil⟩) = h3 := by
    rw [← hc3]; exact Function.update_eq_self a3 h3
  simp only [rbtree_insert, hroot, ne_eq, reduceCtorEq, not_false_eq_true,
      if_false, if_true, calloc, setKey, setColor, setLeft, setRight, setParent, load, store,
      Function.update_same, Function.update_idem, Res.ok_bind, Res.bind_ok', Res.pure_eq,
      zero_node, hd', hyn, getKey, upd_ne1 hzy, hy, hdir.1, e3, hr3, hc3, hself]

/-- The second of two ascending insertions: the new RED cell hangs to the right of the root. -/
theorem rbtree_insert_second {h : Heap} {t : rbtree} {a : Nat} {ka : key_t} (k : key_t) {z : Nat}
    (s : Shape h t (.node a RBTREE_BLACK ka (.leaf false) (.leaf false))) (hk : ka ≤ k)
    (hz : h z = none) (fuel : Nat) (hf : 3 ≤ fuel) :
    ∃ h' t', rbtree_insert fuel h (some t) k (some z) = .ok (h', some t', some z) ∧
      Shape h' t' (.node a RBTREE_BLACK ka (.leaf false)
        (.node z RBTREE_RED k (.leaf false) (.leaf false))) := by
  have hlt : ¬ k < ka := not_lt.2 hk
  obtain ⟨h2, s2, fin⟩ := rbtree_insert_link_right k a RBTREE_BLACK ka (.leaf false) .top false
    s hz fuel (by simp [Tree.height]; omega) (by simp [Tree.descend, hlt])
  simp only [Ctx.plug] at s2
  obtain ⟨f, rfl⟩ : ∃ f, fuel = f + 1 := ⟨fuel - 1, by omega⟩
  have hp := Shape.cell (.right a RBTREE_BLACK ka (.leaf false) .top) s2
  have e1 := ins_exit_black f (C := .top) (p := z) s2 (getParent_of hp)
  obtain ⟨h3, e3, s3, -⟩ := setColor_spec .top s2 RBTREE_BLACK
  have hr : t.root = some a := s2.root_eq
  refine ⟨h3, t, fin h3 t _ _ _ _ _ ?_ s3, s3⟩
  simp only [insert_fixedup, e1, Res.ok_bind, hr, ne_eq, reduceCtorEq, not_false_eq_true,
    if_true, e3, Res.pure_eq]

/-- The third of three ascending insertions: one left rotation at the root. -/
theorem rbtree_insert_third {h : Heap} {t : rbtree} {a b : Nat} {ka kb : key_t} (k : key_t)
    {z : Nat}
    (s : Shape h t (.node a RBTREE_BLACK ka (.leaf false)
      (.node b RBTREE_RED kb (.leaf false) (.leaf false))))
    (hka : ka ≤ k) (hkb : kb ≤ k) (hz : h z = none) (fuel : Nat) (hf : 4 ≤ fuel) :
    ∃ h' t', rbtree_insert fuel h (some t) k (some z) = .ok (h', some t', some z) ∧
      Shape h' t' (.node b RBTREE_BLACK kb (.node a RBTREE_RED ka (.leaf false) (.leaf false))
        (.node z RBTREE_RED k (.leaf false) (.leaf false))) := by
  have hlt : ¬ k < ka := not_lt.2 hka
  have hlt' : ¬ k < kb := not_lt.2 hkb
  obtain ⟨h2, s2, fin⟩ := rbtree_insert_link_right k b RBTREE_RED kb (.leaf false)
    (.right a RBTREE_BLACK ka (.leaf false) .top) false
    s hz fuel (by simp [Tree.height]; omega) (by simp [Tree.descend, hlt, hlt'])
  simp only [Ctx.plug] at s2
  obtain ⟨f, rfl⟩ : ∃ f, fuel = f + 2 := ⟨fuel - 2, by omega⟩
  have s2' : Shape h2 t (Ctx.top.plug (.node a RBTREE_BLACK ka (.leaf false)
      (.node b RBTREE_RED kb (.leaf false)
        (.node z RBTREE_RED k (.leaf false) (.leaf false))))) := s2
  obtain ⟨h3, t3, e3, n3, s3, -⟩ := ins_case3_right (f + 1) s2' rfl
  simp only [Ctx.plug] at s3
  have hp := Shape.cell (.right b RBTREE_BLACK kb _ .top) s3
  have e4 := ins_exit_black f (C := .top) (p := z) s3 (getParent_of hp)
  obtain ⟨h5, e5, s5, -⟩ := setColor_spec .top s3 RBTREE_BLACK
  have hr : t3.root = some b := s3.root_eq
  refine ⟨h5, t3, fin h5 t3 _ _ _ _ _ ?_ s5, s5⟩
  simp only [insert_fixedup, e3, e4, Res.ok_bind, hr, ne_eq, reduceCtorEq, not_false_eq_true,
    if_true, e5, Res.pure_eq]

/-- C15: three ascending insertions.  For keys `a < b < c` inserted in this order into a tree
just made by `new_rbtree`, each into fresh storage, all three calls succeed and the final state
is: the root is the cell of `b`, BLACK, with no parent; its left child is the cell of `a` and its
right child the cell of `c`, both RED, both with the root as parent and with no children; and
`rbtree_to_array` with capacity three exports `a, b, c`. -/
theorem three_ascending_inserts (h0 : Heap) (nl z1 z2 z3 : Nat) (a b c : key_t) (fuel : Nat)
    (arr : List key_t) (hab : a < b) (hbc : b < c)
    (hz1 : h0 z1 = none) (hz2 : h0 z2 = none) (hz3 : h0 z3 = none)
    (hn1 : z1 ≠ nl) (hn2 : z2 ≠ nl) (hn3 : z3 ≠ nl)
    (h12 : z1 ≠ z2) (h13 : z1 ≠ z3) (h23 : z2 ≠ z3) (hfuel : 4 ≤ fuel)
    (hroom : 3 ≤ arr.length) :
    ∃ h t h1 t1 h2 t2 h3 t3, new_rbtree h0 true (some nl) = .ok (h, some t) ∧
      rbtree_insert fuel h (some t) a (some z1) = .ok (h1, some t1, some z1) ∧
      rbtree_insert fuel h1 (some t1) b (some z2) = .ok (h2, some t2, some z2) ∧
      rbtree_insert fuel h2 (some t2) c (some z3) = .ok (h3, some t3, some z3) ∧
      t3.root = some z2 ∧
      h3 z2 = some ⟨RBTREE_BLACK, b, none, some z1, some z3⟩ ∧
      h3 z1 = some ⟨RBTREE_RED, a, some z2, none, none⟩ ∧
      h3 z3 = some ⟨RBTREE_RED, c, some z2, none, none⟩ ∧
      Shape h3 t3 (.node z2 RBTREE_BLACK b (.node z1 RBTREE_RED a (.leaf false) (.leaf false))
        (.node z3 RBTREE_RED c (.leaf false) (.leaf false))) ∧
      rbtree_to_array fuel h3 (some t3) (some arr) 3 = .ok (some ([a, b, c] ++ arr.drop 3), 3) := by
  obtain ⟨h, e0, s0, f0⟩ := new_rbtree_ok h0 nl
  have hz1' : h z1 = none := by rw [f0 z1 hn1]; exact hz1
  obtain ⟨e1, s1⟩ := rbtree_insert_empty a s0 hz1' fuel (by omega)
  have g1 : ∀ x, x ≠ z1 → x ≠ nl →
      Function.update h z1 (some ⟨RBTREE_BLACK, a, none, none, none⟩) x = h0 x := by
    intro x hx hx'
    rw [upd_ne2 hx, f0 x hx']
  obtain ⟨h2, t2, e2, s2⟩ := rbtree_insert_second b s1 (le_of_lt hab)
    (by rw [g1 z2 (Ne.symm h12) hn2]; exact hz2) fuel (by omega)
  have hz3' : Function.update h z1 (some ⟨RBTREE_BLACK, a, none, none, none⟩) z3 = none := by
    rw [g1 z3 (Ne.symm h13) hn3]; exact hz3
  have hz3'' : h2 z3 = none := by
    by_contra hne
    have m1 : z3 ∉ (Tree.node z1 RBTREE_BLACK a (.leaf false) (.leaf false)).addrs := by
      simp [Tree.addrs, Ne.symm h13]
    obtain ⟨h2', t2', T2', pre, post, e2', -, s2', -, -, -, -, fr⟩ :=
      rbtree_insert_spec b s1 (by refine ⟨rfl, ?_, ?_⟩ <;> simp)
        (by rw [g1 z2 (Ne.symm h12) hn2]; exact hz2) fuel (by simp [Tree.height]; omega)
    rw [e2] at e2'
    simp only [Res.ok.injEq, Prod.mk.injEq, Option.some.injEq, and_true] at e2'
    obtain ⟨rfl, rfl⟩ := e2'
    exact hne ((fr z3 (Ne.symm h23) m1).trans hz3')
  obtain ⟨h3, t3, e3, s3⟩ := rbtree_insert_third c s2 (le_of_lt (lt_trans hab hbc))
    (le_of_lt hbc) hz3'' fuel hfuel
  have c2 := Shape.cell .top s3
  have c1 := Shape.cell (.left z2 RBTREE_BLACK b
    (.node z3 RBTREE_RED c (.leaf false) (.leaf false)) .top) s3
  have c3 := Shape.cell (.right z2 RBTREE_BLACK b
    (.node z1 RBTREE_RED a (.leaf false) (.leaf false)) .top) s3
  have ex := rbtree_to_array_spec h3 t3 _ fuel arr 3 s3 (by simp [Tree.height]; omega)
    (by simp [Tree.size]; omega)
  refine ⟨h, _, _, _, h2, t2, h3, t3, e0, e1, e2, e3, s3.root_eq, ?_, ?_, ?_, s3, ?_⟩
  · simpa [Ctx.par] using c2
  · simpa [Ctx.par] using c1
  · simpa [Ctx.par] using c3
  · rw [ex]
    simp [Tree.keys, Tree.size, size_to_int, INT_MAX]

/-- Witness for C15: the keys 1, 2, 3 inserted at addresses 1, 2, 3 into a new tree whose
sentinel is at address 0. -/
theorem three_ascending_inserts_witness :
    ∃ h t h1 t1 h2 t2 h3 t3, new_rbtree (fun _ => none) true (some 0) = .ok (h, some t) ∧
      rbtree_insert 4 h (some t) 1 (some 1) = .ok (h1, some t1, some 1) ∧
      rbtree_insert 4 h1 (some t1) 2 (some 2) = .ok (h2, some t2, some 2) ∧
      rbtree_insert 4 h2 (some t2) 3 (some 3) = .ok (h3, some t3, some 3) ∧
      t3.root = some 2 ∧
      h3 2 = some ⟨RBTREE_BLACK, 2, none, some 1, some 3⟩ ∧
      h3 1 = some ⟨RBTREE_RED, 1, some 2, none, none⟩ ∧
      h3 3 = some ⟨RBTREE_RED, 3, some 2, none, none⟩ ∧
      Shape h3 t3 (.node 2 RBTREE_BLACK 2 (.node 1 RBTREE_RED 1 (.leaf false) (.leaf false))
        (.node 3 RBTREE_RED 3 (.leaf false) (.leaf false))) ∧
      rbtree_to_array 4 h3 (some t3) (some [0, 0, 0]) 3
        = .ok (some ([1, 2, 3] ++ [0, 0, 0].drop 3), 3) :=
  three_ascending_inserts (fun _ => none) 0 1 2 3 1 2 3 4 [0, 0, 0] (by decide) (by decide)
    rfl rfl rfl (by decide) (by decide) (by decide) (by decide) (by decide) (by decide)
    (by decide) (by decide)

/-! ## Child and parent links of the nodes -/

/-- The links of the cells of a tree held by the heap: a child link is `NULL`, the sentinel, or a
node of the tree whose parent link points back; the parent link of the root of the tree is `par`
and every other parent link is a node of the tree. -/
theorem Rep_links {h : Heap} {nl : Ptr} : ∀ (T : Tree) (par : Ptr), Rep h nl T par →
    T.addrs.Nodup → ∀ a ∈ T.addrs, ∃ c k p l r, h a = some ⟨c, k, p, l, r⟩ ∧
      (l = none ∨ l = nl ∨ ∃ b ∈ T.addrs, l = some b ∧ getParent h (some b) = .ok (some a)) ∧
      (r = none ∨ r = nl ∨ ∃ b ∈ T.addrs, r = some b ∧ getParent h (some b) = .ok (some a)) ∧
      ((T.ptr nl = some a ∧ p = par) ∨ (T.ptr nl ≠ some a ∧ ∃ q ∈ T.addrs, p = some q)) := by
  intro T
  induction T with
  | leaf s => intro par _ _ a ha; simp [Tree.addrs] at ha
  | node a0 c0 k0 L R ihl ihr =>
    intro par hr hnd a ha
    obtain ⟨hc, hl, hr'⟩ := hr
    simp only [Tree.addrs, List.nodup_append, List.nodup_cons, List.disjoint_cons_right] at hnd
    obtain ⟨ndl, ⟨nar, ndr⟩, nal, dlr⟩ := hnd
    have child : ∀ (S : Tree), Rep h nl S (some a0) → (∀ b ∈ S.addrs, b ∈ (Tree.node a0 c0 k0 L R).addrs) →
        (S.ptr nl = none ∨ S.ptr nl = nl ∨ ∃ b ∈ (Tree.node a0 c0 k0 L R).addrs,
          S.ptr nl = some b ∧ getParent h (some b) = .ok (some a0)) := by
      intro S hS hsub
      rcases S with s | ⟨b, cb, kb, Sl, Sr⟩
      · cases s
        · exact Or.inl rfl
        · exact Or.inr (Or.inl rfl)
      · exact Or.inr (Or.inr ⟨b, hsub b (by simp [Tree.addrs]), rfl, getParent_of hS.1⟩)
    have subl : ∀ b ∈ L.addrs, b ∈ (Tree.node a0 c0 k0 L R).addrs := by
      intro b hb; simp [Tree.addrs, hb]
    have subr : ∀ b ∈ R.addrs, b ∈ (Tree.node a0 c0 k0 L R).addrs := by
      intro b hb; simp [Tree.addrs, hb]
    have self : a0 ∈ (Tree.node a0 c0 k0 L R).addrs := by simp [Tree.addrs]
    simp only [Tree.addrs, List.mem_append, List.mem_cons] at ha
    rcases ha with ha | rfl | ha
    · obtain ⟨c, k, p, l, r, e, el, er, ep⟩ := ihl (some a0) hl ndl a ha
      have hne : a ≠ a0 := fun e => nal (e ▸ ha)
      refine ⟨c, k, p, l, r, e, ?_, ?_, Or.inr ⟨by simp [Ne.symm hne], ?_⟩⟩
      · rcases el with el | el | ⟨b, hb, el, eb⟩
        · exact Or.inl el
        · exact Or.inr (Or.inl el)
        · exact Or.inr (Or.inr ⟨b, subl b hb, el, eb⟩)
      · rcases er with er | er | ⟨b, hb, er, eb⟩
        · exact Or.inl er
        · exact Or.inr (Or.inl er)
        · exact Or.inr (Or.inr ⟨b, subl b hb, er, eb⟩)
      · rcases ep with ⟨-, rfl⟩ | ⟨-, q, hq, rfl⟩
        · exact ⟨a0, self, rfl⟩
        · exact ⟨q, subl q hq, rfl⟩
    · exact ⟨c0, k0, par, _, _, hc, child L hl subl, child R hr' subr, Or.inl ⟨rfl, rfl⟩⟩
    · obtain ⟨c, k, p, l, r, e, el, er, ep⟩ := ihr (some a0) hr' ndr a ha
      have hne : a ≠ a0 := fun e => nar (e ▸ ha)
      refine ⟨c, k, p, l, r, e, ?_, ?_, Or.inr ⟨by simp [Ne.symm hne], ?_⟩⟩
      · rcases el with el | el | ⟨b, hb, el, eb⟩
        · exact Or.inl el
        · exact Or.inr (Or.inl el)
        · exact Or.inr (Or.inr ⟨b, subr b hb, el, eb⟩)
      · rcases er with er | er | ⟨b, hb, er, eb⟩
        · exact Or.inl er
        · exact Or.inr (Or.inl er)
        · exact Or.inr (Or.inr ⟨b, subr b hb, er, eb⟩)
      · rcases ep with ⟨-, rfl⟩ | ⟨-, q, hq, rfl⟩
        · exact ⟨a0, self, rfl⟩
        · exact ⟨q, subr q hq, rfl⟩

theorem init_shape : Shape initHeap initT (.leaf false) := by
  obtain ⟨h, e, s, -⟩ := new_rbtree_ok (fun _ => none) 0
  rw [new_rbtree_init] at e
  simp only [Res.ok.injEq, Prod.mk.injEq, Option.some.injEq] at e
  obtain ⟨rfl, -⟩ := e
  exact s

theorem init_reachable : Reachable initHeap initT :=
  Reachable.create 0 (fun _ => none) initHeap initT rfl new_rbtree_init

/-- C18, as stated, fails: the state after `new_rbtree` and one `rbtree_insert` of the key 10 is
reachable, its only node (the root, at address 1, the node the call returned) has no real child
on either side, and both of its child links are `NULL`, not the sentinel (which is at address
0). -/
theorem fresh_node_children_null :
    ∃ h t, Reachable h t ∧
      rbtree_insert 2 initHeap (some initT) 10 (some 1) = .ok (h, some t, some 1) ∧
      Shape h t (.node 1 RBTREE_BLACK 10 (.leaf false) (.leaf false)) ∧
      t.root = some 1 ∧ t.nil = some 0 ∧
      getLeft h (some 1) = .ok none ∧ getRight h (some 1) = .ok none ∧
      getLeft h (some 1) ≠ .ok t.nil ∧ getRight h (some 1) ≠ .ok t.nil := by
  obtain ⟨e, s⟩ := rbtree_insert_empty 10 (z := 1) init_shape rfl 2 le_rfl
  have hc := Shape.cell .top s
  refine ⟨_, _, Reachable.insert initHeap initT (.leaf false) 10 1 2 _ _ (some 1)
    init_reachable init_shape (by simp [Tree.height]) rfl e, e, s, rfl, rfl, getLeft_of hc,
    getRight_of hc, ?_, ?_⟩
  · rw [getLeft_of hc]; simp [initT]
  · rw [getRight_of hc]; simp [initT]

/-- C18, amended: in every state reached from `new_rbtree` by insertions and valid removals, the
sentinel is not `NULL`, and every node of the tree has as each child link `NULL`, the sentinel,
or a node of the tree whose parent link points back to it (so on a side without a real child
the link is `NULL` or the sentinel); its parent link is `NULL` exactly when it is the root, and
is never the sentinel.  The node `rbtree_insert` returns for an empty tree is the root and has
both child links and the parent link `NULL`. -/
theorem absent_child_links (h : Heap) (t : rbtree) (hR : Reachable h t) :
    ∃ T, Shape h t T ∧ t.nil ≠ none ∧
      (∀ a ∈ T.addrs, ∃ l r p, getLeft h (some a) = .ok l ∧ getRight h (some a) = .ok r ∧
        getParent h (some a) = .ok p ∧
        (l = none ∨ l = t.nil ∨
          ∃ b ∈ T.addrs, l = some b ∧ getParent h (some b) = .ok (some a)) ∧
        (r = none ∨ r = t.nil ∨
          ∃ b ∈ T.addrs, r = some b ∧ getParent h (some b) = .ok (some a)) ∧
        (p = none ↔ t.root = some a) ∧ p ≠ t.nil) ∧
      (t.root = none → ∀ (k : key_t) (z fuel : Nat), h z = none → 2 ≤ fuel →
        ∃ h' t', rbtree_insert fuel h (some t) k (some z) = .ok (h', some t', some z) ∧
          t'.root = some z ∧ getLeft h' (some z) = .ok none ∧
          getRight h' (some z) = .ok none ∧ getParent h' (some z) = .ok none) := by
  obtain ⟨T, s, -⟩ := reachable_rb hR
  refine ⟨T, s, s.nil_ne_none, ?_, ?_⟩
  · intro a ha
    obtain ⟨c, k, p, l, r, e, el, er, ep⟩ := Rep_links T none s.rep s.nodup a ha
    refine ⟨l, r, p, getLeft_of e, getRight_of e, getParent_of e, el, er, ?_, ?_⟩
    · rw [s.root_eq]
      rcases ep with ⟨e1, rfl⟩ | ⟨e1, q, -, rfl⟩
      · exact ⟨fun _ => e1, fun _ => rfl⟩
      · exact ⟨fun e => (by cases e), fun e => absurd e e1⟩
    · rcases ep with ⟨-, rfl⟩ | ⟨-, q, hq, rfl⟩
      · exact fun e => s.nil_ne_none e.symm
      · exact s.nil_fresh q hq
  · intro hroot k z fuel hz hf
    have hT : T = .leaf false := by
      have := s.root_eq
      rw [hroot] at this
      rcases T with b | ⟨a, c, k', l, r⟩
      · cases b
        · rfl
        · exact absurd rfl s.top_ne
      · simp at this
    subst hT
    obtain ⟨e, s'⟩ := rbtree_insert_empty k s hz fuel hf
    have hc := Shape.cell .top s'
    exact ⟨_, _, e, rfl, getLeft_of hc, getRight_of hc, getParent_of hc⟩

/-- Witness for C18 (amended): the state after `new_rbtree` and one insertion of the key 10 at
address 1. -/
theorem absent_child_links_witness :
    ∃ T, Shape (Function.update initHeap 1 (some ⟨RBTREE_BLACK, 10, none, none, none⟩))
        ⟨some 1, initT.nil⟩ T ∧ (⟨some 1, initT.nil⟩ : rbtree).nil ≠ none ∧
      (∀ a ∈ T.addrs, ∃ l r p,
        getLeft (Function.update initHeap 1 (some ⟨RBTREE_BLACK, 10, none, none, none⟩))
          (some a) = .ok l ∧
        getRight (Function.update initHeap 1 (some ⟨RBTREE_BLACK, 10, none, none, none⟩))
          (some a) = .ok r ∧
        getParent (Function.update initHeap 1 (some ⟨RBTREE_BLACK, 10, none, none, none⟩))
          (some a) = .ok p ∧
        (l = none ∨ l = (⟨some 1, initT.nil⟩ : rbtree).nil ∨
          ∃ b ∈ T.addrs, l = some b ∧
            getParent (Function.update initHeap 1 (some ⟨RBTREE_BLACK, 10, none, none, none⟩))
              (some b) = .ok (some a)) ∧
        (r = none ∨ r = (⟨some 1, initT.nil⟩ : rbtree).nil ∨
          ∃ b ∈ T.addrs, r = some b ∧
            getParent (Function.update initHeap 1 (some ⟨RBTREE_BLACK, 10, none, none, none⟩))
              (some b) = .ok (some a)) ∧
        (p = none ↔ (⟨some 1, initT.nil⟩ : rbtree).root = some a) ∧
        p ≠ (⟨some 1, initT.nil⟩ : rbtree).nil) ∧
      ((⟨some 1, initT.nil⟩ : rbtree).root = none → ∀ (k : key_t) (z fuel : Nat),
        Function.update initHeap 1 (some ⟨RBTREE_BLACK, 10, none, none, none⟩) z = none →
        2 ≤ fuel →
        ∃ h' t', rbtree_insert fuel
            (Function.update initHeap 1 (some ⟨RBTREE_BLACK, 10, none, none, none⟩))
            (some ⟨some 1, initT.nil⟩) k (some z) = .ok (h', some t', some z) ∧
          t'.root = some z ∧ getLeft h' (some z) = .ok none ∧
          getRight h' (some z) = .ok none ∧ getParent h' (some z) = .ok none) :=
  absent_child_links _ _
    (Reachable.insert initHeap initT (.leaf false) 10 1 2 _ _ (some 1) init_reachable init_shape
      (by decide) rfl
      (rbtree_insert_empty 10 init_shape (show initHeap 1 = none from rfl) 2 le_rfl).1)

/-! ## Removal fixup: the colour of the nodes above the hole -/

theorem nodes_mem_plug : ∀ (C : Ctx) (S : Tree) {n : Nat × color_t × key_t},
    n ∈ S.nodes → n ∈ (C.plug S).nodes := by
  intro C
  induction C with
  | top => intro S n h; exact h
  | left a c k r up ih =>
    intro S n h
    exact ih _ (by simp [Tree.nodes, h])
  | right a c k l up ih =>
    intro S n h
    exact ih _ (by simp [Tree.nodes, h])

/-- A frame of the context and a node of the subtree in its hole are nodes of the whole tree. -/
theorem track_plug : ∀ (C : Ctx) (S : Tree) {n : Nat × color_t × key_t},
    n ∈ C.spine ∨ n ∈ S.nodes → n ∈ (C.plug S).nodes := by
  intro C
  induction C with
  | top =>
    intro S n h
    simpa [Ctx.spine] using h
  | left a c k r up ih =>
    intro S n h
    refine ih _ ?_
    simp only [Ctx.spine, List.mem_cons, Tree.nodes, List.mem_append] at h ⊢
    tauto
  | right a c k l up ih =>
    intro S n h
    refine ih _ ?_
    simp only [Ctx.spine, List.mem_cons, Tree.nodes, List.mem_append] at h ⊢
    tauto

theorem spine_comp : ∀ (D C : Ctx), (D.comp C).spine = D.spine ++ C.spine := by
  intro D
  induction D with
  | top => intro C; rfl
  | left a c k r up ih => intro C; simp [Ctx.comp, Ctx.spine, ih]
  | right a c k l up ih => intro C; simp [Ctx.comp, Ctx.spine, ih]

theorem nodes_blacken {T : Tree} {n : Nat × color_t × key_t} (h : n ∈ T.nodes)
    (hc : n.2.1 = RBTREE_BLACK) : n ∈ T.blacken.nodes := by
  cases T with
  | leaf s => exact h
  | node a c k l r =>
    obtain ⟨a', c', k'⟩ := n
    simp only at hc
    subst hc
    simp only [Tree.blacken, Tree.nodes, List.mem_append, List.mem_cons, Prod.mk.injEq] at h ⊢
    tauto

/-- As `era_done`, with the BLACK nodes of the tree followed through the last repainting. -/
theorem era_done_track {h : Heap} {t : rbtree} (C : Ctx) {a : Nat} {c : color_t} {k : key_t}
    {l r : Tree} (fuel : Nat) (xp : Ptr) (s : Shape h t (C.plug (.node a c k l r)))
    (hb : (Tree.node a c k l r).Balanced) (hr : (Tree.node a c k l r).NoRedRed)
    (hC : C.RB (Tree.node a c k l r).bh c) :
    ∃ h' T', erase_fixedup (fuel + 1) h t t.root xp = .ok (h', t) ∧ Shape h' t T' ∧ RBInv T' ∧
      T'.entries = (C.plug (.node a c k l r)).entries ∧
      (∀ b, b ∉ (C.plug (.node a c k l r)).addrs → h' b = h b) ∧
      (∀ n ∈ (C.plug (.node a c k l r)).nodes, n.2.1 = RBTREE_BLACK → n ∈ T'.nodes) := by
  obtain ⟨p1, p2, -⟩ := plug_ok C _ hb hr hC
  obtain ⟨a', c', k', l', r', hp⟩ := plug_node C a c k l r
  rw [hp] at s p1 p2 ⊢
  obtain ⟨h1, e1, s1, f1⟩ := era_fix_root fuel xp s
  refine ⟨h1, _, e1, s1, blacken_ok (T := .node a' c' k' l' r') p1 p2, rfl, ?_, ?_⟩
  · intro b hb'
    exact f1 b (by
      intro e
      subst e
      exact hb' (by simp [Tree.addrs]))
  · intro n hn hc
    exact nodes_blacken (T := .node a' c' k' l' r') hn hc

/-- As `era_done_red`, with the BLACK nodes of the tree followed through the last repainting. -/
theorem era_done_red_track {h : Heap} {t : rbtree} (C : Ctx) {x : Nat} {k : key_t} {l r : Tree}
    (fuel : Nat) (xp : Ptr) (s : Shape h t (C.plug (.node x RBTREE_RED k l r)))
    (hb : (Tree.node x RBTREE_BLACK k l r).Balanced)
    (hr : (Tree.node x RBTREE_BLACK k l r).NoRedRed)
    (hC : C.RB (Tree.node x RBTREE_BLACK k l r).bh RBTREE_BLACK) :
    ∃ h' T', erase_fixedup (fuel + 1) h t (some x) xp = .ok (h', t) ∧ Shape h' t T' ∧
      RBInv T' ∧ T'.entries = (C.plug (.node x RBTREE_RED k l r)).entries ∧
      (∀ b, b ∉ (C.plug (.node x RBTREE_RED k l r)).addrs → h' b = h b) ∧
      (∀ n ∈ (C.plug (.node x RBTREE_RED k l r)).nodes, n.2.1 = RBTREE_BLACK → n ∈ T'.nodes) := by
  obtain ⟨h1, e1, s1, f1⟩ := era_fix_red C fuel xp s
  refine ⟨h1, _, e1, s1, plug_rbinv C _ hb hr hC (fun _ => rfl), ?_, ?_, ?_⟩
  · simp only [entries_plug, Tree.entries]
  · intro b hb'
    exact f1 b (by
      intro e
      subst e
      exact hb' (mem_addrs_plug.2 (Or.inr (by simp [Tree.addrs]))))
  · intro n hn hc
    have key : ∀ (D : Ctx) (S S' : Tree), (∀ m ∈ S.nodes, m.2.1 = RBTREE_BLACK → m ∈ S'.nodes) →
        ∀ m ∈ (D.plug S).nodes, m.2.1 = RBTREE_BLACK → m ∈ (D.plug S').nodes := by
      intro D
      induction D with
      | top => intro S S' hS m hm hmc; exact hS m hm hmc
      | left a0 c0 k0 r0 up ih =>
        intro S S' hS m hm hmc
        refine ih _ _ ?_ m hm hmc
        intro m' hm' hc'
        have := hS m'
        simp only [Tree.nodes, List.mem_append, List.mem_cons] at hm' ⊢
        tauto
      | right a0 c0 k0 l0 up ih =>
        intro S S' hS m hm hmc
        refine ih _ _ ?_ m hm hmc
        intro m' hm' hc'
        have := hS m'
        simp only [Tree.nodes, List.mem_append, List.mem_cons] at hm' ⊢
        tauto
    refine key C _ _ ?_ n hn hc
    intro m hm hmc
    obtain ⟨a', c', k'⟩ := m
    simp only at hmc
    subst hmc
    simp only [Tree.nodes, List.mem_append, List.mem_cons, Prod.mk.injEq, reduceCtorEq,
      false_and, and_false, false_or, or_false] at hm ⊢
    tauto

/-- As `erase_fixedup_spec`, with the colour of the nodes above the hole followed through the
loop: a frame of the context that is BLACK, and a BLACK node inside the subtree in the hole, is
a BLACK node of the tree that results. -/
theorem erase_fixedup_track : ∀ (n : Nat) (C : Ctx) (h : Heap) (t : rbtree) (X : Tree) (xp : Ptr),
    C.depth ≤ n → Shape h t (C.plug X) →
    (∀ a c k r up, C = .left a c k r up → X ≠ .leaf false) →
    (∀ s0, X = .leaf s0 → xp = C.par) → X.Balanced → X.blacken.NoRedRed →
    C.RB (X.bh + 1) RBTREE_BLACK →
    ∀ fuel, n + 2 ≤ fuel → ∃ h' t' T', erase_fixedup fuel h t (X.xptr t.nil) xp = .ok (h', t') ∧
      t'.nil = t.nil ∧ Shape h' t' T' ∧ RBInv T' ∧ T'.entries = (C.plug X).entries ∧
      (∀ a, a ∉ (C.plug X).addrs → h' a = h a) ∧
      (∀ a k, (a, RBTREE_BLACK, k) ∈ C.spine ∨ (a, RBTREE_BLACK, k) ∈ X.nodes →
        (a, RBTREE_BLACK, k) ∈ T'.nodes) := by
  intro n
  induction n using Nat.strong_induction_on with
  | _ n ih =>
  intro C h t X xp hd s hXf hxp hb hr hC fuel hf
  obtain ⟨f, rfl⟩ : ∃ f, fuel = f + 1 := ⟨fuel - 1, by omega⟩
  by_cases hred : X.rootColor = RBTREE_BLACK
  swap
  · obtain ⟨x, k, l, r, rfl⟩ := rootColor_red hred
    obtain ⟨h1, T', e1, s1, i1, en1, f1, tr1⟩ := era_done_red_track C f xp s hb hr
      (by simpa only [Tree.bh_red, Tree.bh_black] using hC)
    exact ⟨h1, t, T', e1, rfl, s1, i1, en1, f1, fun a k' ht => tr1 _ (track_plug C _ ht) rfl⟩
  have hr' := noRedRed_of_blacken hred hr
  rcases C with _ | ⟨pa, cpa, kpa, W, up⟩ | ⟨pa, cpa, kpa, W, up⟩
  · rcases X with s0 | ⟨x, c, k, l, r⟩
    · have hs0 : s0 = false := by
        cases s0
        · rfl
        · exact absurd rfl s.top_ne
      subst hs0
      have hx : xp = none := hxp false rfl
      subst hx
      exact ⟨h, t, _, era_fix_empty f s, rfl, s, ⟨rfl, trivial, trivial⟩, rfl, fun _ _ => rfl,
        fun a k' ht => by simp [Ctx.spine, Tree.nodes] at ht⟩
    · obtain ⟨h1, e1, s1, f1⟩ := era_fix_root f xp s
      have hroot : t.root = some x := s.root_eq
      rw [hroot] at e1
      refine ⟨h1, t, _, e1, rfl, s1, blacken_ok (T := .node x c k l r) hb hr', rfl, ?_, ?_⟩
      · intro a ha
        exact f1 a (by
          intro e
          subst e
          exact ha (by simp [Ctx.plug, Tree.addrs]))
      · intro a k' ht
        simp only [Tree.rootColor_node] at hred
        subst hred
        simpa [Ctx.spine] using ht
  · obtain ⟨hW1, hW2, hW3, hW4, hW5, hW6⟩ := hC
    simp only [Ctx.depth] at hd
    have hXf' : X ≠ .leaf false := hXf _ _ _ _ _ rfl
    have hxp' : ∀ s0, X = .leaf s0 → xp = some pa := hxp
    obtain ⟨f', rfl⟩ : ∃ f', f = f' + 1 := ⟨f - 1, by omega⟩
    rcases W with sw | ⟨w, cw, kw, Wl, Wr⟩
    · simp only [Tree.bh_leaf] at hW3; omega
    rcases color_cases cw with rfl | rfl
    · have hcpa : cpa = RBTREE_BLACK := by
        rcases color_cases cpa with rfl | rfl
        · have := (hW4 rfl).2
          simp only [Tree.rootColor_node, reduceCtorEq] at this
        · rfl
      subst hcpa
      simp only [if_true] at hW6
      rcases Wl with sn | ⟨wn, cwn, kwn, Wnn, Wnf⟩
      · simp only [Tree.balanced_node, Tree.bh_red, Tree.bh_leaf] at hW1 hW3; omega
      have hcwn : cwn = RBTREE_BLACK := by
        have := (hW2.1 rfl).1
        simpa only [Tree.rootColor_node] using this
      subst hcwn
      by_cases hWnf : Wnf.rootColor = RBTREE_BLACK
      · by_cases hWnn : Wnn.rootColor = RBTREE_BLACK
        · obtain ⟨h1, t1, e1, n1, s1, f1⟩ := era_case12_left (f' + 1) xp s hred hXf' hxp' hWnn hWnf
          obtain ⟨q1, q2, q3⟩ := era_pure12_left pa kpa hb hr' hW1 hW2 hW3 hWnn hWnf
          obtain ⟨h2, e2, s2, f2⟩ := era_fix_red (.left w RBTREE_BLACK kw Wr up) f' (some w) s1
          refine ⟨h2, t1, _, (erase_fixedup_chain e1).trans e2, n1, s2,
            plug_rbinv up _ q1 q2 (by rw [q3]; exact hW6) (fun _ => rfl), ?_, ?_, ?_⟩
          · simp [Ctx.plug, entries_plug, Tree.entries, Ctx.before, Ctx.after]
          · intro a ha
            rw [f2 a (by
              simp only [Ctx.plug, mem_addrs_plug, Ctx.addrs, Tree.addrs, List.mem_append, List.mem_cons,
                not_or, List.not_mem_nil, or_false, false_or] at ha ⊢
              tauto), f1 a ha]
          · intro a k' ht
            apply track_plug
            simp only [Ctx.spine, List.mem_cons] at ht
            rcases ht with (ht | ht) | ht
            · cases ht
              simp [Ctx.spine, Tree.nodes]
            · simp [Ctx.spine, Tree.nodes, ht]
            · simp [Ctx.spine, Tree.nodes, ht]
        · obtain ⟨wnn, kwnn, Wnnn, Wnnf, rfl⟩ := rootColor_red hWnn
          obtain ⟨h1, t1, e1, n1, s1, f1⟩ := era_case134_left (f' + 1) xp s hred hXf' hxp' hWnf
          obtain ⟨q1, q2, q3⟩ := era_pure134_left pa kpa hb hr' hW1 hW2 hW3
          obtain ⟨h2, T', e2, s2, i2, en2, f2, tr2⟩ := era_done_track up f' xp s1 q1 q2 (by rw [q3]; exact hW6)
          refine ⟨h2, t1, T', (erase_fixedup_chain e1).trans e2, n1, s2, i2, ?_, ?_, ?_⟩
          · rw [en2]; simp [Ctx.plug, entries_plug, Tree.entries, Ctx.before, Ctx.after]
          · intro a ha
            rw [f2 a (by
              simp only [Ctx.plug, mem_addrs_plug, Ctx.addrs, Tree.addrs, List.mem_append, List.mem_cons,
                not_or, List.not_mem_nil, or_false, false_or] at ha ⊢
              tauto), f1 a ha]
          · intro a k' ht
            refine tr2 _ (track_plug up _ ?_) rfl
            simp only [Ctx.spine, List.mem_cons] at ht
            rcases ht with (ht | ht) | ht
            · cases ht
              simp [Ctx.spine, Tree.nodes]
            · simp [Ctx.spine, Tree.nodes, ht]
            · simp [Ctx.spine, Tree.nodes, ht]
      · obtain ⟨wnf, kwnf, Wnfn, Wnff, rfl⟩ := rootColor_red hWnf
        obtain ⟨h1, t1, e1, n1, s1, f1⟩ := era_case14_left (f' + 1) xp s hred hXf' hxp'
        obtain ⟨q1, q2, q3⟩ := era_pure14_left pa kpa hb hr' hW1 hW2 hW3
        obtain ⟨h2, T', e2, s2, i2, en2, f2, tr2⟩ := era_done_track up f' xp s1 q1 q2 (by rw [q3]; exact hW6)
        refine ⟨h2, t1, T', (erase_fixedup_chain e1).trans e2, n1, s2, i2, ?_, ?_, ?_⟩
        · rw [en2]; simp [Ctx.plug, entries_plug, Tree.entries, Ctx.before, Ctx.after]
        · intro a ha
          rw [f2 a (by
            simp only [Ctx.plug, mem_addrs_plug, Ctx.addrs, Tree.addrs, List.mem_append, List.mem_cons,
              not_or, List.not_mem_nil, or_false, false_or] at ha ⊢
            tauto), f1 a ha]
        · intro a k' ht
          refine tr2 _ (track_plug up _ ?_) rfl
          simp only [Ctx.spine, List.mem_cons] at ht
          rcases ht with (ht | ht) | ht
          · cases ht
            simp [Ctx.spine, Tree.nodes]
          · simp [Ctx.spine, Tree.nodes, ht]
          · simp [Ctx.spine, Tree.nodes, ht]
    · by_cases hWf : Wr.rootColor = RBTREE_BLACK
      · by_cases hWn : Wl.rootColor = RBTREE_BLACK
        · obtain ⟨h1, e1, s1, f1⟩ := era_case2_left (f' + 1) xp s hred hXf' hxp' hWn hWf
          obtain ⟨q1, q2, q3⟩ := era_pure2_left pa kpa hb hr' hW1 hW2 hW3 hWn hWf
          rcases color_cases cpa with rfl | rfl
          · simp only [reduceCtorEq, if_false, Nat.add_zero] at hW6
            obtain ⟨h2, T', e2, s2, i2, en2, f2, tr2⟩ := era_done_red_track up f' up.par s1 q1 q2
              (by rw [q3]; exact RB_weaken _ _ _ hW6)
            refine ⟨h2, t, T', (erase_fixedup_chain e1).trans e2, rfl, s2, i2, ?_, ?_, ?_⟩
            · rw [en2]; simp [Ctx.plug, entries_plug, Tree.entries, Ctx.before, Ctx.after]
            · intro a ha
              rw [f2 a (by
                simp only [Ctx.plug, mem_addrs_plug, Ctx.addrs, Tree.addrs, List.mem_append, List.mem_cons,
                  not_or, List.not_mem_nil, or_false, false_or] at ha ⊢
                tauto), f1 a ha]
            · intro a k' ht
              refine tr2 _ (track_plug up _ ?_) rfl
              simp only [Ctx.spine, List.mem_cons] at ht
              rcases ht with (ht | ht) | ht
              · cases ht
              · simp [Ctx.spine, Tree.nodes, ht]
              · simp [Ctx.spine, Tree.nodes, ht]
          · simp only [if_true] at hW6
            obtain ⟨h2, t2, T', e2, n2, s2, i2, en2, f2, tr2⟩ :=
              ih up.depth (by omega) up h1 t _ up.par le_rfl s1
                (fun _ _ _ _ _ _ => by simp)
                (fun s0 e => by cases e) q1 q2 (by rw [q3]; exact hW6) (f' + 1) (by omega)
            refine ⟨h2, t2, T', (erase_fixedup_chain e1).trans e2, n2, s2, i2, ?_, ?_, ?_⟩
            · rw [en2]; simp [Ctx.plug, entries_plug, Tree.entries, Ctx.before, Ctx.after]
            · intro a ha
              rw [f2 a (by
                simp only [Ctx.plug, mem_addrs_plug, Ctx.addrs, Tree.addrs, List.mem_append, List.mem_cons,
                  not_or, List.not_mem_nil, or_false, false_or] at ha ⊢
                tauto), f1 a ha]
            · intro a k' ht
              apply tr2
              simp only [Ctx.spine, List.mem_cons] at ht
              rcases ht with (ht | ht) | ht
              · cases ht
                simp [Ctx.spine, Tree.nodes]
              · simp [Ctx.spine, Tree.nodes, ht]
              · simp [Ctx.spine, Tree.nodes, ht]
        · obtain ⟨wn, kwn, Wnn, Wnf, rfl⟩ := rootColor_red hWn
          obtain ⟨h1, t1, e1, n1, s1, f1⟩ := era_case3_left (f' + 1) xp s hred hXf' hxp' hWf
          obtain ⟨q1, q2, q3⟩ := era_pure3_left pa kpa hb hr' hW1 hW2 hW3
          obtain ⟨h2, T', e2, s2, i2, en2, f2, tr2⟩ := era_done_track up f' xp s1 q1 q2 (by rw [q3]; exact hW6)
          refine ⟨h2, t1, T', (erase_fixedup_chain e1).trans e2, n1, s2, i2, ?_, ?_, ?_⟩
          · rw [en2]; simp [Ctx.plug, entries_plug, Tree.entries, Ctx.before, Ctx.after]
          · intro a ha
            rw [f2 a (by
              simp only [Ctx.plug, mem_addrs_plug, Ctx.addrs, Tree.addrs, List.mem_append, List.mem_cons,
                not_or, List.not_mem_nil, or_false, false_or] at ha ⊢
              tauto), f1 a ha]
          · intro a k' ht
            refine tr2 _ (track_plug up _ ?_) rfl
            simp only [Ctx.spine, List.mem_cons] at ht
            rcases ht with (ht | ht) | ht
            · cases ht
              simp [Ctx.spine, Tree.nodes]
            · simp [Ctx.spine, Tree.nodes, ht]
            · simp [Ctx.spine, Tree.nodes, ht]
      · obtain ⟨wf, kwf, Wfn, Wff, rfl⟩ := rootColor_red hWf
        obtain ⟨h1, t1, e1, n1, s1, f1⟩ := era_case4_left (f' + 1) xp s hred hXf' hxp'
        obtain ⟨q1, q2, q3⟩ := era_pure4_left pa kpa hb hr' hW1 hW2 hW3
        obtain ⟨h2, T', e2, s2, i2, en2, f2, tr2⟩ := era_done_track up f' xp s1 q1 q2 (by rw [q3]; exact hW6)
        refine ⟨h2, t1, T', (erase_fixedup_chain e1).trans e2, n1, s2, i2, ?_, ?_, ?_⟩
        · rw [en2]; simp [Ctx.plug, entries_plug, Tree.entries, Ctx.before, Ctx.after]
        · intro a ha
          rw [f2 a (by
            simp only [Ctx.plug, mem_addrs_plug, Ctx.addrs, Tree.addrs, List.mem_append, List.mem_cons,
              not_or, List.not_mem_nil, or_false, false_or] at ha ⊢
            tauto), f1 a ha]
        · intro a k' ht
          refine tr2 _ (track_plug up _ ?_) rfl
          simp only [Ctx.spine, List.mem_cons] at ht
          rcases ht with (ht | ht) | ht
          · cases ht
            simp [Ctx.spine, Tree.nodes]
          · simp [Ctx.spine, Tree.nodes, ht]
          · simp [Ctx.spine, Tree.nodes, ht]
  · obtain ⟨hW1, hW2, hW3, hW4, hW5, hW6⟩ := hC
    simp only [Ctx.depth] at hd
    have hxp' : ∀ s0, X = .leaf s0 → xp = some pa := hxp
    obtain ⟨f', rfl⟩ : ∃ f', f = f' + 1 := ⟨f - 1, by omega⟩
    rcases W with sw | ⟨w, cw, kw, Wl, Wr⟩
    · simp only [Tree.bh_leaf] at hW3; omega
    rcases color_cases cw with rfl | rfl
    · have hcpa : cpa = RBTREE_BLACK := by
        rcases color_cases cpa with rfl | rfl
        · have := (hW4 rfl).2
          simp only [Tree.rootColor_node, reduceCtorEq] at this
        · rfl
      subst hcpa
      simp only [if_true] at hW6
      rcases Wr with sn | ⟨wn, cwn, kwn, Wnf, Wnn⟩
      · simp only [Tree.balanced_node, Tree.bh_red, Tree.bh_leaf] at hW1 hW3; omega
      have hcwn : cwn = RBTREE_BLACK := by
        have := (hW2.1 rfl).2
        simpa only [Tree.rootColor_node] using this
      subst hcwn
      by_cases hWnf : Wnf.rootColor = RBTREE_BLACK
      · by_cases hWnn : Wnn.rootColor = RBTREE_BLACK
        · obtain ⟨h1, t1, e1, n1, s1, f1⟩ := era_case12_right (f' + 1) xp s hred hxp' hWnn hWnf
          obtain ⟨q1, q2, q3⟩ := era_pure12_right pa kpa hb hr' hW1 hW2 hW3 hWnn hWnf
          obtain ⟨h2, e2, s2, f2⟩ := era_fix_red (.right w RBTREE_BLACK kw Wl up) f' (some w) s1
          refine ⟨h2, t1, _, (erase_fixedup_chain e1).trans e2, n1, s2,
            plug_rbinv up _ q1 q2 (by rw [q3]; exact hW6) (fun _ => rfl), ?_, ?_, ?_⟩
          · simp [Ctx.plug, entries_plug, Tree.entries, Ctx.before, Ctx.after]
          · intro a ha
            rw [f2 a (by
              simp only [Ctx.plug, mem_addrs_plug, Ctx.addrs, Tree.addrs, List.mem_append, List.mem_cons,
                not_or, List.not_mem_nil, or_false, false_or] at ha ⊢
              tauto), f1 a ha]
          · intro a k' ht
            apply track_plug
            simp only [Ctx.spine, List.mem_cons] at ht
            rcases ht with (ht | ht) | ht
            · cases ht
              simp [Ctx.spine, Tree.nodes]
            · simp [Ctx.spine, Tree.nodes, ht]
            · simp [Ctx.spine, Tree.nodes, ht]
        · obtain ⟨wnn, kwnn, Wnnn, Wnnf, rfl⟩ := rootColor_red hWnn
          obtain ⟨h1, t1, e1, n1, s1, f1⟩ := era_case134_right (f' + 1) xp s hred hxp' hWnf
          obtain ⟨q1, q2, q3⟩ := era_pure134_right pa kpa hb hr' hW1 hW2 hW3
          obtain ⟨h2, T', e2, s2, i2, en2, f2, tr2⟩ := era_done_track up f' xp s1 q1 q2 (by rw [q3]; exact hW6)
          refine ⟨h2, t1, T', (erase_fixedup_chain e1).trans e2, n1, s2, i2, ?_, ?_, ?_⟩
          · rw [en2]; simp [Ctx.plug, entries_plug, Tree.entries, Ctx.before, Ctx.after]
          · intro a ha
            rw [f2 a (by
              simp only [Ctx.plug, mem_addrs_plug, Ctx.addrs, Tree.addrs, List.mem_append, List.mem_cons,
                not_or, List.not_mem_nil, or_false, false_or] at ha ⊢
              tauto), f1 a ha]
          · intro a k' ht
            refine tr2 _ (track_plug up _ ?_) rfl
            simp only [Ctx.spine, List.mem_cons] at ht
            rcases ht with (ht | ht) | ht
            · cases ht
              simp [Ctx.spine, Tree.nodes]
            · simp [Ctx.spine, Tree.nodes, ht]
            · simp [Ctx.spine, Tree.nodes, ht]
      · obtain ⟨wnf, kwnf, Wnfn, Wnff, rfl⟩ := rootColor_red hWnf
        obtain ⟨h1, t1, e1, n1, s1, f1⟩ := era_case14_right (f' + 1) xp s hred hxp'
        obtain ⟨q1, q2, q3⟩ := era_pure14_right pa kpa hb hr' hW1 hW2 hW3
        obtain ⟨h2, T', e2, s2, i2, en2, f2, tr2⟩ := era_done_track up f' xp s1 q1 q2 (by rw [q3]; exact hW6)
        refine ⟨h2, t1, T', (erase_fixedup_chain e1).trans e2, n1, s2, i2, ?_, ?_, ?_⟩
        · rw [en2]; simp [Ctx.plug, entries_plug, Tree.entries, Ctx.before, Ctx.after]
        · intro a ha
          rw [f2 a (by
            simp only [Ctx.plug, mem_addrs_plug, Ctx.addrs, Tree.addrs, List.mem_append, List.mem_cons,
              not_or, List.not_mem_nil, or_false, false_or] at ha ⊢
            tauto), f1 a ha]
        · intro a k' ht
          refine tr2 _ (track_plug up _ ?_) rfl
          simp only [Ctx.spine, List.mem_cons] at ht
          rcases ht with (ht | ht) | ht
          · cases ht
            simp [Ctx.spine, Tree.nodes]
          · simp [Ctx.spine, Tree.nodes, ht]
          · simp [Ctx.spine, Tree.nodes, ht]
    · by_cases hWf : Wl.rootColor = RBTREE_BLACK
      · by_cases hWn : Wr.rootColor = RBTREE_BLACK
        · obtain ⟨h1, e1, s1, f1⟩ := era_case2_right (f' + 1) xp s hred hxp' hWn hWf
          obtain ⟨q1, q2, q3⟩ := era_pure2_right pa kpa hb hr' hW1 hW2 hW3 hWn hWf
          rcases color_cases cpa with rfl | rfl
          · simp only [reduceCtorEq, if_false, Nat.add_zero] at hW6
            obtain ⟨h2, T', e2, s2, i2, en2, f2, tr2⟩ := era_done_red_track up f' up.par s1 q1 q2
              (by rw [q3]; exact RB_weaken _ _ _ hW6)
            refine ⟨h2, t, T', (erase_fixedup_chain e1).trans e2, rfl, s2, i2, ?_, ?_, ?_⟩
            · rw [en2]; simp [Ctx.plug, entries_plug, Tree.entries, Ctx.before, Ctx.after]
            · intro a ha
              rw [f2 a (by
                simp only [Ctx.plug, mem_addrs_plug, Ctx.addrs, Tree.addrs, List.mem_append, List.mem_cons,
                  not_or, List.not_mem_nil, or_false, false_or] at ha ⊢
                tauto), f1 a ha]
            · intro a k' ht
              refine tr2 _ (track_plug up _ ?_) rfl
              simp only [Ctx.spine, List.mem_cons] at ht
              rcases ht with (ht | ht) | ht
              · cases ht
              · simp [Ctx.spine, Tree.nodes, ht]
              · simp [Ctx.spine, Tree.nodes, ht]
          · simp only [if_true] at hW6
            obtain ⟨h2, t2, T', e2, n2, s2, i2, en2, f2, tr2⟩ :=
              ih up.depth (by omega) up h1 t _ up.par le_rfl s1
                (fun _ _ _ _ _ _ => by simp)
                (fun s0 e => by cases e) q1 q2 (by rw [q3]; exact hW6) (f' + 1) (by omega)
            refine ⟨h2, t2, T', (erase_fixedup_chain e1).trans e2, n2, s2, i2, ?_, ?_, ?_⟩
            · rw [en2]; simp [Ctx.plug, entries_plug, Tree.entries, Ctx.before, Ctx.after]
            · intro a ha
              rw [f2 a (by
                simp only [Ctx.plug, mem_addrs_plug, Ctx.addrs, Tree.addrs, List.mem_append, List.mem_cons,
                  not_or, List.not_mem_nil, or_false, false_or] at ha ⊢
                tauto), f1 a ha]
            · intro a k' ht
              apply tr2
              simp only [Ctx.spine, List.mem_cons] at ht
              rcases ht with (ht | ht) | ht
              · cases ht
                simp [Ctx.spine, Tree.nodes]
              · simp [Ctx.spine, Tree.nodes, ht]
              · simp [Ctx.spine, Tree.nodes, ht]
        · obtain ⟨wn, kwn, Wnn, Wnf, rfl⟩ := rootColor_red hWn
          obtain ⟨h1, t1, e1, n1, s1, f1⟩ := era_case3_right (f' + 1) xp s hred hxp' hWf
          obtain ⟨q1, q2, q3⟩ := era_pure3_right pa kpa hb hr' hW1 hW2 hW3
          obtain ⟨h2, T', e2, s2, i2, en2, f2, tr2⟩ := era_done_track up f' xp s1 q1 q2 (by rw [q3]; exact hW6)
          refine ⟨h2, t1, T', (erase_fixedup_chain e1).trans e2, n1, s2, i2, ?_, ?_, ?_⟩
          · rw [en2]; simp [Ctx.plug, entries_plug, Tree.entries, Ctx.before, Ctx.after]
          · intro a ha
            rw [f2 a (by
              simp only [Ctx.plug, mem_addrs_plug, Ctx.addrs, Tree.addrs, List.mem_append, List.mem_cons,
                not_or, List.not_mem_nil, or_false, false_or] at ha ⊢
              tauto), f1 a ha]
          · intro a k' ht
            refine tr2 _ (track_plug up _ ?_) rfl
            simp only [Ctx.spine, List.mem_cons] at ht
            rcases ht with (ht | ht) | ht
            · cases ht
              simp [Ctx.spine, Tree.nodes]
            · simp [Ctx.spine, Tree.nodes, ht]
            · simp [Ctx.spine, Tree.nodes, ht]
      · obtain ⟨wf, kwf, Wfn, Wff, rfl⟩ := rootColor_red hWf
        obtain ⟨h1, t1, e1, n1, s1, f1⟩ := era_case4_right (f' + 1) xp s hred hxp'
        obtain ⟨q1, q2, q3⟩ := era_pure4_right pa kpa hb hr' hW1 hW2 hW3
        obtain ⟨h2, T', e2, s2, i2, en2, f2, tr2⟩ := era_done_track up f' xp s1 q1 q2 (by rw [q3]; exact hW6)
        refine ⟨h2, t1, T', (erase_fixedup_chain e1).trans e2, n1, s2, i2, ?_, ?_, ?_⟩
        · rw [en2]; simp [Ctx.plug, entries_plug, Tree.entries, Ctx.before, Ctx.after]
        · intro a ha
          rw [f2 a (by
            simp only [Ctx.plug, mem_addrs_plug, Ctx.addrs, Tree.addrs, List.mem_append, List.mem_cons,
              not_or, List.not_mem_nil, or_false, false_or] at ha ⊢
            tauto), f1 a ha]
        · intro a k' ht
          refine tr2 _ (track_plug up _ ?_) rfl
          simp only [Ctx.spine, List.mem_cons] at ht
          rcases ht with (ht | ht) | ht
          · cases ht
            simp [Ctx.spine, Tree.nodes]
          · simp [Ctx.spine, Tree.nodes, ht]
          · simp [Ctx.spine, Tree.nodes, ht]

/-- As `erase_fix_or_not`, with the BLACK nodes above the hole followed through the fixup, and
with the tree left as it is when no fixup is made. -/
theorem erase_fix_or_not_track {h : Heap} {t : rbtree} (C : Ctx) (X : Tree) (yoc : color_t)
    (xp : Ptr) (s : Shape h t (C.plug X))
    (hXf : ∀ a c k r up, C = .left a c k r up → X ≠ .leaf false)
    (hxp : ∀ s0, X = .leaf s0 → xp = C.par) (hb : X.Balanced) (hr : X.NoRedRed)
    (hC : C.RB (X.bh + if yoc = RBTREE_BLACK then 1 else 0) yoc)
    (hred : yoc = RBTREE_RED → X.rootColor = RBTREE_BLACK)
    (htop : C = .top → yoc = RBTREE_BLACK)
    (fuel : Nat) (hf : C.depth + 2 ≤ fuel) :
    ∃ h' t' T', (if yoc = RBTREE_BLACK then erase_fixedup fuel h t (X.xptr t.nil) xp
        else pure (h, t)) = .ok (h', t') ∧
      t'.nil = t.nil ∧ Shape h' t' T' ∧ RBInv T' ∧ T'.entries = (C.plug X).entries ∧
      (∀ a, a ∉ (C.plug X).addrs → h' a = h a) ∧
      (∀ a k, (a, RBTREE_BLACK, k) ∈ C.spine ∨ (a, RBTREE_BLACK, k) ∈ X.nodes →
        (a, RBTREE_BLACK, k) ∈ T'.nodes) ∧
      (yoc = RBTREE_RED → T' = C.plug X) := by
  rcases color_cases yoc with rfl | rfl
  · have hx := hred rfl
    simp only [reduceCtorEq, if_false, Nat.add_zero] at hC ⊢
    refine ⟨h, t, _, rfl, rfl, s, plug_rbinv C X hb hr (by rw [hx]; exact RB_weaken _ _ _ hC) ?_,
      rfl, fun _ _ => rfl, fun a k ht => track_plug C X ht, fun _ => rfl⟩
    intro e
    exact absurd (htop e) (by simp)
  · simp only [if_true] at hC ⊢
    obtain ⟨h', t', T', e, n, s', i, en, f, tr⟩ :=
      erase_fixedup_track C.depth C h t X xp le_rfl s hXf hxp hb (blacken_noRedRed hr) hC
        fuel hf
    exact ⟨h', t', T', e, n, s', i, en, f, tr, fun e => by cases e⟩

/-- As `erase_two_near`, with the colour of the successor followed to the end. -/
theorem erase_two_near_track {h : Heap} {t : rbtree} (C : Ctx) {p l0 y : Nat} {cp cl cy : color_t}
    {kp kl ky : key_t} {Ll Lr Ry : Tree} {s : Bool}
    (sh : Shape h t (C.plug (.node p cp kp (.node l0 cl kl Ll Lr) (.node y cy ky (.leaf s) Ry))))
    (hI : RBInv (C.plug (.node p cp kp (.node l0 cl kl Ll Lr) (.node y cy ky (.leaf s) Ry))))
    (fuel : Nat)
    (hf : (C.plug (.node p cp kp (.node l0 cl kl Ll Lr) (.node y cy ky (.leaf s) Ry))).height + 2
      ≤ fuel) :
    ∃ h' t' T', rbtree_erase fuel h (some t) (some p) = .ok (h', some t', 0) ∧ t'.nil = t.nil ∧
      Shape h' t' T' ∧ RBInv T' ∧
      T'.entries = C.before ++ (Tree.node l0 cl kl Ll Lr).entries ++
        (Tree.node y cy ky (.leaf s) Ry).entries ++ C.after ∧ h' p = none ∧
      (∀ a, a ∉ (C.plug (.node p cp kp (.node l0 cl kl Ll Lr)
        (.node y cy ky (.leaf s) Ry))).addrs → h' a = h a) ∧
      (cy = RBTREE_RED → T' = C.plug (.node y cp ky (.node l0 cl kl Ll Lr) Ry)) ∧
      (cp = RBTREE_BLACK → (y, RBTREE_BLACK, ky) ∈ T'.nodes) := by
  have z := (Shape_plug_iff _ _ _ _).1 sh
  have hp := Shape.cell C sh
  have npn := Shape.ne_nil C sh
  have nl0 := Shape.ne_nil (.left p cp kp _ C) sh
  have hy := Shape.cell (.right p cp kp _ C) sh
  have ny := Shape.ne_nil (.right p cp kp _ C) sh
  have hd := depth_le_height C (.node p cp kp (.node l0 cl kl Ll Lr) (.node y cy ky (.leaf s) Ry))
  have hent : (C.plug (.node p cp kp (.node l0 cl kl Ll Lr) (.node y cy ky (.leaf s) Ry))).entries
      = (C.before ++ (Tree.node l0 cl kl Ll Lr).entries) ++
        (p, kp) :: ((Tree.node y cy ky (.leaf s) Ry).entries ++ C.after) := by
    simp [entries_plug, Tree.entries]
  have hent1 : (C.plug (.node y cp ky (.node l0 cl kl Ll Lr) Ry)).entries
      = (C.before ++ (Tree.node l0 cl kl Ll Lr).entries) ++
        ((Tree.node y cy ky (.leaf s) Ry).entries ++ C.after) := by
    simp [entries_plug, Tree.entries]
  obtain ⟨hnd1, hp1⟩ := nodup_erase sh.nodup hent hent1
  have hsub := mem_of_erase_entries hent hent1
  have hfm : find_min fuel h t (some y) = .ok (some y) := by
    have := find_min_spec h t (.leaf s) y cy ky Ry (some p) fuel z.rep.2.2
      (fun b hb => sh.nil_fresh b (mem_addrs_plug.2 (Or.inr (by
        simp only [Tree.addrs, List.mem_append, List.mem_cons] at hb ⊢; tauto))))
      (by simp only [Tree.height] at hd ⊢; omega)
    simpa [Tree.entries] using this
  obtain ⟨h4, t4, h5, h6, h7, e4, n4, g4, e5, g5, e6, g6, e7, s7, hp7, f7⟩ :=
    graft (by simpa using z.root_eq) (by simpa using z.repc) hp z.rep.2.1 z.rep.2.2 hnd1 hp1
      sh.nil_live (fun a ha => sh.nil_fresh a (hsub a ha)) npn
  obtain ⟨iB, iR, iC, iRB⟩ := erase_two_inv C .top y ky hI
  obtain ⟨h8, t8, T', e8, n8, s8, i8, en8, f8, tr8, rd8⟩ :=
    erase_fix_or_not_track (.right y cp ky (.node l0 cl kl Ll Lr) C) Ry cy (some y) s7
      (by intro a c k r up e; cases e) (fun _ _ => rfl) iB iR iRB iC
      (by intro e; cases e) fuel (by simp only [Tree.height, Ctx.depth] at hd ⊢; omega)
  rw [n4] at e8
  have hp8 : h8 p = _ := ((f8 p hp1).trans hp7).trans hp
  have hT' : T'.addrs = (C.plug (.node y cp ky (.node l0 cl kl Ll Lr) Ry)).addrs :=
    addrs_of_entries en8
  obtain ⟨h9, h10, h11, h12, e9, e10, e11, e12, s12, hp12, f12⟩ :=
    erase_clear s8 hp8 (by rw [hT']; exact hp1) (by rw [n8, n4]; exact npn)
  have trF : cp = RBTREE_BLACK → (y, RBTREE_BLACK, ky) ∈ T'.nodes := by
    intro e
    refine tr8 y ky (Or.inl ?_)
    simp only [Ctx.spine, e, List.mem_cons, true_or]
  refine ⟨h12, t8, T', ?_, n8.trans n4, s12, i8, ?_, hp12, ?_, rd8, trF⟩
  · rcases color_cases cy with rfl | rfl <;>
    simp only [reduceCtorEq, if_true, if_false, Res.pure_eq, Res.ok.injEq, Prod.mk.injEq] at e8 <;>
    simp only [rbtree_erase, reduceCtorEq, npn, nl0, ny, or_self, if_false, getColor_of hp,
      getLeft_of hp, getRight_of hp, getParent_of hp, getColor_of hy, getRight_of hy,
      getParent_of hy, Ctx.par_right, Res.ok_bind, Res.pure_eq, Tree.ptr_node,
      or_true, true_or, if_true, hfm, xptr_eq_ite, e4, n4, g4, e5, g5, e6, g6, e7, e8, e9, e10,
      e11, e12, ne_eq, not_false_eq_true, and_self, n8.trans n4]
  · rw [en8]; simp [Ctx.plug, entries_plug, Tree.entries]
  · intro a ha
    have hap : a ≠ p := by
      intro e
      subst e
      exact ha (mem_addrs_plug.2 (Or.inr (by simp [Tree.addrs])))
    have ha1 : a ∉ (C.plug (.node y cp ky (.node l0 cl kl Ll Lr) Ry)).addrs :=
      fun hm => ha (hsub a hm)
    rw [f12 a hap, f8 a ha1, f7 a ha1]

/-- As `erase_two_far`, with the colour of the successor followed to the end. -/
theorem erase_two_far_track {h : Heap} {t : rbtree} (C D : Ctx) (hD : D ≠ .top) (hDb : D.before = [])
    {p l0 y : Nat} {cp cl cy : color_t} {kp kl ky : key_t} {Ll Lr Ry : Tree} {s : Bool}
    (sh : Shape h t (C.plug (.node p cp kp (.node l0 cl kl Ll Lr)
      (D.plug (.node y cy ky (.leaf s) Ry)))))
    (hI : RBInv (C.plug (.node p cp kp (.node l0 cl kl Ll Lr)
      (D.plug (.node y cy ky (.leaf s) Ry)))))
    (fuel : Nat)
    (hf : (C.plug (.node p cp kp (.node l0 cl kl Ll Lr)
      (D.plug (.node y cy ky (.leaf s) Ry)))).height + 2 ≤ fuel) :
    ∃ h' t' T', rbtree_erase fuel h (some t) (some p) = .ok (h', some t', 0) ∧ t'.nil = t.nil ∧
      Shape h' t' T' ∧ RBInv T' ∧
      T'.entries = C.before ++ (Tree.node l0 cl kl Ll Lr).entries ++
        (D.plug (.node y cy ky (.leaf s) Ry)).entries ++ C.after ∧ h' p = none ∧
      (∀ a, a ∉ (C.plug (.node p cp kp (.node l0 cl kl Ll Lr)
        (D.plug (.node y cy ky (.leaf s) Ry)))).addrs → h' a = h a) ∧
      (cy = RBTREE_RED →
        T' = C.plug (.node y cp ky (.node l0 cl kl Ll Lr) (D.plug (Ry.hang false)))) ∧
      (cp = RBTREE_BLACK → (y, RBTREE_BLACK, ky) ∈ T'.nodes) := by
  have z := (Shape_plug_iff _ _ _ _).1 sh
  have hp := Shape.cell C sh
  have npn := Shape.ne_nil C sh
  have nl0 := Shape.ne_nil (.left p cp kp _ C) sh
  have hd := depth_le_height C
    (.node p cp kp (.node l0 cl kl Ll Lr) (D.plug (.node y cy ky (.leaf s) Ry)))
  -- the tree seen from the successor
  have e0 : C.plug (.node p cp kp (.node l0 cl kl Ll Lr) (D.plug (.node y cy ky (.leaf s) Ry)))
      = (D.comp (.right p cp kp (.node l0 cl kl Ll Lr) C)).plug (.node y cy ky (.leaf s) Ry) := by
    rw [plug_comp]; rfl
  have sh' := sh
  rw [e0] at sh'
  have hI' := hI
  rw [e0] at hI'
  have hd' := depth_le_height (D.comp (.right p cp kp (.node l0 cl kl Ll Lr) C))
    (.node y cy ky (.leaf s) Ry)
  rw [← e0, comp_depth] at hd'
  have z' := (Shape_plug_iff _ _ _ _).1 sh'
  have hy := Shape.cell _ sh'
  have ny := Shape.ne_nil _ sh'
  obtain ⟨q, hq, hqD⟩ := par_mem D hD
  rw [comp_par _ _ hD, hq] at hy
  -- the right subtree, before and after the successor leaves it
  obtain ⟨r0, cr, kr, Rl, Rr, hR⟩ := plug_ne_top_node D hD (.node y cy ky (.leaf s) Ry)
  obtain ⟨r1, cr1, kr1, Rl1, Rr1, hR1⟩ := plug_ne_top_node D hD (Ry.hang false)
  have hRe : (D.plug (.node y cy ky (.leaf s) Ry)).entries = (y, ky) :: (Ry.entries ++ D.after) := by
    simp [entries_plug, hDb, Tree.entries]
  have hR1e : (D.plug (Ry.hang false)).entries = Ry.entries ++ D.after := by
    simp [entries_plug, hDb, hang_entries]
  have hent : (C.plug (.node p cp kp (.node l0 cl kl Ll Lr)
        (D.plug (.node y cy ky (.leaf s) Ry)))).entries
      = (C.before ++ (Tree.node l0 cl kl Ll Lr).entries) ++
        (p, kp) :: ((D.plug (.node y cy ky (.leaf s) Ry)).entries ++ C.after) := by
    simp [entries_plug, Tree.entries]
  have hent1 : (C.plug (.node y cp ky (.node l0 cl kl Ll Lr) (D.plug (Ry.hang false)))).entries
      = (C.before ++ (Tree.node l0 cl kl Ll Lr).entries) ++
        ((D.plug (.node y cy ky (.leaf s) Ry)).entries ++ C.after) := by
    rw [hRe]
    simp [entries_plug, Tree.entries, hR1e]
  obtain ⟨hnd1, hp1⟩ := nodup_erase sh.nodup hent hent1
  have hsub := mem_of_erase_entries hent hent1
  have hfm : find_min fuel h t (some r0) = .ok (some y) := by
    have hrep := z.rep.2.2
    rw [hR] at hrep
    have := find_min_spec h t Rl r0 cr kr Rr (some p) fuel hrep
      (fun b hb => sh.nil_fresh b (mem_addrs_plug.2 (Or.inr (by
        rw [← hR] at hb
        simp only [Tree.addrs, List.mem_append, List.mem_cons] at hb ⊢; tauto))))
      (by rw [← hR]; simp only [Tree.height] at hd ⊢; omega)
    rw [← hR, hRe] at this
    simpa using this
  -- the successor leaves its place
  obtain ⟨h1, t1, e1, n1, z1, f1⟩ := transplant_spec_right z'
  rw [comp_isTop _ _ (by simp)] at z1
  have s1 := (Shape_plug_iff _ _ _ _).2 z1
  rw [plug_comp] at s1
  have s1' : Shape h1 t1 (C.plug (.node p cp kp (.node l0 cl kl Ll Lr) (D.plug (Ry.hang false)))) :=
    s1
  rw [hR1] at s1' hnd1 hp1 hsub
  have z1' := (Shape_plug_iff _ _ _ _).1 s1'
  have hp1' := Shape.cell C s1'
  have hr1 := Shape.cell (.right p cp kp _ C) s1'
  have nr1 := Shape.ne_nil (.right p cp kp _ C) s1'
  have hy1 : h1 y = h y := f1 y (by
    have := z'.nodup
    simp only [Tree.addrs, List.nil_append, List.nodup_append, List.nodup_cons,
      List.disjoint_cons_right] at this
    simp only [List.mem_append, not_or]
    tauto)
  have hnd1' := (addrs_plug_perm C _).nodup_iff.1 hnd1
  simp only [Tree.addrs, List.nodup_append, List.nodup_cons, List.mem_append, List.mem_cons,
    List.disjoint_cons_left, List.disjoint_cons_right, List.disjoint_append_left,
    List.disjoint_append_right, not_or] at hnd1'
  have hp1'' := hp1
  rw [mem_addrs_plug] at hp1''
  simp only [Tree.addrs, List.mem_append, List.mem_cons, not_or] at hp1''
  have hyr : y ≠ r1 := by tauto
  have hyp : y ≠ p := by tauto
  have hrp : r1 ≠ p := by tauto
  have e2 := setRight_of (hy1.trans hy) (some r1)
  have hr2 := (upd_ne1 (v := some { (⟨cy, ky, some q, (Tree.leaf s).ptr t.nil,
      Ry.ptr t.nil⟩ : node_t) with right := some r1 }) (h := h1) hyr).trans hr1
  have e3 := setParent_of hr2 (some y)
  have g2 : getRight (Function.update h1 y (some { (⟨cy, ky, some q, (Tree.leaf s).ptr t.nil,
      Ry.ptr t.nil⟩ : node_t) with right := some r1 })) (some y) = .ok (some r1) :=
    getRight_of (Function.update_same _ _ _)
  obtain ⟨h4, t4, h5, h6, h7, e4, n4, g4, e5, g5, e6, g6, e7, s7, hp7, f7⟩ :=
    graft (V := .node r1 cr1 kr1 Rl1 Rr1) (s := s) (v := some q) (c := cy)
      (h := Function.update (Function.update h1 y (some { (⟨cy, ky, some q,
        (Tree.leaf s).ptr t.nil, Ry.ptr t.nil⟩ : node_t) with right := some r1 })) r1
        (some { (⟨cr1, kr1, some p, Rl1.ptr t1.nil, Rr1.ptr t1.nil⟩ : node_t) with
          parent := some y }))
      (by simpa using z1'.root_eq)
      (by
        have := z1'.repc
        simp only [Tree.ptr_node] at this
        simp only [RepCtx_update, hnd1', not_false_eq_true, this])
      ((upd_ne1 hrp).trans ((upd_ne1 hyp).trans hp1'))
      (by
        have := z1'.rep.2.1
        simp only [Rep_update, hnd1', Tree.addrs, List.mem_append, List.mem_cons, not_or,
          not_false_eq_true, and_self, this])
      ⟨by rw [upd_ne2 hyr, Function.update_same, n1]; rfl, trivial, by
        have := z1'.rep.2.2
        have h2r : Rep (Function.update h1 y (some { (⟨cy, ky, some q, (Tree.leaf s).ptr t.nil,
            Ry.ptr t.nil⟩ : node_t) with right := some r1 })) t1.nil
            (.node r1 cr1 kr1 Rl1 Rr1) (some p) :=
          (Rep_update (by
            simp only [Tree.addrs, List.mem_append, List.mem_cons, not_or]; tauto)).2 this
        exact Rep_reparent (some y) h2r (by tauto) (by tauto)⟩
      hnd1 hp1
      (by
        obtain ⟨n, c, hn, hc⟩ := s1'.nil_live
        have h1n : n ≠ y := fun e => ny (by rw [← n1, hn, e])
        have h2n : n ≠ r1 := fun e => nr1 (by rw [hn, e])
        exact ⟨n, c, hn, by rw [upd_ne2 h2n, upd_ne2 h1n]; exact hc⟩)
      (fun a ha => by rw [n1]; exact sh.nil_fresh a (hsub a ha)) (by rw [n1]; exact npn)
  rw [← hR1] at s7 f7 hp1 hsub
  have e7' : C.plug (.node y cp ky (.node l0 cl kl Ll Lr) (D.plug (Ry.hang false)))
      = (D.comp (.right y cp ky (.node l0 cl kl Ll Lr) C)).plug (Ry.hang false) := by
    rw [plug_comp]; rfl
  rw [e7'] at s7 f7 hp1 hsub
  obtain ⟨iB, iR, iC, iRB⟩ := erase_two_inv C D y ky hI'
  obtain ⟨h8, t8, T', e8, n8, s8, i8, en8, f8, tr8, rd8⟩ :=
    erase_fix_or_not_track (D.comp (.right y cp ky (.node l0 cl kl Ll Lr) C)) (Ry.hang false) cy
      (some q) s7 (fun _ _ _ _ _ _ => hang_ne_false Ry)
      (fun _ _ => by rw [comp_par _ _ hD, hq]) (hang_balanced _ iB) (hang_noRedRed _ iR)
      (by rw [hang_bh]; exact iRB) (by rw [hang_rootColor]; exact iC)
      (fun e => absurd e (comp_ne_top _ _ (by simp))) fuel
      (by
        rw [comp_depth]
        simp only [Tree.height, Ctx.depth] at hd' ⊢
        omega)
  rw [hang_xptr, n4, n1] at e8
  have hp8 : h8 p = _ := ((f8 p hp1).trans hp7).trans
    ((upd_ne1 hrp).trans ((upd_ne1 hyp).trans hp1'))
  obtain ⟨h9, h10, h11, h12, e9, e10, e11, e12, s12, hp12, f12⟩ :=
    erase_clear s8 hp8 (by rw [addrs_of_entries en8]; exact hp1)
      (by rw [n8, n4, n1]; exact npn)
  have hqp : q ≠ p := by
    intro e
    subst e
    exact hp1 (mem_addrs_plug.2 (Or.inl (mem_comp_addrs _ _ _ hqD)))
  have nr0 : (some r0 : Ptr) ≠ t.nil := sh.nil_fresh r0 (mem_addrs_plug.2 (Or.inr (by
    rw [hR]; simp [Tree.addrs])))
  rw [hR] at hp
  have nl0' : (some l0 : Ptr) ≠ t1.nil := by rw [n1]; exact nl0
  have rdF : cy = RBTREE_RED →
      T' = C.plug (.node y cp ky (.node l0 cl kl Ll Lr) (D.plug (Ry.hang false))) :=
    fun e => (rd8 e).trans e7'.symm
  have trF : cp = RBTREE_BLACK → (y, RBTREE_BLACK, ky) ∈ T'.nodes := by
    intro e
    refine tr8 y ky (Or.inl ?_)
    simp only [spine_comp, Ctx.spine, e, List.mem_append, List.mem_cons, true_or, or_true]
  refine ⟨h12, t8, T', ?_, (n8.trans n4).trans n1, s12, i8, ?_, hp12, ?_, rdF, trF⟩
  · rcases color_cases cy with rfl | rfl <;>
    simp only [reduceCtorEq, if_true, if_false, Res.pure_eq, Res.ok.injEq, Prod.mk.injEq] at e8 <;>
    simp only [rbtree_erase, reduceCtorEq, npn, nl0, nr0, or_self, if_false, getColor_of hp,
      getLeft_of hp, getRight_of hp, getParent_of hp, getColor_of hy, getRight_of hy,
      getParent_of hy, Option.some.injEq, hqp, Res.ok_bind, Res.pure_eq, Tree.ptr_node,
      or_true, true_or, if_true, hfm, xptr_eq_ite, e1, getRight_of hp1', e2, g2, e3,
      e4, n4, g4, e5, g5, e6, g6, e7, e8, e9, e10,
      e11, e12, ne_eq, not_false_eq_true, and_self, n8.trans n4, nl0']
  · rw [en8, ← e7', hent1]; simp
  · intro a ha
    have hap : a ≠ p := by
      intro e
      subst e
      exact ha (mem_addrs_plug.2 (Or.inr (by simp [Tree.addrs])))
    have ha1 : a ∉ ((D.comp (.right y cp ky (.node l0 cl kl Ll Lr) C)).plug (Ry.hang false)).addrs :=
      fun hm => ha (hsub a hm)
    have hay : a ≠ y := by
      intro e
      subst e
      exact ha (by rw [e0]; exact mem_addrs_plug.2 (Or.inr (by simp [Tree.addrs])))
    have har : a ≠ r1 := by
      intro e
      subst e
      exact ha1 (by rw [← e7', hR1]; exact mem_addrs_plug.2 (Or.inr (by simp [Tree.addrs])))
    rw [f12 a hap, f8 a ha1, f7 a ha1, upd_ne2 har, upd_ne2 hay]
    exact f1 a (by
      clear rdF trF tr8 rd8
      rw [e0, mem_addrs_plug] at ha
      simp only [Tree.addrs, List.mem_append, List.mem_cons, not_or] at ha ⊢
      tauto)

/-! ## Removal of a node with two children: the colour of the successor -/

theorem cx_shape : Shape cxHeap exT cxTree :=
  ⟨rfl, by decide, by simp [Rep, cxHeap, cxTree, exT], by decide, ⟨0, _, rfl, rfl⟩, by decide⟩

theorem cx_rb : RBInv cxTree := by
  refine ⟨rfl, ?_, ?_⟩ <;> simp [cxTree]

/-- Removal of a node with two real children, with the successor followed: the successor `y` is
the first node of the right subtree; when it was RED it ends in the place of `p` with the colour
of `p`, and when `p` was BLACK it ends BLACK. -/
theorem erase_two_track {h : Heap} {t : rbtree} (C : Ctx) {p l0 r0 : Nat} {cp cl cr : color_t}
    {kp kl kr : key_t} {Ll Lr Rl Rr : Tree}
    (sh : Shape h t (C.plug (.node p cp kp (.node l0 cl kl Ll Lr) (.node r0 cr kr Rl Rr))))
    (hI : RBInv (C.plug (.node p cp kp (.node l0 cl kl Ll Lr) (.node r0 cr kr Rl Rr))))
    (fuel : Nat)
    (hf : (C.plug (.node p cp kp (.node l0 cl kl Ll Lr) (.node r0 cr kr Rl Rr))).height + 2
      ≤ fuel) :
    ∃ h' t' T' y cy ky rest, (Tree.node r0 cr kr Rl Rr).entries = (y, ky) :: rest ∧
      getColor h (some y) = .ok cy ∧
      rbtree_erase fuel h (some t) (some p) = .ok (h', some t', 0) ∧ Shape h' t' T' ∧ RBInv T' ∧
      T'.entries = C.before ++ (Tree.node l0 cl kl Ll Lr).entries ++ (y, ky) :: rest ++ C.after ∧
      (cy = RBTREE_RED →
        ∃ R', T' = C.plug (.node y cp ky (.node l0 cl kl Ll Lr) R') ∧ R'.entries = rest) ∧
      (cp = RBTREE_BLACK → (y, RBTREE_BLACK, ky) ∈ T'.nodes) := by
  obtain ⟨D, y, cy, ky, s, Ry, e, hDb, -, -⟩ := min_decomp _ r0 cr kr Rl Rr rfl
  rw [e] at sh hI hf ⊢
  have hRe : (D.plug (.node y cy ky (.leaf s) Ry)).entries = (y, ky) :: (Ry.entries ++ D.after) := by
    simp [entries_plug, hDb, Tree.entries]
  have hcy : getColor h (some y) = .ok cy := by
    have e0 : C.plug (.node p cp kp (.node l0 cl kl Ll Lr) (D.plug (.node y cy ky (.leaf s) Ry)))
        = (D.comp (.right p cp kp (.node l0 cl kl Ll Lr) C)).plug (.node y cy ky (.leaf s) Ry) := by
      rw [plug_comp]; rfl
    have sh' := sh
    rw [e0] at sh'
    exact getColor_of (Shape.cell _ sh')
  by_cases hD : D = .top
  · subst hD
    obtain ⟨h', t', T', e1, -, s1, i1, en1, -, -, rd, tr⟩ := erase_two_near_track C sh hI fuel hf
    refine ⟨h', t', T', y, cy, ky, _, hRe, hcy, e1, s1, i1, ?_, ?_, tr⟩
    · rw [en1]; simp [Ctx.plug, Ctx.after, Tree.entries]
    · intro hc
      exact ⟨Ry, rd hc, by simp [Ctx.after]⟩
  · obtain ⟨h', t', T', e1, -, s1, i1, en1, -, -, rd, tr⟩ :=
      erase_two_far_track C D hD hDb sh hI fuel hf
    refine ⟨h', t', T', y, cy, ky, _, hRe, hcy, e1, s1, i1, ?_, ?_, tr⟩
    · rw [en1, hRe]
    · intro hc
      exact ⟨D.plug (Ry.hang false), rd hc, by simp [entries_plug, hDb, hang_entries]⟩

/-- C13, as stated, fails: in the second example tree (a red-black tree) the RED node at address
2 (key 20) has the two real children at addresses 4 and 5; the minimum of its right subtree is
the BLACK node at address 5 (key 30, no left child).  After `rbtree_erase` of the node at
address 2, which returns 0, the node at address 5 is in its place (parent the root at address 1,
left child the node at address 4) and is BLACK, not RED. -/
theorem erase_two_children_repaints :
    Shape cxHeap exT cxTree ∧ RBInv cxTree ∧
      getColor cxHeap (some 2) = .ok RBTREE_RED ∧
      getLeft cxHeap (some 2) = .ok (some 4) ∧ getRight cxHeap (some 2) = .ok (some 5) ∧
      getLeft cxHeap (some 5) = .ok none ∧ getColor cxHeap (some 5) = .ok RBTREE_BLACK ∧
      erase_then_look 5 cxHeap (some exT) (some 2) (some 5)
        = .ok (0, RBTREE_BLACK, some 1, some 4) :=
  ⟨cx_shape, cx_rb, rfl, rfl, rfl, rfl, rfl, by decide⟩

/-- C13, amended: colour inheritance on two-child erase.  In a red-black tree let `p` be a node
with two real children and `y` the minimum (first in-order node) of its right subtree, `cp` and
`cy` their colours.  `rbtree_erase` of `p` succeeds and leaves a red-black tree (no RED node
above a RED child, the same number of BLACK nodes on every path) in which `y` still holds its
key.  If `y` was RED or `p` was BLACK, then `y` has the colour `p` had; if `y` was RED, `y` is
moreover in the place of `p`, with the parent of `p` and the left child of `p`.  (If `p` was RED
and `y` BLACK, the fixup that follows the copy of the colour may leave `y` BLACK.) -/
theorem erase_two_children_colour (h : Heap) (t : rbtree) (C : Ctx) (p l0 r0 : Nat)
    (cp cl cr : color_t) (kp kl kr : key_t) (Ll Lr Rl Rr : Tree) (fuel : Nat)
    (sh : Shape h t (C.plug (.node p cp kp (.node l0 cl kl Ll Lr) (.node r0 cr kr Rl Rr))))
    (hI : RBInv (C.plug (.node p cp kp (.node l0 cl kl Ll Lr) (.node r0 cr kr Rl Rr))))
    (hf : (C.plug (.node p cp kp (.node l0 cl kl Ll Lr) (.node r0 cr kr Rl Rr))).height + 2
      ≤ fuel) :
    ∃ h' t' T' y cy ky rest, (Tree.node r0 cr kr Rl Rr).entries = (y, ky) :: rest ∧
      getColor h (some p) = .ok cp ∧ getColor h (some y) = .ok cy ∧
      rbtree_erase fuel h (some t) (some p) = .ok (h', some t', 0) ∧ Shape h' t' T' ∧ RBInv T' ∧
      getKey h' (some y) = .ok ky ∧
      (cy = RBTREE_RED ∨ cp = RBTREE_BLACK → getColor h' (some y) = .ok cp) ∧
      (cy = RBTREE_RED → getParent h' (some y) = .ok C.par ∧
        getLeft h' (some y) = .ok (some l0) ∧
        ∃ R', T' = C.plug (.node y cp ky (.node l0 cl kl Ll Lr) R') ∧ R'.entries = rest) := by
  obtain ⟨h', t', T', y, cy, ky, rest, e0, hcy, e1, s1, i1, en1, rd, tr⟩ :=
    erase_two_track C sh hI fuel hf
  have hcp := getColor_of (Shape.cell C sh)
  have hky : getKey h' (some y) = .ok ky := s1.entry_key (by rw [en1]; simp)
  refine ⟨h', t', T', y, cy, ky, rest, e0, hcp, hcy, e1, s1, i1, hky, ?_, ?_⟩
  · rintro (hc | hc)
    · obtain ⟨R', eT, -⟩ := rd hc
      subst eT
      exact getColor_of (Shape.cell C s1)
    · rw [hc]
      exact (s1.node_cell (tr hc)).1
  · intro hc
    obtain ⟨R', eT, eR⟩ := rd hc
    subst eT
    have hcell := Shape.cell C s1
    exact ⟨getParent_of hcell, getLeft_of hcell, R', rfl, eR⟩

/-- Witness for C13 (amended): erasing the root of the three-node example tree, whose children
are the RED nodes at addresses 2 and 3. -/
theorem erase_two_children_colour_witness :
    ∃ h' t' T' y cy ky rest,
      (Tree.node 3 RBTREE_RED 30 (.leaf false) (.leaf true)).entries = (y, ky) :: rest ∧
      getColor exHeap (some 1) = .ok RBTREE_BLACK ∧ getColor exHeap (some y) = .ok cy ∧
      rbtree_erase 4 exHeap (some exT) (some 1) = .ok (h', some t', 0) ∧ Shape h' t' T' ∧
      RBInv T' ∧ getKey h' (some y) = .ok ky ∧
      (cy = RBTREE_RED ∨ RBTREE_BLACK = RBTREE_BLACK → getColor h' (some y) = .ok RBTREE_BLACK) ∧
      (cy = RBTREE_RED → getParent h' (some y) = .ok Ctx.top.par ∧
        getLeft h' (some y) = .ok (some 2) ∧
        ∃ R', T' = Ctx.top.plug (.node y RBTREE_BLACK ky
          (.node 2 RBTREE_RED 10 (.leaf false) (.leaf false)) R') ∧ R'.entries = rest) :=
  erase_two_children_colour exHeap exT .top 1 2 3 RBTREE_BLACK RBTREE_RED RBTREE_RED 20 10 30
    (.leaf false) (.leaf false) (.leaf false) (.leaf true) 4 ex_shape ex_rb (by decide)

/-! ## A reachable state with six nodes -/

theorem insert_all_reachable : ∀ (kzs : List (key_t × Nat)) (h : Heap) (t : rbtree) (T : Tree)
    (fuel : Nat), Reachable h t → Shape h t T → RBInv T → T.keys.Sorted (· ≤ ·) →
    (kzs.map Prod.snd).Nodup → (∀ z ∈ kzs.map Prod.snd, h z = none) →
    T.size + kzs.length + 2 ≤ fuel →
    ∃ h' t' T', insert_all fuel h t kzs = .ok (h', t') ∧ Reachable h' t' ∧ Shape h' t' T' ∧
      RBInv T' ∧ T'.keys.Sorted (· ≤ ·) ∧ T'.keys.Perm (T.keys ++ kzs.map Prod.fst) ∧
      T'.size = T.size + kzs.length := by
  intro kzs
  induction kzs with
  | nil =>
    intro h t T fuel hR s hI hs _ _ _
    exact ⟨h, t, T, rfl, hR, s, hI, hs, by simp, by simp⟩
  | cons kz rest ih =>
    obtain ⟨k, z⟩ := kz
    intro h t T fuel hR s hI hs hnd hfr hf
    simp only [List.map_cons, List.nodup_cons, List.mem_cons, forall_eq_or_imp,
      List.length_cons] at hnd hfr hf
    have hh := height_le_size T
    obtain ⟨h1, t1, T1, e, s1, i1, hs1, hp1⟩ :=
      insert_sorted_perm k s hI hs hfr.1 fuel (by omega)
    obtain ⟨h1', t1', T1', pre, post, e0, -, -, -, -, -, -, f1⟩ :=
      rbtree_insert_spec k s hI hfr.1 fuel (by omega)
    rw [e] at e0
    simp only [Res.ok.injEq, Prod.mk.injEq, Option.some.injEq, and_true] at e0
    obtain ⟨rfl, -⟩ := e0
    have hR1 : Reachable h1 t1 :=
      Reachable.insert h t T k z fuel h1 t1 (some z) hR s (by omega) hfr.1 e
    have hsz : T1.size = T.size + 1 := by
      rw [← Tree.keys_length, ← Tree.keys_length, hp1.length_eq]
      simp
    obtain ⟨h', t', T', e', hR', s', i', hs', hp', hz'⟩ := ih h1 t1 T1 fuel hR1 s1 i1 hs1 hnd.2
      (by
        intro z' hz'
        have hne : z' ≠ z := fun e => hnd.1 (e ▸ hz')
        rw [f1 z' hne (s.fresh (hfr.2 z' hz')).1]
        exact hfr.2 z' hz')
      (by omega)
    refine ⟨h', t', T', ?_, hR', s', i', hs', ?_, by simp only [List.length_cons]; omega⟩
    · simp only [insert_all, e, e']
    · refine hp'.trans ?_
      simp only [List.map_cons]
      exact (List.Perm.append_right _ hp1).trans List.perm_middle.symm

/-- The state of Scenario B after its `rbtree_erase` is reached from `new_rbtree` by seven
insertions and one removal. -/
theorem state_B_reachable : Reachable (state_B 9).1 (state_B 9).2 := by
  obtain ⟨h1, t1, T1, e1, hR1, s1, i1, hs1, hp1, hz1⟩ :=
    insert_all_reachable [(10, 1), (20, 2), (30, 3), (40, 4), (50, 5), (60, 6), (70, 7)]
      initHeap initT (.leaf false) 9 init_reachable init_shape ⟨rfl, trivial, trivial⟩
      (by simp [Tree.keys]) (by decide)
      (by
        intro z hz
        simp only [List.map_cons, List.map_nil, List.mem_cons, List.not_mem_nil, or_false] at hz
        rcases hz with rfl | rfl | rfl | rfl | rfl | rfl | rfl <;> rfl)
      (by simp [Tree.size])
  have hh := height_le_size T1
  simp only [Tree.size, List.length_cons, List.length_nil] at hz1
  have hmem : (20 : key_t) ∈ T1.keys := hp1.mem_iff.2 (by simp [Tree.keys])
  obtain ⟨r, e2, hr, -⟩ : ∃ r, rbtree_find 9 h1 (some t1) 20 = .ok r ∧
      ((20 : key_t) ∈ T1.keys → ∃ a, r = some a ∧ (a, (20 : key_t)) ∈ T1.entries) ∧
      (r = none ↔ (20 : key_t) ∉ T1.keys) := by
    have := find_loop_spec h1 t1 20 T1 none 9 s1.rep s1.nil_fresh hs1 (by omega)
    rw [← s1.root_eq] at this
    exact this
  obtain ⟨p, rfl, hp⟩ := hr hmem
  have hpa : p ∈ T1.addrs := by
    rw [← Tree.entries_fst]
    exact List.mem_map.2 ⟨(p, 20), hp, rfl⟩
  obtain ⟨h2, t2, T2, _, _, _, e3, _, _, _, _⟩ := erase_of_mem s1 i1 hpa 9 (by omega)
  have hR2 : Reachable h2 t2 :=
    Reachable.erase h1 t1 T1 p 9 h2 t2 0 hR1 s1 (by omega) hpa e3
  have hst : state_B 9 = (h2, t2) := by
    simp only [state_B, new_rbtree_init, e1, e2, e3]
  rw [hst]
  exact hR2

/-- Witness for C9: the state of Scenario B, reached by seven insertions (10, 20, ..., 70) and
the removal of the node holding 20; its tree has the six nodes that the export lists. -/
theorem reachable_height_bound_witness :
    (∃ T, Shape (state_B 9).1 (state_B 9).2 T ∧
      (∀ T', Shape (state_B 9).1 (state_B 9).2 T' → T' = T) ∧ RBInv T ∧
      2 ^ ((T.height + 1) / 2) ≤ T.size + 1 ∧ T.height ≤ 2 * Nat.log 2 (T.size + 1)) ∧
    rbtree_to_array 9 (state_B 9).1 (some (state_B 9).2) (some (List.replicate 7 0)) 7
      = .ok (some [10, 30, 40, 50, 60, 70, 0], 6) :=
  ⟨reachable_height_bound (state_B 9).1 (state_B 9).2 state_B_reachable, by decide⟩

/-- Witness for C17: the state of Scenario B, reached by seven insertions (with their
recolourings and rotations) and the removal of the root (key 20), whose BLACK successor (key
30) leaves its place, so that `erase_fixedup` runs and rotates; afterwards the root is the node
at address 3 holding 30, with the nodes at addresses 1 and 6 as children, and the sentinel at
address 0 is as `new_rbtree` made it. -/
theorem sentinel_unchanged_witness :
    (∃ n, (state_B 9).2.nil = some n ∧
      (state_B 9).1 n = some ⟨RBTREE_BLACK, 0, some n, some n, some n⟩ ∧
      getColor (state_B 9).1 (state_B 9).2.nil = .ok RBTREE_BLACK ∧
      getLeft (state_B 9).1 (state_B 9).2.nil = .ok (state_B 9).2.nil ∧
      getRight (state_B 9).1 (state_B 9).2.nil = .ok (state_B 9).2.nil ∧
      getParent (state_B 9).1 (state_B 9).2.nil = .ok (state_B 9).2.nil ∧
      ∀ T, Shape (state_B 9).1 (state_B 9).2 T → n ∉ T.addrs) ∧
    (state_B 9).2.root = some 3 ∧ (state_B 9).2.nil = some 0 ∧
    getKey (state_B 9).1 (some 3) = .ok 30 ∧ getColor (state_B 9).1 (some 3) = .ok RBTREE_BLACK ∧
    getLeft (state_B 9).1 (some 3) = .ok (some 1) ∧
    getRight (state_B 9).1 (some 3) = .ok (some 6) :=
  ⟨sentinel_unchanged (state_B 9).1 (state_B 9).2 state_B_reachable, by decide, by decide,
    by decide, by decide, by decide, by decide⟩

end Rb
